import Mathlib

/-!
# The Jedi task system (`TFE_Jedi/Task/task.cpp`)

A shallow embedding of the cooperative task scheduler: the task records with
their two chains, the per-task execution context (a virtual call stack of
`TASK_MAX_LEVELS` levels) and the scheduler globals are an explicit state
`Sched`; every function of `task.cpp` is a function on that state.

Conventions of the embedding:

* a `Task*` is a `TaskPtr`: `none` is `nullptr`, `some TaskRef.root` is
  `&s_rootTask`, `some (TaskRef.slot i)` is the address of slot `i` of the
  arena `s_tasks`;
* `s_curContext` always points at the context embedded in some task, so it is
  stored as the `TaskPtr` of that task;
* a `TaskFunc` is the identifier of a function; the functions themselves are
  given by a table `prog : Nat → Int → Sched → Run Sched`;
* `assert` is fatal, as is a null dereference and an array access outside
  `0 .. TASK_MAX_LEVELS - 1`; these end a run with a `Fault`;
* loops that need not terminate (`while (1)` in `selectNextTask`, the frame
  loop of `task_run`) take a step budget and end with `Fault.outOfFuel` when it
  is used up;
* `u32` arithmetic is taken modulo `2 ^ 32`; `s32` values are integers (the
  levels are kept in range by the assertions, the counters are not wrapped);
* the bytes of the scratch blocks are not part of the state, only their
  bookkeeping (`stackMem`, `stackOffset`, `stackPtr`, `stackSize`); clearing
  bytes of a block is kept as the check that the bytes lie inside the block,
  and clearing past the end of the block is a fault.
-/

namespace TFE_Jedi

/-! ## Outcomes -/

/-- Ways in which an operation fails to return normally. -/
inductive Fault where
  | assertFailed
  | nullDeref
  | badAccess
  | outOfFuel
  deriving DecidableEq, Repr

/-- The result of running an operation: a value, or a fault. -/
abbrev Run (α : Type) := Except Fault α

instance instDecidableEqRun {α : Type} [DecidableEq α] : DecidableEq (Run α) :=
  fun a b =>
    match a, b with
    | .ok x, .ok y => if h : x = y then isTrue (by rw [h]) else isFalse (fun e => h (by cases e; rfl))
    | .error x, .error y => if h : x = y then isTrue (by rw [h]) else isFalse (fun e => h (by cases e; rfl))
    | .ok _, .error _ => isFalse (fun e => by cases e)
    | .error _, .ok _ => isFalse (fun e => by cases e)

/-- The source's `assert(c)`. -/
def check (c : Prop) [Decidable c] : Run Unit :=
  if c then .ok () else .error .assertFailed

/-! ## Constants -/

/-- Maximum number of recursion levels (`TaskConstants`). -/
def TASK_MAX_LEVELS : Nat := 16

/-- Level of a context that has not been entered (`TaskConstants`). -/
def TASK_INIT_LEVEL : Int := -1

/-- Size in bytes of a task's scratch block. -/
def TASK_STACK_SIZE : Nat := 64 * 1024

/-- Modelled from the spec: `TASK_SLEEP` is declared in `TFE_DarkForces/time.h`,
which is absent; it is the reserved "sleep indefinitely" value of the `u32`
type `Tick`, taken here as the largest `Tick`. -/
def TASK_SLEEP : Nat := 2 ^ 32 - 1

/-- Wrap-around of `u32` arithmetic. -/
def u32 (n : Int) : Nat := (n % 2 ^ 32).toNat

/-! ## Arrays of `TASK_MAX_LEVELS` cells -/

/-- A C array with one cell per recursion level. -/
structure LevelArray (α : Type) where
  cells : List α
  size_eq : cells.length = 16
  deriving DecidableEq, Repr

namespace LevelArray

variable {α : Type}

/-- All cells equal to `a`. -/
def fill (a : α) : LevelArray α := ⟨List.replicate 16 a, by simp⟩

/-- The cell at index `i`. -/
def get [Inhabited α] (xs : LevelArray α) (i : Nat) : α := xs.cells.getD i default

/-- The array with cell `i` replaced by `v`. -/
def set (xs : LevelArray α) (i : Nat) (v : α) : LevelArray α :=
  ⟨xs.cells.set i v, by simp [xs.size_eq]⟩

/-- Reading `xs[i]` for a signed index; outside the array it is a fault. -/
def read [Inhabited α] (xs : LevelArray α) (i : Int) : Run α :=
  if 0 ≤ i ∧ i < 16 then .ok (xs.get i.toNat) else .error .badAccess

/-- Writing `xs[i] = v` for a signed index; outside the array it is a fault. -/
def write (xs : LevelArray α) (i : Int) (v : α) : Run (LevelArray α) :=
  if 0 ≤ i ∧ i < 16 then .ok (xs.set i.toNat v) else .error .badAccess

end LevelArray

/-! ## Data model -/

/-- A function pointer: the identifier of a task function, `none` for null. -/
abbrev TaskFunc := Option Nat

/-- The address of a task record. -/
inductive TaskRef where
  | root
  | slot (i : Nat)
  deriving DecidableEq, Repr

/-- A `Task*`. -/
abbrev TaskPtr := Option TaskRef

/-- A `u8*` into a scratch block: block and byte offset, `none` for null. -/
abbrev BytePtr := Option (Nat × Nat)

/-- The source's `struct TaskContext`. -/
structure TaskContext where
  ip : LevelArray Int
  callstack : LevelArray TaskFunc
  stackMem : Option Nat
  stackOffset : Nat
  stackPtr : LevelArray BytePtr
  stackSize : LevelArray Nat
  delayedCall : LevelArray Nat
  level : Int
  callLevel : Int
  deriving DecidableEq, Repr

/-- The value of `context = { 0 }`. -/
def TaskContext.zero : TaskContext :=
  { ip := LevelArray.fill 0
    callstack := LevelArray.fill none
    stackMem := none
    stackOffset := 0
    stackPtr := LevelArray.fill none
    stackSize := LevelArray.fill 0
    delayedCall := LevelArray.fill 0
    level := 0
    callLevel := 0 }

/-- The source's `struct Task` (without the debug name). -/
structure Task where
  prevMain : TaskPtr
  nextMain : TaskPtr
  prevSec : TaskPtr
  nextSec : TaskPtr
  retTask : TaskPtr
  userData : Nat
  framebreak : Bool
  context : TaskContext
  localRunFunc : TaskFunc
  nextTick : Nat
  activeIndex : Int
  deriving DecidableEq, Repr

/-- The value of a task record that is all zero bytes. -/
def Task.zero : Task :=
  { prevMain := none
    nextMain := none
    prevSec := none
    nextSec := none
    retTask := none
    userData := 0
    framebreak := false
    context := TaskContext.zero
    localRunFunc := none
    nextTick := 0
    activeIndex := 0 }

instance : Inhabited Task := ⟨Task.zero⟩

/-- Modelled from the spec: the arena allocator (`TFE_Memory/chunkedArray.h`) is
an external collaborator whose code is absent. It is a pool of fixed-size slots
with stable addresses and no compaction: `elemCount` slots have been handed out
from the end so far, `freeSlots` holds the addresses returned to the pool (most
recent first), and the host can back at most `capacity` slots. -/
structure ChunkedArray (ρ : Type) where
  elemCount : Nat
  freeSlots : List ρ
  capacity : Nat
  deriving DecidableEq, Repr

/-- Modelled from the spec: `createChunkedArray`, an empty pool. -/
def createChunkedArray {ρ : Type} (capacity : Nat) : ChunkedArray ρ :=
  { elemCount := 0, freeSlots := [], capacity := capacity }

/-- Modelled from the spec: `allocFromChunkedArray`. A returned slot is reused
first, otherwise the next slot at the end is handed out; `none` (null) when the
pool is exhausted. `addr` gives the address of the slot with a given index. -/
def allocFromChunkedArray {ρ : Type} (addr : Nat → ρ) (arr : ChunkedArray ρ) :
    Option ρ × ChunkedArray ρ :=
  match arr.freeSlots with
  | p :: rest => (some p, { arr with freeSlots := rest })
  | [] =>
    if arr.elemCount < arr.capacity then
      (some (addr arr.elemCount), { arr with elemCount := arr.elemCount + 1 })
    else (none, arr)

/-- Modelled from the spec: `freeToChunkedArray`; returning null does nothing. -/
def freeToChunkedArray {ρ : Type} (arr : ChunkedArray ρ) (p : Option ρ) : ChunkedArray ρ :=
  match p with
  | none => arr
  | some q => { arr with freeSlots := q :: arr.freeSlots }

/-- Modelled from the spec: `chunkedArrayClear`, the bulk reset to empty. -/
def chunkedArrayClear {ρ : Type} (arr : ChunkedArray ρ) : ChunkedArray ρ :=
  { arr with elemCount := 0, freeSlots := [] }

/-- Modelled from the spec: `chunkedArrayGet`, the address of the slot with
index `i`, null when no such slot has been handed out. -/
def chunkedArrayGet {ρ : Type} (addr : Nat → ρ) (arr : ChunkedArray ρ) (i : Nat) : Option ρ :=
  if i < arr.elemCount then some (addr i) else none

/-- The globals of `task.cpp`, the memory of the task slots, and the logical
clock `s_curTick` of `TFE_DarkForces/time.h`. `taskMem` is the storage behind
the slots of `s_tasks`: it keeps the bytes of a slot after the slot is freed.
`arenaLimit` is the number of slots the host can back for a new arena. -/
structure Sched where
  s_tasks : Option (ChunkedArray TaskRef)
  s_stackBlocks : Option (ChunkedArray Nat)
  taskMem : List Task
  s_taskCount : Int
  s_rootTask : Task
  s_taskIter : TaskPtr
  s_curTask : TaskPtr
  s_resumeTask : TaskPtr
  s_currentId : Int
  s_curContext : TaskPtr
  s_curTick : Nat
  arenaLimit : Nat
  deriving DecidableEq, Repr

/-- The state at program start: zero-initialised statics and the initialisers
of the globals. -/
def Sched.init (tick arenaLimit : Nat) : Sched :=
  { s_tasks := none
    s_stackBlocks := none
    taskMem := []
    s_taskCount := 0
    s_rootTask := Task.zero
    s_taskIter := none
    s_curTask := none
    s_resumeTask := none
    s_currentId := -1
    s_curContext := none
    s_curTick := tick
    arenaLimit := arenaLimit }

/-! ## Memory access -/

/-- The record at a task address, if the address is backed by memory. -/
def Sched.task? (s : Sched) : TaskRef → Option Task
  | .root => some s.s_rootTask
  | .slot i => s.taskMem[i]?

/-- Dereference of a `Task*` for reading. -/
def Sched.load (s : Sched) : TaskPtr → Run Task
  | none => .error .nullDeref
  | some r =>
    match s.task? r with
    | some t => .ok t
    | none => .error .badAccess

/-- The state with the record at `r` replaced. -/
def Sched.put (s : Sched) (r : TaskRef) (t : Task) : Sched :=
  match r with
  | .root => { s with s_rootTask := t }
  | .slot i => { s with taskMem := s.taskMem.set i t }

/-- Dereference of a `Task*` for writing: the record is replaced by `f` of it. -/
def Sched.store (s : Sched) (p : TaskPtr) (f : Task → Task) : Run Sched :=
  match s.load p, p with
  | .ok t, some r => .ok (s.put r (f t))
  | .ok _, none => .error .nullDeref
  | .error e, _ => .error e

/-- Dereference of `s_curContext` for reading. -/
def Sched.ctx (s : Sched) : Run TaskContext :=
  match s.load s.s_curContext with
  | .ok t => .ok t.context
  | .error e => .error e

/-- Dereference of a context pointer for writing. -/
def Sched.storeCtx (s : Sched) (p : TaskPtr) (f : TaskContext → TaskContext) : Run Sched :=
  s.store p (fun t => { t with context := f t.context })

/-! ## Task functions -/

/-- The code of the task functions: `prog n id` is the effect of calling the
function with identifier `n` with argument `id`. -/
abbrev Prog := Nat → Int → Sched → Run Sched

/-- A call through a function pointer. -/
def callFunc (prog : Prog) (f : TaskFunc) (id : Int) (s : Sched) : Run Sched :=
  match f with
  | none => .error .nullDeref
  | some n => prog n id s

/-! ## Registry: `createRootTask`, `createTask`, `pushTask` -/

/-- The source's `createRootTask`. The two arenas are created anew, so no slot
memory exists yet. -/
def createRootTask (s : Sched) : Sched :=
  { s with
    s_tasks := some (createChunkedArray s.arenaLimit)
    s_stackBlocks := some (createChunkedArray s.arenaLimit)
    taskMem := []
    s_rootTask :=
      { Task.zero with
        prevMain := some TaskRef.root
        nextMain := some TaskRef.root
        nextTick := TASK_SLEEP }
    s_taskIter := some TaskRef.root
    s_curTask := some TaskRef.root
    s_taskCount := 0 }

/-- The allocation `(Task*)allocFromChunkedArray(s_tasks)`. A slot handed out
for the first time is backed by fresh memory, taken as zero bytes. -/
def allocTask (s : Sched) : Run (TaskPtr × Sched) :=
  match s.s_tasks with
  | none => .error .nullDeref
  | some arr =>
    let r := allocFromChunkedArray TaskRef.slot arr
    .ok (r.1, { s with
      s_tasks := some r.2
      taskMem := s.taskMem ++ List.replicate (r.2.elemCount - s.taskMem.length) Task.zero })

/-- The field writes of `createTask` on the freshly allocated `newTask`, in
source order. -/
def createTask.fill (func localRunFunc : TaskFunc) (newTask : TaskRef) (s : Sched) :
    Run Sched := do
  let cur ← s.load s.s_curTask
  let s3 ← s.store (some newTask) (fun t =>
    { t with
      nextMain := cur.prevSec
      prevMain := none
      nextSec := s.s_curTask
      prevSec := none
      retTask := none
      userData := 0
      framebreak := false })
  let cur3 ← s3.load s3.s_curTask
  let s4 ← (match cur3.prevSec with
    | some c => s3.store (some c) (fun t => { t with prevMain := some newTask })
    | none => .ok s3)
  let s5 ← s4.store s4.s_curTask (fun t => { t with prevSec := some newTask })
  s5.store (some newTask) (fun t =>
    { t with
      nextTick := 0
      context :=
        { TaskContext.zero with
          callstack := TaskContext.zero.callstack.set 0 func
          level := TASK_INIT_LEVEL }
      localRunFunc := localRunFunc })

/-- The source's `createTask`: a new task at the head of the secondary chain of
the current task. -/
def createTask (func localRunFunc : TaskFunc) (s : Sched) : Run (TaskRef × Sched) :=
  match allocTask (if s.s_tasks.isSome then s else createRootTask s) with
  | .error e => .error e
  | .ok (none, _) => .error .assertFailed
  | .ok (some newTask, s1) =>
    match createTask.fill func localRunFunc newTask
        { s1 with s_taskCount := s1.s_taskCount + 1 } with
    | .error e => .error e
    | .ok s2 => .ok (newTask, s2)

/-- The field writes of `pushTask` on the freshly allocated `newTask`, in source
order. -/
def pushTask.fill (func : TaskFunc) (framebreak : Bool) (localRunFunc : TaskFunc)
    (newTask : TaskRef) (s : Sched) : Run Sched := do
  let iter ← s.load s.s_taskIter
  let s3 ← s.store (some newTask) (fun t =>
    { t with nextMain := iter.nextMain, prevMain := s.s_taskIter })
  let s4 ← s3.store s3.s_taskIter (fun t => { t with nextMain := some newTask })
  s4.store (some newTask) (fun t =>
    { t with
      prevSec := none
      nextSec := none
      retTask := none
      userData := 0
      framebreak := framebreak
      context :=
        { TaskContext.zero with
          callstack := TaskContext.zero.callstack.set 0 func
          level := TASK_INIT_LEVEL }
      localRunFunc := localRunFunc
      nextTick := s4.s_curTick })

/-- The source's `pushTask`: a new task right after `s_taskIter` in the main
chain. -/
def pushTask (func : TaskFunc) (framebreak : Bool) (localRunFunc : TaskFunc) (s : Sched) :
    Run (TaskRef × Sched) :=
  match allocTask (if s.s_tasks.isSome then s else createRootTask s) with
  | .error e => .error e
  | .ok (none, _) => .error .assertFailed
  | .ok (some newTask, s1) =>
    match pushTask.fill func framebreak localRunFunc newTask
        { s1 with s_taskCount := s1.s_taskCount + 1 } with
    | .error e => .error e
    | .ok s2 => .ok (newTask, s2)

/-- The source's `task_getCurrent`. -/
def task_getCurrent (s : Sched) : TaskPtr := s.s_curTask

/-! ## Scheduler: `selectNextTask` -/

/-- The result of the walk of `selectNextTask`: the task it selected (`none`
when it left the loop by `break`) and, in order, the candidates it examined and
passed over. -/
structure Walk where
  selected : TaskPtr
  passed : List TaskRef
  deriving DecidableEq, Repr

/-- The inner loop `while (task->prevSec) { task = task->prevSec; }`. -/
def selectNextTask.descend (s : Sched) : Nat → TaskRef → Run TaskRef
  | 0, _ => .error .outOfFuel
  | fuel + 1, r =>
    match s.load (some r) with
    | .error e => .error e
    | .ok t =>
      match t.prevSec with
      | none => .ok r
      | some c => selectNextTask.descend s fuel c

/-- The acceptance test `task->nextTick <= s_curTick || task->framebreak`. -/
def accepts (s : Sched) (t : Task) : Bool :=
  decide (t.nextTick ≤ s.s_curTick) || t.framebreak

/-- The loop `while (1)` of `selectNextTask`, started at `task`. -/
def selectNextTask.walk (s : Sched) : Nat → TaskPtr → List TaskRef → Run Walk
  | 0, _, _ => .error .outOfFuel
  | fuel + 1, task, passed =>
    match s.load task with
    | .error e => .error e
    | .ok t =>
      match t.nextMain with
      | some n =>
        match selectNextTask.descend s (fuel + 1) n with
        | .error e => .error e
        | .ok c =>
          match s.load (some c) with
          | .error e => .error e
          | .ok cand =>
            if accepts s cand then .ok ⟨some c, passed⟩
            else selectNextTask.walk s fuel (some c) (passed ++ [c])
      | none =>
        match t.nextSec with
        | some n =>
          match s.load (some n) with
          | .error e => .error e
          | .ok cand =>
            if accepts s cand then .ok ⟨some n, passed⟩
            else selectNextTask.walk s fuel (some n) (passed ++ [n])
        | none => .ok ⟨none, passed⟩

/-- The source's `selectNextTask`. -/
def selectNextTask (fuel : Nat) (s : Sched) : Run Sched :=
  match selectNextTask.walk s fuel s.s_curTask [] with
  | .error e => .error e
  | .ok w =>
    match w.selected with
    | some r => .ok { s with s_currentId := 0, s_curTask := some r }
    | none => .ok s

/-! ## Registry: `task_free`, `task_freeAll`, `task_shutdown` and the setters -/

/-- One iteration of the loop of `task_free`, for slot index `i`. -/
def task_free.patch (task : TaskPtr) (i : Nat) (s : Sched) : Run Sched :=
  match s.s_tasks with
  | none => .error .nullDeref
  | some arr =>
    let itask := chunkedArrayGet TaskRef.slot arr i
    if itask ≠ task then do
      let it ← s.load itask
      let s1 ← (if it.prevMain = task then
          s.load task >>= fun t => s.store itask (fun x => { x with prevMain := t.prevMain })
        else .ok s)
      let it1 ← s1.load itask
      let s2 ← (if it1.nextMain = task then
          s1.load task >>= fun t => s1.store itask (fun x => { x with nextMain := t.nextMain })
        else .ok s1)
      let it2 ← s2.load itask
      let s3 ← (if it2.prevSec = task then
          s2.load task >>= fun t => s2.store itask (fun x => { x with prevSec := t.prevSec })
        else .ok s2)
      let it3 ← s3.load itask
      (if it3.nextSec = task then
          s3.load task >>= fun t => s3.store itask (fun x => { x with nextSec := t.nextSec })
        else .ok s3)
    else .ok s

/-- The loop `for (s32 i = 0; i < s_taskCount; i++)` of `task_free`, from index
`i` on, with `n` iterations left. -/
def task_free.scan (task : TaskPtr) : Nat → Nat → Sched → Run Sched
  | 0, _, s => .ok s
  | n + 1, i, s =>
    match task_free.patch task i s with
    | .error e => .error e
    | .ok s1 => task_free.scan task n (i + 1) s1

/-- The source's `task_free`. -/
def task_free (fuel : Nat) (task : TaskPtr) (s : Sched) : Run Sched := do
  let s1 := { s with s_taskCount := s.s_taskCount - 1 }
  let s2 ← task_free.scan task s1.s_taskCount.toNat 0 s1
  let s3 ← (if task = s2.s_curTask then selectNextTask fuel s2 else .ok s2)
  let t ← s3.load task
  match s3.s_stackBlocks, s3.s_tasks with
  | some blocks, some tasks =>
    .ok { s3 with
      s_stackBlocks := some (freeToChunkedArray blocks t.context.stackMem)
      s_tasks := some (freeToChunkedArray tasks task) }
  | _, _ => .error .nullDeref

/-- The source's `task_freeAll`. -/
def task_freeAll (s : Sched) : Run Sched :=
  match s.s_tasks, s.s_stackBlocks with
  | some tasks, some blocks =>
    .ok { s with
      s_tasks := some (chunkedArrayClear tasks)
      s_stackBlocks := some (chunkedArrayClear blocks)
      s_curTask := none
      s_curContext := none
      s_taskCount := 0 }
  | _, _ => .error .nullDeref

/-- The source's `task_shutdown`; the memory of the slots is released. -/
def task_shutdown (s : Sched) : Sched :=
  { s with
    s_curTask := none
    s_tasks := none
    s_stackBlocks := none
    taskMem := []
    s_curContext := none
    s_taskCount := 0 }

/-- The source's `task_makeActive`. -/
def task_makeActive (task : TaskPtr) (s : Sched) : Run Sched :=
  s.store task (fun t => { t with nextTick := 0 })

/-- The source's `task_setNextTick`. -/
def task_setNextTick (task : TaskPtr) (tick : Nat) (s : Sched) : Run Sched :=
  s.store task (fun t => { t with nextTick := tick })

/-- The source's `task_setUserData`. -/
def task_setUserData (task : TaskPtr) (data : Nat) (s : Sched) : Run Sched :=
  s.store task (fun t => { t with userData := data })

/-- The source's `task_runLocal`. -/
def task_runLocal (prog : Prog) (task : TaskPtr) (id : Int) (s : Sched) : Run Sched := do
  let t ← s.load task
  match t.localRunFunc with
  | some n => prog n id s
  | none => .ok s

/-- The source's `task_setDefaults`. -/
def task_setDefaults (s : Sched) : Sched :=
  { s with s_curTask := some TaskRef.root, s_taskIter := some TaskRef.root }

/-- The source's `task_getCount`. -/
def task_getCount (s : Sched) : Int := s.s_taskCount

/-! ## Control primitives: `ctxReturn`, `itask_run`, `itask_yield` -/

/-- The first block of `ctxReturn` (`if (s_curContext) { ... }`): the level is
lowered by one, or by two when the call into this level was delayed, and
`callLevel` is decremented when positive. The value returned with the state is
the local variable `level`, the level before the return. -/
def ctxReturn.unwind (s : Sched) : Run (Int × Sched) :=
  match s.s_curContext with
  | none => .ok (0, s)
  | some c => do
    let ctx ← s.ctx
    let level := ctx.level
    check (0 ≤ ctx.level ∧ ctx.level < 16)
    let single ← (if level ≤ 0 then .ok true
      else ctx.delayedCall.read (level - 1) >>= fun d => .ok (decide (d = 0)))
    let newLevel := if single then ctx.level - 1 else ctx.level - 2
    check (-1 ≤ newLevel ∧ newLevel < 16)
    let s1 ← s.storeCtx (some c) (fun x =>
      { x with
        level := newLevel
        callLevel := if x.callLevel > 0 then x.callLevel - 1 else x.callLevel })
    .ok (level, s1)

/-- The branch `else if (s_curContext && s_curContext->stackPtr[level])` of
`ctxReturn`: the scratch memory of the level is given back. -/
def ctxReturn.release (level : Int) (s : Sched) : Run Sched :=
  match s.s_curContext with
  | none => .ok s
  | some c => do
    let ctx ← s.ctx
    let p ← ctx.stackPtr.read level
    if p.isSome then do
      let size ← ctx.stackSize.read level
      let off := u32 ((ctx.stackOffset : Int) - (size : Int))
      check (off < TASK_STACK_SIZE)
      s.storeCtx (some c) (fun x =>
        { x with
          stackOffset := off
          stackPtr := x.stackPtr.set level.toNat none
          stackSize := x.stackSize.set level.toNat 0 })
    else .ok s

/-- The source's `ctxReturn`. -/
def ctxReturn (fuel : Nat) (s : Sched) : Run Sched := do
  let (level, s1) ← ctxReturn.unwind s
  if level = 0 ∧ s1.s_curTask.isSome then do
    let s2 ← task_free fuel s1.s_curTask s1
    .ok { s2 with s_curTask := none }
  else ctxReturn.release level s1

/-- The source's `itask_run`. -/
def itask_run (prog : Prog) (task : TaskPtr) (id : Int) (s : Sched) : Run Sched := do
  let s1 ← s.store task (fun t => { t with retTask := s.s_curTask })
  let s2 := { s1 with s_currentId := id, s_curTask := task, s_curContext := task }
  let ctx ← s2.ctx
  let prevLevel := ctx.level
  let s3 ← s2.storeCtx s2.s_curContext (fun x => { x with level := -1, ip := x.ip.set 0 0 })
  let ctx3 ← s3.ctx
  let level := max 0 ctx3.level
  let runFunc ← ctx3.callstack.read level
  check runFunc.isSome
  let s4 ← callFunc prog runFunc s3.s_currentId s3
  let t ← s4.load task
  if prevLevel ≠ t.context.level then
    s4.storeCtx task (fun x => { x with level := prevLevel })
  else .ok s4

/-- The source's `itask_yield`. -/
def itask_yield (fuel : Nat) (delay : Nat) (ip : Int) (s : Sched) : Run Sched := do
  let ctx ← s.ctx
  check (0 ≤ ctx.level ∧ ctx.level < 16)
  let s1 ← s.storeCtx s.s_curContext (fun x =>
    { x with ip := x.ip.set x.level.toNat ip, level := x.level - 1 })
  let cur ← s1.load s1.s_curTask
  match cur.retTask with
  | some retTask =>
    let s2 ← s1.store s1.s_curTask (fun t => { t with retTask := none })
    .ok { s2 with s_currentId := 0, s_curTask := some retTask, s_curContext := some retTask }
  | none =>
    let s2 ← s1.store s1.s_curTask (fun t =>
      { t with nextTick := if delay < TASK_SLEEP then u32 ((s1.s_curTick : Int) + delay) else delay })
    let s3 ← selectNextTask fuel s2
    check s3.s_curTask.isSome
    .ok s3

/-! ## Scheduler: `task_run` -/

/-- A call of a task's resume function by the frame loop of `task_run`: the task,
the function and argument, and the state in which the call is made. -/
structure Dispatch where
  task : TaskRef
  func : TaskFunc
  id : Int
  before : Sched
  deriving DecidableEq, Repr

/-- The loop `do { ... } while (!task || !task->context.callstack[0])` at the
start of `task_run`. -/
def task_run.start (s : Sched) : Nat → TaskPtr → Run TaskPtr
  | 0, _ => .error .outOfFuel
  | fuel + 1, task =>
    match s.load task with
    | .error e => .error e
    | .ok t =>
      let next : TaskPtr :=
        if t.nextMain.isSome then t.nextMain
        else if t.nextSec.isSome then t.nextSec
        else task
      match next with
      | none => task_run.start s fuel next
      | some r =>
        match s.load (some r) with
        | .error e => .error e
        | .ok t1 =>
          if (t1.context.callstack.get 0).isSome then .ok next
          else task_run.start s fuel next

/-- One pass through the body of the loop `while (s_curTask)` of `task_run`,
entered with `s_curTask` equal to `cur`. The result is the state, the call made
to the task's function (if any), and whether the loop is left by `break`. -/
def task_run.body (prog : Prog) (fuel : Nat) (cur : TaskRef) (s : Sched) :
    Run (Sched × Option Dispatch × Bool) := do
  let t ← s.load (some cur)
  let framebreak := t.framebreak
  let s1 := if framebreak then { s with s_resumeTask := some cur } else s
  let t1 ← s1.load (some cur)
  if t1.nextTick ≤ s1.s_curTick then do
    let s2 := { s1 with s_curContext := some cur }
    let ctx ← s2.ctx
    let level := max 0 (ctx.level + 1)
    let runFunc ← ctx.callstack.read level
    check runFunc.isSome
    let s3 ← callFunc prog runFunc s2.s_currentId s2
    .ok (s3, some ⟨cur, runFunc, s2.s_currentId, s2⟩, framebreak)
  else if !framebreak then do
    let s2 ← selectNextTask fuel s1
    .ok (s2, none, framebreak)
  else .ok (s1, none, framebreak)

/-- The loop `while (s_curTask)` of `task_run`; `log` collects the calls made to
task functions, in order. -/
def task_run.loop (prog : Prog) : Nat → Sched → List Dispatch → Run (Sched × List Dispatch)
  | 0, _, _ => .error .outOfFuel
  | fuel + 1, s, log =>
    match s.s_curTask with
    | none => .ok (s, log)
    | some cur =>
      match task_run.body prog (fuel + 1) cur s with
      | .error e => .error e
      | .ok (s1, d, stop) =>
        if stop then .ok (s1, log ++ d.toList)
        else task_run.loop prog fuel s1 (log ++ d.toList)

/-- The source's `task_run`; the second component of the result lists the calls
made to task functions during the frame. -/
def task_run (prog : Prog) (fuel : Nat) (s : Sched) : Run (Sched × List Dispatch) :=
  if s.s_taskCount = 0 then .ok (s, [])
  else
    match task_run.start s fuel (if s.s_resumeTask.isSome then s.s_resumeTask else s.s_curTask) with
    | .error e => .error e
    | .ok task => task_run.loop prog fuel { s with s_curTask := task, s_currentId := 0 } []

/-! ## Context primitives: `ctxGetIP`, `ctxAllocate`, `ctxGet`, `ctxBegin`, `ctxCall` -/

/-- The source's `ctxGetIP`. -/
def ctxGetIP (s : Sched) : Run Int := do
  let ctx ← s.ctx
  check (0 ≤ ctx.level ∧ ctx.level < 16)
  .ok (ctx.ip.get ctx.level.toNat)

/-- The allocation `allocFromChunkedArray(s_stackBlocks)`. -/
def allocBlock (s : Sched) : Run (Option Nat × Sched) :=
  match s.s_stackBlocks with
  | none => .error .nullDeref
  | some arr =>
    let r := allocFromChunkedArray id arr
    .ok (r.1, { s with s_stackBlocks := some r.2 })

/-- The call `memset(p, 0, size)` on scratch memory. A scratch block is one
element of `s_stackBlocks`, of `TASK_STACK_SIZE` bytes; its bytes are not part
of the state, so what is kept of the call is that it faults on a null pointer
and when the `size` bytes starting at `p` do not lie inside the block. -/
def memset (p : BytePtr) (size : Nat) : Run Unit :=
  match p with
  | none => .error .nullDeref
  | some q => if q.2 + size ≤ TASK_STACK_SIZE then .ok () else .error .badAccess

/-- The source's `ctxAllocate`. The block pointer `stackMem` is needed to form
`stackMem + stackOffset`; forming it from a null block is a fault. The
reservation is cleared by `memset` after the assertion on the new offset. -/
def ctxAllocate (size : Nat) (s : Sched) : Run Sched :=
  if size = 0 then .ok s
  else do
    let ctx ← s.ctx
    let s1 ← (if ctx.stackMem.isNone then
        allocBlock s >>= fun r =>
          r.2.storeCtx r.2.s_curContext (fun x =>
            { x with stackMem := r.1, stackSize := LevelArray.fill 0, stackOffset := 0 })
      else .ok s)
    let ctx1 ← s1.ctx
    let level := ctx1.level
    let p ← ctx1.stackPtr.read level
    if p.isNone then do
      match ctx1.stackMem with
      | none => .error .nullDeref
      | some b =>
        let off := u32 ((ctx1.stackOffset : Int) + (size : Int))
        check (off < TASK_STACK_SIZE)
        memset (some (b, ctx1.stackOffset)) size
        s1.storeCtx s1.s_curContext (fun x =>
          { x with
            stackPtr := x.stackPtr.set level.toNat (some (b, x.stackOffset))
            stackSize := x.stackSize.set level.toNat size
            stackOffset := off })
    else .ok s1

/-- The source's `ctxGet`. -/
def ctxGet (s : Sched) : Run BytePtr := do
  let ctx ← s.ctx
  ctx.stackPtr.read ctx.level

/-- The source's `ctxBegin`. -/
def ctxBegin (s : Sched) : Run Sched :=
  s.storeCtx s.s_curContext (fun x => { x with level := x.level + 1 })

/-- The source's `ctxCall`. The result is the returned flag and the state. -/
def ctxCall (prog : Prog) (func : TaskFunc) (id ip : Int) (s : Sched) : Run (Bool × Sched) := do
  let ctx ← s.ctx
  check (0 ≤ ctx.level ∧ ctx.level + 1 < 16)
  let startContext := s.s_curContext
  let s1 ← (if ctx.level = 0 then s.storeCtx s.s_curContext (fun x => { x with callLevel := 0 })
    else .ok s)
  let ctx1 ← s1.ctx
  let startLevel := ctx1.level
  let startCallLevel := ctx1.callLevel
  let s2 ← s1.storeCtx startContext (fun x =>
    { x with delayedCall := x.delayedCall.set startLevel.toNat 0 })
  let s3 ← s2.storeCtx s2.s_curContext (fun x =>
    { x with
      callLevel := x.callLevel + 1
      ip := (x.ip.set x.level.toNat ip).set (x.level + 1).toNat 0
      callstack := x.callstack.set (x.level + 1).toNat func })
  let s4 ← callFunc prog func id s3
  let after ← s4.load startContext
  if startCallLevel ≠ after.context.callLevel then do
    let s5 ← s4.storeCtx startContext (fun x =>
      { x with delayedCall := x.delayedCall.set startLevel.toNat 1 })
    .ok (true, s5)
  else .ok (false, s4)

/-! ## Notions used to state the properties -/

/-- The outcome of `k` successive calls of `selectNextTask`: the current task
after each call, in order, and the final state. -/
def selectionOrder (fuel : Nat) : Nat → Sched → Run (List TaskPtr × Sched)
  | 0, s => .ok ([], s)
  | k + 1, s =>
    match selectNextTask fuel s with
    | .error e => .error e
    | .ok s1 =>
      match selectionOrder fuel k s1 with
      | .error e => .error e
      | .ok r => .ok (s1.s_curTask :: r.1, r.2)

/-- Successive calls of `createTask`, one for each entry function of the list;
the result lists the created tasks in creation order. -/
def createTasks : List TaskFunc → Sched → Run (List TaskRef × Sched)
  | [], s => .ok ([], s)
  | f :: fs, s =>
    match createTask f none s with
    | .error e => .error e
    | .ok (c, s1) =>
      match createTasks fs s1 with
      | .error e => .error e
      | .ok r => .ok (c :: r.1, r.2)

/-- The arena `s_tasks` exists and its free list holds distinct slots that were
handed out before. -/
def arenaOK (s : Sched) : Bool :=
  match s.s_tasks with
  | none => false
  | some arr =>
    decide arr.freeSlots.Nodup &&
      arr.freeSlots.all (fun r =>
        match r with
        | .root => false
        | .slot i => decide (i < arr.elemCount))

/-- The record at `r` is in use: it is the root task, or a slot of `s_tasks`
that was handed out and has not been returned. -/
def isLive (s : Sched) (r : TaskRef) : Bool :=
  match s.s_tasks with
  | none => false
  | some arr =>
    decide (r ∉ arr.freeSlots) &&
      (match r with
        | .root => true
        | .slot i => decide (i < arr.elemCount))

/-- The links of a task that the scheduler walk and the acceptance test read,
apart from `prevSec`. -/
def Task.walkView (t : Task) : TaskPtr × TaskPtr × Nat × Bool :=
  (t.nextMain, t.nextSec, t.nextTick, t.framebreak)

/-- The tasks `cs` are, in this order, the secondary chain below `P`: each is
childless and due, its `nextSec` is `P`, and its `nextMain` is the next task of
the list (null for the last one). -/
def SecLinks (s : Sched) (P : TaskRef) : List TaskRef → Prop
  | [] => True
  | c :: rest =>
    (∃ t, s.task? c = some t ∧ t.prevSec = none ∧ t.nextSec = some P ∧
      t.nextMain = rest.head? ∧ t.nextTick ≤ s.s_curTick) ∧ SecLinks s P rest

/-- The hierarchy around a current task `P` with main-chain predecessor `Q`
while `P` creates children: `chain` is the secondary chain below `P`, newest
child first; `P`, `Q` and the children are in use; `P` is due and its `nextMain`
is `nm`. -/
def SecChainInv (s : Sched) (P Q : TaskRef) (nm : TaskPtr) (chain : List TaskRef) : Prop :=
  arenaOK s = true ∧ isLive s P = true ∧ isLive s Q = true ∧
  (∀ c ∈ chain, isLive s c = true) ∧
  s.s_curTask = some P ∧
  (∃ tP, s.task? P = some tP ∧ tP.prevSec = chain.head? ∧ tP.nextTick ≤ s.s_curTick ∧
    tP.nextMain = nm) ∧
  SecLinks s P chain ∧
  (∃ tQ, s.task? Q = some tQ ∧ tQ.nextMain = some P)

/-- The control part of a task's context: level, call level, delayed flags,
saved instruction pointers and call stack. -/
def Task.ctlView (t : Task) : Int × Int × LevelArray Nat × LevelArray Int × LevelArray TaskFunc :=
  (t.context.level, t.context.callLevel, t.context.delayedCall, t.context.ip,
    t.context.callstack)

/-- The level `ctxReturn` leaves when executed at level `k` with the delayed
flags `delayedCall`: two lower when `k >= 1` and `delayedCall[k-1]` is set, one
lower otherwise. -/
def levelAfterReturn (delayedCall : LevelArray Nat) (k : Nat) : Int :=
  if k = 0 ∨ delayedCall.get (k - 1) = 0 then (k : Int) - 1 else (k : Int) - 2

/-- The call level `ctxReturn` leaves: one lower when positive. -/
def callLevelAfterReturn (callLevel : Int) : Int :=
  if callLevel > 0 then callLevel - 1 else callLevel

/-- The call level `ctxCall` records as `startCallLevel` for a caller at level
`k`: it is reset to 0 at level 0. -/
def startCallLevel (t : Task) (k : Nat) : Int :=
  if k = 0 then 0 else t.context.callLevel

/-- The record of the calling task at the moment `ctxCall` invokes `func`, for a
caller at level `k`: the delayed flag of the level is cleared, `callLevel` is one
above `startCallLevel`, `ip` is saved in `ip[k]`, `func` is in `callstack[k+1]`
and `ip[k+1]` is 0. -/
def callEntryRecord (func : TaskFunc) (ip : Int) (t : Task) (k : Nat) : Task :=
  { t with context := { t.context with
      delayedCall := t.context.delayedCall.set k 0
      callLevel := startCallLevel t k + 1
      ip := (t.context.ip.set k ip).set (k + 1) 0
      callstack := t.context.callstack.set (k + 1) func } }

/-! ## Sample states -/

/-- The state of a run that returned normally (the initial state otherwise). -/
def Run.get (x : Run Sched) : Sched :=
  match x with
  | .ok s => s
  | .error _ => Sched.init 0 0

/-- Sample task functions: function 1 enters its level and returns at once;
every other function enters its level and yields for one tick with resumption
token 7. -/
def demoProg : Prog := fun n _ s =>
  if n = 1 then ctxBegin s >>= ctxReturn 8 else ctxBegin s >>= itask_yield 8 1 7

/-- Sample: at tick 10 two tasks are pushed, then the second is put to sleep
until tick 50; the current task is the root. -/
def demoPush2 : Sched := Run.get (do
  let (_, s1) ← pushTask (some 1) false none (Sched.init 10 64)
  let (b, s2) ← pushTask (some 2) false none s1
  task_setNextTick (some b) 50 s2)

/-- Sample: `demoPush2` with the task in slot 0 selected. -/
def demoPush2Sel : Sched :=
  { demoPush2 with s_curTask := some (TaskRef.slot 0), s_currentId := 0 }

/-- Sample: at tick 10 two tasks are pushed and the one in slot 1, which follows
the root in the main chain, is made current. -/
def demoParent : Sched :=
  { Run.get (do
      let (_, s1) ← pushTask (some 1) false none (Sched.init 10 64)
      let (_, s2) ← pushTask (some 2) false none s1
      .ok s2) with s_curTask := some (TaskRef.slot 1) }

/-- Sample: `demoParent` after its current task created two children. -/
def demoFamily : Sched :=
  match createTasks [some 3, some 4] demoParent with
  | .ok r => r.2
  | .error _ => Sched.init 0 0

/-- Sample: the task in slot 1 of `demoParent` has been dispatched and has
entered its root function (level 0). -/
def demoRunning : Sched :=
  Run.get (ctxBegin { demoParent with s_curContext := some (TaskRef.slot 1) })

/-- Sample: `demoRunning` after its task yielded for one tick with token 7. -/
def demoYielded : Sched := Run.get (itask_yield 8 1 7 demoRunning)

/-- Sample: `demoRunning` after the delayed call of function 2 at level 0. -/
def demoCalled : Sched :=
  match ctxCall demoProg (some 2) 0 5 demoRunning with
  | .ok r => r.2
  | .error _ => Sched.init 0 0

/-- Sample: after the delayed call in `demoCalled` the frame loop has resumed the
callee, which has just re-entered level 1. -/
def demoResumedCallee : Sched :=
  Run.get (ctxBegin
    { demoCalled with
      s_curTask := some (TaskRef.slot 1), s_curContext := some (TaskRef.slot 1) })

/-- Sample: the running task called function 2 at level 0 and the callee yielded
(a delayed call); the frame loop then resumed the callee, which returned, and
re-dispatched the caller, which has just re-entered level 0. -/
def demoDelayedCaller : Sched :=
  Run.get (do
    let r ← ctxCall demoProg (some 2) 0 5 demoRunning
    let s2 ← ctxBegin
      { r.2 with s_curTask := some (TaskRef.slot 1), s_curContext := some (TaskRef.slot 1) }
    let s3 ← ctxReturn 8 s2
    ctxBegin s3)

/-- Sample: `demoRunning` after its root function returned. -/
def demoReturned : Sched := Run.get (ctxReturn 8 demoRunning)

/-- Sample: at tick 10 a frame-break task (slot 0) and then an ordinary task
(slot 1) are pushed. -/
def demoFrame : Sched := Run.get (do
  let (_, s1) ← pushTask (some 3) true none (Sched.init 10 64)
  let (_, s2) ← pushTask (some 4) false none s1
  .ok s2)

/-- Sample: the outcome of one frame of `demoFrame`. -/
def demoFrameEnd : Sched × List Dispatch :=
  match task_run demoProg 8 demoFrame with
  | .ok r => r
  | .error _ => (Sched.init 0 0, [])

/-! ## Notions used to state the registry and frame properties -/

/-- The state in which `createTask` and `pushTask` allocate: the registry is
created first when it does not exist (`if (!s_tasks) { createRootTask(); }`). -/
def withRegistry (s : Sched) : Sched :=
  if s.s_tasks.isSome then s else createRootTask s

/-- Successive calls of `pushTask`, one for each pair of entry function and
frame-break flag of the list; the result lists the created tasks in creation
order. -/
def pushTasks : List (TaskFunc × Bool) → Sched → Run (List TaskRef × Sched)
  | [], s => .ok ([], s)
  | f :: fs, s =>
    match pushTask f.1 f.2 none s with
    | .error e => .error e
    | .ok (c, s1) =>
      match pushTasks fs s1 with
      | .error e => .error e
      | .ok r => .ok (c :: r.1, r.2)

/-- The tasks visited by following `nextMain` links from `r`, at most `n` of
them, in order. -/
def mainChain (s : Sched) : Nat → TaskRef → List TaskRef
  | 0, _ => []
  | n + 1, r =>
    match s.task? r with
    | none => []
    | some t =>
      match t.nextMain with
      | none => []
      | some x => x :: mainChain s n x

/-- Frames in which nothing happens but task selection: for each tick of the
list the clock is set to that tick and `selectNextTask` is called. The result
lists what each call selected (`none` when its walk ended without a selection)
and the final state. -/
def selectAtTicks (fuel : Nat) : List Nat → Sched → Run (List TaskPtr × Sched)
  | [], s => .ok ([], s)
  | tick :: rest, s =>
    match selectNextTask.walk { s with s_curTick := tick } fuel s.s_curTask [] with
    | .error e => .error e
    | .ok w =>
      match selectNextTask fuel { s with s_curTick := tick } with
      | .error e => .error e
      | .ok s1 =>
        match selectAtTicks fuel rest s1 with
        | .error e => .error e
        | .ok r => .ok (w.selected :: r.1, r.2)

/-- Some chain link of the record is the address `r`. -/
def Task.refersTo (t : Task) (r : TaskRef) : Bool :=
  decide (t.prevMain = some r) || decide (t.nextMain = some r) ||
    decide (t.prevSec = some r) || decide (t.nextSec = some r)

/-- The record `pushTask` leaves in the new slot whose memory held `t0`. -/
def pushTask.record (func : TaskFunc) (framebreak : Bool) (localRunFunc : TaskFunc)
    (cursor : TaskRef) (next : TaskPtr) (tick : Nat) (t0 : Task) : Task :=
  { t0 with
    nextMain := next
    prevMain := some cursor
    prevSec := none
    nextSec := none
    retTask := none
    userData := 0
    framebreak := framebreak
    context :=
      { TaskContext.zero with
        callstack := TaskContext.zero.callstack.set 0 func
        level := TASK_INIT_LEVEL }
    localRunFunc := localRunFunc
    nextTick := tick }

/-- The tasks `cs` are, in this order, the main chain from `prev` on to the root:
`prev.nextMain` is the first of them, each has the next one as `nextMain`, and
the last one (`prev` itself when there is none) has the root as `nextMain`. -/
def MainLinks (s : Sched) : TaskRef → List TaskRef → Prop
  | prev, [] => ∃ t, s.task? prev = some t ∧ t.nextMain = some TaskRef.root
  | prev, c :: rest => (∃ t, s.task? prev = some t ∧ t.nextMain = some c) ∧ MainLinks s c rest

/-- The registry after `k` pushes on a fresh registry of capacity `limit` with
the root task as cursor and current task: `k` slots are handed out and none was
given back, and `chain` is the main chain from the root back to the root, each
task of it in use, childless and due. -/
def PushedInv (limit : Nat) (s : Sched) (k : Nat) (chain : List TaskRef) : Prop :=
  (∃ arr, s.s_tasks = some arr ∧ arr.elemCount = k ∧ arr.freeSlots = [] ∧ arr.capacity = limit) ∧
  s.s_taskIter = some TaskRef.root ∧ s.s_curTask = some TaskRef.root ∧
  MainLinks s TaskRef.root chain ∧
  ∀ c ∈ chain, c ≠ TaskRef.root ∧ isLive s c = true ∧
    ∃ t, s.task? c = some t ∧ t.prevSec = none ∧ t.nextTick ≤ s.s_curTick

/-! ## Further sample states -/

/-- The state of the first component of a run that returned normally. -/
def Run.state {α : Type} (x : Run (α × Sched)) : Sched :=
  match x with
  | .ok r => r.2
  | .error _ => Sched.init 0 0

/-- Sample: at tick 10 one ordinary task, whose function returns at once, is
pushed on a fresh registry. -/
def demoSolo : Sched := Run.state (pushTask (some 1) false none (Sched.init 10 64))

/-- Sample: `demoSolo` after task selection made its task current. -/
def demoSoloSel : Sched := Run.get (selectNextTask 4 demoSolo)

/-- Sample: at tick 10 one frame-break task is pushed on a fresh registry and put
to sleep until tick 50. -/
def demoSleepingBreak : Sched := Run.get (do
  let (a, s1) ← pushTask (some 2) true none (Sched.init 10 64)
  task_setNextTick (some a) 50 s1)

/-- Sample: at tick 10 an ordinary task (slot 0) and then a frame-break task
(slot 1) are pushed; the main chain is root, slot 1, slot 0, root. -/
def demoHalt : Sched := Run.get (do
  let (_, s1) ← pushTask (some 2) false none (Sched.init 10 64)
  let (_, s2) ← pushTask (some 2) true none s1
  .ok s2)

/-- Sample: the state after one frame of `demoHalt`; the frame halted at the
frame-break task in slot 1. -/
def demoHalted : Sched :=
  match task_run demoProg 8 demoHalt with
  | .ok r => r.1
  | .error _ => Sched.init 0 0

/-- Sample: the frame-break task of `demoHalt` (slot 1) has been dispatched, has
entered its root function and has yielded with the sleep sentinel. -/
def demoSlept : Sched :=
  Run.get (ctxBegin
      { demoHalt with
        s_curTask := some (TaskRef.slot 1), s_curContext := some (TaskRef.slot 1) }
    >>= itask_yield 8 TASK_SLEEP 7)

/-- Sample: the running ordinary task of `demoRunning` (slot 1) has yielded with
the sleep sentinel. -/
def demoAsleep : Sched := Run.get (itask_yield 8 TASK_SLEEP 7 demoRunning)

/-- Sample: three tasks pushed in succession on a fresh registry at tick 10. -/
def demoPushed3 : Run (List TaskRef × Sched) :=
  pushTasks [(some 1, false), (some 2, false), (some 3, true)] (Sched.init 10 64)

/-- Sample: at tick 10 two ordinary tasks are pushed whose functions return at
once. -/
def demoReturners : Sched :=
  Run.state (pushTasks [(some 1, false), (some 1, false)] (Sched.init 10 64))

/-- Sample: `demoRunning` after its running task reserved 100 bytes of scratch
memory at level 0. -/
def demoAllocated : Sched := Run.get (ctxAllocate 100 demoRunning)

/-- Sample task functions: every function enters its level and yields with the
sleep sentinel and resumption token 7. -/
def demoSleepProg : Prog := fun _ _ s => ctxBegin s >>= itask_yield 8 TASK_SLEEP 7

/-- Sample: the current task of `demoParent` (slot 1) hands control to the task in
slot 0 with `itask_run`; that task yields with the sleep sentinel, which gives
control back to slot 1. -/
def demoHandOff : Sched :=
  Run.get (itask_run demoSleepProg (some (TaskRef.slot 0)) 0 demoParent)

/-! ## Notions used to state the hand-off and scratch properties -/

/-- The state in which `itask_run(task, id)` invokes the function of `task`, where
`T` is the address of `task` and `t` its record before the call: `retTask` is the
task that was current, the level is -1 and `ip[0]` is 0, and `task` is the
current task with its context the current context. -/
def itask_run.entry (s : Sched) (T : TaskRef) (t : Task) (id : Int) : Sched :=
  { s.put T { t with
      retTask := s.s_curTask
      context := { t.context with level := -1, ip := t.context.ip.set 0 0 } } with
    s_currentId := id, s_curTask := some T, s_curContext := some T }

/-! ## Sample states for the scratch memory -/

/-- Sample: the running task of `demoAllocated`, which holds 100 bytes at level
0, has called function 3 with `ctxCall` (resumption token 5) and the callee has
done its `ctxBegin`: the context is at level 1, which holds no reservation. -/
def demoNested : Sched :=
  Run.get (ctxBegin (demoAllocated.put (TaskRef.slot 1)
    (callEntryRecord (some 3) 5 (demoAllocated.taskMem.getD 1 Task.zero) 0)))

/-- Sample: `demoNested` after the callee reserved 40 bytes at level 1. -/
def demoNestedAlloc : Sched := Run.get (ctxAllocate 40 demoNested)

/-! ## Sample states for the clock -/

/-- Sample: `demoRunning` when the clock has reached tick `2^32 - 10`. -/
def demoLateTick : Sched := { demoRunning with s_curTick := 2 ^ 32 - 10 }

/-! ## Sample states for the level bound -/

/-- The tasks designated by the links the walk of `selectNextTask` follows from
the record at `r`: `nextMain`, `prevSec` and `nextSec`. -/
def walkLinks (s : Sched) (r : TaskRef) : List TaskRef :=
  match s.task? r with
  | none => []
  | some t => t.nextMain.toList ++ t.prevSec.toList ++ t.nextSec.toList

/-- The set `R` of task addresses is closed under the links the walk follows:
every member is backed by memory and each of its walk links designates a member. -/
def walkClosed (s : Sched) (R : List TaskRef) : Bool :=
  R.all (fun r => (s.task? r).isSome && (walkLinks s r).all (fun x => decide (x ∈ R)))

/-- Sample: `demoFamily` after its newest child (slot 3) was freed. -/
def demoOrphaned : Sched := Run.get (task_free 8 (some (TaskRef.slot 3)) demoFamily)

/-- Sample: the registry of `demoHalted` after `task_freeAll`. -/
def demoCleared : Sched := Run.get (task_freeAll demoHalted)

/-! ## Hierarchies built from the root -/

/-- The hierarchies built from the root by `createTask` and `pushTask`: the
registry is created, tasks are pushed and created, any task in use may be the
current one, the clock may stand at any tick, and the fields of a task other
than its chain links may be written (`task_setNextTick`, `task_makeActive`, the
context writes of the control primitives). No task is freed. -/
inductive Built : Sched → Prop where
  | fresh (tick limit : Nat) : Built (createRootTask (Sched.init tick limit))
  | push {s s' : Sched} {func : TaskFunc} {fb : Bool} {lrf : TaskFunc} {c : TaskRef} :
      Built s → pushTask func fb lrf s = .ok (c, s') → Built s'
  | create {s s' : Sched} {func lrf : TaskFunc} {c : TaskRef} :
      Built s → createTask func lrf s = .ok (c, s') → Built s'
  | current {s : Sched} {r : TaskRef} :
      Built s → isLive s r = true → Built { s with s_curTask := some r }
  | clock {s : Sched} (tick : Nat) : Built s → Built { s with s_curTick := tick }
  | control {s : Sched} (id : Int) (ctx resume : TaskPtr) :
      Built s → Built { s with s_currentId := id, s_curContext := ctx, s_resumeTask := resume }
  | write {s s' : Sched} {r : TaskRef} (f : Task → Task) :
      Built s →
      (∀ t, (f t).prevMain = t.prevMain ∧ (f t).nextMain = t.nextMain ∧
        (f t).prevSec = t.prevSec ∧ (f t).nextSec = t.nextSec) →
      s.store (some r) f = .ok s' → Built s'

/-- From `x`, following `prevSec` exactly `k` times leads to `y`. -/
def prevSecPath (s : Sched) : Nat → TaskRef → TaskRef → Prop
  | 0, x, y => x = y
  | k + 1, x, y => ∃ t c, s.task? x = some t ∧ t.prevSec = some c ∧ prevSecPath s k c y

/-- The task at `y` has no child: its `prevSec` is null. -/
def isLeaf (s : Sched) (y : TaskRef) : Prop :=
  ∃ t, s.task? y = some t ∧ t.prevSec = none

/-- One turn of the loop of `selectNextTask` at the task `x` yields the candidate
`y`: either `x` has a `nextMain`, and `y` is the childless task reached from it
by following `prevSec`, or `x` has no `nextMain` and `y` is its `nextSec`. -/
def WalkStep (s : Sched) (x y : TaskRef) : Prop :=
  ∃ t, s.task? x = some t ∧
    ((∃ n k, t.nextMain = some n ∧ prevSecPath s k n y ∧ isLeaf s y) ∨
      (t.nextMain = none ∧ t.nextSec = some y))

/-- The shape of a hierarchy built from the root: no slot was given back, the
cursor is the root, the current task is in use, the root has a `nextMain`; every
task in use is backed by memory and its walk links designate tasks in use; from
every task in use the descent through `prevSec` ends; a task that is a
`nextSec` target has a child; `prevSec` designates a task from one task only,
and never a task that is also a `nextMain` target; and from every task in use
the turns of the walk lead to every task in use. -/
structure Hier (s : Sched) : Prop where
  nofree : ∃ arr, s.s_tasks = some arr ∧ arr.freeSlots = []
  iter : s.s_taskIter = some TaskRef.root
  cur : ∃ r, s.s_curTask = some r ∧ isLive s r = true
  rootMain : s.s_rootTask.nextMain.isSome = true
  links : ∀ r, isLive s r = true → ∃ t, s.task? r = some t ∧
    (∀ x, t.nextMain = some x → isLive s x = true) ∧
    (∀ x, t.prevSec = some x → isLive s x = true) ∧
    (∀ x, t.nextSec = some x → isLive s x = true)
  descent : ∀ r, isLive s r = true → ∃ k y, prevSecPath s k r y ∧ isLeaf s y
  parent : ∀ x t p, isLive s x = true → s.task? x = some t → t.nextSec = some p →
    ∃ tp, s.task? p = some tp ∧ tp.prevSec.isSome = true
  head : ∀ a b ta tb z, isLive s a = true → isLive s b = true → s.task? a = some ta →
    s.task? b = some tb → ta.prevSec = some z → tb.prevSec = some z → a = b
  newest : ∀ a x ta tx z, isLive s a = true → isLive s x = true → s.task? a = some ta →
    s.task? x = some tx → ta.prevSec = some z → tx.nextMain ≠ some z
  conn : ∀ a b, isLive s a = true → isLive s b = true → Relation.TransGen (WalkStep s) a b

/-- Sample: at tick 10 one ordinary task is pushed on a fresh registry and put to
sleep until tick 50; the current task is the root. No task is due and none is a
frame-break task. -/
def demoIdle : Sched := Run.get (do
  let (a, s1) ← pushTask (some 1) false none (Sched.init 10 64)
  task_setNextTick (some a) 50 s1)

/-- The state in which the frame loop of `task_run`, entered in `s` with current
task `cur`, calls the task's function: `s_resumeTask` is `cur` when the task is a
frame-break task, and `s_curContext` is the context of `cur`. -/
def dispatchState (s : Sched) (cur : TaskRef) (framebreak : Bool) : Sched :=
  { (if framebreak then { s with s_resumeTask := some cur } else s) with s_curContext := some cur }

/-- Sample: `demoYielded` one tick later, when the task that yielded is due. -/
def demoNextFrame : Sched := { demoYielded with s_curTick := 11 }

/-- Sample: the outcome of one frame of `demoNextFrame`. -/
def demoNextFrameEnd : Sched × List Dispatch :=
  match task_run demoProg 8 demoNextFrame with
  | .ok r => r
  | .error _ => (Sched.init 0 0, [])

/-- Sample task functions: function 5 enters its level and returns, then, back
at the caller's level, calls function 2 of `demoProg` (which yields) and returns
once more; every other function is as in `demoProg`. -/
def demoRecall : Prog := fun n id s =>
  if n = 5 then
    ctxBegin s >>= ctxReturn 8 >>= fun s1 =>
      ctxCall demoProg (some 2) id 9 s1 >>= fun r => ctxReturn 8 r.2
  else demoProg n id s

/-- Sample: the outcome of the call of function 5 of `demoRecall` by the task of
`demoNested`, at level 1. -/
def demoRecalled : Bool × Sched :=
  match ctxCall demoRecall (some 5) 0 5 demoNested with
  | .ok r => r
  | .error _ => (true, Sched.init 0 0)

/-! # Theorems -/

/-! ## Memory access -/

theorem load_some_iff (s : Sched) (r : TaskRef) (t : Task) :
    s.load (some r) = .ok t ↔ s.task? r = some t := by
  unfold Sched.load
  cases h : s.task? r <;> simp [h]

theorem load_ok_ref {s : Sched} {p : TaskPtr} {t : Task} (h : s.load p = .ok t) :
    ∃ r, p = some r ∧ s.task? r = some t := by
  cases p with
  | none => simp [Sched.load] at h
  | some r => exact ⟨r, rfl, (load_some_iff s r t).1 h⟩

theorem accepts_true_iff (s : Sched) (t : Task) :
    accepts s t = true ↔ (t.nextTick ≤ s.s_curTick ∨ t.framebreak = true) := by
  simp [accepts]

theorem accepts_false_iff (s : Sched) (t : Task) :
    accepts s t = false ↔ (¬ t.nextTick ≤ s.s_curTick ∧ t.framebreak = false) := by
  simp [accepts]

theorem bind_ok {α β : Type} {x : Run α} {f : α → Run β} {b : β}
    (h : (x >>= f) = .ok b) : ∃ a, x = .ok a ∧ f a = .ok b := by
  cases x with
  | error e => cases h
  | ok a => exact ⟨a, rfl, h⟩

theorem task?_congr {s s' : Sched} (h1 : s'.taskMem = s.taskMem)
    (h2 : s'.s_rootTask = s.s_rootTask) (r : TaskRef) : s'.task? r = s.task? r := by
  cases r with
  | root => simp [Sched.task?, h2]
  | slot i => simp [Sched.task?, h1]

theorem task?_put_same {s : Sched} {r : TaskRef} {t0 : Task} (t : Task)
    (h : s.task? r = some t0) : (s.put r t).task? r = some t := by
  cases r with
  | root => rfl
  | slot i =>
    simp only [Sched.task?, Sched.put] at h ⊢
    have hi : i < s.taskMem.length := by
      by_contra hc
      rw [List.getElem?_eq_none (by omega)] at h
      cases h
    simp [List.getElem?_set, hi]

theorem task?_put_other {s : Sched} {r r' : TaskRef} (t : Task) (h : r' ≠ r) :
    (s.put r t).task? r' = s.task? r' := by
  cases r with
  | root =>
    cases r' with
    | root => exact absurd rfl h
    | slot j => rfl
  | slot i =>
    cases r' with
    | root => rfl
    | slot j =>
      simp only [Sched.task?, Sched.put]
      have : i ≠ j := fun e => h (by rw [e])
      simp [List.getElem?_set, this]

theorem store_eq {s : Sched} {r : TaskRef} {t : Task} (f : Task → Task)
    (h : s.task? r = some t) : s.store (some r) f = .ok (s.put r (f t)) := by
  simp [Sched.store, Sched.load, h]

theorem store_ok_inv {s s' : Sched} {p : TaskPtr} {f : Task → Task}
    (h : s.store p f = .ok s') :
    ∃ r t, p = some r ∧ s.task? r = some t ∧ s' = s.put r (f t) := by
  cases p with
  | none => simp [Sched.store, Sched.load] at h
  | some r =>
    cases ht : s.task? r with
    | none => simp [Sched.store, Sched.load, ht] at h
    | some t =>
      rw [store_eq f ht] at h
      cases h
      exact ⟨r, t, rfl, ht, rfl⟩

/-- The records after a store: the target is replaced, the others are kept. -/
theorem store_task? {s s' : Sched} {p : TaskPtr} {f : Task → Task}
    (h : s.store p f = .ok s') (r : TaskRef) :
    s'.task? r = if p = some r then (s.task? r).map f else s.task? r := by
  obtain ⟨x, t, hp, ht, hs⟩ := store_ok_inv h
  subst hp hs
  by_cases hr : r = x
  · subst hr
    simp [task?_put_same _ ht, ht]
  · have : ¬ (some x = some r) := fun e => hr (by cases e; rfl)
    simp [task?_put_other _ hr, this]

/-- A store changes no scheduler variable. -/
theorem store_globals {s s' : Sched} {p : TaskPtr} {f : Task → Task}
    (h : s.store p f = .ok s') :
    s'.s_tasks = s.s_tasks ∧ s'.s_stackBlocks = s.s_stackBlocks ∧
    s'.s_taskCount = s.s_taskCount ∧ s'.s_taskIter = s.s_taskIter ∧
    s'.s_curTask = s.s_curTask ∧ s'.s_resumeTask = s.s_resumeTask ∧
    s'.s_currentId = s.s_currentId ∧ s'.s_curContext = s.s_curContext ∧
    s'.s_curTick = s.s_curTick ∧ s'.arenaLimit = s.arenaLimit := by
  obtain ⟨x, t, hp, ht, hs⟩ := store_ok_inv h
  subst hs
  cases x <;> simp [Sched.put]

@[simp] theorem put_s_curTask (s : Sched) (r : TaskRef) (t : Task) :
    (s.put r t).s_curTask = s.s_curTask := by cases r <;> rfl

@[simp] theorem put_s_curTick (s : Sched) (r : TaskRef) (t : Task) :
    (s.put r t).s_curTick = s.s_curTick := by cases r <;> rfl

@[simp] theorem put_s_curContext (s : Sched) (r : TaskRef) (t : Task) :
    (s.put r t).s_curContext = s.s_curContext := by cases r <;> rfl

@[simp] theorem put_s_currentId (s : Sched) (r : TaskRef) (t : Task) :
    (s.put r t).s_currentId = s.s_currentId := by cases r <;> rfl

@[simp] theorem put_s_tasks (s : Sched) (r : TaskRef) (t : Task) :
    (s.put r t).s_tasks = s.s_tasks := by cases r <;> rfl

@[simp] theorem put_s_stackBlocks (s : Sched) (r : TaskRef) (t : Task) :
    (s.put r t).s_stackBlocks = s.s_stackBlocks := by cases r <;> rfl

@[simp] theorem put_s_taskCount (s : Sched) (r : TaskRef) (t : Task) :
    (s.put r t).s_taskCount = s.s_taskCount := by cases r <;> rfl

@[simp] theorem put_s_taskIter (s : Sched) (r : TaskRef) (t : Task) :
    (s.put r t).s_taskIter = s.s_taskIter := by cases r <;> rfl

@[simp] theorem put_s_resumeTask (s : Sched) (r : TaskRef) (t : Task) :
    (s.put r t).s_resumeTask = s.s_resumeTask := by cases r <;> rfl

@[simp] theorem put_put (s : Sched) (r : TaskRef) (a b : Task) :
    (s.put r a).put r b = s.put r b := by
  cases r with
  | root => rfl
  | slot i => simp [Sched.put]

theorem ctx_eq {s : Sched} {r : TaskRef} {t : Task} (hc : s.s_curContext = some r)
    (ht : s.task? r = some t) : s.ctx = .ok t.context := by
  simp [Sched.ctx, Sched.load, hc, ht]

theorem storeCtx_eq {s : Sched} {r : TaskRef} {t : Task} (f : TaskContext → TaskContext)
    (ht : s.task? r = some t) :
    s.storeCtx (some r) f = .ok (s.put r { t with context := f t.context }) := by
  simp [Sched.storeCtx, store_eq _ ht]

theorem ok_bind {α β : Type} (a : α) (f : α → Run β) : ((Except.ok a : Run α) >>= f) = f a := rfl

theorem error_bind {α β : Type} (e : Fault) (f : α → Run β) :
    ((Except.error e : Run α) >>= f) = .error e := rfl

theorem check_bind {β : Type} {c : Prop} [Decidable c] (f : Unit → Run β) (h : c) :
    (check c >>= f) = f () := by
  simp [check, h, ok_bind]

theorem load_put_same {s : Sched} {r : TaskRef} {t0 : Task} (a : Task)
    (ht : s.task? r = some t0) : (s.put r a).load (some r) = .ok a :=
  (load_some_iff _ _ _).2 (task?_put_same a ht)

theorem store_put_same {s : Sched} {r : TaskRef} {t0 : Task} (a : Task) (f : Task → Task)
    (ht : s.task? r = some t0) : (s.put r a).store (some r) f = .ok (s.put r (f a)) := by
  rw [store_eq f (task?_put_same a ht), put_put]

theorem storeCtx_put_same {s : Sched} {r : TaskRef} {t0 : Task} (a : Task)
    (f : TaskContext → TaskContext) (ht : s.task? r = some t0) :
    (s.put r a).storeCtx (some r) f = .ok (s.put r { a with context := f a.context }) := by
  rw [storeCtx_eq f (task?_put_same a ht), put_put]

theorem ctx_put_same {s : Sched} {r : TaskRef} {t0 : Task} (a : Task)
    (hc : s.s_curContext = some r) (ht : s.task? r = some t0) :
    (s.put r a).ctx = .ok a.context :=
  ctx_eq (by rw [put_s_curContext]; exact hc) (task?_put_same a ht)

theorem LevelArray.get_set_same {α : Type} [Inhabited α] (xs : LevelArray α) (i : Nat) (v : α)
    (h : i < 16) : (xs.set i v).get i = v := by
  simp [LevelArray.get, LevelArray.set, List.getD_eq_getElem?_getD, List.getElem?_set, xs.size_eq, h]

theorem LevelArray.get_set_other {α : Type} [Inhabited α] (xs : LevelArray α) (i j : Nat) (v : α)
    (h : i ≠ j) : (xs.set i v).get j = xs.get j := by
  simp [LevelArray.get, LevelArray.set, List.getD_eq_getElem?_getD, List.getElem?_set, h]

theorem LevelArray.read_eq {α : Type} [Inhabited α] (xs : LevelArray α) (k : Nat) (h : k < 16) :
    xs.read (k : Int) = .ok (xs.get k) := by
  have : (0 : Int) ≤ k ∧ (k : Int) < 16 := ⟨by omega, by omega⟩
  simp [LevelArray.read, this]

/-! ## `selectNextTask` -/

theorem walk_spec (s : Sched) : ∀ (fuel : Nat) (task : TaskPtr) (passed : List TaskRef) (w : Walk),
    selectNextTask.walk s fuel task passed = .ok w →
    (∀ r, w.selected = some r → ∃ t, s.task? r = some t ∧ accepts s t = true) ∧
    (∀ r ∈ w.passed, r ∈ passed ∨ ∃ t, s.task? r = some t ∧ accepts s t = false) := by
  intro fuel
  induction fuel with
  | zero => intro task passed w h; simp [selectNextTask.walk] at h
  | succ n ih =>
    intro task passed w h
    unfold selectNextTask.walk at h
    split at h
    · cases h
    · rename_i t ht
      split at h
      · rename_i nm hnm
        split at h
        · cases h
        · rename_i c hc
          split at h
          · cases h
          · rename_i cand hcand
            have hcand' := (load_some_iff s c cand).1 hcand
            split at h
            · rename_i hacc
              cases h
              refine ⟨?_, ?_⟩
              · intro r hr
                simp at hr
                subst hr
                exact ⟨cand, hcand', hacc⟩
              · intro r hr; exact Or.inl hr
            · rename_i hacc
              obtain ⟨h1, h2⟩ := ih _ _ _ h
              refine ⟨h1, ?_⟩
              intro r hr
              rcases h2 r hr with h3 | h3
              · rcases List.mem_append.1 h3 with h4 | h4
                · exact Or.inl h4
                · simp at h4
                  subst h4
                  exact Or.inr ⟨cand, hcand', by simpa using hacc⟩
              · exact Or.inr h3
      · split at h
        · rename_i nm hnm
          split at h
          · cases h
          · rename_i cand hcand
            have hcand' := (load_some_iff s nm cand).1 hcand
            split at h
            · rename_i hacc
              cases h
              refine ⟨?_, ?_⟩
              · intro r hr
                simp at hr
                subst hr
                exact ⟨cand, hcand', hacc⟩
              · intro r hr; exact Or.inl hr
            · rename_i hacc
              obtain ⟨h1, h2⟩ := ih _ _ _ h
              refine ⟨h1, ?_⟩
              intro r hr
              rcases h2 r hr with h3 | h3
              · rcases List.mem_append.1 h3 with h4 | h4
                · exact Or.inl h4
                · simp at h4
                  subst h4
                  exact Or.inr ⟨cand, hcand', by simpa using hacc⟩
              · exact Or.inr h3
        · cases h
          refine ⟨?_, ?_⟩
          · intro r hr; simp at hr
          · intro r hr; exact Or.inl hr

theorem selectNextTask_records {fuel : Nat} {s s' : Sched} (h : selectNextTask fuel s = .ok s') :
    (∀ r, s'.task? r = s.task? r) ∧ s'.s_curTick = s.s_curTick ∧
      s'.s_curContext = s.s_curContext ∧ s'.s_taskCount = s.s_taskCount ∧
      s'.s_tasks = s.s_tasks ∧ s'.s_stackBlocks = s.s_stackBlocks := by
  unfold selectNextTask at h
  split at h
  · cases h
  · split at h
    · cases h
      exact ⟨fun r => task?_congr rfl rfl r, rfl, rfl, rfl, rfl, rfl⟩
    · cases h
      exact ⟨fun _ => rfl, rfl, rfl, rfl, rfl, rfl⟩

/-- C1: whenever `selectNextTask` returns, the state differs from the one it
started in at most in `s_curTask` and `s_currentId` (no task record is touched);
if the current task changed, `s_currentId` is 0 and the new current task is due
(`nextTick <= s_curTick`) or a frame-break task; and every candidate the walk
examined and passed over (`w.passed`) is neither due nor a frame-break task. -/
theorem selectNextTask_selects_due_or_framebreak (fuel : Nat) (s s' : Sched)
    (h : selectNextTask fuel s = .ok s') :
    s' = { s with s_curTask := s'.s_curTask, s_currentId := s'.s_currentId } ∧
    (s'.s_curTask ≠ s.s_curTask →
      s'.s_currentId = 0 ∧
      ∃ r t, s'.s_curTask = some r ∧ s'.task? r = some t ∧
        (t.nextTick ≤ s'.s_curTick ∨ t.framebreak = true)) ∧
    (∃ w, selectNextTask.walk s fuel s.s_curTask [] = .ok w ∧
      (w.selected = none → s' = s) ∧
      (∀ r, w.selected = some r → s'.s_curTask = some r ∧ s'.s_currentId = 0) ∧
      ∀ r ∈ w.passed, ∃ t, s'.task? r = some t ∧
        ¬ t.nextTick ≤ s'.s_curTick ∧ t.framebreak = false) := by
  unfold selectNextTask at h
  split at h
  · cases h
  · rename_i w hw
    obtain ⟨h1, h2⟩ := walk_spec s fuel s.s_curTask [] w hw
    split at h
    · rename_i r hr
      cases h
      refine ⟨rfl, ?_, w, hw, ?_, ?_, ?_⟩
      · intro _
        obtain ⟨t, ht, hacc⟩ := h1 r hr
        exact ⟨rfl, r, t, rfl, by cases r <;> exact ht, (accepts_true_iff s t).1 hacc⟩
      · intro hn; rw [hn] at hr; cases hr
      · intro r' hr'; rw [hr] at hr'; cases hr'; exact ⟨rfl, rfl⟩
      · intro r' hr'
        rcases h2 r' hr' with h3 | ⟨t, ht, hacc⟩
        · cases h3
        · exact ⟨t, by cases r' <;> exact ht, (accepts_false_iff s t).1 hacc⟩
    · rename_i hr
      cases h
      refine ⟨rfl, ?_, w, hw, ?_, ?_, ?_⟩
      · intro hne; exact absurd rfl hne
      · intro _; rfl
      · intro r' hr'; rw [hr] at hr'; cases hr'
      · intro r' hr'
        rcases h2 r' hr' with h3 | ⟨t, ht, hacc⟩
        · cases h3
        · exact ⟨t, ht, (accepts_false_iff s t).1 hacc⟩

/-- Witness for C1: in the sample state the walk from the root passes over the
sleeping task in slot 1 and selects the due task in slot 0. -/
theorem selectNextTask_selects_due_or_framebreak_witness :
    selectNextTask 4 demoPush2 = .ok demoPush2Sel ∧
      selectNextTask.walk demoPush2 4 demoPush2.s_curTask []
        = .ok ⟨some (TaskRef.slot 0), [TaskRef.slot 1]⟩ ∧
      (demoPush2Sel.s_curTask ≠ demoPush2.s_curTask →
        demoPush2Sel.s_currentId = 0 ∧
        ∃ r t, demoPush2Sel.s_curTask = some r ∧ demoPush2Sel.task? r = some t ∧
          (t.nextTick ≤ demoPush2Sel.s_curTick ∨ t.framebreak = true)) :=
  ⟨by decide, by decide,
    (selectNextTask_selects_due_or_framebreak 4 demoPush2 demoPush2Sel (by decide)).2.1⟩

/-! ## The secondary chain is drained newest first -/

/-- Selection step through `nextMain` into a childless task. -/
theorem selectNextTask_nextMain_leaf (fuel : Nat) (s : Sched) (x y : TaskRef) (tx ty : Task)
    (hcur : s.s_curTask = some x) (hx : s.task? x = some tx) (hxy : tx.nextMain = some y)
    (hy : s.task? y = some ty) (hleaf : ty.prevSec = none) (hacc : accepts s ty = true) :
    selectNextTask (fuel + 1) s = .ok { s with s_currentId := 0, s_curTask := some y } := by
  simp [selectNextTask, selectNextTask.walk, selectNextTask.descend, Sched.load, hcur, hx, hxy, hy,
    hleaf, hacc]

/-- Selection step through `nextMain` into a task with one level of children. -/
theorem selectNextTask_nextMain_child (fuel : Nat) (s : Sched) (x y c : TaskRef) (tx ty tc : Task)
    (hcur : s.s_curTask = some x) (hx : s.task? x = some tx) (hxy : tx.nextMain = some y)
    (hy : s.task? y = some ty) (hyc : ty.prevSec = some c)
    (hc : s.task? c = some tc) (hleaf : tc.prevSec = none) (hacc : accepts s tc = true) :
    selectNextTask (fuel + 2) s = .ok { s with s_currentId := 0, s_curTask := some c } := by
  simp [selectNextTask, selectNextTask.walk, selectNextTask.descend, Sched.load, hcur, hx, hxy, hy,
    hyc, hc, hleaf, hacc]

/-- Selection step through `nextSec`. -/
theorem selectNextTask_nextSec (fuel : Nat) (s : Sched) (x y : TaskRef) (tx ty : Task)
    (hcur : s.s_curTask = some x) (hx : s.task? x = some tx) (hxm : tx.nextMain = none)
    (hxy : tx.nextSec = some y)
    (hy : s.task? y = some ty) (hacc : accepts s ty = true) :
    selectNextTask (fuel + 1) s = .ok { s with s_currentId := 0, s_curTask := some y } := by
  simp [selectNextTask, selectNextTask.walk, Sched.load, hcur, hx, hxy, hxm, hy, hacc]

theorem createTask_fill_links (s : Sched) {s' : Sched} {c P : TaskRef} {tP : Task} {f l : TaskFunc}
    (hcur : s.s_curTask = some P) (hP : s.task? P = some tP) (hne : c ≠ P)
    (h : createTask.fill f l c s = .ok s') :
    s'.s_curTask = some P ∧ s'.s_curTick = s.s_curTick ∧ s'.s_tasks = s.s_tasks ∧
    (∃ t, s'.task? c = some t ∧ t.nextMain = tP.prevSec ∧ t.nextSec = some P ∧
      t.prevSec = none ∧ t.nextTick = 0) ∧
    (∃ t, s'.task? P = some t ∧ t.prevSec = some c ∧ t.walkView = tP.walkView) ∧
    (∀ r t, r ≠ c → s.task? r = some t →
      ∃ t', s'.task? r = some t' ∧ t'.walkView = t.walkView ∧ (r ≠ P → t'.prevSec = t.prevSec)) := by
  unfold createTask.fill at h
  obtain ⟨cur, hcur0, h1⟩ := bind_ok h; clear h
  obtain ⟨s3, hs3, h2⟩ := bind_ok h1; clear h1
  obtain ⟨cur3, hcur3, h3⟩ := bind_ok h2; clear h2
  obtain ⟨s4, hs4, h4⟩ := bind_ok h3; clear h3
  obtain ⟨s5, hs5, hs6⟩ := bind_ok h4; clear h4
  rw [hcur, load_some_iff, hP] at hcur0
  cases hcur0
  have hne' : ¬ (some c = some P) := fun e => hne (by cases e; rfl)
  have hne'' : ¬ (some P = some c) := fun e => hne (by cases e; rfl)
  have g3 := store_globals hs3
  have k3 := store_task? hs3
  have g5 := store_globals hs5
  have k5 := store_task? hs5
  have g6 := store_globals hs6
  have k6 := store_task? hs6
  have hs3P : s3.task? P = some tP := by rw [k3 P, if_neg hne']; exact hP
  rw [g3.2.2.2.2.1, hcur, load_some_iff, hs3P] at hcur3
  cases hcur3
  have g4 : s4.s_curTask = s3.s_curTask ∧ s4.s_curTick = s3.s_curTick ∧ s4.s_tasks = s3.s_tasks := by
    split at hs4
    · have := store_globals hs4
      exact ⟨this.2.2.2.2.1, this.2.2.2.2.2.2.2.2.1, this.1⟩
    · cases hs4; exact ⟨rfl, rfl, rfl⟩
  have k4 : ∀ r, ∃ g : Task → Task, (∀ t, (g t).walkView = t.walkView ∧ (g t).prevSec = t.prevSec) ∧
      s4.task? r = (s3.task? r).map g := by
    intro r
    split at hs4
    · rename_i hd _
      have := store_task? hs4 r
      by_cases e : some hd = some r
      · rw [if_pos e] at this
        exact ⟨fun t => { t with prevMain := some c }, fun t => ⟨rfl, rfl⟩, this⟩
      · rw [if_neg e] at this
        exact ⟨fun t => t, fun t => ⟨rfl, rfl⟩, by simpa using this⟩
    · cases hs4
      exact ⟨fun t => t, fun t => ⟨rfl, rfl⟩, by simp⟩
  have hcur4 : s4.s_curTask = some P := by rw [g4.1, g3.2.2.2.2.1]; exact hcur
  rw [hcur4] at k5
  refine ⟨?_, ?_, ?_, ?_, ?_, ?_⟩
  · rw [g6.2.2.2.2.1, g5.2.2.2.2.1]; exact hcur4
  · rw [g6.2.2.2.2.2.2.2.2.1, g5.2.2.2.2.2.2.2.2.1, g4.2.1, g3.2.2.2.2.2.2.2.2.1]
  · rw [g6.1, g5.1, g4.2.2, g3.1]
  · obtain ⟨g, hg, hg4⟩ := k4 c
    have e := k6 c
    rw [if_pos rfl, k5 c, if_neg hne'', hg4, k3 c, if_pos rfl] at e
    obtain ⟨x, t, hp, ht, _⟩ := store_ok_inv hs3
    cases hp
    rw [ht] at e
    simp only [Option.map_some'] at e
    refine ⟨_, e, ?_, ?_, ?_, rfl⟩
    · have := congrArg (fun v => v.1) (hg { t with nextMain := tP.prevSec, prevMain := none, nextSec := s.s_curTask, prevSec := none, retTask := none, userData := 0, framebreak := false }).1
      simpa [Task.walkView] using this
    · have := congrArg (fun v => v.2.1) (hg { t with nextMain := tP.prevSec, prevMain := none, nextSec := s.s_curTask, prevSec := none, retTask := none, userData := 0, framebreak := false }).1
      simpa [Task.walkView, hcur] using this
    · have := (hg { t with nextMain := tP.prevSec, prevMain := none, nextSec := s.s_curTask, prevSec := none, retTask := none, userData := 0, framebreak := false }).2
      simpa using this
  · obtain ⟨g, hg, hg4⟩ := k4 P
    have e := k6 P
    rw [if_neg hne', k5 P, if_pos rfl, hg4, hs3P] at e
    simp only [Option.map_some'] at e
    refine ⟨_, e, rfl, ?_⟩
    have := (hg tP).1
    simpa [Task.walkView] using this
  · intro r t hr ht
    have hrc : ¬ (some c = some r) := fun e => hr (by cases e; rfl)
    obtain ⟨g, hg, hg4⟩ := k4 r
    have e := k6 r
    rw [if_neg hrc, k5 r, hg4, k3 r, if_neg hrc, ht] at e
    by_cases hrP : some P = some r
    · rw [if_pos hrP] at e
      simp only [Option.map_some'] at e
      refine ⟨_, e, ?_, ?_⟩
      · have := (hg t).1
        simpa [Task.walkView] using this
      · intro hn; exact absurd (by cases hrP; rfl) hn
    · rw [if_neg hrP] at e
      simp only [Option.map_some'] at e
      exact ⟨_, e, (hg t).1, fun _ => (hg t).2⟩

/-- Selection step through `nextMain` into the innermost task below the sibling. -/
theorem selectNextTask_nextMain_descend (fuel : Nat) (s : Sched) (x y d : TaskRef) (tx td : Task)
    (hcur : s.s_curTask = some x) (hx : s.task? x = some tx) (hxy : tx.nextMain = some y)
    (hd : selectNextTask.descend s (fuel + 1) y = .ok d)
    (htd : s.task? d = some td) (hacc : accepts s td = true) :
    selectNextTask (fuel + 1) s = .ok { s with s_currentId := 0, s_curTask := some d } := by
  simp [selectNextTask, selectNextTask.walk, Sched.load, hcur, hx, hxy, hd, htd, hacc]

theorem SecLinks_congr (s s' : Sched) (P : TaskRef) (hrec : ∀ r, s'.task? r = s.task? r)
    (htick : s'.s_curTick = s.s_curTick) :
    ∀ cs, SecLinks s P cs → SecLinks s' P cs := by
  intro cs
  induction cs with
  | nil => intro _; trivial
  | cons c rest ih =>
    intro h
    obtain ⟨⟨t, h1, h2, h3, h4, h5⟩, h6⟩ := h
    exact ⟨⟨t, by rw [hrec]; exact h1, h2, h3, h4, by rw [htick]; exact h5⟩, ih h6⟩

/-- Draining a secondary chain: from its head, the rest of the chain is selected
in order and then the parent. -/
theorem selectionOrder_drain (fuel : Nat) (P : TaskRef) (tP : Task) :
    ∀ (rest : List TaskRef) (c : TaskRef) (s : Sched),
      s.s_curTask = some c → SecLinks s P (c :: rest) →
      s.task? P = some tP → tP.nextTick ≤ s.s_curTick →
      selectionOrder (fuel + 1) (rest.length + 1) s
        = .ok ((rest ++ [P]).map some, { s with s_currentId := 0, s_curTask := some P }) := by
  intro rest
  induction rest with
  | nil =>
    intro c s hcur hl hP hdue
    obtain ⟨⟨t, h1, _, h3, h4, _⟩, _⟩ := hl
    have hacc : accepts s tP = true := (accepts_true_iff s tP).2 (Or.inl hdue)
    have := selectNextTask_nextSec fuel s c P t tP hcur h1 (by simpa using h4) h3 hP hacc
    simp [selectionOrder, this]
  | cons c' rest' ih =>
    intro c s hcur hl hP hdue
    obtain ⟨⟨t, h1, _, _, h4, _⟩, hl'⟩ := hl
    obtain ⟨⟨t', g1, g2, _, _, g5⟩, _⟩ := id hl'
    have hacc : accepts s t' = true := (accepts_true_iff s t').2 (Or.inl g5)
    have hstep := selectNextTask_nextMain_leaf fuel s c c' t t' hcur h1 (by simpa using h4) g1 g2 hacc
    have hrec := ih c' { s with s_currentId := 0, s_curTask := some c' } rfl
      (SecLinks_congr s { s with s_currentId := 0, s_curTask := some c' } P (task?_congr rfl rfl) rfl _ hl') (by rw [task?_congr rfl rfl]; exact hP) hdue
    rw [selectionOrder, hstep]
    simp only [List.length_cons]
    rw [hrec]
    simp

theorem allocTask_fresh {s s1 : Sched} {c : TaskRef}
    (hok : arenaOK s = true) (h : allocTask s = .ok (some c, s1)) :
    arenaOK s1 = true ∧ isLive s1 c = true ∧
    (∀ r, isLive s r = true → isLive s1 r = true ∧ r ≠ c) ∧
    s1.s_curTask = s.s_curTask ∧ s1.s_curTick = s.s_curTick ∧
    (∀ r t, s.task? r = some t → s1.task? r = some t) := by
  unfold allocTask at h
  cases harr : s.s_tasks with
  | none => simp [harr] at h
  | some arr =>
    simp only [harr, Except.ok.injEq, Prod.mk.injEq] at h
    obtain ⟨hc, hs1⟩ := h
    subst hs1
    have hmem : ∀ r t, s.task? r = some t →
        ({ s with
            s_tasks := some (allocFromChunkedArray TaskRef.slot arr).2
            taskMem := s.taskMem ++ List.replicate
              ((allocFromChunkedArray TaskRef.slot arr).2.elemCount - s.taskMem.length) Task.zero }
          : Sched).task? r = some t := by
      intro r t hr
      cases r with
      | root => exact hr
      | slot i =>
        simp only [Sched.task?] at hr ⊢
        have hi : i < s.taskMem.length := by
          by_contra hc
          rw [List.getElem?_eq_none (by omega)] at hr
          cases hr
        rw [List.getElem?_append_left hi]
        exact hr
    simp only [arenaOK, harr, Bool.and_eq_true, decide_eq_true_eq, List.all_eq_true] at hok
    obtain ⟨hnd, hall⟩ := hok
    have hfacts : arenaOK { s with
            s_tasks := some (allocFromChunkedArray TaskRef.slot arr).2
            taskMem := s.taskMem ++ List.replicate
              ((allocFromChunkedArray TaskRef.slot arr).2.elemCount - s.taskMem.length) Task.zero }
          = true ∧
        isLive { s with
            s_tasks := some (allocFromChunkedArray TaskRef.slot arr).2
            taskMem := s.taskMem ++ List.replicate
              ((allocFromChunkedArray TaskRef.slot arr).2.elemCount - s.taskMem.length) Task.zero } c
          = true ∧
        ∀ r, isLive s r = true →
          isLive { s with
            s_tasks := some (allocFromChunkedArray TaskRef.slot arr).2
            taskMem := s.taskMem ++ List.replicate
              ((allocFromChunkedArray TaskRef.slot arr).2.elemCount - s.taskMem.length) Task.zero } r
            = true ∧ r ≠ c := by
      simp only [arenaOK, isLive, harr, Bool.and_eq_true, decide_eq_true_eq, List.all_eq_true]
      cases hfree : arr.freeSlots with
      | nil =>
        by_cases hcap : arr.elemCount < arr.capacity
        · simp only [allocFromChunkedArray, hfree, hcap, if_true, Option.some.injEq] at hc ⊢
          subst hc
          refine ⟨⟨List.nodup_nil, fun x hx => by cases hx⟩, ⟨List.not_mem_nil _, by simp⟩, ?_⟩
          intro r hr
          cases r with
          | root => exact ⟨⟨List.not_mem_nil _, rfl⟩, fun e => by cases e⟩
          | slot i =>
            have hi : i < arr.elemCount := by simpa using hr.2
            refine ⟨⟨List.not_mem_nil _, by simp; omega⟩, fun e => ?_⟩
            cases e
            omega
        · simp [allocFromChunkedArray, hfree, hcap] at hc
      | cons p rest =>
        simp only [allocFromChunkedArray, hfree, Option.some.injEq] at hc ⊢
        subst hc
        rw [hfree] at hnd hall
        have hp := hall p (List.mem_cons_self _ _)
        refine ⟨⟨(List.nodup_cons.1 hnd).2, fun x hx => hall x (List.mem_cons_of_mem _ hx)⟩,
          ⟨(List.nodup_cons.1 hnd).1, ?_⟩, ?_⟩
        · cases p with
          | root => simp at hp
          | slot i => simpa using hp
        · intro r hr
          refine ⟨⟨fun hm => hr.1 (List.mem_cons_of_mem _ hm), hr.2⟩, fun e => ?_⟩
          exact hr.1 (by rw [e]; exact List.mem_cons_self _ _)
    exact ⟨hfacts.1, hfacts.2.1, hfacts.2.2, rfl, rfl, hmem⟩

/-- The effect of one `createTask` on the hierarchy below the current task `P`. -/
theorem createTask_chain {s s' : Sched} {c P : TaskRef} {tP : Task} {f l : TaskFunc}
    (hok : arenaOK s = true) (hcur : s.s_curTask = some P) (hP : s.task? P = some tP)
    (hlive : isLive s P = true) (h : createTask f l s = .ok (c, s')) :
    arenaOK s' = true ∧ isLive s' c = true ∧
    (∀ r, isLive s r = true → isLive s' r = true ∧ r ≠ c) ∧
    s'.s_curTask = some P ∧ s'.s_curTick = s.s_curTick ∧
    (∃ t, s'.task? c = some t ∧ t.nextMain = tP.prevSec ∧ t.nextSec = some P ∧
      t.prevSec = none ∧ t.nextTick = 0) ∧
    (∃ t, s'.task? P = some t ∧ t.prevSec = some c ∧ t.walkView = tP.walkView) ∧
    (∀ r t, r ≠ c → s.task? r = some t →
      ∃ t', s'.task? r = some t' ∧ t'.walkView = t.walkView ∧ (r ≠ P → t'.prevSec = t.prevSec)) := by
  have hsome : s.s_tasks.isSome = true := by
    cases hs : s.s_tasks with
    | none => simp [arenaOK, hs] at hok
    | some a => rfl
  unfold createTask at h
  simp only [hsome, if_true] at h
  split at h
  · cases h
  · cases h
  · rename_i newTask s1 ha
    split at h
    · cases h
    · rename_i s2 hfill
      simp only [Except.ok.injEq, Prod.mk.injEq] at h
      obtain ⟨h1, h2⟩ := h
      subst h1 h2
      obtain ⟨a1, a2, a3, a4, a5, a6⟩ := allocTask_fresh hok ha
      have hne : newTask ≠ P := fun e => (a3 P hlive).2 e.symm
      obtain ⟨b1, b2, b3, b4, b5, b6⟩ :=
        createTask_fill_links { s1 with s_taskCount := s1.s_taskCount + 1 }
          (by show s1.s_curTask = some P; rw [a4]; exact hcur)
          (by rw [task?_congr rfl rfl]; exact a6 P tP hP) hne hfill
      have hst : s2.s_tasks = s1.s_tasks := b3
      refine ⟨?_, ?_, ?_, b1, by rw [b2]; exact a5, b4, b5, ?_⟩
      · simpa [arenaOK, hst] using a1
      · simpa [isLive, hst] using a2
      · intro r hr
        have := a3 r hr
        exact ⟨by simpa [isLive, hst] using this.1, this.2⟩
      · intro r t hr ht
        exact b6 r t hr (by rw [task?_congr rfl rfl]; exact a6 r t ht)

theorem SecLinks_not_parent {s : Sched} {P : TaskRef} {tP : Task} {chain : List TaskRef}
    (hP : s.task? P = some tP) (hhead : tP.prevSec = chain.head?)
    (hl : SecLinks s P chain) : P ∉ chain := by
  intro hmem
  have hne : ∃ c rest, chain = c :: rest := by
    cases chain with
    | nil => cases hmem
    | cons c rest => exact ⟨c, rest, rfl⟩
  obtain ⟨c, rest, hc⟩ := hne
  have hsome : tP.prevSec = some c := by rw [hhead, hc]; rfl
  have hnone : ∀ l, SecLinks s P l → P ∈ l → tP.prevSec = none := by
    intro l
    induction l with
    | nil => intro _ h; cases h
    | cons x xs ih =>
      intro hl hm
      obtain ⟨⟨t, h1, h2, _⟩, hrest⟩ := hl
      rcases List.mem_cons.1 hm with e | e
      · subst e
        rw [hP] at h1
        cases h1
        exact h2
      · exact ih hrest e
  rw [hnone chain hl hmem] at hsome
  cases hsome

theorem SecLinks_frame {s s' : Sched} {P : TaskRef} (htick : s'.s_curTick = s.s_curTick) :
    ∀ chain, (∀ r ∈ chain, ∀ t, s.task? r = some t →
        ∃ t', s'.task? r = some t' ∧ t'.walkView = t.walkView ∧ t'.prevSec = t.prevSec) →
      SecLinks s P chain → SecLinks s' P chain := by
  intro chain
  induction chain with
  | nil => intro _ _; trivial
  | cons c rest ih =>
    intro hfr hl
    obtain ⟨⟨t, h1, h2, h3, h4, h5⟩, h6⟩ := hl
    obtain ⟨t', g1, g2, g3⟩ := hfr c (List.mem_cons_self _ _) t h1
    simp only [Task.walkView, Prod.mk.injEq] at g2
    refine ⟨⟨t', g1, by rw [g3]; exact h2, by rw [g2.2.1]; exact h3, by rw [g2.1]; exact h4,
      by rw [g2.2.2.1, htick]; exact h5⟩, ?_⟩
    exact ih (fun r hr => hfr r (List.mem_cons_of_mem _ hr)) h6

theorem createTask_inv {s s' : Sched} {c P Q : TaskRef} {nm : TaskPtr} {chain : List TaskRef}
    {f l : TaskFunc} (hinv : SecChainInv s P Q nm chain)
    (h : createTask f l s = .ok (c, s')) : SecChainInv s' P Q nm (c :: chain) := by
  obtain ⟨i1, i2, i3, i4, i5, ⟨tP, p1, p2, p3, p4⟩, i7, ⟨tQ, q1, q2⟩⟩ := hinv
  obtain ⟨a1, a2, a3, a4, a5, ⟨tc, c1, c2, c3, c4, c5⟩, ⟨tP', d1, d2, d3⟩, a8⟩ :=
    createTask_chain i1 i5 p1 i2 h
  simp only [Task.walkView, Prod.mk.injEq] at d3
  have hPnot : P ∉ chain := SecLinks_not_parent p1 p2 i7
  refine ⟨a1, (a3 P i2).1, (a3 Q i3).1, ?_, a4, ⟨tP', d1, by rw [d2]; rfl, ?_, ?_⟩, ⟨⟨tc, c1, c4, c3,
    by rw [c2]; exact p2, by rw [c5]; exact Nat.zero_le _⟩, ?_⟩, ?_⟩
  · intro x hx
    rcases List.mem_cons.1 hx with e | e
    · rw [e]; exact a2
    · exact (a3 x (i4 x e)).1
  · rw [d3.2.2.1, a5]; exact p3
  · rw [d3.1]; exact p4
  · refine SecLinks_frame a5 chain ?_ i7
    intro r hr t ht
    have hrc : r ≠ c := (a3 r (i4 r hr)).2
    have hrP : r ≠ P := fun e => hPnot (by rw [← e]; exact hr)
    obtain ⟨t', e1, e2, e3⟩ := a8 r t hrc ht
    exact ⟨t', e1, e2, e3 hrP⟩
  · obtain ⟨t', e1, e2, _⟩ := a8 Q tQ (a3 Q i3).2 q1
    simp only [Task.walkView, Prod.mk.injEq] at e2
    exact ⟨t', e1, by rw [e2.1]; exact q2⟩

theorem createTasks_inv {P Q : TaskRef} {nm : TaskPtr} :
    ∀ (fs : List TaskFunc) (s s' : Sched) (chain cs : List TaskRef),
      SecChainInv s P Q nm chain → createTasks fs s = .ok (cs, s') →
      SecChainInv s' P Q nm (cs.reverse ++ chain) ∧ cs.length = fs.length := by
  intro fs
  induction fs with
  | nil =>
    intro s s' chain cs hinv h
    simp only [createTasks, Except.ok.injEq, Prod.mk.injEq] at h
    obtain ⟨h1, h2⟩ := h
    subst h1 h2
    exact ⟨by simpa using hinv, rfl⟩
  | cons f fs ih =>
    intro s s' chain cs hinv h
    unfold createTasks at h
    split at h
    · cases h
    · rename_i c s1 hc
      split at h
      · cases h
      · rename_i r hr
        simp only [Except.ok.injEq, Prod.mk.injEq] at h
        obtain ⟨h1, h2⟩ := h
        subst h1 h2
        obtain ⟨k1, k2⟩ := ih s1 r.2 (c :: chain) r.1 (createTask_inv hinv hc) (by rw [hr])
        exact ⟨by simpa using k1, by simp [k2]⟩

theorem descend_congr (s s' : Sched) (hrec : ∀ r, s'.task? r = s.task? r) :
    ∀ (fuel : Nat) (r : TaskRef), selectNextTask.descend s' fuel r = selectNextTask.descend s fuel r := by
  intro fuel
  induction fuel with
  | zero => intro r; rfl
  | succ n ih =>
    intro r
    simp only [selectNextTask.descend, Sched.load, hrec]
    cases s.task? r with
    | none => rfl
    | some t =>
      simp only []
      cases t.prevSec with
      | none => rfl
      | some c => exact ih c

/-- From the main-chain predecessor of `P`: the secondary chain of `P` in order,
then `P`. -/
theorem selectionOrder_from_pred (fuel : Nat) (s : Sched) (P Q : TaskRef) (tP tQ : Task)
    (chain : List TaskRef) (hcur : s.s_curTask = some Q) (hQ : s.task? Q = some tQ)
    (hQP : tQ.nextMain = some P) (hP : s.task? P = some tP) (hhead : tP.prevSec = chain.head?)
    (hdue : tP.nextTick ≤ s.s_curTick) (hl : SecLinks s P chain) :
    selectionOrder (fuel + 2) (chain.length + 1) s
      = .ok ((chain ++ [P]).map some, { s with s_currentId := 0, s_curTask := some P }) := by
  cases chain with
  | nil =>
    have hacc : accepts s tP = true := (accepts_true_iff s tP).2 (Or.inl hdue)
    have := selectNextTask_nextMain_leaf (fuel + 1) s Q P tQ tP hcur hQ hQP hP (by simpa using hhead) hacc
    simp [selectionOrder, this]
  | cons c rest =>
    obtain ⟨⟨tc, c1, c2, _, _, c5⟩, _⟩ := id hl
    have hacc : accepts s tc = true := (accepts_true_iff s tc).2 (Or.inl c5)
    have hstep := selectNextTask_nextMain_child fuel s Q P c tQ tP tc hcur hQ hQP hP
      (by simpa using hhead) c1 c2 hacc
    have hrec := selectionOrder_drain (fuel + 1) P tP rest c
      { s with s_currentId := 0, s_curTask := some c } rfl
      (SecLinks_congr s { s with s_currentId := 0, s_curTask := some c } P (task?_congr rfl rfl) rfl _ hl)
      (by rw [task?_congr rfl rfl]; exact hP) hdue
    rw [selectionOrder, hstep]
    simp only [List.length_cons]
    rw [hrec]
    simp

/-- C2: let `P` be a due task without children that is current, `Q` a task whose
`nextMain` is `P`, both in use, and let `createTask` be called once for each
function of `fs`, creating `cs = [c1, ..., cn]` in this order. Then successive
`selectNextTask` calls started from `Q` select `cn, ..., c1` and then `P`; and
the call after that, started from `P`, moves on through `P.nextMain` (it selects
the innermost task `d` below the sibling `N` when `d` is acceptable). -/
theorem secondary_chain_drained_newest_first (fuel : Nat) (s s' : Sched) (P Q : TaskRef)
    (tP tQ : Task) (fs : List TaskFunc) (cs : List TaskRef)
    (harena : arenaOK s = true) (hliveP : isLive s P = true) (hliveQ : isLive s Q = true)
    (hcur : s.s_curTask = some P)
    (hP : s.task? P = some tP) (hnochild : tP.prevSec = none) (hdue : tP.nextTick ≤ s.s_curTick)
    (hQ : s.task? Q = some tQ) (hQP : tQ.nextMain = some P)
    (hcreate : createTasks fs s = .ok (cs, s')) :
    cs.length = fs.length ∧
    selectionOrder (fuel + 2) (cs.length + 1) { s' with s_curTask := some Q }
      = .ok ((cs.reverse ++ [P]).map some, { s' with s_curTask := some P, s_currentId := 0 }) ∧
    ∀ N d td, tP.nextMain = some N →
      selectNextTask.descend s' (fuel + 2) N = .ok d → s'.task? d = some td →
      accepts s' td = true →
      selectNextTask (fuel + 2) { s' with s_curTask := some P, s_currentId := 0 }
        = .ok { s' with s_curTask := some d, s_currentId := 0 } := by
  have hinv0 : SecChainInv s P Q tP.nextMain [] := by
    unfold SecChainInv
    exact ⟨harena, hliveP, hliveQ, fun c hc => absurd hc (List.not_mem_nil c), hcur,
      ⟨tP, hP, by simpa using hnochild, hdue, rfl⟩, trivial, ⟨tQ, hQ, hQP⟩⟩
  obtain ⟨hinv, hlen⟩ := createTasks_inv fs s s' [] cs hinv0 hcreate
  rw [List.append_nil] at hinv
  obtain ⟨_, _, _, _, _, ⟨tP', p1, p2, p3, p4⟩, i7, ⟨tQ', q1, q2⟩⟩ := hinv
  refine ⟨hlen, ?_, ?_⟩
  · have := selectionOrder_from_pred fuel { s' with s_curTask := some Q } P Q tP' tQ' cs.reverse rfl
      (by rw [task?_congr rfl rfl]; exact q1) q2 (by rw [task?_congr rfl rfl]; exact p1) p2 p3
      (SecLinks_congr s' { s' with s_curTask := some Q } P (task?_congr rfl rfl) rfl _ i7)
    rw [List.length_reverse] at this
    exact this
  · intro N d td hN hd htd hacc
    have := selectNextTask_nextMain_descend (fuel + 1)
      { s' with s_curTask := some P, s_currentId := 0 } P N d tP' td rfl
      (by rw [task?_congr rfl rfl]; exact p1) (by rw [p4]; exact hN)
      (by rw [descend_congr s' { s' with s_curTask := some P, s_currentId := 0 } (task?_congr rfl rfl)]; exact hd)
      (by rw [task?_congr rfl rfl]; exact htd) hacc
    exact this

/-- Witness for C2: the task in slot 1 creates the children in slots 2 and 3;
from the root the selections are slot 3, slot 2, then slot 1. -/
theorem secondary_chain_drained_newest_first_witness :
    createTasks [some 3, some 4] demoParent
        = .ok ([TaskRef.slot 2, TaskRef.slot 3], demoFamily) ∧
      selectionOrder 2 3 { demoFamily with s_curTask := some TaskRef.root }
        = .ok ([some (TaskRef.slot 3), some (TaskRef.slot 2), some (TaskRef.slot 1)],
            { demoFamily with s_curTask := some (TaskRef.slot 1), s_currentId := 0 }) :=
  ⟨by decide,
    (secondary_chain_drained_newest_first 0 demoParent demoFamily (TaskRef.slot 1) TaskRef.root
      (demoParent.taskMem.getD 1 Task.zero) demoParent.s_rootTask [some 3, some 4]
      [TaskRef.slot 2, TaskRef.slot 3] (by decide) (by decide) (by decide) (by decide) (by decide)
      (by decide) (by decide) (by decide) (by decide) (by decide)).2.1⟩

/-! ## Selection started from a task with children -/

theorem task_run_body_call {prog : Prog} {cur : TaskRef} (s1 : Sched) {s' : Sched} {t : Task}
    {od : Option Dispatch} {stop fb : Bool} (ht : s1.task? cur = some t)
    (h : (do
        let s2 : Sched := { s1 with s_curContext := some cur }
        let ctx ← s2.ctx
        let level := max 0 (ctx.level + 1)
        let runFunc ← ctx.callstack.read level
        check (runFunc.isSome = true)
        let s3 ← callFunc prog runFunc s2.s_currentId s2
        (Except.ok (s3, some ⟨cur, runFunc, s2.s_currentId, s2⟩, fb) :
          Run (Sched × Option Dispatch × Bool))) = .ok (s', od, stop)) :
    stop = fb ∧ ∃ d, od = some d ∧ d.task = cur ∧ d.id = s1.s_currentId ∧
      d.before = { s1 with s_curContext := some cur } ∧
      t.context.callstack.read (max 0 (t.context.level + 1)) = .ok d.func ∧
      d.func.isSome = true ∧
      callFunc prog d.func d.id d.before = .ok s' := by
  have hctx : ({ s1 with s_curContext := some cur } : Sched).ctx = .ok t.context :=
    ctx_eq rfl (by rw [task?_congr rfl rfl]; exact ht)
  simp only [] at h
  rw [hctx, ok_bind] at h
  obtain ⟨f, hf, h2⟩ := bind_ok h; clear h
  obtain ⟨_, hchk, h3⟩ := bind_ok h2; clear h2
  obtain ⟨s3, hcall, h4⟩ := bind_ok h3; clear h3
  simp only [Except.ok.injEq, Prod.mk.injEq] at h4
  obtain ⟨e1, e2, e3⟩ := h4
  subst e1 e2 e3
  refine ⟨rfl, _, rfl, rfl, rfl, rfl, hf, ?_, hcall⟩
  simp only [check] at hchk
  split at hchk
  · assumption
  · cases hchk

/-- What one pass of the frame loop does: a task function is called only in the
branch guarded by `s_curTask->nextTick <= s_curTick`. -/
theorem task_run_body_inv {prog : Prog} {fuel : Nat} {cur : TaskRef} {s s' : Sched}
    {od : Option Dispatch} {stop : Bool}
    (h : task_run.body prog fuel cur s = .ok (s', od, stop)) :
    ∃ t, s.task? cur = some t ∧ stop = t.framebreak ∧
      (∀ d, od = some d →
        t.nextTick ≤ s.s_curTick ∧ d.task = cur ∧ d.id = s.s_currentId ∧
        d.before.task? cur = some t ∧ d.before.s_curTick = s.s_curTick ∧
        d.before.s_curContext = some cur ∧ d.before.s_curTask = s.s_curTask ∧
        t.context.callstack.read (max 0 (t.context.level + 1)) = .ok d.func ∧
        d.func.isSome = true ∧
        callFunc prog d.func d.id d.before = .ok s') ∧
      (od = none → ¬ t.nextTick ≤ s.s_curTick ∧
        (t.framebreak = true → s' = { s with s_resumeTask := some cur }) ∧
        (t.framebreak = false → selectNextTask fuel s = .ok s')) := by
  unfold task_run.body at h
  obtain ⟨t, ht, h1⟩ := bind_ok h; clear h
  have ht' := (load_some_iff _ _ _).1 ht
  refine ⟨t, ht', ?_⟩
  cases hfb : t.framebreak with
  | true =>
    simp only [hfb, if_true] at h1
    have hl : ({ s with s_resumeTask := some cur } : Sched).load (some cur) = .ok t :=
      (load_some_iff _ _ _).2 (by rw [task?_congr rfl rfl]; exact ht')
    rw [hl, ok_bind] at h1
    by_cases hdue : t.nextTick ≤ s.s_curTick
    · rw [if_pos hdue] at h1
      obtain ⟨e, d, hd, d1, d2, d3, d4, d5, d6⟩ :=
        task_run_body_call { s with s_resumeTask := some cur } (by rw [task?_congr rfl rfl]; exact ht') h1
      refine ⟨e, ?_, fun hn => by rw [hn] at hd; cases hd⟩
      intro d' hd'
      rw [hd] at hd'
      cases hd'
      refine ⟨hdue, d1, d2, ?_, ?_, ?_, ?_, d4, d5, d6⟩
      · rw [d3, task?_congr rfl rfl]; exact ht'
      · rw [d3]
      · rw [d3]
      · rw [d3]
    · rw [if_neg hdue] at h1
      simp only [Bool.not_true, Bool.false_eq_true, if_false, Except.ok.injEq,
        Prod.mk.injEq] at h1
      obtain ⟨e1, e2, e3⟩ := h1
      subst e1 e2 e3
      exact ⟨rfl, (fun d hd => by cases hd), fun _ => ⟨hdue, fun _ => rfl, fun hc => Bool.noConfusion hc⟩⟩
  | false =>
    simp only [hfb, Bool.false_eq_true, if_false] at h1
    rw [ht, ok_bind] at h1
    by_cases hdue : t.nextTick ≤ s.s_curTick
    · rw [if_pos hdue] at h1
      obtain ⟨e, d, hd, d1, d2, d3, d4, d5, d6⟩ := task_run_body_call s ht' h1
      refine ⟨e, ?_, fun hn => by rw [hn] at hd; cases hd⟩
      intro d' hd'
      rw [hd] at hd'
      cases hd'
      refine ⟨hdue, d1, d2, ?_, ?_, ?_, ?_, d4, d5, d6⟩
      · rw [d3, task?_congr rfl rfl]; exact ht'
      · rw [d3]
      · rw [d3]
      · rw [d3]
    · rw [if_neg hdue] at h1
      simp only [Bool.not_false, if_true] at h1
      obtain ⟨s2, hsel, h2⟩ := bind_ok h1
      simp only [Except.ok.injEq, Prod.mk.injEq] at h2
      obtain ⟨e1, e2, e3⟩ := h2
      subst e1 e2 e3
      exact ⟨rfl, (fun d hd => by cases hd), fun _ => ⟨hdue, fun hc => Bool.noConfusion hc, fun _ => hsel⟩⟩

/-! ## What `task_free` keeps -/

/-- A store whose update keeps a view `π` of a record keeps that view of every
record. -/
theorem store_view {α : Type} (π : Task → α) {s s' : Sched} {p : TaskPtr} {f : Task → Task}
    (h : s.store p f = .ok s') (hf : ∀ t, π (f t) = π t) (r : TaskRef) :
    (s'.task? r).map π = (s.task? r).map π := by
  rw [store_task? h r]
  split
  · cases hr : s.task? r with
    | none => rfl
    | some t => simp [hf]
  · rfl

theorem task_free_patch_view {α : Type} (π : Task → α)
    (hπ : ∀ (t : Task) (a b c d : TaskPtr),
      π { t with prevMain := a, nextMain := b, prevSec := c, nextSec := d } = π t)
    {task : TaskPtr} {i : Nat} {s s' : Sched} (h : task_free.patch task i s = .ok s') :
    (∀ r, (s'.task? r).map π = (s.task? r).map π) ∧
      s'.s_tasks = s.s_tasks ∧ s'.s_stackBlocks = s.s_stackBlocks ∧
      s'.s_taskCount = s.s_taskCount ∧ s'.s_curTask = s.s_curTask ∧
      s'.s_curContext = s.s_curContext ∧ s'.s_curTick = s.s_curTick := by
  unfold task_free.patch at h
  split at h
  · cases h
  · rename_i arr harr
    simp only [] at h
    split at h
    · obtain ⟨it, _, h1⟩ := bind_ok h; clear h
      obtain ⟨s1, hs1, h2⟩ := bind_ok h1; clear h1
      obtain ⟨it1, _, h3⟩ := bind_ok h2; clear h2
      obtain ⟨s2, hs2, h4⟩ := bind_ok h3; clear h3
      obtain ⟨it2, _, h5⟩ := bind_ok h4; clear h4
      obtain ⟨s3, hs3, h6⟩ := bind_ok h5; clear h5
      obtain ⟨it3, _, hs4⟩ := bind_ok h6; clear h6
      have step : ∀ (a b : Sched) (c : Prop) [Decidable c] (g : Task → Task → Task)
          (hg : ∀ t x, π (g t x) = π x),
          (if c then a.load task >>= fun t => a.store (chunkedArrayGet TaskRef.slot arr i) (g t)
            else .ok a) = .ok b →
          (∀ r, (b.task? r).map π = (a.task? r).map π) ∧
            b.s_tasks = a.s_tasks ∧ b.s_stackBlocks = a.s_stackBlocks ∧
            b.s_taskCount = a.s_taskCount ∧ b.s_curTask = a.s_curTask ∧
            b.s_curContext = a.s_curContext ∧ b.s_curTick = a.s_curTick := by
        intro a b c _ g hg hab
        split at hab
        · obtain ⟨t, _, hst⟩ := bind_ok hab
          have g1 := store_globals hst
          exact ⟨fun r => store_view π hst (hg t) r, g1.1, g1.2.1, g1.2.2.1, g1.2.2.2.2.1,
            g1.2.2.2.2.2.2.2.1, g1.2.2.2.2.2.2.2.2.1⟩
        · cases hab
          exact ⟨fun _ => rfl, rfl, rfl, rfl, rfl, rfl, rfl⟩
      have e1 := step s s1 _ (fun t x => { x with prevMain := t.prevMain })
        (fun t x => hπ x t.prevMain x.nextMain x.prevSec x.nextSec) hs1
      have e2 := step s1 s2 _ (fun t x => { x with nextMain := t.nextMain })
        (fun t x => hπ x x.prevMain t.nextMain x.prevSec x.nextSec) hs2
      have e3 := step s2 s3 _ (fun t x => { x with prevSec := t.prevSec })
        (fun t x => hπ x x.prevMain x.nextMain t.prevSec x.nextSec) hs3
      have e4 := step s3 s' _ (fun t x => { x with nextSec := t.nextSec })
        (fun t x => hπ x x.prevMain x.nextMain x.prevSec t.nextSec) hs4
      refine ⟨fun r => ?_, ?_, ?_, ?_, ?_, ?_, ?_⟩
      · rw [e4.1, e3.1, e2.1, e1.1]
      · rw [e4.2.1, e3.2.1, e2.2.1, e1.2.1]
      · rw [e4.2.2.1, e3.2.2.1, e2.2.2.1, e1.2.2.1]
      · rw [e4.2.2.2.1, e3.2.2.2.1, e2.2.2.2.1, e1.2.2.2.1]
      · rw [e4.2.2.2.2.1, e3.2.2.2.2.1, e2.2.2.2.2.1, e1.2.2.2.2.1]
      · rw [e4.2.2.2.2.2.1, e3.2.2.2.2.2.1, e2.2.2.2.2.2.1, e1.2.2.2.2.2.1]
      · rw [e4.2.2.2.2.2.2, e3.2.2.2.2.2.2, e2.2.2.2.2.2.2, e1.2.2.2.2.2.2]
    · cases h
      exact ⟨fun _ => rfl, rfl, rfl, rfl, rfl, rfl, rfl⟩

theorem task_free_scan_view {α : Type} (π : Task → α)
    (hπ : ∀ (t : Task) (a b c d : TaskPtr),
      π { t with prevMain := a, nextMain := b, prevSec := c, nextSec := d } = π t)
    {task : TaskPtr} : ∀ (n i : Nat) (s s' : Sched), task_free.scan task n i s = .ok s' →
    (∀ r, (s'.task? r).map π = (s.task? r).map π) ∧
      s'.s_tasks = s.s_tasks ∧ s'.s_stackBlocks = s.s_stackBlocks ∧
      s'.s_taskCount = s.s_taskCount ∧ s'.s_curTask = s.s_curTask ∧
      s'.s_curContext = s.s_curContext ∧ s'.s_curTick = s.s_curTick := by
  intro n
  induction n with
  | zero =>
    intro i s s' h
    simp only [task_free.scan, Except.ok.injEq] at h
    subst h
    exact ⟨fun _ => rfl, rfl, rfl, rfl, rfl, rfl, rfl⟩
  | succ n ih =>
    intro i s s' h
    unfold task_free.scan at h
    split at h
    · cases h
    · rename_i s1 hs1
      have e1 := task_free_patch_view π hπ hs1
      have e2 := ih _ _ _ h
      refine ⟨fun r => ?_, ?_, ?_, ?_, ?_, ?_, ?_⟩
      · rw [e2.1, e1.1]
      · rw [e2.2.1, e1.2.1]
      · rw [e2.2.2.1, e1.2.2.1]
      · rw [e2.2.2.2.1, e1.2.2.2.1]
      · rw [e2.2.2.2.2.1, e1.2.2.2.2.1]
      · rw [e2.2.2.2.2.2.1, e1.2.2.2.2.2.1]
      · rw [e2.2.2.2.2.2.2, e1.2.2.2.2.2.2]

/-- The effect of `task_free` on everything but the chain links: the records keep
every view that does not depend on the four links, the live count drops by one,
and the task and its scratch block are given back to their arenas. -/
theorem task_free_effect {α : Type} (π : Task → α)
    (hπ : ∀ (t : Task) (a b c d : TaskPtr),
      π { t with prevMain := a, nextMain := b, prevSec := c, nextSec := d } = π t)
    {fuel : Nat} {task : TaskPtr} {s s' : Sched} (h : task_free fuel task s = .ok s') :
    (∀ r, (s'.task? r).map π = (s.task? r).map π) ∧
      s'.s_taskCount = s.s_taskCount - 1 ∧ s'.s_curTick = s.s_curTick ∧
      s'.s_curContext = s.s_curContext ∧
      (∃ arr, s.s_tasks = some arr ∧ s'.s_tasks = some (freeToChunkedArray arr task)) ∧
      (∃ t blocks, s'.load task = .ok t ∧ s.s_stackBlocks = some blocks ∧
        s'.s_stackBlocks = some (freeToChunkedArray blocks t.context.stackMem)) := by
  unfold task_free at h
  simp only [] at h
  obtain ⟨s2, hs2, h1⟩ := bind_ok h; clear h
  obtain ⟨s3, hs3, h2⟩ := bind_ok h1; clear h1
  obtain ⟨t, ht, h3⟩ := bind_ok h2; clear h2
  have e2 := task_free_scan_view π hπ _ _ _ _ hs2
  have e3 : (∀ r, s3.task? r = s2.task? r) ∧ s3.s_curTick = s2.s_curTick ∧
      s3.s_curContext = s2.s_curContext ∧ s3.s_taskCount = s2.s_taskCount ∧
      s3.s_tasks = s2.s_tasks ∧ s3.s_stackBlocks = s2.s_stackBlocks := by
    split at hs3
    · exact selectNextTask_records hs3
    · cases hs3
      exact ⟨fun _ => rfl, rfl, rfl, rfl, rfl, rfl⟩
  split at h3
  · rename_i blocks tasks hb htk
    cases h3
    refine ⟨fun r => ?_, ?_, ?_, ?_, ⟨tasks, ?_, rfl⟩, ⟨t, blocks, ?_, ?_, rfl⟩⟩
    · show Option.map π (s3.task? r) = _
      rw [e3.1, e2.1]
      rfl
    · show s3.s_taskCount = _
      rw [e3.2.2.2.1, e2.2.2.2.1]
    · show s3.s_curTick = _
      rw [e3.2.1, e2.2.2.2.2.2.2]
    · show s3.s_curContext = _
      rw [e3.2.2.1, e2.2.2.2.2.2.1]
    · rw [← htk, e3.2.2.2.2.1, e2.2.1]
    · cases task with
      | none => simp [Sched.load] at ht
      | some r =>
        rw [load_some_iff] at ht ⊢
        rw [task?_congr rfl rfl]
        exact ht
    · rw [← hb, e3.2.2.2.2.2, e2.2.2.1]
  · cases h3

/-! ## Yield and resume -/

theorem ctxBegin_eq {s : Sched} {r : TaskRef} {t : Task} (hc : s.s_curContext = some r)
    (ht : s.task? r = some t) :
    ctxBegin s = .ok (s.put r { t with context := { t.context with level := t.context.level + 1 } }) := by
  simp [ctxBegin, hc, storeCtx_eq _ ht]

theorem dispatchState_task? (s : Sched) (cur : TaskRef) (fb : Bool) (r : TaskRef) :
    (dispatchState s cur fb).task? r = s.task? r := by
  cases fb <;> exact task?_congr rfl rfl r

/-- The pass of the frame loop for a current task that is due: the function
read from `callstack[max(0, level + 1)]` is called in the dispatch state. -/
theorem task_run_body_due (prog : Prog) (fuel : Nat) {cur : TaskRef} {s : Sched} {t : Task}
    (ht : s.task? cur = some t) (hdue : t.nextTick ≤ s.s_curTick) :
    task_run.body prog fuel cur s =
      (t.context.callstack.read (max 0 (t.context.level + 1)) >>= fun runFunc =>
        check (runFunc.isSome = true) >>= fun _ =>
          callFunc prog runFunc s.s_currentId (dispatchState s cur t.framebreak) >>= fun s3 =>
            .ok (s3, some ⟨cur, runFunc, s.s_currentId, dispatchState s cur t.framebreak⟩,
              t.framebreak)) := by
  unfold task_run.body
  rw [(load_some_iff _ _ _).2 ht, ok_bind]
  cases hfb : t.framebreak with
  | true =>
    have hl : ({ s with s_resumeTask := some cur } : Sched).load (some cur) = .ok t :=
      (load_some_iff _ _ _).2 (by rw [task?_congr rfl rfl]; exact ht)
    have hctx : ({ ({ s with s_resumeTask := some cur } : Sched) with
        s_curContext := some cur } : Sched).ctx = .ok t.context :=
      ctx_eq rfl (by rw [task?_congr rfl rfl]; exact ht)
    dsimp only []
    rw [if_pos rfl, hl, ok_bind, if_pos hdue]
    simp only []
    rw [hctx, ok_bind]
    rfl
  | false =>
    have hctx : ({ s with s_curContext := some cur } : Sched).ctx = .ok t.context :=
      ctx_eq rfl (by rw [task?_congr rfl rfl]; exact ht)
    dsimp only []
    rw [if_neg (by decide), (load_some_iff _ _ _).2 ht, ok_bind, if_pos hdue]
    rw [hctx, ok_bind]
    rfl

theorem task_run_loop_func {prog : Prog} : ∀ (fuel : Nat) (s : Sched) (log : List Dispatch)
    (s' : Sched) (log' : List Dispatch), task_run.loop prog fuel s log = .ok (s', log') →
    ∀ d ∈ log', d ∈ log ∨ ∃ t, d.before.task? d.task = some t ∧
      d.before.s_curContext = some d.task ∧
      t.context.callstack.read (max 0 (t.context.level + 1)) = .ok d.func ∧
      d.func.isSome = true := by
  intro fuel
  induction fuel with
  | zero => intro s log s' log' h; simp [task_run.loop] at h
  | succ n ih =>
    intro s log s' log' h
    unfold task_run.loop at h
    split at h
    · simp only [Except.ok.injEq, Prod.mk.injEq] at h
      obtain ⟨_, e⟩ := h
      subst e
      intro d hd
      exact Or.inl hd
    · rename_i cur hcur
      split at h
      · cases h
      · rename_i s1 od stop hbody
        obtain ⟨t, ht, _, hcall, _⟩ := task_run_body_inv hbody
        have hnew : ∀ d ∈ log ++ od.toList, d ∈ log ∨ ∃ t, d.before.task? d.task = some t ∧
            d.before.s_curContext = some d.task ∧
            t.context.callstack.read (max 0 (t.context.level + 1)) = .ok d.func ∧
            d.func.isSome = true := by
          intro d hd
          rcases List.mem_append.1 hd with h1 | h1
          · exact Or.inl h1
          · right
            have hod : od = some d := by
              cases od with
              | none => simp at h1
              | some d' =>
                simp at h1
                rw [h1]
            obtain ⟨c1, c2, _, c4, c5, c6, c7, c8, c9, _⟩ := hcall d hod
            rw [c2]
            exact ⟨t, c4, c6, c8, c9⟩
        split at h
        · simp only [Except.ok.injEq, Prod.mk.injEq] at h
          obtain ⟨_, e⟩ := h
          subst e
          exact hnew
        · intro d hd
          rcases ih _ _ _ _ h d hd with h1 | h1
          · exact hnew d h1
          · exact Or.inr h1

/-- Every call made by a frame of `task_run` is a call of the function found in
the called task's `callstack[max(0, level + 1)]`, with the task's context the
current context. -/
theorem task_run_log_func {prog : Prog} {fuel : Nat} {s s' : Sched} {log : List Dispatch}
    (h : task_run prog fuel s = .ok (s', log)) :
    ∀ d ∈ log, ∃ t, d.before.task? d.task = some t ∧
      d.before.s_curContext = some d.task ∧
      t.context.callstack.read (max 0 (t.context.level + 1)) = .ok d.func ∧
      d.func.isSome = true := by
  unfold task_run at h
  split at h
  · simp only [Except.ok.injEq, Prod.mk.injEq] at h
    obtain ⟨_, e⟩ := h
    subst e
    intro d hd
    cases hd
  · split at h
    · cases h
    · intro d hd
      rcases task_run_loop_func _ _ _ _ _ h d hd with h1 | h1
      · cases h1
      · exact h1

/-- C4: yield/resume round trip. Let `T` be the current task, with the current
context its own, no `retTask`, and level `k < TASK_MAX_LEVELS`. Then
`itask_yield(delay, ip)` is task selection applied to the state in which `T` has
`ip` in `ip[k]`, level `k - 1` and its new `nextTick`; and whenever it returns,
`T` still has `ip[k] = ip` and level `k - 1`, `max(0, level + 1)` is `k` and its
call stack is unchanged. As long as the context of `T` stays as the yield left
it: (a) a pass of the frame loop of `task_run` entered with `T` current and due
is the call of the function at `callstack[k]` (asserted non-null) in the dispatch
state, in which the context of `T` is the current one; when that function begins
with `ctxBegin`, the pass is the rest of the function run in the state that
`ctxBegin` leaves; (b) every call that a frame of `task_run` makes to `T` is a
call of the function at `callstack[k]` with the context of `T` current; and
(c) in the state of such a call `ctxBegin` brings the level back to `k` and
`ctxGetIP` then returns `ip`. -/
theorem itask_yield_resume_round_trip (prog : Prog) (fuel : Nat) (delay : Nat) (ip : Int)
    (s : Sched) (T : TaskRef) (t : Task) (k : Nat)
    (hcur : s.s_curTask = some T) (hctx : s.s_curContext = some T)
    (ht : s.task? T = some t) (hret : t.retTask = none)
    (hlevel : t.context.level = (k : Int)) (hk : k < TASK_MAX_LEVELS) :
    (itask_yield fuel delay ip s =
      (selectNextTask fuel
        (s.put T { t with
          context := { t.context with ip := t.context.ip.set k ip, level := (k : Int) - 1 }
          nextTick := if delay < TASK_SLEEP then u32 ((s.s_curTick : Int) + delay) else delay })
        >>= fun s3 => check (s3.s_curTask.isSome = true) >>= fun _ => .ok s3)) ∧
    ∀ s1, itask_yield fuel delay ip s = .ok s1 →
      ∃ t1, s1.task? T = some t1 ∧
        t1.context.ip.get k = ip ∧ t1.context.level = (k : Int) - 1 ∧
        max 0 (t1.context.level + 1) = (k : Int) ∧
        t1.context.callstack = t.context.callstack ∧
        (∀ s2 t2, s2.s_curContext = some T → s2.task? T = some t2 → t2.context = t1.context →
          ∃ s3 t3, ctxBegin s2 = .ok s3 ∧ s3.task? T = some t3 ∧
            t3.context.level = (k : Int) ∧ ctxGetIP s3 = .ok ip) ∧
        (∀ fuel2 s2 t2, s2.task? T = some t2 → t2.context = t1.context →
          t2.nextTick ≤ s2.s_curTick →
          task_run.body prog fuel2 T s2 =
            (check ((t.context.callstack.get k).isSome = true) >>= fun _ =>
              callFunc prog (t.context.callstack.get k) s2.s_currentId
                  (dispatchState s2 T t2.framebreak) >>= fun s3 =>
                .ok (s3, some ⟨T, t.context.callstack.get k, s2.s_currentId,
                  dispatchState s2 T t2.framebreak⟩, t2.framebreak)) ∧
          ∃ s3 t3, ctxBegin (dispatchState s2 T t2.framebreak) = .ok s3 ∧
            s3.task? T = some t3 ∧ t3.context.level = (k : Int) ∧ ctxGetIP s3 = .ok ip ∧
            ∀ (n : Nat) (rest : Int → Sched → Run Sched), t.context.callstack.get k = some n →
              (∀ i x, prog n i x = ctxBegin x >>= rest i) →
              task_run.body prog fuel2 T s2 =
                (rest s2.s_currentId s3 >>= fun s4 =>
                  .ok (s4, some ⟨T, some n, s2.s_currentId,
                    dispatchState s2 T t2.framebreak⟩, t2.framebreak))) ∧
        (∀ fuel2 s2 s' log, task_run prog fuel2 s2 = .ok (s', log) →
          ∀ d ∈ log, d.task = T → ∀ t2, d.before.task? T = some t2 →
            t2.context = t1.context →
            d.func = t.context.callstack.get k ∧ d.func.isSome = true ∧
            d.before.s_curContext = some T ∧
            ∃ s3 t3, ctxBegin d.before = .ok s3 ∧ s3.task? T = some t3 ∧
              t3.context.level = (k : Int) ∧ ctxGetIP s3 = .ok ip) := by
  have hk' : k < 16 := hk
  have hrange : (0 : Int) ≤ (k : Int) ∧ (k : Int) < 16 := ⟨by omega, by omega⟩
  have heq : itask_yield fuel delay ip s =
      (selectNextTask fuel
        (s.put T { t with
          context := { t.context with ip := t.context.ip.set k ip, level := (k : Int) - 1 }
          nextTick := if delay < TASK_SLEEP then u32 ((s.s_curTick : Int) + delay) else delay })
        >>= fun s3 => check (s3.s_curTask.isSome = true) >>= fun _ => .ok s3) := by
    unfold itask_yield
    rw [ctx_eq hctx ht, ok_bind, check_bind _ (by rw [hlevel]; exact hrange), hctx,
      storeCtx_eq _ ht, ok_bind]
    simp only [put_s_curTask, hcur, load_put_same _ ht, ok_bind, hret, store_put_same _ _ ht,
      put_s_curTick, hlevel, Int.toNat_ofNat]
  refine ⟨heq, ?_⟩
  intro s1 h1
  rw [heq] at h1
  obtain ⟨s3, hsel, h2⟩ := bind_ok h1
  obtain ⟨_, _, h3⟩ := bind_ok h2
  cases h3
  obtain ⟨hrec, _⟩ := selectNextTask_records hsel
  -- what a later `ctxBegin` and `ctxGetIP` give
  have hresume : ∀ (s2 : Sched) (t2 : Task), s2.s_curContext = some T → s2.task? T = some t2 →
      t2.context = { t.context with ip := t.context.ip.set k ip, level := (k : Int) - 1 } →
      ∃ s3 t3, ctxBegin s2 = .ok s3 ∧ s3.task? T = some t3 ∧
        t3.context.level = (k : Int) ∧ ctxGetIP s3 = .ok ip := by
    intro s2 t2 hc2 ht2 hctx2
    have hl : t2.context.level + 1 = (k : Int) := by
      rw [hctx2]
      show (k : Int) - 1 + 1 = k
      omega
    refine ⟨_, _, ctxBegin_eq hc2 ht2, task?_put_same _ ht2, hl, ?_⟩
    unfold ctxGetIP
    rw [ctx_put_same _ hc2 ht2, ok_bind]
    simp only [hl]
    rw [check_bind _ hrange]
    simp only [Int.toNat_ofNat, hctx2]
    rw [LevelArray.get_set_same _ _ _ hk']
  -- the function the frame loop reads for the task
  have hread : ∀ t2 : Task,
      t2.context = { t.context with ip := t.context.ip.set k ip, level := (k : Int) - 1 } →
      t2.context.callstack.read (max 0 (t2.context.level + 1)) = .ok (t.context.callstack.get k) := by
    intro t2 hctx2
    have hl : max 0 (t2.context.level + 1) = (k : Int) := by
      rw [hctx2]
      show max 0 ((k : Int) - 1 + 1) = (k : Int)
      omega
    rw [hl, LevelArray.read_eq _ k hk', hctx2]
  refine ⟨{ t with
      context := { t.context with ip := t.context.ip.set k ip, level := (k : Int) - 1 }
      nextTick := if delay < TASK_SLEEP then u32 ((s.s_curTick : Int) + delay) else delay },
    by rw [hrec]; exact task?_put_same _ ht, ?_, rfl, ?_, rfl, hresume, ?_, ?_⟩
  · exact LevelArray.get_set_same _ _ _ hk'
  · show max 0 ((k : Int) - 1 + 1) = (k : Int)
    omega
  · intro fuel2 s2 t2 ht2 hctx2 hdue
    have hbody : task_run.body prog fuel2 T s2 =
        (check ((t.context.callstack.get k).isSome = true) >>= fun _ =>
          callFunc prog (t.context.callstack.get k) s2.s_currentId
              (dispatchState s2 T t2.framebreak) >>= fun s3 =>
            .ok (s3, some ⟨T, t.context.callstack.get k, s2.s_currentId,
              dispatchState s2 T t2.framebreak⟩, t2.framebreak)) := by
      rw [task_run_body_due prog fuel2 ht2 hdue, hread t2 hctx2, ok_bind]
    obtain ⟨s3, t3, hb, ht3, hlv, hip⟩ :=
      hresume (dispatchState s2 T t2.framebreak) t2 rfl
        (by rw [dispatchState_task?]; exact ht2) hctx2
    refine ⟨hbody, s3, t3, hb, ht3, hlv, hip, ?_⟩
    intro n rest hfun hprog
    rw [hbody, hfun, check_bind _ (show (some n : TaskFunc).isSome = true from rfl)]
    simp only [callFunc]
    rw [hprog, hb, ok_bind]
  · intro fuel2 s2 s' log hrun d hd hdT t2 ht2 hctx2
    obtain ⟨t', h1, h2, h3, h4⟩ := task_run_log_func hrun d hd
    rw [hdT] at h1 h2
    rw [ht2] at h1
    cases h1
    rw [hread t2 hctx2] at h3
    have h5 : t.context.callstack.get k = d.func := Except.ok.inj h3
    exact ⟨h5.symm, h4, h2, hresume _ t2 h2 ht2 hctx2⟩

/-- Witness for C4: the running task of `demoRunning` (level 0) yields for one
tick with token 7. The frame of the next tick calls it first, with function 2 of
its `callstack[0]`; there `ctxBegin` gives level 0 and `ctxGetIP` returns 7. -/
theorem itask_yield_resume_round_trip_witness :
    itask_yield 8 1 7 demoRunning = .ok demoYielded ∧
      task_run demoProg 8 demoNextFrame = .ok demoNextFrameEnd ∧
      demoNextFrameEnd.2.map (fun d => (d.task, d.func))
        = [(TaskRef.slot 1, some 2), (TaskRef.slot 0, some 1)] ∧
      ∀ d ∈ demoNextFrameEnd.2, d.task = TaskRef.slot 1 →
        d.func = some 2 ∧ d.before.s_curContext = some (TaskRef.slot 1) ∧
        ∃ s3 t3, ctxBegin d.before = .ok s3 ∧ s3.task? (TaskRef.slot 1) = some t3 ∧
          t3.context.level = ((0 : Nat) : Int) ∧ ctxGetIP s3 = .ok 7 :=
  ⟨by decide, by decide, by decide,
    match (itask_yield_resume_round_trip demoProg 8 1 7 demoRunning (TaskRef.slot 1)
      (demoRunning.taskMem.getD 1 Task.zero) 0 (by decide) (by decide) (by decide) (by decide)
      (by decide) (by decide)).2 demoYielded (by decide) with
    | ⟨t1, h1, _, _, _, _, _, _, hframe⟩ =>
      have e : t1 = demoYielded.taskMem.getD 1 Task.zero :=
        Option.some.inj (h1.symm.trans (by decide))
      have hall : ∀ d ∈ demoNextFrameEnd.2, d.task = TaskRef.slot 1 →
          d.before.task? (TaskRef.slot 1) = some (d.before.taskMem.getD 1 Task.zero) ∧
          (d.before.taskMem.getD 1 Task.zero).context
            = (demoYielded.taskMem.getD 1 Task.zero).context := by decide
      fun d hd hT =>
        match hframe 8 demoNextFrame demoNextFrameEnd.1 demoNextFrameEnd.2 (by decide) d hd hT
          (d.before.taskMem.getD 1 Task.zero) (hall d hd hT).1
          (by rw [e]; exact (hall d hd hT).2) with
        | ⟨a, _, b, c⟩ => ⟨a, b, c⟩⟩

/-! ## `ctxReturn` -/

theorem ctxReturn_unwind_eq {s : Sched} {c : TaskRef} {t : Task} {k : Nat}
    (hc : s.s_curContext = some c) (ht : s.task? c = some t)
    (hl : t.context.level = (k : Int)) (hk : k < 16) :
    ctxReturn.unwind s = .ok ((k : Int), s.put c { t with context := { t.context with
      level := levelAfterReturn t.context.delayedCall k
      callLevel := callLevelAfterReturn t.context.callLevel } }) := by
  have hrange : (0 : Int) ≤ (k : Int) ∧ (k : Int) < 16 := ⟨by omega, by omega⟩
  unfold ctxReturn.unwind
  rw [hc]
  simp only []
  rw [ctx_eq hc ht, ok_bind, check_bind _ (by rw [hl]; exact hrange)]
  cases k with
  | zero =>
    simp only [hl, Nat.cast_zero, le_refl, if_true, ok_bind]
    rw [check_bind _ (by decide)]
    rw [storeCtx_eq _ ht, ok_bind]
    simp [levelAfterReturn, callLevelAfterReturn, hl]
  | succ j =>
    have hj : ¬ ((j + 1 : Nat) : Int) ≤ 0 := by omega
    have hidx : ((j + 1 : Nat) : Int) - 1 = (j : Int) := by omega
    simp only [hl, hj, if_false, hidx]
    rw [LevelArray.read_eq _ j (by omega), ok_bind, ok_bind]
    by_cases hd : t.context.delayedCall.get j = 0
    · simp only [hd, decide_True, if_true]
      rw [check_bind _ (by omega), storeCtx_eq _ ht, ok_bind]
      simp [levelAfterReturn, callLevelAfterReturn, hl, hd]
    · simp only [hd, decide_False, Bool.false_eq_true, if_false]
      rw [check_bind _ (by omega), storeCtx_eq _ ht, ok_bind]
      simp [levelAfterReturn, callLevelAfterReturn, hl, hd]

theorem storeCtx_view {α : Type} (π : Task → α) {s s' : Sched} {p : TaskPtr}
    {f : TaskContext → TaskContext}
    (h : s.storeCtx p f = .ok s') (hf : ∀ t, π { t with context := f t.context } = π t)
    (r : TaskRef) : (s'.task? r).map π = (s.task? r).map π :=
  store_view π h hf r

theorem ctxReturn_release_view {α : Type} (π : Task → α)
    (hπ : ∀ (t : Task) (off : Nat) (ptr : LevelArray BytePtr) (size : LevelArray Nat),
      π { t with context := { t.context with stackOffset := off, stackPtr := ptr, stackSize := size } }
        = π t)
    {level : Int} {s s' : Sched} (h : ctxReturn.release level s = .ok s') :
    (∀ r, (s'.task? r).map π = (s.task? r).map π) ∧
      s'.s_tasks = s.s_tasks ∧ s'.s_stackBlocks = s.s_stackBlocks ∧
      s'.s_taskCount = s.s_taskCount ∧ s'.s_curTask = s.s_curTask ∧
      s'.s_curContext = s.s_curContext ∧ s'.s_curTick = s.s_curTick := by
  unfold ctxReturn.release at h
  split at h
  · cases h
    exact ⟨fun _ => rfl, rfl, rfl, rfl, rfl, rfl, rfl⟩
  · rename_i c hc
    obtain ⟨ctx, _, h1⟩ := bind_ok h; clear h
    obtain ⟨p, _, h2⟩ := bind_ok h1; clear h1
    split at h2
    · obtain ⟨size, _, h3⟩ := bind_ok h2; clear h2
      obtain ⟨_, _, h4⟩ := bind_ok h3; clear h3
      have g := store_globals h4
      exact ⟨fun r => storeCtx_view π h4 (fun t => hπ t _ _ _) r, g.1, g.2.1, g.2.2.1,
        g.2.2.2.2.1, g.2.2.2.2.2.2.2.1, g.2.2.2.2.2.2.2.2.1⟩
    · cases h2
      exact ⟨fun _ => rfl, rfl, rfl, rfl, rfl, rfl, rfl⟩

/-- The control part of the current context after `ctxReturn`, and what happens
to the current task. -/
theorem ctxReturn_effect {fuel : Nat} {s s' : Sched} {c : TaskRef} {t : Task} {k : Nat}
    (hc : s.s_curContext = some c) (ht : s.task? c = some t)
    (hl : t.context.level = (k : Int)) (hk : k < 16)
    (h : ctxReturn fuel s = .ok s') :
    (∃ t', s'.task? c = some t' ∧
      t'.context.level = levelAfterReturn t.context.delayedCall k ∧
      t'.context.callLevel = callLevelAfterReturn t.context.callLevel ∧
      t'.context.delayedCall = t.context.delayedCall ∧
      t'.context.ip = t.context.ip ∧ t'.context.callstack = t.context.callstack) ∧
    s'.s_curContext = s.s_curContext ∧ s'.s_curTick = s.s_curTick ∧
    ((k = 0 ∧ s.s_curTask.isSome = true) →
      s'.s_curTask = none ∧ s'.s_taskCount = s.s_taskCount - 1 ∧
      ∃ arr, s.s_tasks = some arr ∧ s'.s_tasks = some (freeToChunkedArray arr s.s_curTask)) ∧
    (¬ (k = 0 ∧ s.s_curTask.isSome = true) →
      s'.s_curTask = s.s_curTask ∧ s'.s_taskCount = s.s_taskCount ∧ s'.s_tasks = s.s_tasks) := by
  unfold ctxReturn at h
  rw [ctxReturn_unwind_eq hc ht hl hk, ok_bind] at h
  simp only [] at h
  have hput : (s.put c { t with context := { t.context with
      level := levelAfterReturn t.context.delayedCall k
      callLevel := callLevelAfterReturn t.context.callLevel } }).task? c = some { t with context :=
        { t.context with
          level := levelAfterReturn t.context.delayedCall k
          callLevel := callLevelAfterReturn t.context.callLevel } } := task?_put_same _ ht
  have hview : ∀ (x : Sched),
      (x.task? c).map Task.ctlView = ((s.put c { t with context := { t.context with
        level := levelAfterReturn t.context.delayedCall k
        callLevel := callLevelAfterReturn t.context.callLevel } }).task? c).map Task.ctlView →
      ∃ t', x.task? c = some t' ∧
        t'.context.level = levelAfterReturn t.context.delayedCall k ∧
        t'.context.callLevel = callLevelAfterReturn t.context.callLevel ∧
        t'.context.delayedCall = t.context.delayedCall ∧
        t'.context.ip = t.context.ip ∧ t'.context.callstack = t.context.callstack := by
    intro x hx
    rw [hput] at hx
    cases hxc : x.task? c with
    | none => rw [hxc] at hx; cases hx
    | some t' =>
      rw [hxc] at hx
      simp only [Option.map_some', Option.some.injEq, Task.ctlView, Prod.mk.injEq] at hx
      exact ⟨t', rfl, hx.1, hx.2.1, hx.2.2.1, hx.2.2.2.1, hx.2.2.2.2⟩
  by_cases hfree : k = 0 ∧ s.s_curTask.isSome = true
  · have hcond : ((k : Int) = 0 ∧ (s.put c { t with context := { t.context with
        level := levelAfterReturn t.context.delayedCall k
        callLevel := callLevelAfterReturn t.context.callLevel } }).s_curTask.isSome = true) := by
      rw [put_s_curTask]
      exact ⟨by omega, hfree.2⟩
    rw [if_pos hcond] at h
    obtain ⟨s2, hs2, h3⟩ := bind_ok h; clear h
    cases h3
    obtain ⟨e1, e2, e3, e4, ⟨arr, e5, e6⟩, _⟩ :=
      task_free_effect Task.ctlView (fun _ _ _ _ _ => rfl) hs2
    refine ⟨hview _ (by rw [task?_congr rfl rfl]; exact e1 c), ?_, ?_, ?_, ?_⟩
    · show s2.s_curContext = _
      rw [e4, put_s_curContext]
    · show s2.s_curTick = _
      rw [e3, put_s_curTick]
    · intro _
      refine ⟨rfl, ?_, arr, ?_, ?_⟩
      · show s2.s_taskCount = _
        rw [e2, put_s_taskCount]
      · rw [← e5, put_s_tasks]
      · show s2.s_tasks = _
        rw [e6, put_s_curTask]
    · intro hn; exact absurd hfree hn
  · have hcond : ¬ ((k : Int) = 0 ∧ (s.put c { t with context := { t.context with
        level := levelAfterReturn t.context.delayedCall k
        callLevel := callLevelAfterReturn t.context.callLevel } }).s_curTask.isSome = true) := by
      rw [put_s_curTask]
      intro hh
      exact hfree ⟨by omega, hh.2⟩
    rw [if_neg hcond] at h
    obtain ⟨e1, e2, _, e4, e5, e6, e7⟩ :=
      ctxReturn_release_view Task.ctlView (fun _ _ _ _ => rfl) h
    refine ⟨hview _ (e1 c), ?_, ?_, ?_, ?_⟩
    · rw [e6, put_s_curContext]
    · rw [e7, put_s_curTick]
    · intro hy; exact absurd hy hfree
    · intro _
      exact ⟨by rw [e5, put_s_curTask], by rw [e4, put_s_taskCount], by rw [e2, put_s_tasks]⟩

/-! ## `ctxCall` -/

/-- `ctxCall` for a caller at level `k`: the callee is entered with the caller's
record equal to `callEntryRecord`, and the flag returned compares the caller's
`callLevel` after the callee with `startCallLevel`. -/
theorem ctxCall_eq (prog : Prog) (func : TaskFunc) (id ip : Int) {s : Sched} {c : TaskRef}
    {t : Task} {k : Nat} (hc : s.s_curContext = some c) (ht : s.task? c = some t)
    (hl : t.context.level = (k : Int)) (hk : k + 1 < 16) :
    ctxCall prog func id ip s =
      (callFunc prog func id (s.put c (callEntryRecord func ip t k)) >>= fun s4 =>
        s4.load (some c) >>= fun after =>
          if startCallLevel t k ≠ after.context.callLevel then
            s4.storeCtx (some c) (fun x => { x with delayedCall := x.delayedCall.set k 1 })
              >>= fun s5 => .ok (true, s5)
          else .ok (false, s4)) := by
  have hrange : (0 : Int) ≤ (k : Int) ∧ (k : Int) + 1 < 16 := ⟨by omega, by omega⟩
  unfold ctxCall
  rw [ctx_eq hc ht, ok_bind, check_bind _ (by rw [hl]; exact hrange)]
  have hkk : ((k : Int) + 1).toNat = k + 1 := by omega
  cases k with
  | zero =>
    simp only [hl, Nat.cast_zero, if_true, hc, storeCtx_eq _ ht, ok_bind, ctx_put_same _ hc ht,
      storeCtx_put_same _ _ ht, put_s_curContext, Int.toNat_zero, zero_add]
    simp [callEntryRecord, startCallLevel, hl]
  | succ j =>
    have hj : ¬ ((j + 1 : Nat) : Int) = 0 := by omega
    simp only [hl, hj, if_false, hc, ok_bind, ctx_eq hc ht, storeCtx_eq _ ht,
      storeCtx_put_same _ _ ht, put_s_curContext, Int.toNat_ofNat, hkk]
    simp [callEntryRecord, startCallLevel, hl]

/-- The context of the task that yields after `itask_yield`: `ip` is saved at the
level and the level is one lower; nothing else of the context changes. -/
theorem itask_yield_context {fuel delay : Nat} {ip : Int} {s s' : Sched} {c : TaskRef} {t : Task}
    {k : Nat} (hc : s.s_curContext = some c) (ht : s.task? c = some t)
    (hl : t.context.level = (k : Int)) (hk : k < 16)
    (h : itask_yield fuel delay ip s = .ok s') :
    ∃ t', s'.task? c = some t' ∧
      t'.context = { t.context with ip := t.context.ip.set k ip, level := (k : Int) - 1 } := by
  have hrange : (0 : Int) ≤ (k : Int) ∧ (k : Int) < 16 := ⟨by omega, by omega⟩
  unfold itask_yield at h
  rw [ctx_eq hc ht, ok_bind, check_bind _ (by rw [hl]; exact hrange), hc, storeCtx_eq _ ht,
    ok_bind] at h
  obtain ⟨cur, _, h1⟩ := bind_ok h; clear h
  have hrec : (s.put c { t with context := { t.context with
      ip := t.context.ip.set t.context.level.toNat ip, level := t.context.level - 1 } }).task? c
      = some { t with context := { t.context with
        ip := t.context.ip.set t.context.level.toNat ip, level := t.context.level - 1 } } :=
    task?_put_same _ ht
  have hfin : ∀ x : Sched, (x.task? c).map Task.context
      = ((s.put c { t with context := { t.context with
        ip := t.context.ip.set t.context.level.toNat ip, level := t.context.level - 1 } }).task? c).map
          Task.context →
      ∃ t', x.task? c = some t' ∧
        t'.context = { t.context with ip := t.context.ip.set k ip, level := (k : Int) - 1 } := by
    intro x hx
    rw [hrec] at hx
    cases hxc : x.task? c with
    | none => rw [hxc] at hx; cases hx
    | some t' =>
      rw [hxc] at hx
      simp only [Option.map_some', Option.some.injEq] at hx
      refine ⟨t', rfl, ?_⟩
      rw [hx, hl]
      simp
  split at h1
  · rename_i retTask _
    obtain ⟨s2, hs2, h2⟩ := bind_ok h1; clear h1
    cases h2
    have e := store_view Task.context hs2 (fun _ => rfl) c
    exact hfin _ e
  · obtain ⟨s2, hs2, h2⟩ := bind_ok h1; clear h1
    obtain ⟨s3, hs3, h3⟩ := bind_ok h2; clear h2
    obtain ⟨_, _, h4⟩ := bind_ok h3; clear h3
    cases h4
    have e := store_view Task.context hs2 (fun _ => rfl) c
    rw [← (selectNextTask_records hs3).1 c] at e
    exact hfin _ e

theorem levelAfterReturn_succ_clear (dc : LevelArray Nat) (L : Nat) (h : dc.get L = 0) :
    levelAfterReturn dc (L + 1) = (L : Int) := by
  simp [levelAfterReturn, h]

theorem levelAfterReturn_succ_set (dc : LevelArray Nat) (L : Nat) (h : dc.get L ≠ 0) :
    levelAfterReturn dc (L + 1) = (L : Int) - 1 := by
  simp only [levelAfterReturn, Nat.add_sub_cancel, h, or_false, Nat.add_eq_zero, one_ne_zero,
    and_false, if_false]
  push_cast
  omega

/-- The call level is never negative: it is 0 in a fresh context, `ctxCall`
enters the callee with a positive value, and `ctxReturn` keeps it non-negative. -/
theorem callLevel_nonneg_kept (func : TaskFunc) (ip : Int) (t : Task) (k : Nat)
    (h : 0 ≤ t.context.callLevel) :
    TaskContext.zero.callLevel = 0 ∧
      0 < (callEntryRecord func ip t k).context.callLevel ∧
      0 ≤ callLevelAfterReturn t.context.callLevel := by
  refine ⟨rfl, ?_, ?_⟩
  · show 0 < startCallLevel t k + 1
    unfold startCallLevel
    split <;> omega
  · unfold callLevelAfterReturn
    split <;> omega

/-- A return from a level `k >= 1` that holds no scratch memory completes. -/
theorem ctxReturn_ok_of_no_scratch (fuel : Nat) {s : Sched} {c : TaskRef} {t : Task} {k : Nat}
    (hc : s.s_curContext = some c) (ht : s.task? c = some t)
    (hl : t.context.level = (k : Int)) (hk : k < 16) (hk1 : 1 ≤ k)
    (hp : t.context.stackPtr.get k = none) :
    ctxReturn fuel s = .ok (s.put c { t with context := { t.context with
      level := levelAfterReturn t.context.delayedCall k
      callLevel := callLevelAfterReturn t.context.callLevel } }) := by
  unfold ctxReturn
  rw [ctxReturn_unwind_eq hc ht hl hk, ok_bind]
  have hcond : ¬ ((k : Int) = 0 ∧ (s.put c { t with context := { t.context with
      level := levelAfterReturn t.context.delayedCall k
      callLevel := callLevelAfterReturn t.context.callLevel } }).s_curTask.isSome = true) := by
    intro hh
    omega
  simp only []
  rw [if_neg hcond]
  unfold ctxReturn.release
  rw [put_s_curContext, hc]
  simp only []
  rw [ctx_put_same _ hc ht, ok_bind]
  simp only []
  rw [LevelArray.read_eq _ k hk, ok_bind, hp]
  simp

theorem ctxBegin_put {s : Sched} {c : TaskRef} {t0 : Task} (a : Task)
    (hc : s.s_curContext = some c) (ht : s.task? c = some t0) :
    ctxBegin (s.put c a)
      = .ok (s.put c { a with context := { a.context with level := a.context.level + 1 } }) := by
  unfold ctxBegin
  rw [put_s_curContext, hc, storeCtx_put_same _ _ ht]

/-- C5: synchronous call round trip. Let the current context be at level `L` with
`L <= TASK_MAX_LEVELS - 2` and a non-negative `callLevel` (the code keeps it so:
it starts at 0, only `ctxCall` increments it and `ctxReturn` decrements it only
when positive). Let the callee `n` perform `ctxBegin`, then any action `mid`
that keeps the current-context pointer and the control part of the caller's
context (no yield, no nested call), then `ctxReturn`. Then the callee's
`ctxBegin` raises the level to `L + 1`; whenever `ctxCall` returns, it returns
`false`, the level is `L` again, `callLevel` is what it was at the start of the
call (0 when `L = 0`) and `delayedCall[L] = 0`; and when `mid` does nothing and
level `L + 1` holds no scratch memory, `ctxCall` does return. -/
theorem ctxCall_synchronous_round_trip (prog : Prog) (fuel n : Nat) (mid : Sched → Run Sched)
    (id ip : Int) (s : Sched) (c : TaskRef) (t : Task) (L : Nat)
    (hc : s.s_curContext = some c) (ht : s.task? c = some t)
    (hl : t.context.level = (L : Int)) (hL : L + 2 ≤ TASK_MAX_LEVELS)
    (hcl : 0 ≤ t.context.callLevel)
    (hprog : ∀ i x, prog n i x = (ctxBegin x >>= mid) >>= ctxReturn fuel)
    (hmid : ∀ x y, mid x = .ok y → y.s_curContext = x.s_curContext ∧
      (y.task? c).map Task.ctlView = (x.task? c).map Task.ctlView) :
    (∃ t1, ctxBegin (s.put c (callEntryRecord (some n) ip t L)) = .ok (s.put c t1) ∧
      t1.context.level = (L : Int) + 1) ∧
    (∀ b s', ctxCall prog (some n) id ip s = .ok (b, s') →
      b = false ∧ ∃ t', s'.task? c = some t' ∧ t'.context.level = (L : Int) ∧
        t'.context.callLevel = (if L = 0 then 0 else t.context.callLevel) ∧
        t'.context.delayedCall.get L = 0) ∧
    ((∀ x, mid x = .ok x) → t.context.stackPtr.get (L + 1) = none →
      ∃ s', ctxCall prog (some n) id ip s = .ok (false, s')) := by
  have hL' : L + 1 < 16 := by
    have : L + 2 ≤ 16 := hL
    omega
  have hbegin := ctxBegin_put (callEntryRecord (some n) ip t L) hc ht
  have hcl0 : 0 ≤ startCallLevel t L := by
    unfold startCallLevel
    split
    · exact le_refl _
    · exact hcl
  have hdc : (callEntryRecord (some n) ip t L).context.delayedCall.get L = 0 :=
    LevelArray.get_set_same _ _ _ (by omega)
  have key : ∀ b s', ctxCall prog (some n) id ip s = .ok (b, s') →
      b = false ∧ ∃ t', s'.task? c = some t' ∧ t'.context.level = (L : Int) ∧
        t'.context.callLevel = (if L = 0 then 0 else t.context.callLevel) ∧
        t'.context.delayedCall.get L = 0 := by
    intro b s' h
    rw [ctxCall_eq prog (some n) id ip hc ht hl hL'] at h
    obtain ⟨s4, hcall, h1⟩ := bind_ok h; clear h
    obtain ⟨after, hafter, h2⟩ := bind_ok h1; clear h1
    simp only [callFunc, hprog] at hcall
    obtain ⟨y, hy, hret⟩ := bind_ok hcall; clear hcall
    rw [hbegin, ok_bind] at hy
    obtain ⟨hy1, hy2⟩ := hmid _ _ hy
    rw [put_s_curContext, hc] at hy1
    rw [task?_put_same _ ht] at hy2
    cases hyc : y.task? c with
    | none => rw [hyc] at hy2; cases hy2
    | some ty =>
      rw [hyc] at hy2
      simp only [Option.map_some', Option.some.injEq, Task.ctlView, Prod.mk.injEq] at hy2
      obtain ⟨v1, v2, v3, _, _⟩ := hy2
      have hlev : ty.context.level = ((L + 1 : Nat) : Int) := by
        rw [v1]
        show t.context.level + 1 = _
        rw [hl]
        push_cast
        rfl
      obtain ⟨⟨t4, r1, r2, r3, r4, _, _⟩, _⟩ := ctxReturn_effect hy1 hyc hlev hL' hret
      rw [load_some_iff, r1] at hafter
      cases hafter
      have hdc' : ty.context.delayedCall.get L = 0 := by rw [v3]; exact hdc
      have hcall' : after.context.callLevel = startCallLevel t L := by
        rw [r3, v2]
        show callLevelAfterReturn (startCallLevel t L + 1) = _
        unfold callLevelAfterReturn
        rw [if_pos (by omega)]
        omega
      rw [if_neg (by rw [hcall']; exact fun hne => hne rfl)] at h2
      simp only [Except.ok.injEq, Prod.mk.injEq] at h2
      obtain ⟨e1, e2⟩ := h2
      subst e1 e2
      refine ⟨rfl, after, r1, ?_, ?_, ?_⟩
      · rw [r2, levelAfterReturn_succ_clear _ _ hdc']
      · rw [hcall']; rfl
      · rw [r4, hdc']
  refine ⟨⟨_, hbegin, ?_⟩, key, ?_⟩
  · show t.context.level + 1 = _
    rw [hl]
  · intro hid hp
    have hex : ∃ r, ctxCall prog (some n) id ip s = .ok r := by
      rw [ctxCall_eq prog (some n) id ip hc ht hl hL']
      simp only [callFunc, hprog]
      rw [hbegin, ok_bind, hid, ok_bind]
      rw [ctxReturn_ok_of_no_scratch fuel (by rw [put_s_curContext]; exact hc)
        (task?_put_same _ ht) (k := L + 1)
        (by show t.context.level + 1 = _; rw [hl]; push_cast; rfl) hL' (by omega)
        (by exact hp)]
      rw [put_put, ok_bind, load_put_same _ ht, ok_bind]
      split
      · rw [storeCtx_put_same _ _ ht, ok_bind]
        exact ⟨_, rfl⟩
      · exact ⟨_, rfl⟩
    obtain ⟨⟨b, s'⟩, hr⟩ := hex
    obtain ⟨hb, _⟩ := key b s' hr
    subst hb
    exact ⟨s', hr⟩

/-- Witness for C5: in `demoRunning` the task at level 0 calls function 1, which
enters its level and returns at once; the call returns `false`. -/
theorem ctxCall_synchronous_round_trip_witness :
    demoRunning.s_curContext = some (TaskRef.slot 1) ∧
      ∃ s', ctxCall demoProg (some 1) 0 5 demoRunning = .ok (false, s') :=
  ⟨by decide,
    (ctxCall_synchronous_round_trip demoProg 8 1 (fun x => .ok x) 0 5 demoRunning (TaskRef.slot 1)
      (demoRunning.taskMem.getD 1 Task.zero) 0 (by decide) (by decide) (by decide) (by decide)
      (by decide)
      (fun _ x => by
        show (ctxBegin x >>= ctxReturn 8) = (ctxBegin x >>= fun y => .ok y) >>= ctxReturn 8
        cases ctxBegin x <;> rfl)
      (fun x y h => by cases h; exact ⟨rfl, rfl⟩)).2.2 (fun _ => rfl) (by decide)⟩

/-- What `ctxCall` returns for an arbitrary callee. -/
theorem ctxCall_inv {prog : Prog} {func : TaskFunc} {id ip : Int} {s : Sched} {c : TaskRef}
    {t : Task} {L : Nat} (hc : s.s_curContext = some c) (ht : s.task? c = some t)
    (hl : t.context.level = (L : Int)) (hL : L + 1 < 16) {b : Bool} {s' : Sched}
    (h : ctxCall prog func id ip s = .ok (b, s')) :
    ∃ s4 after, callFunc prog func id (s.put c (callEntryRecord func ip t L)) = .ok s4 ∧
      s4.task? c = some after ∧
      (b = true ↔ after.context.callLevel ≠ startCallLevel t L) ∧
      s' = (if b then s4.put c { after with context := { after.context with
              delayedCall := after.context.delayedCall.set L 1 } } else s4) ∧
      ∃ t', s'.task? c = some t' ∧
        t'.context.delayedCall.get L = (if b then 1 else after.context.delayedCall.get L) ∧
        t'.context.level = after.context.level ∧
        t'.context.callLevel = after.context.callLevel := by
  rw [ctxCall_eq prog func id ip hc ht hl hL] at h
  obtain ⟨s4, hcall, h1⟩ := bind_ok h; clear h
  obtain ⟨after, hafter, h2⟩ := bind_ok h1; clear h1
  rw [load_some_iff] at hafter
  refine ⟨s4, after, hcall, hafter, ?_⟩
  by_cases hne : startCallLevel t L ≠ after.context.callLevel
  · rw [if_pos hne, storeCtx_eq _ hafter, ok_bind] at h2
    simp only [Except.ok.injEq, Prod.mk.injEq] at h2
    obtain ⟨e1, e2⟩ := h2
    subst e1 e2
    refine ⟨⟨fun _ => fun e => hne e.symm, fun _ => rfl⟩, rfl, _, task?_put_same _ hafter, ?_, rfl, rfl⟩
    simp only [if_true]
    exact LevelArray.get_set_same _ _ _ (by omega)
  · rw [if_neg hne] at h2
    simp only [Except.ok.injEq, Prod.mk.injEq] at h2
    obtain ⟨e1, e2⟩ := h2
    subst e1 e2
    refine ⟨⟨fun hb => Bool.noConfusion hb, fun e => absurd (fun x => e x.symm) hne⟩, rfl, after,
      hafter, rfl, rfl, rfl⟩

/-- C6 (amended): delayed-call detection. For a current context at level `L`
with `L <= TASK_MAX_LEVELS - 2`, `ctxCall` enters the callee with
`delayedCall[L] = 0` and returns whenever the callee returns. Whenever it
returns, it returns `true` exactly when the caller's `callLevel` after the
callee differs from its value just before the increment (0 at level 0); in
exactly that case it sets `delayedCall[L]` to 1 and otherwise it changes nothing
after the callee, so `delayedCall[L]` is then what the callee left there: 0, the
value written before the call, when the callee left the cell as it found it. In
particular, for a callee that does `ctxBegin` and then `itask_yield` and returns,
`ctxCall` returns `true` with `delayedCall[L] = 1` and level `L`. -/
theorem ctxCall_delayed_detection (prog : Prog) (func : TaskFunc) (id ip : Int) (s : Sched)
    (c : TaskRef) (t : Task) (L : Nat)
    (hc : s.s_curContext = some c) (ht : s.task? c = some t)
    (hl : t.context.level = (L : Int)) (hL : L + 2 ≤ TASK_MAX_LEVELS) :
    (callEntryRecord func ip t L).context.delayedCall.get L = 0 ∧
    (∀ s4 after, callFunc prog func id (s.put c (callEntryRecord func ip t L)) = .ok s4 →
      s4.task? c = some after → ∃ b s', ctxCall prog func id ip s = .ok (b, s')) ∧
    (∀ b s', ctxCall prog func id ip s = .ok (b, s') →
      ∃ s4 after, callFunc prog func id (s.put c (callEntryRecord func ip t L)) = .ok s4 ∧
        s4.task? c = some after ∧
        (b = true ↔ after.context.callLevel ≠ (if L = 0 then 0 else t.context.callLevel)) ∧
        s' = (if b then s4.put c { after with context := { after.context with
                delayedCall := after.context.delayedCall.set L 1 } } else s4) ∧
        ∃ t', s'.task? c = some t' ∧
          t'.context.delayedCall.get L = (if b then 1 else after.context.delayedCall.get L) ∧
          (after.context.delayedCall.get L
              = (callEntryRecord func ip t L).context.delayedCall.get L →
            t'.context.delayedCall.get L = (if b then 1 else 0))) ∧
    (∀ (fuel delay n : Nat) (ip2 : Int), func = some n →
      (∀ i x, prog n i x = ctxBegin x >>= itask_yield fuel delay ip2) →
      ∀ b s', ctxCall prog func id ip s = .ok (b, s') →
        b = true ∧ ∃ t', s'.task? c = some t' ∧ t'.context.delayedCall.get L = 1 ∧
          t'.context.level = (L : Int)) := by
  have hL' : L + 1 < 16 := by
    have : L + 2 ≤ 16 := hL
    omega
  have h0 : (callEntryRecord func ip t L).context.delayedCall.get L = 0 :=
    LevelArray.get_set_same _ _ _ (by omega)
  refine ⟨h0, ?_, ?_, ?_⟩
  · intro s4 after hcall hafter
    rw [ctxCall_eq prog func id ip hc ht hl hL', hcall, ok_bind,
      (load_some_iff _ _ _).2 hafter, ok_bind]
    split
    · rw [storeCtx_eq _ hafter, ok_bind]
      exact ⟨_, _, rfl⟩
    · exact ⟨_, _, rfl⟩
  · intro b s' h
    obtain ⟨s4, after, h1, h2, h3, h4, t', h5, h6, _⟩ := ctxCall_inv hc ht hl hL' h
    refine ⟨s4, after, h1, h2, h3, h4, t', h5, h6, ?_⟩
    intro hkeep
    rw [h6, hkeep, h0]
  · intro fuel delay n ip2 hf hprog b s' h
    obtain ⟨s4, after, h1, h2, h3, _, t', h5, h6, h7, _⟩ := ctxCall_inv hc ht hl hL' h
    subst hf
    simp only [callFunc, hprog] at h1
    rw [ctxBegin_put _ hc ht, ok_bind] at h1
    obtain ⟨ty, hy1, hy2⟩ := itask_yield_context (k := L + 1)
      (by rw [put_s_curContext]; exact hc) (task?_put_same _ ht)
      (by show t.context.level + 1 = _; rw [hl]; push_cast; rfl) hL' h1
    rw [h2] at hy1
    cases hy1
    have hcl : after.context.callLevel = startCallLevel t L + 1 := by rw [hy2]; rfl
    have hb : b = true := h3.2 (by rw [hcl]; omega)
    subst hb
    refine ⟨rfl, t', h5, by simpa using h6, ?_⟩
    rw [h7, hy2]
    show ((L + 1 : Nat) : Int) - 1 = L
    push_cast
    omega

/-- Witness for C6: in `demoRunning` the task at level 0 calls function 2, which
yields; `ctxCall` returns `true`, `delayedCall[0]` is 1 and the level is 0. -/
theorem ctxCall_delayed_detection_witness :
    ctxCall demoProg (some 2) 0 5 demoRunning = .ok (true, demoCalled) ∧
      (true = true ∧ ∃ t', demoCalled.task? (TaskRef.slot 1) = some t' ∧
        t'.context.delayedCall.get 0 = 1 ∧ t'.context.level = ((0 : Nat) : Int)) :=
  ⟨by decide,
    (ctxCall_delayed_detection demoProg (some 2) 0 5 demoRunning (TaskRef.slot 1)
      (demoRunning.taskMem.getD 1 Task.zero) 0 (by decide) (by decide) (by decide)
      (by decide)).2.2.2 8 1 2 7 rfl (fun _ _ => rfl) true demoCalled (by decide)⟩

/-- C6 as stated fails for a callee that writes the caller's cell. In
`demoNested` the context is at level 1 with `callLevel = 1`. Function 5 of
`demoRecall` enters level 2 and returns to level 1, makes there a call whose
callee yields (that call sets `delayedCall[1] = 1`), and returns again. The
caller's `callLevel` is back at 1, so the outer `ctxCall` returns `false`, and
`delayedCall[1]` is 1, not 0. -/
theorem ctxCall_delayed_flag_counterexample :
    demoNested.s_curContext = some (TaskRef.slot 1) ∧
      (demoNested.taskMem.getD 1 Task.zero).context.level = 1 ∧
      (demoNested.taskMem.getD 1 Task.zero).context.callLevel = 1 ∧
      ctxCall demoRecall (some 5) 0 5 demoNested = .ok demoRecalled ∧
      demoRecalled.1 = false ∧
      (demoRecalled.2.taskMem.getD 1 Task.zero).context.callLevel = 1 ∧
      (demoRecalled.2.taskMem.getD 1 Task.zero).context.delayedCall.get 1 = 1 ∧
      ¬ ((demoRecalled.2.taskMem.getD 1 Task.zero).context.delayedCall.get 1
          = (if demoRecalled.1 then 1 else 0)) := by
  refine ⟨by decide, by decide, by decide, by decide, by decide, by decide, by decide, by decide⟩

/-! ## Delayed calls -/

/-- C7 (amended): let a caller at level `L` make a `ctxCall` whose callee does
`ctxBegin` and then `itask_yield`. When `ctxCall` returns it returns `true`, the
caller's level is `L` and `delayedCall[L] = 1`. The return that lowers the level
by two is the one the resumed callee executes at level `L + 1`: it reads
`delayedCall[L]` and leaves level `L - 1`. The caller, re-dispatched at level
`L`, observes `delayedCall[L] = 1`; its own `ctxReturn` at level `L` reads
`delayedCall[L - 1]` and lowers the level by two only if `L >= 1` and that flag
is set, and by one otherwise. -/
theorem delayed_call_two_level_unwind_is_callee_return (prog : Prog) (func : TaskFunc)
    (id ip : Int) (s : Sched) (c : TaskRef) (t : Task) (L : Nat)
    (fuel delay n : Nat) (ip2 : Int)
    (hc : s.s_curContext = some c) (ht : s.task? c = some t)
    (hl : t.context.level = (L : Int)) (hL : L + 2 ≤ TASK_MAX_LEVELS)
    (hf : func = some n)
    (hprog : ∀ i x, prog n i x = ctxBegin x >>= itask_yield fuel delay ip2) :
    ∀ b s1, ctxCall prog func id ip s = .ok (b, s1) →
      b = true ∧ ∃ t1, s1.task? c = some t1 ∧ t1.context.level = (L : Int) ∧
        t1.context.delayedCall.get L = 1 ∧
        (∀ (fuel2 : Nat) (s2 s3 : Sched) (t2 : Task), s2.s_curContext = some c →
          s2.task? c = some t2 → t2.context.delayedCall = t1.context.delayedCall →
          t2.context.level = (L : Int) + 1 → ctxReturn fuel2 s2 = .ok s3 →
          ∃ t3, s3.task? c = some t3 ∧ t3.context.level = (L : Int) - 1 ∧
            t3.context.delayedCall.get L = 1) ∧
        (∀ (fuel2 : Nat) (s2 s3 : Sched) (t2 : Task), s2.s_curContext = some c →
          s2.task? c = some t2 → t2.context.delayedCall = t1.context.delayedCall →
          t2.context.level = (L : Int) → ctxReturn fuel2 s2 = .ok s3 →
          t2.context.delayedCall.get L = 1 ∧
          ∃ t3, s3.task? c = some t3 ∧
            t3.context.level
              = (if 1 ≤ L ∧ t1.context.delayedCall.get (L - 1) ≠ 0 then (L : Int) - 2
                  else (L : Int) - 1)) := by
  have hL' : L + 1 < 16 := by
    have : L + 2 ≤ 16 := hL
    omega
  intro b s1 h
  obtain ⟨s4, after, h1, h2, h3, _, t1, h5, h6, h7, _⟩ := ctxCall_inv hc ht hl hL' h
  subst hf
  simp only [callFunc, hprog] at h1
  rw [ctxBegin_put _ hc ht, ok_bind] at h1
  obtain ⟨ty, hy1, hy2⟩ := itask_yield_context (k := L + 1)
    (by rw [put_s_curContext]; exact hc) (task?_put_same _ ht)
    (by show t.context.level + 1 = _; rw [hl]; push_cast; rfl) hL' h1
  rw [h2] at hy1
  cases hy1
  have hcl : after.context.callLevel = startCallLevel t L + 1 := by rw [hy2]; rfl
  have hb : b = true := h3.2 (by rw [hcl]; omega)
  subst hb
  have hflag : t1.context.delayedCall.get L = 1 := by simpa using h6
  have hlev : t1.context.level = (L : Int) := by
    rw [h7, hy2]
    show ((L + 1 : Nat) : Int) - 1 = L
    push_cast
    omega
  refine ⟨rfl, t1, h5, hlev, hflag, ?_, ?_⟩
  · intro fuel2 s2 s3 t2 g1 g2 g3 g4 g5
    have g4' : t2.context.level = ((L + 1 : Nat) : Int) := by rw [g4]; push_cast; rfl
    obtain ⟨⟨t3, r1, r2, _, r4, _⟩, _⟩ := ctxReturn_effect g1 g2 g4' hL' g5
    refine ⟨t3, r1, ?_, by rw [r4, g3]; exact hflag⟩
    rw [r2, levelAfterReturn_succ_set _ _ (by rw [g3, hflag]; decide)]
  · intro fuel2 s2 s3 t2 g1 g2 g3 g4 g5
    obtain ⟨⟨t3, r1, r2, _⟩, _⟩ := ctxReturn_effect g1 g2 g4 (by omega) g5
    refine ⟨by rw [g3]; exact hflag, t3, r1, ?_⟩
    rw [r2, g3]
    unfold levelAfterReturn
    by_cases e1 : L = 0
    · subst e1
      simp
    · by_cases e2 : t1.context.delayedCall.get (L - 1) = 0
      · simp [e1, e2]
      · have : 1 ≤ L := by omega
        simp [e1, e2, this]

/-- Witness for C7 (amended): the delayed call of function 2 in `demoRunning`. -/
theorem delayed_call_two_level_unwind_is_callee_return_witness :
    ctxCall demoProg (some 2) 0 5 demoRunning = .ok (true, demoCalled) ∧
      ∃ t1, demoCalled.task? (TaskRef.slot 1) = some t1 ∧
        t1.context.level = ((0 : Nat) : Int) ∧ t1.context.delayedCall.get 0 = 1 :=
  ⟨by decide,
    match (delayed_call_two_level_unwind_is_callee_return demoProg (some 2) 0 5 demoRunning
      (TaskRef.slot 1) (demoRunning.taskMem.getD 1 Task.zero) 0 8 1 2 7 (by decide) (by decide)
      (by decide) (by decide) rfl (fun _ _ => rfl) true demoCalled (by decide)).2 with
    | ⟨t1, h1, h2, h3, _⟩ => ⟨t1, h1, h2, h3⟩⟩

/-- Counterexample to C7 as stated: the caller in `demoDelayedCaller` made a
delayed call at level 0 and has been re-dispatched; it observes
`delayedCall[0] = 1` at its level 0, and its own `ctxReturn` leaves level -1,
one below its level and not two. -/
theorem delayed_caller_return_counterexample :
    (demoDelayedCaller.s_curTask, demoDelayedCaller.s_curContext)
        = (some (TaskRef.slot 1), some (TaskRef.slot 1)) ∧
      (demoDelayedCaller.task? (TaskRef.slot 1)).map
          (fun t => (t.context.level, t.context.delayedCall.get 0))
        = some (0, 1) ∧
      (ctxReturn 8 demoDelayedCaller).map
          (fun s => (s.task? (TaskRef.slot 1)).map (fun t => t.context.level))
        = .ok (some (-1)) ∧
      ((-1 : Int) ≠ 0 - 2) := by
  decide

/-! ## The level rule of `ctxReturn` and task termination -/

/-- C8: for a current context at level `l < TASK_MAX_LEVELS`, the first block of
`ctxReturn` always completes and sets the level to `l - 2` when `l >= 1` and
`delayedCall[l-1]` is non-zero, and to `l - 1` in every other case, and it
decrements `callLevel` by one when it is positive and leaves it otherwise (at 0
when it is 0); whenever `ctxReturn` returns, the context has this level and
`callLevel`, and the level is at least -1. -/
theorem ctxReturn_level_rule (fuel : Nat) (s : Sched) (c : TaskRef) (t : Task) (l : Nat)
    (hc : s.s_curContext = some c) (ht : s.task? c = some t)
    (hl : t.context.level = (l : Int)) (hlt : l < TASK_MAX_LEVELS) :
    (∃ s1 t1, ctxReturn.unwind s = .ok ((l : Int), s1) ∧ s1.task? c = some t1 ∧
      t1.context.level
        = (if 1 ≤ l ∧ t.context.delayedCall.get (l - 1) ≠ 0 then (l : Int) - 2 else (l : Int) - 1) ∧
      t1.context.callLevel
        = (if 0 < t.context.callLevel then t.context.callLevel - 1 else t.context.callLevel)) ∧
    (∀ s', ctxReturn fuel s = .ok s' →
      ∃ t', s'.task? c = some t' ∧
        t'.context.level
          = (if 1 ≤ l ∧ t.context.delayedCall.get (l - 1) ≠ 0 then (l : Int) - 2 else (l : Int) - 1) ∧
        t'.context.callLevel
          = (if 0 < t.context.callLevel then t.context.callLevel - 1 else t.context.callLevel) ∧
        (t.context.callLevel = 0 → t'.context.callLevel = 0) ∧
        -1 ≤ t'.context.level) := by
  have hk : l < 16 := hlt
  have hlev : levelAfterReturn t.context.delayedCall l
      = (if 1 ≤ l ∧ t.context.delayedCall.get (l - 1) ≠ 0 then (l : Int) - 2 else (l : Int) - 1) := by
    unfold levelAfterReturn
    by_cases h1 : l = 0
    · subst h1
      simp
    · by_cases h2 : t.context.delayedCall.get (l - 1) = 0
      · simp [h1, h2]
      · have : 1 ≤ l := by omega
        simp [h1, h2, this]
  have hcallv : callLevelAfterReturn t.context.callLevel
      = (if 0 < t.context.callLevel then t.context.callLevel - 1 else t.context.callLevel) := by
    unfold callLevelAfterReturn
    rfl
  have hlow : (-1 : Int) ≤ levelAfterReturn t.context.delayedCall l := by
    rw [hlev]
    split
    · omega
    · omega
  refine ⟨⟨_, _, ctxReturn_unwind_eq hc ht hl hk, task?_put_same _ ht, hlev, hcallv⟩, ?_⟩
  intro s' h
  obtain ⟨⟨t', r1, r2, r3, _⟩, _⟩ := ctxReturn_effect hc ht hl hk h
  refine ⟨t', r1, by rw [r2, hlev], by rw [r3, hcallv], ?_, by rw [r2]; exact hlow⟩
  intro h0
  rw [r3, hcallv, h0]
  rfl

/-- Witness for C8: the resumed callee of `demoResumedCallee` is at level 1 with
`delayedCall[0] = 1`; the unwinding block of `ctxReturn` leaves level -1. -/
theorem ctxReturn_level_rule_witness :
    demoResumedCallee.s_curContext = some (TaskRef.slot 1) ∧
      ∃ s1 t1, ctxReturn.unwind demoResumedCallee = .ok (((1 : Nat) : Int), s1) ∧
        s1.task? (TaskRef.slot 1) = some t1 ∧ t1.context.level = -1 :=
  ⟨by decide,
    match (ctxReturn_level_rule 8 demoResumedCallee (TaskRef.slot 1)
      (demoResumedCallee.taskMem.getD 1 Task.zero) 1 (by decide) (by decide) (by decide)
      (by decide)).1 with
    | ⟨s1, t1, h1, h2, h3, _⟩ => ⟨s1, t1, h1, h2, by rw [h3]; decide⟩⟩

/-- C9: let `ctxReturn` be executed with a current task `T` and a current context
at level `l < TASK_MAX_LEVELS`. At level 0 it is `task_free` applied to `T`
(after the unwinding block) followed by `s_curTask = nullptr`. Whenever it
returns, the live task count has dropped by one if and only if `l = 0`; at
`l = 0` the slot of `T` has been given back to the arena `s_tasks`; at any
`l >= 1` the count and the arena are unchanged and `T` is still the current task.
A return from a level `l >= 1` without scratch memory always completes. -/
theorem ctxReturn_frees_iff_level_zero (fuel : Nat) (s : Sched) (T c : TaskRef) (t : Task)
    (l : Nat) (hcur : s.s_curTask = some T) (hc : s.s_curContext = some c)
    (ht : s.task? c = some t) (hl : t.context.level = (l : Int)) (hlt : l < TASK_MAX_LEVELS) :
    (l = 0 → ∃ s1, ctxReturn.unwind s = .ok (0, s1) ∧
      ctxReturn fuel s
        = (task_free fuel (some T) s1 >>= fun s2 => .ok { s2 with s_curTask := none })) ∧
    (1 ≤ l → t.context.stackPtr.get l = none → ∃ s', ctxReturn fuel s = .ok s') ∧
    (∀ s', ctxReturn fuel s = .ok s' →
      (s'.s_taskCount = s.s_taskCount - 1 ↔ l = 0) ∧
      (l = 0 → s'.s_curTask = none ∧
        ∃ arr, s.s_tasks = some arr ∧
          s'.s_tasks = some { arr with freeSlots := T :: arr.freeSlots }) ∧
      (1 ≤ l → s'.s_taskCount = s.s_taskCount ∧ s'.s_tasks = s.s_tasks ∧
        s'.s_curTask = some T)) := by
  have hk : l < 16 := hlt
  refine ⟨?_, ?_, ?_⟩
  · intro h0
    subst h0
    refine ⟨_, ctxReturn_unwind_eq hc ht hl hk, ?_⟩
    unfold ctxReturn
    rw [ctxReturn_unwind_eq hc ht hl hk, ok_bind]
    simp only [put_s_curTask, hcur, Nat.cast_zero, Option.isSome_some, and_self, if_true]
  · intro h1 hp
    exact ⟨_, ctxReturn_ok_of_no_scratch fuel hc ht hl hk h1 hp⟩
  · intro s' h
    obtain ⟨_, _, _, e1, e2⟩ := ctxReturn_effect hc ht hl hk h
    by_cases h0 : l = 0
    · obtain ⟨f1, f2, arr, f3, f4⟩ := e1 ⟨h0, by rw [hcur]; rfl⟩
      refine ⟨⟨fun _ => h0, fun _ => f2⟩, fun _ => ⟨f1, arr, f3, ?_⟩, fun h1 => by omega⟩
      rw [f4, hcur]
      rfl
    · obtain ⟨f1, f2, f3⟩ := e2 (fun hh => h0 hh.1)
      refine ⟨⟨fun hcount => ?_, fun hh => absurd hh h0⟩, fun hh => absurd hh h0,
        fun _ => ⟨f2, f3, by rw [f1, hcur]⟩⟩
      rw [f2] at hcount
      omega

/-- Witness for C9: the root function of the running task of `demoRunning`
returns; the task count drops by one and there is no current task. -/
theorem ctxReturn_frees_iff_level_zero_witness :
    ctxReturn 8 demoRunning = .ok demoReturned ∧
      demoReturned.s_taskCount = demoRunning.s_taskCount - 1 ∧
      demoReturned.s_curTask = none :=
  ⟨by decide,
    (((ctxReturn_frees_iff_level_zero 8 demoRunning (TaskRef.slot 1) (TaskRef.slot 1)
      (demoRunning.taskMem.getD 1 Task.zero) 0 (by decide) (by decide) (by decide) (by decide)
      (by decide)).2.2 demoReturned (by decide)).1).2 rfl,
    (((ctxReturn_frees_iff_level_zero 8 demoRunning (TaskRef.slot 1) (TaskRef.slot 1)
      (demoRunning.taskMem.getD 1 Task.zero) 0 (by decide) (by decide) (by decide) (by decide)
      (by decide)).2.2 demoReturned (by decide)).2.1 rfl).1⟩

/-! ## `task_run` runs only due tasks -/

theorem task_run_loop_log {prog : Prog} : ∀ (fuel : Nat) (s : Sched) (log : List Dispatch)
    (s' : Sched) (log' : List Dispatch), task_run.loop prog fuel s log = .ok (s', log') →
    ∀ d ∈ log', d ∈ log ∨ ∃ t, d.before.task? d.task = some t ∧
      t.nextTick ≤ d.before.s_curTick ∧ d.before.s_curTask = some d.task ∧
      d.before.s_curContext = some d.task := by
  intro fuel
  induction fuel with
  | zero => intro s log s' log' h; simp [task_run.loop] at h
  | succ n ih =>
    intro s log s' log' h
    unfold task_run.loop at h
    split at h
    · simp only [Except.ok.injEq, Prod.mk.injEq] at h
      obtain ⟨_, e⟩ := h
      subst e
      intro d hd
      exact Or.inl hd
    · rename_i cur hcur
      split at h
      · cases h
      · rename_i s1 od stop hbody
        obtain ⟨t, ht, _, hcall, _⟩ := task_run_body_inv hbody
        have hnew : ∀ d ∈ log ++ od.toList, d ∈ log ∨ ∃ t, d.before.task? d.task = some t ∧
            t.nextTick ≤ d.before.s_curTick ∧ d.before.s_curTask = some d.task ∧
            d.before.s_curContext = some d.task := by
          intro d hd
          rcases List.mem_append.1 hd with h1 | h1
          · exact Or.inl h1
          · right
            have hod : od = some d := by
              cases od with
              | none => simp at h1
              | some d' =>
                simp at h1
                rw [h1]
            obtain ⟨c1, c2, _, c4, c5, c6, c7, _⟩ := hcall d hod
            rw [c2]
            exact ⟨t, c4, by rw [c5]; exact c1, by rw [c7]; exact hcur, c6⟩
        split at h
        · simp only [Except.ok.injEq, Prod.mk.injEq] at h
          obtain ⟨_, e⟩ := h
          subst e
          exact hnew
        · intro d hd
          rcases ih _ _ _ _ h d hd with h1 | h1
          · exact hnew d h1
          · exact Or.inr h1

/-- C10: whenever `task_run` returns, every call it made to a task's resume
function (the entries of `log`) was made with that task current, its context the
current context, and its `nextTick <= s_curTick` in the state of the call. And a
frame-break task that is not due is accepted by task selection but not run: the
frame loop entered with it as current task calls no function and ends the frame,
only remembering it in `s_resumeTask`. -/
theorem task_run_dispatches_only_due (prog : Prog) (fuel : Nat) (s s' : Sched)
    (log : List Dispatch) (h : task_run prog fuel s = .ok (s', log)) :
    (∀ d ∈ log, ∃ t, d.before.task? d.task = some t ∧
      t.nextTick ≤ d.before.s_curTick ∧ d.before.s_curTask = some d.task ∧
      d.before.s_curContext = some d.task) ∧
    (∀ (fuel2 : Nat) (x : Sched) (cur : TaskRef) (t : Task) (log0 : List Dispatch),
      x.s_curTask = some cur → x.task? cur = some t → t.framebreak = true →
      ¬ t.nextTick ≤ x.s_curTick →
      accepts x t = true ∧
      task_run.loop prog (fuel2 + 1) x log0 = .ok ({ x with s_resumeTask := some cur }, log0)) := by
  refine ⟨?_, ?_⟩
  · unfold task_run at h
    split at h
    · simp only [Except.ok.injEq, Prod.mk.injEq] at h
      obtain ⟨_, e⟩ := h
      subst e
      intro d hd
      cases hd
    · split at h
      · cases h
      · intro d hd
        rcases task_run_loop_log _ _ _ _ _ h d hd with h1 | h1
        · cases h1
        · exact h1
  · intro fuel2 x cur t log0 hcur ht hfb hnd
    refine ⟨by simp [accepts, hfb], ?_⟩
    have hl : ({ x with s_resumeTask := some cur } : Sched).load (some cur) = .ok t :=
      (load_some_iff _ _ _).2 (by rw [task?_congr rfl rfl]; exact ht)
    have hbody : task_run.body prog (fuel2 + 1) cur x
        = .ok ({ x with s_resumeTask := some cur }, none, true) := by
      unfold task_run.body
      rw [(load_some_iff _ _ _).2 ht, ok_bind]
      simp only [hfb, if_true]
      rw [hl, ok_bind]
      rw [if_neg hnd]
      rfl
    unfold task_run.loop
    rw [hcur]
    simp only [hbody, if_true, Option.toList_none, List.append_nil, hcur]

/-- Witness for C10: one frame of `demoFrame` runs the task in slot 1 and then
the frame-break task in slot 0, both due at the call. -/
theorem task_run_dispatches_only_due_witness :
    task_run demoProg 8 demoFrame = .ok demoFrameEnd ∧
      demoFrameEnd.2.map (fun d => d.task) = [TaskRef.slot 1, TaskRef.slot 0] ∧
      ∀ d ∈ demoFrameEnd.2, ∃ t, d.before.task? d.task = some t ∧
        t.nextTick ≤ d.before.s_curTick ∧ d.before.s_curTask = some d.task ∧
        d.before.s_curContext = some d.task :=
  ⟨by decide, by decide,
    (task_run_dispatches_only_due demoProg 8 demoFrame demoFrameEnd.1 demoFrameEnd.2
      (by decide)).1⟩

/-! ## Where the frame loop of `task_run` ends -/

/-- One pass of the frame loop entered with a frame-break task as current task:
the task is remembered in `s_resumeTask`, its function is called exactly when
it is due, and the loop is left. -/
theorem task_run_body_framebreak {prog : Prog} {fuel : Nat} {cur : TaskRef} {s s' : Sched}
    {t : Task} {od : Option Dispatch} {stop : Bool}
    (ht : s.task? cur = some t) (hfb : t.framebreak = true)
    (h : task_run.body prog fuel cur s = .ok (s', od, stop)) :
    stop = true ∧
    (od = none → ¬ t.nextTick ≤ s.s_curTick ∧ s' = { s with s_resumeTask := some cur }) ∧
    (∀ d, od = some d → t.nextTick ≤ s.s_curTick ∧ d.task = cur ∧
      d.before = { s with s_resumeTask := some cur, s_curContext := some cur } ∧
      callFunc prog d.func d.id d.before = .ok s') := by
  unfold task_run.body at h
  rw [(load_some_iff _ _ _).2 ht, ok_bind] at h
  simp only [hfb, if_true] at h
  have hl : ({ s with s_resumeTask := some cur } : Sched).load (some cur) = .ok t :=
    (load_some_iff _ _ _).2 (by rw [task?_congr rfl rfl]; exact ht)
  rw [hl, ok_bind] at h
  by_cases hdue : t.nextTick ≤ s.s_curTick
  · rw [if_pos hdue] at h
    obtain ⟨e, d, hd, d1, _, d3, _, _, d6⟩ :=
      task_run_body_call { s with s_resumeTask := some cur }
        (by rw [task?_congr rfl rfl]; exact ht) h
    refine ⟨e, (fun hn => by rw [hn] at hd; cases hd), ?_⟩
    intro d' hd'
    rw [hd] at hd'
    cases hd'
    exact ⟨hdue, d1, d3, d6⟩
  · rw [if_neg hdue] at h
    simp only [Bool.not_true, Bool.false_eq_true, if_false, Except.ok.injEq,
      Prod.mk.injEq] at h
    obtain ⟨e1, e2, e3⟩ := h
    subst e1 e2 e3
    exact ⟨rfl, fun _ => ⟨hdue, rfl⟩, fun d hd => by cases hd⟩

/-- The frame loop returns either with no current task or from a pass entered
with a frame-break task. -/
theorem task_run_loop_end {prog : Prog} : ∀ (fuel : Nat) (s : Sched) (log : List Dispatch)
    (s' : Sched) (log' : List Dispatch), task_run.loop prog fuel s log = .ok (s', log') →
    s'.s_curTask = none ∨
    ∃ (x : Sched) (cur : TaskRef) (t : Task) (od : Option Dispatch) (f : Nat)
      (log0 : List Dispatch),
      x.s_curTask = some cur ∧ x.task? cur = some t ∧ t.framebreak = true ∧
      task_run.body prog f cur x = .ok (s', od, true) ∧ log' = log0 ++ od.toList := by
  intro fuel
  induction fuel with
  | zero => intro s log s' log' h; simp [task_run.loop] at h
  | succ n ih =>
    intro s log s' log' h
    unfold task_run.loop at h
    split at h
    · rename_i hcur
      simp only [Except.ok.injEq, Prod.mk.injEq] at h
      obtain ⟨e, _⟩ := h
      subst e
      exact Or.inl hcur
    · rename_i cur hcur
      split at h
      · cases h
      · rename_i s1 od stop hbody
        obtain ⟨t, ht, hstop, _, _⟩ := task_run_body_inv hbody
        split at h
        · rename_i hs
          simp only [Except.ok.injEq, Prod.mk.injEq] at h
          obtain ⟨e1, e2⟩ := h
          subst e1 e2
          subst hs
          exact Or.inr ⟨s, cur, t, od, n + 1, log, hcur, ht, hstop.symm, hbody, rfl⟩
        · exact ih _ _ _ _ h

/-- C11 (amended): whenever `task_run` returns after entering its loop (live task
count not 0), either there is no current task any more (the loop condition
`while (s_curTask)` failed), or its final pass was entered with a frame-break
task `cur` as current task and left by `break`: that pass set `s_resumeTask` to
`cur`, and it called the resume function of `cur` if and only if `cur` was due. A
frame-break task that is not due ends the frame without being run, with
`s_resumeTask = cur`; when it was run, the call was made in a state with
`s_resumeTask = cur`, which is still so on return if no task function writes
`s_resumeTask`. -/
theorem task_run_frame_end (prog : Prog) (fuel : Nat) (s s' : Sched) (log : List Dispatch)
    (hcount : s.s_taskCount ≠ 0) (h : task_run prog fuel s = .ok (s', log)) :
    s'.s_curTask = none ∨
    ∃ (x : Sched) (cur : TaskRef) (t : Task) (od : Option Dispatch) (f : Nat)
      (log0 : List Dispatch),
      x.s_curTask = some cur ∧ x.task? cur = some t ∧ t.framebreak = true ∧
      task_run.body prog f cur x = .ok (s', od, true) ∧ log = log0 ++ od.toList ∧
      (od = none ↔ ¬ t.nextTick ≤ x.s_curTick) ∧
      (od = none → s' = { x with s_resumeTask := some cur }) ∧
      (∀ d, od = some d → d.task = cur ∧
        d.before = { x with s_resumeTask := some cur, s_curContext := some cur } ∧
        callFunc prog d.func d.id d.before = .ok s') ∧
      ((∀ n i a b, prog n i a = .ok b → b.s_resumeTask = a.s_resumeTask) →
        s'.s_resumeTask = some cur) := by
  unfold task_run at h
  rw [if_neg hcount] at h
  split at h
  · cases h
  · rcases task_run_loop_end _ _ _ _ _ h with h1 | ⟨x, cur, t, od, f, log0, h1, h2, h3, h4, h5⟩
    · exact Or.inl h1
    · obtain ⟨_, k1, k2⟩ := task_run_body_framebreak h2 h3 h4
      refine Or.inr ⟨x, cur, t, od, f, log0, h1, h2, h3, h4, h5, ⟨fun e => (k1 e).1, ?_⟩,
        fun e => (k1 e).2, fun d hd => ⟨(k2 d hd).2.1, (k2 d hd).2.2.1, (k2 d hd).2.2.2⟩, ?_⟩
      · intro hnd
        cases hod : od with
        | none => rfl
        | some d => exact absurd (k2 d hod).1 hnd
      · intro hprog
        cases hod : od with
        | none => rw [(k1 hod).2]
        | some d =>
          obtain ⟨_, _, q3, q4⟩ := k2 d hod
          cases hf : d.func with
          | none => rw [hf] at q4; simp [callFunc] at q4
          | some n =>
            rw [hf] at q4
            simp only [callFunc] at q4
            rw [hprog n _ _ _ q4, q3]

/-- Witness for C11 (amended): one frame of `demoFrame` ends at the frame-break
task in slot 0, which is remembered in `s_resumeTask`. -/
theorem task_run_frame_end_witness :
    demoFrame.s_taskCount ≠ 0 ∧ task_run demoProg 8 demoFrame = .ok demoFrameEnd ∧
      demoFrameEnd.1.s_resumeTask = some (TaskRef.slot 0) ∧
      (demoFrameEnd.1.s_curTask = none ∨
        ∃ (x : Sched) (cur : TaskRef) (t : Task) (od : Option Dispatch) (f : Nat)
          (log0 : List Dispatch),
          x.s_curTask = some cur ∧ x.task? cur = some t ∧ t.framebreak = true ∧
          task_run.body demoProg f cur x = .ok (demoFrameEnd.1, od, true) ∧
          demoFrameEnd.2 = log0 ++ od.toList) :=
  ⟨by decide, by decide, by decide,
    match task_run_frame_end demoProg 8 demoFrame demoFrameEnd.1 demoFrameEnd.2 (by decide)
      (by decide) with
    | Or.inl h => Or.inl h
    | Or.inr ⟨x, cur, t, od, f, log0, h1, h2, h3, h4, h5, _⟩ =>
      Or.inr ⟨x, cur, t, od, f, log0, h1, h2, h3, h4, h5⟩⟩

/-- Counterexample to C11 as stated: in `demoSleepingBreak` the only task is a
frame-break task that is not due (it sleeps until tick 50, the tick is 10).
`task_run` enters its loop (the live task count is 1) and returns, yet it called
no resume function at all during the frame. And in `demoSolo` the only task is
not a frame-break task and its root function returns at once: `task_run` enters
its loop, runs that task and returns, with no current task and nothing
remembered in `s_resumeTask`. -/
theorem task_run_ends_without_running_counterexample :
    demoSleepingBreak.s_taskCount = 1 ∧
      (demoSleepingBreak.task? (TaskRef.slot 0)).map
          (fun t => (t.framebreak, t.nextTick, demoSleepingBreak.s_curTick))
        = some (true, 50, 10) ∧
      (task_run demoProg 8 demoSleepingBreak).map
          (fun r => (r.2.length, r.1.s_curTask, r.1.s_resumeTask))
        = .ok (0, some (TaskRef.slot 0), some (TaskRef.slot 0)) ∧
      demoSolo.s_taskCount = 1 ∧
      (demoSolo.task? (TaskRef.slot 0)).map (fun t => t.framebreak) = some false ∧
      (task_run demoProg 8 demoSolo).map
          (fun r => (r.2.map (fun d => d.task), r.1.s_curTask, r.1.s_resumeTask))
        = .ok ([TaskRef.slot 0], none, none) := by
  decide

/-! ## Where the next frame starts -/

/-- C12 (amended): if a frame halted at the frame-break task `A`
(`s_resumeTask = A`) and `B` is the main-chain successor of `A`
(`A.nextMain = B`) with an entry function in `callstack[0]`, then the next
`task_run` starts at `B`, the task after `A`: the loop at its start moves from
`s_resumeTask` to its successor before it tests anything, so the first task made
current, before the frame loop is entered, is `B`. -/
theorem task_run_starts_after_resume_task (prog : Prog) (fuel : Nat) (s : Sched)
    (A B : TaskRef) (tA tB : Task)
    (hcount : s.s_taskCount ≠ 0) (hres : s.s_resumeTask = some A)
    (hA : s.task? A = some tA) (hAB : tA.nextMain = some B) (hB : s.task? B = some tB)
    (hfun : (tB.context.callstack.get 0).isSome = true) :
    task_run.start s (fuel + 1) s.s_resumeTask = .ok (some B) ∧
    task_run prog (fuel + 1) s
      = task_run.loop prog (fuel + 1) { s with s_curTask := some B, s_currentId := 0 } [] := by
  have hstart : task_run.start s (fuel + 1) (some A) = .ok (some B) := by
    simp [task_run.start, Sched.load, hA, hAB, hB, hfun]
  refine ⟨by rw [hres]; exact hstart, ?_⟩
  unfold task_run
  rw [if_neg hcount]
  simp only [hres, Option.isSome_some, if_true, hstart]

/-- Witness for C12 (amended): after the frame of `demoHalt` halted at the
frame-break task in slot 1, the next frame starts at slot 0, its main-chain
successor. -/
theorem task_run_starts_after_resume_task_witness :
    demoHalted.s_resumeTask = some (TaskRef.slot 1) ∧
      task_run.start demoHalted 1 demoHalted.s_resumeTask = .ok (some (TaskRef.slot 0)) :=
  ⟨by decide,
    (task_run_starts_after_resume_task demoProg 0 demoHalted (TaskRef.slot 1) (TaskRef.slot 0)
      (demoHalted.taskMem.getD 1 Task.zero) (demoHalted.taskMem.getD 0 Task.zero)
      (by decide) (by decide) (by decide) (by decide) (by decide) (by decide)).1⟩

/-- Counterexample to C12 as stated: the frame of `demoHalt` ran the frame-break
task `A` in slot 1 and halted there (`s_resumeTask = A`); `A` has the main-chain
sibling `B` in slot 0 after it. The next `task_run` makes `B` current before
entering its loop, not `A`. -/
theorem task_run_resume_counterexample :
    (task_run demoProg 8 demoHalt).map (fun r => (r.2.map (fun d => d.task), r.1.s_resumeTask))
        = .ok ([TaskRef.slot 1], some (TaskRef.slot 1)) ∧
      (demoHalted.task? (TaskRef.slot 1)).map (fun t => (t.framebreak, t.nextMain))
        = some (true, some (TaskRef.slot 0)) ∧
      demoHalted.s_taskCount ≠ 0 ∧
      task_run.start demoHalted 8
          (if demoHalted.s_resumeTask.isSome then demoHalted.s_resumeTask else demoHalted.s_curTask)
        = .ok (some (TaskRef.slot 0)) ∧
      task_run.start demoHalted 8
          (if demoHalted.s_resumeTask.isSome then demoHalted.s_resumeTask else demoHalted.s_curTask)
        ≠ .ok (some (TaskRef.slot 1)) := by
  decide

/-! ## Sleeping tasks -/

/-- The walk of `selectNextTask` does not select a task that is neither due nor
a frame-break task. -/
theorem walk_skips_unaccepted {s : Sched} {fuel : Nat} {p : TaskPtr} {passed : List TaskRef}
    {w : Walk} {T : TaskRef} {t : Task} (ht : s.task? T = some t) (hacc : accepts s t = false)
    (h : selectNextTask.walk s fuel p passed = .ok w) : w.selected ≠ some T := by
  intro hsel
  obtain ⟨t', h1, h2⟩ := (walk_spec s fuel p passed w h).1 T hsel
  rw [ht] at h1
  cases h1
  rw [hacc] at h2
  cases h2

/-- Selection frames at ticks below the sentinel never select a task that sleeps
and is not a frame-break task, and leave it asleep. -/
theorem selectAtTicks_skips_sleeper (fuel : Nat) (T : TaskRef) :
    ∀ (ticks : List Nat) (s s' : Sched) (sel : List TaskPtr),
      (∃ t, s.task? T = some t ∧ t.nextTick = TASK_SLEEP ∧ t.framebreak = false) →
      (∀ tick ∈ ticks, tick < TASK_SLEEP) →
      selectAtTicks fuel ticks s = .ok (sel, s') →
      some T ∉ sel ∧ ∃ t, s'.task? T = some t ∧ t.nextTick = TASK_SLEEP ∧ t.framebreak = false := by
  intro ticks
  induction ticks with
  | nil =>
    intro s s' sel hT _ h
    simp only [selectAtTicks, Except.ok.injEq, Prod.mk.injEq] at h
    obtain ⟨e1, e2⟩ := h
    subst e1 e2
    exact ⟨List.not_mem_nil _, hT⟩
  | cons tick rest ih =>
    intro s s' sel hT hticks h
    obtain ⟨t, ht, hsleep, hfb⟩ := hT
    unfold selectAtTicks at h
    split at h
    · cases h
    · rename_i w hw
      split at h
      · cases h
      · rename_i s1 hs1
        split at h
        · cases h
        · rename_i r hr
          simp only [Except.ok.injEq, Prod.mk.injEq] at h
          obtain ⟨e1, e2⟩ := h
          subst e1 e2
          have htick : tick < TASK_SLEEP := hticks tick (List.mem_cons_self _ _)
          have ht0 : ({ s with s_curTick := tick } : Sched).task? T = some t := by
            rw [task?_congr rfl rfl]; exact ht
          have hacc : accepts { s with s_curTick := tick } t = false := by
            rw [accepts_false_iff]
            refine ⟨?_, hfb⟩
            show ¬ t.nextTick ≤ tick
            rw [hsleep]
            omega
          have hnot : w.selected ≠ some T := walk_skips_unaccepted ht0 hacc hw
          have hrec := (selectNextTask_records hs1).1 T
          obtain ⟨k1, k2⟩ := ih s1 r.2 r.1 ⟨t, by rw [hrec]; exact ht0, hsleep, hfb⟩
            (fun x hx => hticks x (List.mem_cons_of_mem _ hx)) (by rw [hr])
          refine ⟨?_, k2⟩
          intro hmem
          rcases List.mem_cons.1 hmem with e | e
          · exact hnot e.symm
          · exact k1 e

/-- The yield of a task without `retTask`: the record gets its new `nextTick` and
task selection runs. -/
theorem itask_yield_no_retTask (fuel delay : Nat) (ip : Int) {s : Sched} {T : TaskRef} {t : Task}
    {k : Nat} (hcur : s.s_curTask = some T) (hctx : s.s_curContext = some T)
    (ht : s.task? T = some t) (hret : t.retTask = none)
    (hlevel : t.context.level = (k : Int)) (hk : k < 16) :
    itask_yield fuel delay ip s =
      (selectNextTask fuel
        (s.put T { t with
          context := { t.context with ip := t.context.ip.set k ip, level := (k : Int) - 1 }
          nextTick := if delay < TASK_SLEEP then u32 ((s.s_curTick : Int) + delay) else delay })
        >>= fun s3 => check (s3.s_curTask.isSome = true) >>= fun _ => .ok s3) := by
  have hrange : (0 : Int) ≤ (k : Int) ∧ (k : Int) < 16 := ⟨by omega, by omega⟩
  unfold itask_yield
  rw [ctx_eq hctx ht, ok_bind, check_bind _ (by rw [hlevel]; exact hrange), hctx,
    storeCtx_eq _ ht, ok_bind]
  simp only [put_s_curTask, hcur, load_put_same _ ht, ok_bind, hret, store_put_same _ _ ht,
    put_s_curTick, hlevel, Int.toNat_ofNat]

/-- C13 (amended): let `T` be a current task that is not a frame-break task and
has no `retTask`, with its context at a level below `TASK_MAX_LEVELS`. When it
suspends with `itask_yield(TASK_SLEEP, ip)` its `nextTick` becomes `TASK_SLEEP`.
In every later state in which its record is still so (nothing wrote its
`nextTick`), selection frames at any ticks below the sentinel never select `T`
and leave it asleep. `task_makeActive` sets its `nextTick` to 0, after which the
due check accepts it at every tick; `task_setNextTick` sets it to the given
tick. -/
theorem sleeping_task_not_selected (fuel : Nat) (ip : Int) (s s1 : Sched) (T : TaskRef)
    (t : Task) (k : Nat)
    (hcur : s.s_curTask = some T) (hctx : s.s_curContext = some T)
    (ht : s.task? T = some t) (hret : t.retTask = none) (hfb : t.framebreak = false)
    (hlevel : t.context.level = (k : Int)) (hk : k < TASK_MAX_LEVELS)
    (hy : itask_yield fuel TASK_SLEEP ip s = .ok s1) :
    (∃ t1, s1.task? T = some t1 ∧ t1.nextTick = TASK_SLEEP ∧ t1.framebreak = false) ∧
    (∀ (x x' : Sched) (fuel2 : Nat) (ticks : List Nat) (sel : List TaskPtr),
      (∃ tx, x.task? T = some tx ∧ tx.nextTick = TASK_SLEEP ∧ tx.framebreak = false) →
      (∀ tick ∈ ticks, tick < TASK_SLEEP) →
      selectAtTicks fuel2 ticks x = .ok (sel, x') →
      some T ∉ sel ∧
        ∃ tx, x'.task? T = some tx ∧ tx.nextTick = TASK_SLEEP ∧ tx.framebreak = false) ∧
    (∀ (x x' : Sched), task_makeActive (some T) x = .ok x' →
      ∃ tx, x'.task? T = some tx ∧ tx.nextTick = 0 ∧
        ∀ tick, accepts { x' with s_curTick := tick } tx = true) ∧
    (∀ (x x' : Sched) (tick : Nat), task_setNextTick (some T) tick x = .ok x' →
      ∃ tx, x'.task? T = some tx ∧ tx.nextTick = tick) := by
  refine ⟨?_, ?_, ?_, ?_⟩
  · rw [itask_yield_no_retTask fuel TASK_SLEEP ip hcur hctx ht hret hlevel hk] at hy
    obtain ⟨s3, hsel, h2⟩ := bind_ok hy
    obtain ⟨_, _, h3⟩ := bind_ok h2
    cases h3
    have e := (selectNextTask_records hsel).1 T
    rw [task?_put_same _ ht] at e
    exact ⟨_, e, by simp, hfb⟩
  · intro x x' fuel2 ticks sel hx hticks hsel
    exact selectAtTicks_skips_sleeper fuel2 T ticks x x' sel hx hticks hsel
  · intro x x' h
    unfold task_makeActive at h
    obtain ⟨r, tx, hp, htx, hx'⟩ := store_ok_inv h
    cases hp
    subst hx'
    refine ⟨_, task?_put_same _ htx, rfl, ?_⟩
    intro tick
    simp [accepts]
  · intro x x' tick h
    unfold task_setNextTick at h
    obtain ⟨r, tx, hp, htx, hx'⟩ := store_ok_inv h
    cases hp
    subst hx'
    exact ⟨_, task?_put_same _ htx, rfl⟩

/-- Witness for C13 (amended): the ordinary task in slot 1 of `demoRunning`
yields with the sleep sentinel; selection frames at ticks 11 and 12 select the
task in slot 0 and nothing else. -/
theorem sleeping_task_not_selected_witness :
    itask_yield 8 TASK_SLEEP 7 demoRunning = .ok demoAsleep ∧
      (selectAtTicks 8 [11, 12] demoAsleep).map (fun r => r.1)
        = .ok [some (TaskRef.slot 0), some (TaskRef.slot 0)] ∧
      ∃ t1, demoAsleep.task? (TaskRef.slot 1) = some t1 ∧ t1.nextTick = TASK_SLEEP ∧
        t1.framebreak = false :=
  ⟨by decide, by decide,
    (sleeping_task_not_selected 8 7 demoRunning demoAsleep (TaskRef.slot 1)
      (demoRunning.taskMem.getD 1 Task.zero) 0 (by decide) (by decide) (by decide) (by decide)
      (by decide) (by decide) (by decide) (by decide)).1⟩

/-- Counterexample to C13 as stated: the frame-break task in slot 1 of `demoHalt`
suspends with `itask_yield(TASK_SLEEP, 7)`, so its `nextTick` is the sentinel.
Neither `task_makeActive` nor `task_setNextTick` is applied, yet at tick 11,
below the sentinel, `selectNextTask` selects it. And in `demoHandOff` the
ordinary task in slot 0, entered through `itask_run`, suspended with
`itask_yield(TASK_SLEEP, 7)`: the yield gave control back to its caller without
writing `nextTick`, and at tick 11 `selectNextTask` selects the task. -/
theorem sleeping_framebreak_selected_counterexample :
    (demoSlept.task? (TaskRef.slot 1)).map (fun t => (t.nextTick, t.framebreak))
        = some (TASK_SLEEP, true) ∧
      11 < TASK_SLEEP ∧
      (selectAtTicks 8 [11] demoSlept).map (fun r => r.1) = .ok [some (TaskRef.slot 1)] ∧
      (selectNextTask 8 { demoSlept with s_curTick := 11 }).map (fun x => x.s_curTask)
        = .ok (some (TaskRef.slot 1)) ∧
      (demoHandOff.s_curTask, (demoHandOff.task? (TaskRef.slot 0)).map
          (fun t => (t.nextTick, t.framebreak, t.context.ip.get 0)))
        = (some (TaskRef.slot 1), some (10, false, 7)) ∧
      (selectAtTicks 8 [11] demoHandOff).map (fun r => r.1) = .ok [some (TaskRef.slot 0)] := by
  decide

/-! ## The effect of `pushTask` and `createTask` -/

/-- The slot handed out by `allocTask` is backed by memory. -/
theorem allocTask_backed {s s1 : Sched} {c : TaskRef} (hok : arenaOK s = true)
    (h : allocTask s = .ok (some c, s1)) : ∃ t0, s1.task? c = some t0 := by
  unfold allocTask at h
  cases harr : s.s_tasks with
  | none => simp [harr] at h
  | some arr =>
    simp only [harr, Except.ok.injEq, Prod.mk.injEq] at h
    obtain ⟨hc, hs1⟩ := h
    subst hs1
    simp only [arenaOK, harr, Bool.and_eq_true, decide_eq_true_eq, List.all_eq_true] at hok
    obtain ⟨_, hall⟩ := hok
    have hidx : ∃ i, c = TaskRef.slot i ∧
        i < (allocFromChunkedArray TaskRef.slot arr).2.elemCount := by
      cases hfree : arr.freeSlots with
      | nil =>
        by_cases hcap : arr.elemCount < arr.capacity
        · simp only [allocFromChunkedArray, hfree, hcap, if_true, Option.some.injEq] at hc ⊢
          exact ⟨arr.elemCount, hc.symm, by omega⟩
        · simp [allocFromChunkedArray, hfree, hcap] at hc
      | cons p rest =>
        simp only [allocFromChunkedArray, hfree, Option.some.injEq] at hc ⊢
        subst hc
        have hp := hall p (by rw [hfree]; exact List.mem_cons_self _ _)
        cases p with
        | root => simp at hp
        | slot i => exact ⟨i, rfl, by simpa using hp⟩
    obtain ⟨i, hi, hlt⟩ := hidx
    subst hi
    simp only [Sched.task?]
    have hlen : i < (s.taskMem ++ List.replicate
        ((allocFromChunkedArray TaskRef.slot arr).2.elemCount - s.taskMem.length) Task.zero).length := by
      simp only [List.length_append, List.length_replicate]
      omega
    exact ⟨_, List.getElem?_eq_getElem hlen⟩

/-- The allocation of a task slot changes no scheduler variable but `s_tasks`. -/
theorem allocTask_globals {s s1 : Sched} {p : TaskPtr} (h : allocTask s = .ok (p, s1)) :
    s1.s_taskIter = s.s_taskIter ∧ s1.s_taskCount = s.s_taskCount ∧
    s1.s_curTask = s.s_curTask ∧ s1.s_curTick = s.s_curTick ∧
    s1.s_curContext = s.s_curContext ∧ s1.s_resumeTask = s.s_resumeTask ∧
    s1.s_stackBlocks = s.s_stackBlocks ∧ s1.s_currentId = s.s_currentId := by
  unfold allocTask at h
  cases harr : s.s_tasks with
  | none => simp [harr] at h
  | some arr =>
    simp only [harr, Except.ok.injEq, Prod.mk.injEq] at h
    obtain ⟨_, hs1⟩ := h
    subst hs1
    exact ⟨rfl, rfl, rfl, rfl, rfl, rfl, rfl, rfl⟩

/-- An arena that is not exhausted hands out a slot. -/
theorem allocTask_ok {s : Sched} {arr : ChunkedArray TaskRef} (harr : s.s_tasks = some arr)
    (hroom : arr.freeSlots ≠ [] ∨ arr.elemCount < arr.capacity) :
    ∃ c s1, allocTask s = .ok (some c, s1) := by
  have hsome : ∃ c, (allocFromChunkedArray TaskRef.slot arr).1 = some c := by
    cases hfree : arr.freeSlots with
    | nil =>
      rcases hroom with h1 | h1
      · exact absurd hfree h1
      · exact ⟨TaskRef.slot arr.elemCount, by simp [allocFromChunkedArray, hfree, h1]⟩
    | cons p rest => exact ⟨p, by simp [allocFromChunkedArray, hfree]⟩
  obtain ⟨c, hc⟩ := hsome
  unfold allocTask
  simp only [harr]
  exact ⟨c, _, by rw [hc]⟩

/-- The field writes of `pushTask` in closed form. -/
theorem pushTask_fill_eq (func : TaskFunc) (fb : Bool) (lrf : TaskFunc) {s : Sched}
    {new it : TaskRef} {tIt t0 : Task} (hiter : s.s_taskIter = some it)
    (hIt : s.task? it = some tIt) (hnew : s.task? new = some t0) (hne : new ≠ it) :
    pushTask.fill func fb lrf new s
      = .ok (((s.put new { t0 with nextMain := tIt.nextMain, prevMain := some it }).put it
          { tIt with nextMain := some new }).put new
            (pushTask.record func fb lrf it tIt.nextMain s.s_curTick t0)) := by
  unfold pushTask.fill
  rw [hiter, (load_some_iff _ _ _).2 hIt, ok_bind, store_eq _ hnew, ok_bind]
  have h3 : (s.put new { t0 with nextMain := tIt.nextMain, prevMain := some it }).task? it
      = some tIt := by
    rw [task?_put_other _ (Ne.symm hne)]; exact hIt
  simp only [put_s_taskIter, hiter]
  rw [store_eq _ h3, ok_bind]
  have h4 : ((s.put new { t0 with nextMain := tIt.nextMain, prevMain := some it }).put it
      { tIt with nextMain := some new }).task? new
        = some { t0 with nextMain := tIt.nextMain, prevMain := some it } := by
    rw [task?_put_other _ hne]; exact task?_put_same _ hnew
  rw [store_eq _ h4]
  simp [pushTask.record, hiter]

theorem withRegistry_curTick (s : Sched) : (withRegistry s).s_curTick = s.s_curTick := by
  unfold withRegistry
  split <;> rfl

/-- The effect of `pushTask` with cursor `it`: the new slot is fresh, the cursor
points to it, it carries `pushTask.record`, and every other record is kept. -/
theorem pushTask_effect {func : TaskFunc} {fb : Bool} {lrf : TaskFunc} {s s' : Sched}
    {new it : TaskRef} {tIt : Task}
    (harena : arenaOK (withRegistry s) = true) (hiter : (withRegistry s).s_taskIter = some it)
    (hlive : isLive (withRegistry s) it = true) (hIt : (withRegistry s).task? it = some tIt)
    (h : pushTask func fb lrf s = .ok (new, s')) :
    arenaOK s' = true ∧ isLive s' new = true ∧
    (∀ r, isLive (withRegistry s) r = true → isLive s' r = true ∧ r ≠ new) ∧
    s'.s_taskIter = some it ∧ s'.s_curTask = (withRegistry s).s_curTask ∧
    s'.s_taskCount = (withRegistry s).s_taskCount + 1 ∧ s'.s_curTick = s.s_curTick ∧
    s'.task? it = some { tIt with nextMain := some new } ∧
    (∃ t0, s'.task? new = some (pushTask.record func fb lrf it tIt.nextMain s.s_curTick t0)) ∧
    (∀ r t, r ≠ new → r ≠ it → (withRegistry s).task? r = some t → s'.task? r = some t) := by
  unfold pushTask at h
  have hw : (if s.s_tasks.isSome = true then s else createRootTask s) = withRegistry s := rfl
  rw [hw] at h
  split at h
  · cases h
  · cases h
  · rename_i newTask s1 ha
    split at h
    · cases h
    · rename_i s2 hfill
      simp only [Except.ok.injEq, Prod.mk.injEq] at h
      obtain ⟨h1, h2⟩ := h
      subst h1 h2
      obtain ⟨a1, a2, a3, a4, a5, a6⟩ := allocTask_fresh harena ha
      obtain ⟨t0, ht0⟩ := allocTask_backed harena ha
      obtain ⟨g1, g2, _, _, _, _, _, _⟩ := allocTask_globals ha
      have hne : newTask ≠ it := fun e => (a3 it hlive).2 e.symm
      have q1 : ({ s1 with s_taskCount := s1.s_taskCount + 1 } : Sched).s_taskIter = some it := by
        show s1.s_taskIter = some it
        rw [g1]; exact hiter
      have q2 : ({ s1 with s_taskCount := s1.s_taskCount + 1 } : Sched).task? it = some tIt := by
        rw [task?_congr rfl rfl]; exact a6 it tIt hIt
      have q3 : ({ s1 with s_taskCount := s1.s_taskCount + 1 } : Sched).task? newTask = some t0 := by
        rw [task?_congr rfl rfl]; exact ht0
      rw [pushTask_fill_eq func fb lrf q1 q2 q3 hne] at hfill
      simp only [Except.ok.injEq] at hfill
      subst hfill
      have htick : s1.s_curTick = s.s_curTick := by rw [a5, withRegistry_curTick]
      refine ⟨?_, ?_, ?_, ?_, ?_, ?_, ?_, ?_, ?_, ?_⟩
      · simpa [arenaOK] using a1
      · simpa [isLive] using a2
      · intro r hr
        have := a3 r hr
        exact ⟨by simpa [isLive] using this.1, this.2⟩
      · simp only [put_s_taskIter]
        show s1.s_taskIter = some it
        rw [g1]; exact hiter
      · simp only [put_s_curTask]
        show s1.s_curTask = _
        exact a4
      · simp only [put_s_taskCount]
        show s1.s_taskCount + 1 = _
        rw [g2]
      · simp only [put_s_curTick]
        exact htick
      · rw [task?_put_other _ (Ne.symm hne)]
        have hb2 : (({ s1 with s_taskCount := s1.s_taskCount + 1 } : Sched).put newTask
            { t0 with nextMain := tIt.nextMain, prevMain := some it }).task? it = some tIt := by
          rw [task?_put_other _ (Ne.symm hne), task?_congr rfl rfl]
          exact a6 it tIt hIt
        exact task?_put_same _ hb2
      · refine ⟨t0, ?_⟩
        have hb : ((({ s1 with s_taskCount := s1.s_taskCount + 1 } : Sched).put newTask
            { t0 with nextMain := tIt.nextMain, prevMain := some it }).put it
              { tIt with nextMain := some newTask }).task? newTask
            = some { t0 with nextMain := tIt.nextMain, prevMain := some it } := by
          rw [task?_put_other _ hne]
          exact task?_put_same _ (by rw [task?_congr rfl rfl]; exact ht0)
        rw [task?_put_same _ hb]
        show some (pushTask.record func fb lrf it tIt.nextMain s1.s_curTick t0) = _
        rw [htick]
      · intro r t hr1 hr2 hr
        rw [task?_put_other _ hr1, task?_put_other _ hr2, task?_put_other _ hr1, task?_congr rfl rfl]
        exact a6 r t hr

/-- With a valid cursor and an arena that is not exhausted, `pushTask` returns. -/
theorem pushTask_ok (func : TaskFunc) (fb : Bool) (lrf : TaskFunc) {s : Sched}
    {it : TaskRef} {tIt : Task} {arr : ChunkedArray TaskRef}
    (harena : arenaOK (withRegistry s) = true) (hiter : (withRegistry s).s_taskIter = some it)
    (hlive : isLive (withRegistry s) it = true) (hIt : (withRegistry s).task? it = some tIt)
    (harr : (withRegistry s).s_tasks = some arr)
    (hroom : arr.freeSlots ≠ [] ∨ arr.elemCount < arr.capacity) :
    ∃ new s', pushTask func fb lrf s = .ok (new, s') := by
  obtain ⟨c, s1, ha⟩ := allocTask_ok harr hroom
  obtain ⟨_, _, a3, _, _, a6⟩ := allocTask_fresh harena ha
  obtain ⟨t0, ht0⟩ := allocTask_backed harena ha
  obtain ⟨g1, _⟩ := allocTask_globals ha
  have hne : c ≠ it := fun e => (a3 it hlive).2 e.symm
  have q1 : ({ s1 with s_taskCount := s1.s_taskCount + 1 } : Sched).s_taskIter = some it := by
    show s1.s_taskIter = some it
    rw [g1]; exact hiter
  have q2 : ({ s1 with s_taskCount := s1.s_taskCount + 1 } : Sched).task? it = some tIt := by
    rw [task?_congr rfl rfl]; exact a6 it tIt hIt
  have q3 : ({ s1 with s_taskCount := s1.s_taskCount + 1 } : Sched).task? c = some t0 := by
    rw [task?_congr rfl rfl]; exact ht0
  have hfill := pushTask_fill_eq func fb lrf q1 q2 q3 hne
  unfold pushTask
  have hw : (if s.s_tasks.isSome = true then s else createRootTask s) = withRegistry s := rfl
  rw [hw, ha]
  simp only [hfill]
  exact ⟨_, _, rfl⟩

/-- C14 (amended): let `it` be the iteration cursor, a task in use, in the state
in which `pushTask` allocates (the given state, or the state `createRootTask`
leaves when no registry exists yet), with an arena that is not exhausted. Then
`pushTask(entry, frameBreak)` returns a new task and afterwards: the cursor is
still `it` and `it.nextMain` is the new task; the new task has `prevMain = it`,
`nextMain` the former successor of the cursor, no secondary links, no `retTask`,
null `userData`, `framebreak = frameBreak`, level -1, `callstack[0] = entry` and
`nextTick = s_curTick` (it is due at once). When the registry existed, the live
task count has grown by one and the current task is unchanged; on a first call,
which creates the registry, the count is 1, the cursor is the root task and the
root task has become the current task. -/
theorem pushTask_inserts_after_cursor (func : TaskFunc) (fb : Bool) (lrf : TaskFunc) (s : Sched)
    (it : TaskRef) (tIt : Task) (arr : ChunkedArray TaskRef)
    (harena : arenaOK (withRegistry s) = true) (hiter : (withRegistry s).s_taskIter = some it)
    (hlive : isLive (withRegistry s) it = true) (hIt : (withRegistry s).task? it = some tIt)
    (harr : (withRegistry s).s_tasks = some arr)
    (hroom : arr.freeSlots ≠ [] ∨ arr.elemCount < arr.capacity) :
    ∃ new s', pushTask func fb lrf s = .ok (new, s') ∧
      s'.s_taskIter = some it ∧
      (∃ t, s'.task? it = some t ∧ t.nextMain = some new) ∧
      (∃ tn, s'.task? new = some tn ∧ tn.prevMain = some it ∧ tn.nextMain = tIt.nextMain ∧
        tn.prevSec = none ∧ tn.nextSec = none ∧ tn.retTask = none ∧ tn.userData = 0 ∧
        tn.framebreak = fb ∧ tn.context.level = -1 ∧ tn.context.callstack.get 0 = func ∧
        tn.nextTick = s.s_curTick ∧ tn.nextTick ≤ s'.s_curTick) ∧
      (s.s_tasks.isSome = true →
        s'.s_taskCount = s.s_taskCount + 1 ∧ s'.s_curTask = s.s_curTask) ∧
      (s.s_tasks = none →
        s'.s_taskCount = 1 ∧ it = TaskRef.root ∧ s'.s_curTask = some TaskRef.root) := by
  obtain ⟨new, s', h⟩ := pushTask_ok func fb lrf harena hiter hlive hIt harr hroom
  obtain ⟨_, _, _, e4, e5, e6, e7, e8, ⟨t0, e9⟩, _⟩ := pushTask_effect harena hiter hlive hIt h
  refine ⟨new, s', h, e4, ⟨_, e8, rfl⟩, ⟨_, e9, rfl, rfl, rfl, rfl, rfl, rfl, rfl, rfl, ?_, rfl, ?_⟩,
    ?_, ?_⟩
  · exact LevelArray.get_set_same _ _ _ (by decide)
  · rw [e7]
    exact Nat.le_refl _
  · intro hs
    have hw : withRegistry s = s := by unfold withRegistry; rw [if_pos hs]
    rw [hw] at e5 e6
    exact ⟨e6, e5⟩
  · intro hs
    have hw : withRegistry s = createRootTask s := by
      unfold withRegistry
      rw [hs]
      rfl
    rw [hw] at e5 e6 hiter
    refine ⟨by rw [e6]; rfl, ?_, by rw [e5]; rfl⟩
    have : (createRootTask s).s_taskIter = some TaskRef.root := rfl
    rw [this] at hiter
    cases hiter
    rfl

/-- Witness for C14 (amended): a frame-break task is pushed in `demoSolo`, where
the registry exists; the count grows by one and the current task is unchanged. -/
theorem pushTask_inserts_after_cursor_witness :
    ∃ new s', pushTask (some 5) true none demoSolo = .ok (new, s') ∧
      s'.s_taskIter = some TaskRef.root ∧
      s'.s_taskCount = demoSolo.s_taskCount + 1 ∧ s'.s_curTask = demoSolo.s_curTask :=
  match pushTask_inserts_after_cursor (some 5) true none demoSolo TaskRef.root
    demoSolo.s_rootTask ⟨1, [], 64⟩ (by decide) (by decide) (by decide) (by decide) (by decide)
    (by decide) with
  | ⟨new, s', h1, h2, _, _, h5, _⟩ => ⟨new, s', h1, h2, (h5 (by decide)).1, (h5 (by decide)).2⟩

/-- Counterexample to C14 as stated: before the first `pushTask` of a program
there is no current task (`s_curTask` is null); the call creates the registry and
afterwards the root task is the current task, so the current task has changed. -/
theorem pushTask_first_call_counterexample :
    (Sched.init 10 64).s_curTask = none ∧
      (pushTask (some 1) false none (Sched.init 10 64)).map (fun r => r.2.s_curTask)
        = .ok (some TaskRef.root) ∧
      (pushTask (some 1) false none (Sched.init 10 64)).map (fun r => r.2.s_curTask)
        ≠ .ok (Sched.init 10 64).s_curTask := by
  decide

/-- A store keeps which addresses are backed by a record. -/
theorem store_keeps_backed {s s' : Sched} {p : TaskPtr} {f : Task → Task}
    (h : s.store p f = .ok s') (r : TaskRef) : (s'.task? r).isSome = (s.task? r).isSome := by
  rw [store_task? h r]
  split
  · cases s.task? r <;> rfl
  · rfl

/-- A store to a backed address succeeds. -/
theorem store_ok_of_backed (s : Sched) (r : TaskRef) (f : Task → Task)
    (h : (s.task? r).isSome = true) : ∃ s', s.store (some r) f = .ok s' := by
  cases ht : s.task? r with
  | none => rw [ht] at h; cases h
  | some t => exact ⟨_, store_eq f ht⟩

/-- The field writes of `createTask` succeed when the current task, the new slot
and the head child of the current task are backed by records. -/
theorem createTask_fill_ok (func lrf : TaskFunc) {s : Sched} {new P : TaskRef} {tP t0 : Task}
    (hcur : s.s_curTask = some P) (hP : s.task? P = some tP) (hnew : s.task? new = some t0)
    (hne : new ≠ P) (hhead : ∀ c, tP.prevSec = some c → (s.task? c).isSome = true) :
    ∃ s', createTask.fill func lrf new s = .ok s' := by
  unfold createTask.fill
  rw [hcur, (load_some_iff _ _ _).2 hP, ok_bind]
  obtain ⟨s3, hs3⟩ := store_ok_of_backed s new (fun t =>
    { t with
      nextMain := tP.prevSec
      prevMain := none
      nextSec := some P
      prevSec := none
      retTask := none
      userData := 0
      framebreak := false }) (by rw [hnew]; rfl)
  rw [hs3, ok_bind]
  have g3 := store_globals hs3
  have hP3 : s3.task? P = some tP := by
    rw [store_task? hs3 P, if_neg (fun e => hne (by cases e; rfl))]
    exact hP
  rw [g3.2.2.2.2.1, hcur, (load_some_iff _ _ _).2 hP3, ok_bind]
  have hn3 : (s3.task? new).isSome = true := by
    rw [store_keeps_backed hs3, hnew]
    rfl
  have hc3 : s3.s_curTask = some P := by rw [g3.2.2.2.2.1]; exact hcur
  have hrest : ∀ s4 : Sched, s4.s_curTask = some P → (s4.task? P).isSome = true →
      (s4.task? new).isSome = true →
      ∃ s', (s4.store s4.s_curTask (fun t => { t with prevSec := some new }) >>= fun s5 =>
        s5.store (some new) (fun t =>
          { t with
            nextTick := 0
            context :=
              { TaskContext.zero with
                callstack := TaskContext.zero.callstack.set 0 func
                level := TASK_INIT_LEVEL }
            localRunFunc := lrf })) = .ok s' := by
    intro s4 c4 b4 n4
    rw [c4]
    obtain ⟨s5, h5⟩ := store_ok_of_backed s4 P (fun t => { t with prevSec := some new }) b4
    rw [h5, ok_bind]
    exact store_ok_of_backed s5 new _ (by rw [store_keeps_backed h5]; exact n4)
  cases hc : tP.prevSec with
  | none =>
    simp only []
    rw [ok_bind]
    exact hrest s3 hc3 (by rw [hP3]; rfl) hn3
  | some c =>
    simp only []
    obtain ⟨s4, h4⟩ := store_ok_of_backed s3 c (fun t => { t with prevMain := some new })
      (by rw [store_keeps_backed hs3]; exact hhead c hc)
    rw [h4, ok_bind]
    refine hrest s4 (by rw [(store_globals h4).2.2.2.2.1]; exact hc3) ?_ ?_
    · rw [store_keeps_backed h4, hP3]; rfl
    · rw [store_keeps_backed h4]; exact hn3

/-- The records after the field writes of `createTask`. -/
theorem createTask_fill_effect (func lrf : TaskFunc) {s s' : Sched} {new P : TaskRef}
    {tP : Task} (hcur : s.s_curTask = some P) (hP : s.task? P = some tP) (hne : new ≠ P)
    (h : createTask.fill func lrf new s = .ok s') :
    s'.s_curTask = some P ∧ s'.s_taskCount = s.s_taskCount ∧
    (∃ t, s'.task? P = some t ∧ t.prevSec = some new) ∧
    (∃ tn, s'.task? new = some tn ∧ tn.nextSec = some P ∧ tn.nextMain = tP.prevSec ∧
      tn.prevSec = none ∧ tn.retTask = none ∧ tn.userData = 0 ∧
      tn.context = { TaskContext.zero with
        callstack := TaskContext.zero.callstack.set 0 func, level := -1 } ∧ tn.nextTick = 0 ∧ tn.framebreak = false ∧
      tn.localRunFunc = lrf) ∧
    (∀ c, tP.prevSec = some c → ∃ tc, s'.task? c = some tc ∧ tc.prevMain = some new) := by
  unfold createTask.fill at h
  obtain ⟨cur, hcur0, h1⟩ := bind_ok h; clear h
  obtain ⟨s3, hs3, h2⟩ := bind_ok h1; clear h1
  obtain ⟨cur3, hcur3, h3⟩ := bind_ok h2; clear h2
  obtain ⟨s4, hs4, h4⟩ := bind_ok h3; clear h3
  obtain ⟨s5, hs5, hs6⟩ := bind_ok h4; clear h4
  rw [hcur, load_some_iff, hP] at hcur0
  cases hcur0
  have hne' : ¬ (some new = some P) := fun e => hne (by cases e; rfl)
  have hne'' : ¬ (some P = some new) := fun e => hne (by cases e; rfl)
  have g3 := store_globals hs3
  have g5 := store_globals hs5
  have g6 := store_globals hs6
  have hs3P : s3.task? P = some tP := by rw [store_task? hs3 P, if_neg hne']; exact hP
  rw [g3.2.2.2.2.1, hcur, load_some_iff, hs3P] at hcur3
  cases hcur3
  obtain ⟨x, t0, hp, ht0, _⟩ := store_ok_inv hs3
  cases hp
  have hs3n : s3.task? new = some
      { t0 with
        nextMain := tP.prevSec
        prevMain := none
        nextSec := s.s_curTask
        prevSec := none
        retTask := none
        userData := 0
        framebreak := false } := by
    rw [store_task? hs3 new, if_pos rfl, ht0]
    rfl
  have g4 : s4.s_curTask = s3.s_curTask ∧ s4.s_taskCount = s3.s_taskCount := by
    split at hs4
    · have := store_globals hs4
      exact ⟨this.2.2.2.2.1, this.2.2.1⟩
    · cases hs4; exact ⟨rfl, rfl⟩
  have v4 : ∀ {α : Type} (π : Task → α), (∀ t a, π { t with prevMain := a } = π t) →
      ∀ r, (s4.task? r).map π = (s3.task? r).map π := by
    intro α π hπ r
    split at hs4
    · exact store_view π hs4 (fun t => hπ t _) r
    · cases hs4; rfl
  have hcur4 : s4.s_curTask = some P := by rw [g4.1, g3.2.2.2.2.1]; exact hcur
  rw [hcur4] at hs5
  refine ⟨?_, ?_, ?_, ?_, ?_⟩
  · rw [g6.2.2.2.2.1, g5.2.2.2.2.1]; exact hcur4
  · rw [g6.2.2.1, g5.2.2.1, g4.2, g3.2.2.1]
  · have e := store_task? hs6 P
    rw [if_neg hne', store_task? hs5 P, if_pos rfl] at e
    obtain ⟨y, hy⟩ : ∃ y, s4.task? P = some y := by
      have := v4 (fun _ => ()) (fun _ _ => rfl) P
      rw [hs3P] at this
      cases h4P : s4.task? P with
      | none => rw [h4P] at this; cases this
      | some y => exact ⟨y, rfl⟩
    rw [hy] at e
    exact ⟨_, e, rfl⟩
  · have e := store_task? hs6 new
    rw [if_pos rfl, store_task? hs5 new, if_neg hne''] at e
    have e4 := v4 (fun t => (t.nextMain, t.nextSec, t.prevSec, t.retTask, t.userData,
      t.framebreak)) (fun _ _ => rfl) new
    rw [hs3n] at e4
    cases h4n : s4.task? new with
    | none => rw [h4n] at e4; cases e4
    | some y =>
      rw [h4n] at e4 e
      simp only [Option.map_some', Option.some.injEq, Prod.mk.injEq] at e4
      obtain ⟨q1, q2, q3, q4, q5, q6⟩ := e4
      refine ⟨_, e, ?_, q1, q3, q4, q5, rfl, rfl, q6, rfl⟩
      show y.nextSec = some P
      rw [q2, hcur]
  · intro c hc
    have e6 := store_view (fun t => t.prevMain) hs6 (fun _ => rfl) c
    have e5 := store_view (fun t => t.prevMain) hs5 (fun _ => rfl) c
    rw [hc] at hs4
    simp only [] at hs4
    have e4 := store_task? hs4 c
    rw [if_pos rfl] at e4
    obtain ⟨_, z, hp, hz, _⟩ := store_ok_inv hs4
    cases hp
    rw [hz] at e4
    rw [e5, e4] at e6
    cases h6 : s'.task? c with
    | none => rw [h6] at e6; cases e6
    | some tc =>
      rw [h6] at e6
      simp only [Option.map_some', Option.some.injEq] at e6
      exact ⟨tc, rfl, e6⟩


/-- C15: let `P` be the current task, a task in use, in the state in which
`createTask` allocates (the given state, or the state `createRootTask` leaves when
no registry exists yet, in which the live task count is 0), with the head child of
`P` (if any) a task record and an arena that is not exhausted. Then
`createTask(entry)` returns a new task and afterwards: `P` is still the current
task and `P.prevSec` is the new task; the new task has `nextSec = P` and
`nextMain` the former head child (null if none), and the former head child has
`prevMain` equal to the new task; the context of the new task is all zero except
`callstack[0] = entry` and `level = -1`; its `nextTick` is 0 and it is not a
frame-break task; and the live task count has grown by one. -/
theorem createTask_inserts_at_head (func lrf : TaskFunc) (s : Sched) (P : TaskRef) (tP : Task)
    (arr : ChunkedArray TaskRef)
    (harena : arenaOK (withRegistry s) = true) (hcur : (withRegistry s).s_curTask = some P)
    (hlive : isLive (withRegistry s) P = true) (hP : (withRegistry s).task? P = some tP)
    (hhead : ∀ c, tP.prevSec = some c → ((withRegistry s).task? c).isSome = true)
    (harr : (withRegistry s).s_tasks = some arr)
    (hroom : arr.freeSlots ≠ [] ∨ arr.elemCount < arr.capacity)
    (hcount : s.s_tasks = none → s.s_taskCount = 0) :
    ∃ new s', createTask func lrf s = .ok (new, s') ∧
      s'.s_curTask = some P ∧
      (∃ t, s'.task? P = some t ∧ t.prevSec = some new) ∧
      (∃ tn, s'.task? new = some tn ∧ tn.nextSec = some P ∧ tn.nextMain = tP.prevSec ∧
        tn.context = { TaskContext.zero with
          callstack := TaskContext.zero.callstack.set 0 func, level := -1 } ∧
        tn.context.callstack.get 0 = func ∧
        tn.nextTick = 0 ∧ tn.framebreak = false) ∧
      (∀ c, tP.prevSec = some c → ∃ tc, s'.task? c = some tc ∧ tc.prevMain = some new) ∧
      s'.s_taskCount = s.s_taskCount + 1 := by
  obtain ⟨c, s1, ha⟩ := allocTask_ok harr hroom
  obtain ⟨_, _, a3, a4, _, a6⟩ := allocTask_fresh harena ha
  obtain ⟨t0, ht0⟩ := allocTask_backed harena ha
  obtain ⟨_, g2, _⟩ := allocTask_globals ha
  have hne : c ≠ P := fun e => (a3 P hlive).2 e.symm
  have hcur1 : ({ s1 with s_taskCount := s1.s_taskCount + 1 } : Sched).s_curTask = some P := by
    show s1.s_curTask = some P
    rw [a4]; exact hcur
  have hP1 : ({ s1 with s_taskCount := s1.s_taskCount + 1 } : Sched).task? P = some tP := by
    rw [task?_congr rfl rfl]; exact a6 P tP hP
  have hhead1 : ∀ x, tP.prevSec = some x →
      (({ s1 with s_taskCount := s1.s_taskCount + 1 } : Sched).task? x).isSome = true := by
    intro x hx
    have := hhead x hx
    cases hrec : (withRegistry s).task? x with
    | none => rw [hrec] at this; cases this
    | some tx =>
      have e : ({ s1 with s_taskCount := s1.s_taskCount + 1 } : Sched).task? x = some tx := by
        rw [task?_congr rfl rfl]; exact a6 x tx hrec
      rw [e]
      rfl
  obtain ⟨s2, hfill⟩ := createTask_fill_ok func lrf hcur1 hP1
    (by rw [task?_congr rfl rfl]; exact ht0) hne hhead1
  obtain ⟨e1, e2, e3, ⟨tn, n1, n2, n3, _, _, _, n7, n8, n9, _⟩, e5⟩ :=
    createTask_fill_effect func lrf hcur1 hP1 hne hfill
  have hres : createTask func lrf s = .ok (c, s2) := by
    unfold createTask
    have hw : (if s.s_tasks.isSome = true then s else createRootTask s) = withRegistry s := rfl
    rw [hw, ha]
    simp only [hfill]
  refine ⟨c, s2, hres, e1, e3, ⟨tn, n1, n2, n3, n7, ?_, n8, n9⟩, e5, ?_⟩
  · rw [n7]
    exact LevelArray.get_set_same _ _ _ (by decide)
  · rw [e2]
    show s1.s_taskCount + 1 = _
    rw [g2]
    cases hs : s.s_tasks with
    | none =>
      have hw : withRegistry s = createRootTask s := by
        unfold withRegistry
        rw [hs]
        rfl
      rw [hw, hcount hs]
      rfl
    | some a =>
      have hw : withRegistry s = s := by
        unfold withRegistry
        rw [hs]
        rfl
      rw [hw]

/-- Witness for C15: the current task of `demoFamily` (slot 1), whose head child
is the task in slot 3, creates another child. -/
theorem createTask_inserts_at_head_witness :
    ∃ new s', createTask (some 6) none demoFamily = .ok (new, s') ∧
      s'.s_curTask = some (TaskRef.slot 1) ∧
      (∃ t, s'.task? (TaskRef.slot 1) = some t ∧ t.prevSec = some new) ∧
      (∀ c, some (TaskRef.slot 3) = some c → ∃ tc, s'.task? c = some tc ∧ tc.prevMain = some new) ∧
      s'.s_taskCount = demoFamily.s_taskCount + 1 :=
  match createTask_inserts_at_head (some 6) none demoFamily (TaskRef.slot 1)
    (demoFamily.taskMem.getD 1 Task.zero) ⟨4, [], 64⟩ (by decide) (by decide) (by decide)
    (by decide) (by decide) (by decide) (by decide) (by decide) with
  | ⟨new, s', h1, h2, h3, _, h5, h6⟩ => ⟨new, s', h1, h2, h3, h5, h6⟩

/-! ## The main chain after successive pushes -/

/-- With an arena from which no slot was given back, `pushTask` hands out the
next slot. -/
theorem pushTask_arena {func : TaskFunc} {fb : Bool} {lrf : TaskFunc} {s s' : Sched}
    {new : TaskRef} {arr : ChunkedArray TaskRef}
    (harr : (withRegistry s).s_tasks = some arr) (hfree : arr.freeSlots = [])
    (h : pushTask func fb lrf s = .ok (new, s')) :
    new = TaskRef.slot arr.elemCount ∧
    s'.s_tasks = some { arr with elemCount := arr.elemCount + 1 } ∧
    s'.s_resumeTask = (withRegistry s).s_resumeTask := by
  unfold pushTask at h
  have hw : (if s.s_tasks.isSome = true then s else createRootTask s) = withRegistry s := rfl
  rw [hw] at h
  split at h
  · cases h
  · cases h
  · rename_i newTask s1 ha
    split at h
    · cases h
    · rename_i s2 hfill
      simp only [Except.ok.injEq, Prod.mk.injEq] at h
      obtain ⟨h1, h2⟩ := h
      subst h1 h2
      unfold pushTask.fill at hfill
      obtain ⟨_, _, k1⟩ := bind_ok hfill; clear hfill
      obtain ⟨s3, hs3, k2⟩ := bind_ok k1; clear k1
      obtain ⟨s4, hs4, hs5⟩ := bind_ok k2; clear k2
      have e : s2.s_tasks = s1.s_tasks := by
        rw [(store_globals hs5).1, (store_globals hs4).1, (store_globals hs3).1]
      have e2 : s2.s_resumeTask = (withRegistry s).s_resumeTask := by
        rw [(store_globals hs5).2.2.2.2.2.1, (store_globals hs4).2.2.2.2.2.1,
          (store_globals hs3).2.2.2.2.2.1]
        exact (allocTask_globals ha).2.2.2.2.2.1
      unfold allocTask at ha
      simp only [harr, Except.ok.injEq, Prod.mk.injEq] at ha
      obtain ⟨hc, hs1⟩ := ha
      subst hs1
      by_cases hcap : arr.elemCount < arr.capacity
      · simp only [allocFromChunkedArray, hfree, hcap, if_true, Option.some.injEq] at hc
        refine ⟨hc.symm, ?_, e2⟩
        rw [e]
        simp [allocFromChunkedArray, hfree, hcap]
      · simp [allocFromChunkedArray, hfree, hcap] at hc

theorem MainLinks_frame {s s' : Sched} :
    ∀ (cs : List TaskRef) (prev : TaskRef),
      (∀ r ∈ prev :: cs, s'.task? r = s.task? r) → MainLinks s prev cs → MainLinks s' prev cs := by
  intro cs
  induction cs with
  | nil =>
    intro prev hfr h
    obtain ⟨t, h1, h2⟩ := h
    exact ⟨t, by rw [hfr prev (List.mem_cons_self _ _)]; exact h1, h2⟩
  | cons c rest ih =>
    intro prev hfr h
    obtain ⟨⟨t, h1, h2⟩, h3⟩ := h
    refine ⟨⟨t, by rw [hfr prev (List.mem_cons_self _ _)]; exact h1, h2⟩, ?_⟩
    exact ih c (fun r hr => hfr r (List.mem_cons_of_mem _ hr)) h3

/-- Following `nextMain` from `prev` visits the tasks of the chain and then the
root. -/
theorem mainChain_of_links {s : Sched} :
    ∀ (cs : List TaskRef) (prev : TaskRef), MainLinks s prev cs →
      mainChain s (cs.length + 1) prev = cs ++ [TaskRef.root] := by
  intro cs
  induction cs with
  | nil =>
    intro prev h
    obtain ⟨t, h1, h2⟩ := h
    simp [mainChain, h1, h2]
  | cons c rest ih =>
    intro prev h
    obtain ⟨⟨t, h1, h2⟩, h3⟩ := h
    have := ih c h3
    simp only [List.length_cons, mainChain, h1, h2, List.cons_append, List.cons.injEq, true_and]
    exact this

/-- One `pushTask` on a registry built by pushes: the new task is the next slot
and becomes the head of the main chain. -/
theorem pushTask_step {limit : Nat} {s : Sched} {k : Nat} {chain : List TaskRef}
    (func : TaskFunc) (fb : Bool) (hinv : PushedInv limit s k chain) (hcap : k < limit) :
    ∃ s', pushTask func fb none s = .ok (TaskRef.slot k, s') ∧
      PushedInv limit s' (k + 1) (TaskRef.slot k :: chain) ∧
      s'.s_curTick = s.s_curTick ∧ s'.s_taskCount = s.s_taskCount + 1 ∧
      s'.s_resumeTask = s.s_resumeTask ∧
      ∃ t, s'.task? (TaskRef.slot k) = some t ∧ t.context.callstack.get 0 = func := by
  obtain ⟨⟨arr, i1, i2, i3, i4⟩, i5, i6, i7, i8⟩ := hinv
  have hw : withRegistry s = s := by
    unfold withRegistry
    rw [i1]
    rfl
  have harena : arenaOK (withRegistry s) = true := by
    rw [hw]
    simp [arenaOK, i1, i3]
  have hlive : isLive (withRegistry s) TaskRef.root = true := by
    rw [hw]
    simp [isLive, i1, i3]
  have hiter : (withRegistry s).s_taskIter = some TaskRef.root := by rw [hw]; exact i5
  have hIt : (withRegistry s).task? TaskRef.root = some s.s_rootTask := by rw [hw]; rfl
  have harr : (withRegistry s).s_tasks = some arr := by rw [hw]; exact i1
  obtain ⟨new, s', h⟩ := pushTask_ok func fb none harena hiter hlive hIt harr
    (Or.inr (by rw [i2, i4]; exact hcap))
  obtain ⟨e1, e2, e3, e4, e5, e6, e7, e8, ⟨t0, e9⟩, e10⟩ :=
    pushTask_effect harena hiter hlive hIt h
  obtain ⟨n1, n2, n3⟩ := pushTask_arena harr i3 h
  rw [i2] at n1
  subst n1
  rw [hw] at e3 e5 e6 e10 n3
  have hnr : TaskRef.root ≠ TaskRef.slot k := fun e => by cases e
  have hkeep : ∀ r ∈ chain, s'.task? r = s.task? r := by
    intro r hr
    obtain ⟨q1, q2, t, q3, _⟩ := i8 r hr
    rw [e10 r t (e3 r q2).2 q1 q3, q3]
  refine ⟨s', h, ⟨⟨_, n2, by simp [i2], i3, i4⟩, e4, by rw [e5]; exact i6, ?_, ?_⟩, e7, e6, n3, ?_⟩
  · refine ⟨⟨_, e8, rfl⟩, ?_⟩
    cases chain with
    | nil =>
      obtain ⟨t, h1, h2⟩ := i7
      cases h1
      exact ⟨_, e9, h2⟩
    | cons c rest =>
      obtain ⟨⟨t, h1, h2⟩, h3⟩ := i7
      cases h1
      refine ⟨⟨_, e9, h2⟩, ?_⟩
      exact MainLinks_frame rest c (fun r hr => hkeep r hr) h3
  · intro c hc
    rcases List.mem_cons.1 hc with e | e
    · subst e
      refine ⟨(fun e => by cases e), e2, _, e9, rfl, ?_⟩
      show s.s_curTick ≤ s'.s_curTick
      rw [e7]
    · obtain ⟨q1, q2, t, q3, q4, q5⟩ := i8 c e
      exact ⟨q1, (e3 c q2).1, t, by rw [hkeep c e]; exact q3, q4, by rw [e7]; exact q5⟩
  · exact ⟨_, e9, LevelArray.get_set_same _ _ _ (by decide)⟩


theorem pushTasks_snoc : ∀ (xs : List (TaskFunc × Bool)) (x : TaskFunc × Bool) (s s1 s2 : Sched)
    (cs : List TaskRef) (c : TaskRef),
    pushTasks xs s = .ok (cs, s1) → pushTask x.1 x.2 none s1 = .ok (c, s2) →
    pushTasks (xs ++ [x]) s = .ok (cs ++ [c], s2) := by
  intro xs
  induction xs with
  | nil =>
    intro x s s1 s2 cs c h1 h2
    simp only [pushTasks, Except.ok.injEq, Prod.mk.injEq] at h1
    obtain ⟨e1, e2⟩ := h1
    subst e1 e2
    simp [pushTasks, h2]
  | cons y ys ih =>
    intro x s s1 s2 cs c h1 h2
    unfold pushTasks at h1
    split at h1
    · cases h1
    · rename_i d sd hd
      split at h1
      · cases h1
      · rename_i r hr
        simp only [Except.ok.injEq, Prod.mk.injEq] at h1
        obtain ⟨e1, e2⟩ := h1
        subst e1 e2
        have := ih x sd r.2 s2 r.1 c (by rw [hr]) h2
        simp [pushTasks, hd, this]

/-- Pushes on a fresh registry: the tasks get the slots in order and the main
chain from the root lists them newest first. -/
theorem pushTasks_fresh (tick limit : Nat) : ∀ (items : List (TaskFunc × Bool)),
    items.length ≤ limit →
    ∃ s', pushTasks items (createRootTask (Sched.init tick limit))
        = .ok ((List.range items.length).map TaskRef.slot, s') ∧
      PushedInv limit s' items.length ((List.range items.length).map TaskRef.slot).reverse ∧
      s'.s_curTick = tick ∧ s'.s_taskCount = items.length ∧ s'.s_resumeTask = none := by
  intro items
  induction items using List.reverseRecOn with
  | nil =>
    intro _
    refine ⟨_, rfl, ?_, rfl, rfl, rfl⟩
    unfold PushedInv
    refine ⟨⟨_, rfl, rfl, rfl, rfl⟩, rfl, rfl, ⟨_, rfl, rfl⟩, ?_⟩
    intro c hc
    simp at hc
  | append_singleton xs x ih =>
    intro hlen
    simp only [List.length_append, List.length_singleton] at hlen ⊢
    obtain ⟨s1, h1, hinv, htick, hcount, hres⟩ := ih (by omega)
    obtain ⟨s2, h2, hinv2, htick2, hcount2, hres2, _⟩ := pushTask_step x.1 x.2 hinv (by omega)
    refine ⟨s2, ?_, ?_, by rw [htick2, htick], by rw [hcount2, hcount]; push_cast; rfl,
      by rw [hres2, hres]⟩
    · rw [List.range_succ, List.map_append]
      exact pushTasks_snoc xs x _ s1 s2 _ _ h1 h2
    · rw [List.range_succ, List.map_append, List.reverse_append]
      exact hinv2

/-- Successive selections started from `prev` go down the main chain. -/
theorem selectionOrder_main (fuel : Nat) : ∀ (rest : List TaskRef) (prev c : TaskRef) (s : Sched),
    s.s_curTask = some prev → MainLinks s prev (c :: rest) →
    (∀ x ∈ c :: rest, ∃ t, s.task? x = some t ∧ t.prevSec = none ∧ t.nextTick ≤ s.s_curTick) →
    ∃ sf, selectionOrder (fuel + 1) (rest.length + 1) s = .ok ((c :: rest).map some, sf) := by
  intro rest
  induction rest with
  | nil =>
    intro prev c s hcur hl hrec
    obtain ⟨⟨t, h1, h2⟩, _⟩ := hl
    obtain ⟨tc, c1, c2, c3⟩ := hrec c (List.mem_cons_self _ _)
    have hacc : accepts s tc = true := (accepts_true_iff s tc).2 (Or.inl c3)
    have := selectNextTask_nextMain_leaf fuel s prev c t tc hcur h1 h2 c1 c2 hacc
    refine ⟨{ s with s_currentId := 0, s_curTask := some c }, ?_⟩
    simp [selectionOrder, this]
  | cons c' rest' ih =>
    intro prev c s hcur hl hrec
    obtain ⟨⟨t, h1, h2⟩, hl'⟩ := hl
    obtain ⟨tc, c1, c2, c3⟩ := hrec c (List.mem_cons_self _ _)
    have hacc : accepts s tc = true := (accepts_true_iff s tc).2 (Or.inl c3)
    have hstep := selectNextTask_nextMain_leaf fuel s prev c t tc hcur h1 h2 c1 c2 hacc
    obtain ⟨sf, hsf⟩ := ih c c' { s with s_currentId := 0, s_curTask := some c } rfl
      (MainLinks_frame (s := s) _ _ (fun r _ => task?_congr rfl rfl r) hl')
      (fun x hx => by
        obtain ⟨tx, x1, x2, x3⟩ := hrec x (List.mem_cons_of_mem _ hx)
        exact ⟨tx, by rw [task?_congr rfl rfl]; exact x1, x2, x3⟩)
    refine ⟨sf, ?_⟩
    rw [selectionOrder, hstep]
    simp only [List.length_cons] at hsf ⊢
    rw [hsf]
    rfl


theorem pushTasks_init (tick limit : Nat) (items : List (TaskFunc × Bool)) (hne : items ≠ []) :
    pushTasks items (Sched.init tick limit)
      = pushTasks items (createRootTask (Sched.init tick limit)) := by
  cases items with
  | nil => exact absurd rfl hne
  | cons f fs =>
    have h : pushTask f.1 f.2 none (Sched.init tick limit)
        = pushTask f.1 f.2 none (createRootTask (Sched.init tick limit)) := rfl
    simp only [pushTasks, h]

/-- C16 (amended): after `pushTask` is called `n >= 1` times in succession on a
fresh registry that can hold `n` tasks (no scheduling in between), creating
`t1, ..., tn` (the slots `0, ..., n-1`), the main chain is in reverse creation
order: following `nextMain` links from the root visits `tn, ..., t2, t1` in that
order before returning to the root, since every push inserts right after the
cursor, which stays at the root. Task selection started at the root selects them
in that order, and when the last pushed task has an entry function `task_run`
makes `tn` current first. -/
theorem main_chain_is_reverse_creation_order (tick limit fuel : Nat)
    (items : List (TaskFunc × Bool)) (hne : items ≠ []) (hcap : items.length ≤ limit) :
    ∃ s', pushTasks items (Sched.init tick limit)
        = .ok ((List.range items.length).map TaskRef.slot, s') ∧
      mainChain s' (items.length + 1) TaskRef.root
        = ((List.range items.length).map TaskRef.slot).reverse ++ [TaskRef.root] ∧
      s'.s_curTask = some TaskRef.root ∧
      (∃ sf, selectionOrder (fuel + 1) items.length s'
        = .ok ((((List.range items.length).map TaskRef.slot).reverse).map some, sf)) ∧
      (∀ x, items.getLast? = some x → x.1.isSome = true → ∀ prog : Prog,
        task_run prog (fuel + 1) s'
          = task_run.loop prog (fuel + 1)
              { s' with s_curTask := some (TaskRef.slot (items.length - 1)), s_currentId := 0 }
              []) := by
  rcases List.eq_nil_or_concat items with h0 | ⟨xs, x, hx⟩
  · exact absurd h0 hne
  · rw [List.concat_eq_append] at hx
    subst hx
    rw [pushTasks_init tick limit _ hne]
    simp only [List.length_append, List.length_singleton] at hcap ⊢
    obtain ⟨s1, h1, hinv, htick, hcount, hres⟩ := pushTasks_fresh tick limit xs (by omega)
    obtain ⟨s2, h2, hinv2, htick2, hcount2, hres2, ⟨t, ht, hfun⟩⟩ :=
      pushTask_step x.1 x.2 hinv (by omega)
    have hall : pushTasks (xs ++ [x]) (createRootTask (Sched.init tick limit))
        = .ok ((List.range (xs.length + 1)).map TaskRef.slot, s2) := by
      rw [List.range_succ, List.map_append]
      exact pushTasks_snoc xs x _ s1 s2 _ _ h1 h2
    have hchain : ((List.range (xs.length + 1)).map TaskRef.slot).reverse
        = TaskRef.slot xs.length :: ((List.range xs.length).map TaskRef.slot).reverse := by
      rw [List.range_succ, List.map_append, List.reverse_append]
      rfl
    obtain ⟨_, _, j3, j4, j5⟩ := hinv2
    have hlen : (((List.range xs.length).map TaskRef.slot).reverse).length = xs.length := by simp
    refine ⟨s2, hall, ?_, j3, ?_, ?_⟩
    · rw [hchain]
      have := mainChain_of_links _ _ j4
      simp only [List.length_cons, hlen] at this
      exact this
    · rw [hchain]
      obtain ⟨sf, hsf⟩ := selectionOrder_main fuel _ _ _ s2 j3 j4
        (fun y hy => (j5 y hy).2.2)
      rw [hlen] at hsf
      exact ⟨sf, hsf⟩
    · intro y hy hyf prog
      rw [List.getLast?_concat] at hy
      cases hy
      have hstart : task_run.start s2 (fuel + 1) (some TaskRef.root)
          = .ok (some (TaskRef.slot xs.length)) := by
        obtain ⟨⟨tr, r1, r2⟩, _⟩ := j4
        rw [← hfun] at hyf
        simp [task_run.start, Sched.load, r1, r2, ht, hyf]
      unfold task_run
      have hc : ¬ s2.s_taskCount = 0 := by
        rw [hcount2, hcount]
        omega
      rw [if_neg hc]
      simp only [hres2, hres, Option.isSome_none, Bool.false_eq_true, if_false, j3, hstart,
        Nat.add_sub_cancel]

/-- Witness for C16 (amended): three pushes on a fresh registry; the main chain
from the root is slot 2, slot 1, slot 0, root. -/
theorem main_chain_is_reverse_creation_order_witness :
    ∃ s', demoPushed3 = .ok ([TaskRef.slot 0, TaskRef.slot 1, TaskRef.slot 2], s') ∧
      mainChain s' 4 TaskRef.root
        = [TaskRef.slot 2, TaskRef.slot 1, TaskRef.slot 0, TaskRef.root] :=
  match main_chain_is_reverse_creation_order 10 64 0
    [(some 1, false), (some 2, false), (some 3, true)] (by decide) (by decide) with
  | ⟨s', h1, h2, _⟩ => ⟨s', h1, h2⟩

/-- Counterexample to C16 as stated: two tasks `t1` (slot 0) and `t2` (slot 1) are
pushed in succession on a fresh registry. Following `nextMain` from the root
visits `t2`, then `t1`, then the root, and `task_run` starts at `t2`: the order
is not the creation order `t1, t2`. -/
theorem main_chain_order_counterexample :
    (pushTasks [(some 1, false), (some 2, false)] (Sched.init 10 64)).map
        (fun r => (r.1, mainChain r.2 3 TaskRef.root, task_run.start r.2 8 r.2.s_curTask))
      = .ok ([TaskRef.slot 0, TaskRef.slot 1],
          [TaskRef.slot 1, TaskRef.slot 0, TaskRef.root], .ok (some (TaskRef.slot 1))) ∧
    [TaskRef.slot 1, TaskRef.slot 0, TaskRef.root]
      ≠ [TaskRef.slot 0, TaskRef.slot 1, TaskRef.root] := by
  decide

/-! ## Links left behind by `task_free` -/

/-- C17 (the code at the failing inputs): `task_free` decrements `s_taskCount`
before its patch loop `for (i = 0; i < s_taskCount; i++)`, so the loop scans the
slots `0 .. s_taskCount - 2` only, and the root task is not a slot. In
`demoSolo` the only task (slot 0) is freed: the loop makes no pass and the root
task still has `nextMain` equal to the freed task. In `demoReturners` (main
chain root, slot 1, slot 0) the task in slot 0 is freed: slot 1 is not scanned
and the live task in slot 1 still has `nextMain` equal to the freed task. -/
theorem task_free_leaves_links_to_freed_task :
    (task_free 8 (some (TaskRef.slot 0)) demoSolo).map
        (fun s => (isLive s (TaskRef.slot 0), s.s_rootTask.nextMain,
          s.s_rootTask.refersTo (TaskRef.slot 0)))
      = .ok (false, some (TaskRef.slot 0), true) ∧
    (task_free 8 (some (TaskRef.slot 0)) demoReturners).map
        (fun s => (isLive s (TaskRef.slot 0), isLive s (TaskRef.slot 1),
          (s.task? (TaskRef.slot 1)).map (fun t => (t.nextMain, t.refersTo (TaskRef.slot 0)))))
      = .ok (false, true, some (some (TaskRef.slot 0), true)) := by
  decide

/-! ## Freeing the current task -/

/-- C18 (the code at the failing input): in `demoSoloSel` the only task (slot 0)
is the current task. `task_free` applied to it returns with `s_curTask` still
designating slot 0, which is no longer in use, while the live task count is 0:
the walk of `selectNextTask` goes from the freed task to the root and back
through the root's unpatched `nextMain` to the freed task, which is due. -/
theorem task_free_current_reselects_freed_task :
    demoSoloSel.s_curTask = some (TaskRef.slot 0) ∧
      isLive demoSoloSel (TaskRef.slot 0) = true ∧
      (task_free 8 (some (TaskRef.slot 0)) demoSoloSel).map
          (fun s => (s.s_curTask, isLive s (TaskRef.slot 0), s.s_taskCount))
        = .ok (some (TaskRef.slot 0), false, 0) := by
  decide

/-! ## Return of the root function -/

/-- C19 (amended): when the running task `T`, with its own context current at
level 0, executes `ctxReturn`, the task is destroyed: `ctxReturn` is the
unwinding block, then `task_free` applied to `T` (which runs task selection,
`T` being current), then `s_curTask = nullptr`. So whenever `ctxReturn` has
finished, there is no current task, whatever task selection chose: the live
task count has dropped by one, `T` is no longer in use, and the frame loop of
`task_run`, whose condition is `while (s_curTask)`, ends at once in that state
without running any task. -/
theorem ctxReturn_root_leaves_no_current_task (fuel : Nat) (s : Sched) (T : TaskRef) (t : Task)
    (hcur : s.s_curTask = some T) (hctx : s.s_curContext = some T)
    (ht : s.task? T = some t) (hl : t.context.level = 0) :
    (∃ s1, ctxReturn.unwind s = .ok (0, s1) ∧
      ctxReturn fuel s
        = (task_free fuel (some T) s1 >>= fun s2 => .ok { s2 with s_curTask := none })) ∧
    (∀ s', ctxReturn fuel s = .ok s' →
      s'.s_curTask = none ∧ s'.s_taskCount = s.s_taskCount - 1 ∧ isLive s' T = false ∧
      ∀ (prog : Prog) (fuel2 : Nat) (log : List Dispatch),
        task_run.loop prog (fuel2 + 1) s' log = .ok (s', log)) := by
  have hl0 : t.context.level = ((0 : Nat) : Int) := by rw [hl]; rfl
  refine ⟨?_, ?_⟩
  · refine ⟨_, ctxReturn_unwind_eq hctx ht hl0 (by decide), ?_⟩
    unfold ctxReturn
    rw [ctxReturn_unwind_eq hctx ht hl0 (by decide), ok_bind]
    simp only [put_s_curTask, hcur, Nat.cast_zero, Option.isSome_some, and_self, if_true]
  · intro s' h
    obtain ⟨_, _, _, e1, _⟩ := ctxReturn_effect hctx ht hl0 (by decide) h
    obtain ⟨f1, f2, arr, f3, f4⟩ := e1 ⟨rfl, by rw [hcur]; rfl⟩
    refine ⟨f1, f2, ?_, ?_⟩
    · simp [isLive, f4, hcur, freeToChunkedArray]
    · intro prog fuel2 log
      unfold task_run.loop
      rw [f1]

/-- Witness for C19 (amended): the root function of the running task of
`demoRunning` (slot 1) returns; afterwards there is no current task. -/
theorem ctxReturn_root_leaves_no_current_task_witness :
    ctxReturn 8 demoRunning = .ok demoReturned ∧
      demoReturned.s_curTask = none ∧ isLive demoReturned (TaskRef.slot 1) = false :=
  ⟨by decide,
    ((ctxReturn_root_leaves_no_current_task 8 demoRunning (TaskRef.slot 1)
      (demoRunning.taskMem.getD 1 Task.zero) (by decide) (by decide) (by decide)
      (by decide)).2 demoReturned (by decide)).1,
    ((ctxReturn_root_leaves_no_current_task 8 demoRunning (TaskRef.slot 1)
      (demoRunning.taskMem.getD 1 Task.zero) (by decide) (by decide) (by decide)
      (by decide)).2 demoReturned (by decide)).2.2.1⟩

/-- Counterexample to C19 as stated: in `demoRunning` the running task (slot 1)
returns from its root function while the task in slot 0 is due. Task selection,
run by `task_free`, chooses slot 0, yet once `ctxReturn` has finished there is
no current task. And one frame of `demoReturners`, two due tasks whose root
functions return at once, runs the task in slot 1 only: the frame does not
continue with the task in slot 0. -/
theorem ctxReturn_root_counterexample :
    (demoRunning.task? (TaskRef.slot 0)).map
        (fun t => decide (t.nextTick ≤ demoRunning.s_curTick)) = some true ∧
      (ctxReturn.unwind demoRunning >>= fun r => task_free 8 r.2.s_curTask r.2).map
          (fun s => s.s_curTask)
        = .ok (some (TaskRef.slot 0)) ∧
      (ctxReturn 8 demoRunning).map (fun s => s.s_curTask) = .ok none ∧
      (task_run demoProg 8 demoReturners).map
          (fun r => (r.2.map (fun d => d.task), r.1.s_curTask, r.1.s_taskCount))
        = .ok ([TaskRef.slot 1], none, 1) := by
  decide

/-! ## `ctxAllocate` -/

theorem ctx_ok_inv {s : Sched} {ctx : TaskContext} (h : s.ctx = .ok ctx) :
    ∃ c t, s.s_curContext = some c ∧ s.task? c = some t ∧ ctx = t.context := by
  unfold Sched.ctx at h
  split at h
  · rename_i t ht
    obtain ⟨r, hr, hrec⟩ := load_ok_ref ht
    cases h
    exact ⟨r, t, hr, hrec, rfl⟩
  · cases h

/-- Writing back the record an address already holds changes nothing. -/
theorem put_same {s : Sched} {r : TaskRef} {t : Task} (h : s.task? r = some t) :
    s.put r t = s := by
  cases r with
  | root =>
    simp only [Sched.task?, Option.some.injEq] at h
    subst h
    rfl
  | slot i =>
    simp only [Sched.task?] at h
    simp only [Sched.put]
    have : s.taskMem.set i t = s.taskMem := by
      apply List.ext_getElem?
      intro j
      by_cases hj : i = j
      · subst hj
        rw [h]
        have hi : i < s.taskMem.length := by
          by_contra hc
          rw [List.getElem?_eq_none (by omega)] at h
          cases h
        simp [List.getElem?_set, hi]
      · simp [List.getElem?_set, hj]
    rw [this]

/-- A failed block allocation leaves the state as it is. -/
theorem allocBlock_none {s s' : Sched} (h : allocBlock s = .ok (none, s')) : s' = s := by
  unfold allocBlock at h
  cases hb : s.s_stackBlocks with
  | none => simp [hb] at h
  | some arr =>
    simp only [hb, Except.ok.injEq, Prod.mk.injEq] at h
    obtain ⟨h1, h2⟩ := h
    subst h2
    have : (allocFromChunkedArray id arr).2 = arr := by
      unfold allocFromChunkedArray at h1 ⊢
      cases hf : arr.freeSlots with
      | nil =>
        simp only [hf] at h1 ⊢
        by_cases hc : arr.elemCount < arr.capacity
        · simp [hc] at h1
        · simp [hc]
      | cons p rest => simp [hf] at h1
    rw [this, ← hb]


theorem allocBlock_congr {s s' s2 : Sched} {r : Option Nat} (h : allocBlock s = .ok (r, s'))
    (hb : s2.s_stackBlocks = s.s_stackBlocks) : ∃ s2', allocBlock s2 = .ok (r, s2') := by
  unfold allocBlock at h ⊢
  rw [hb]
  cases hs : s.s_stackBlocks with
  | none => simp [hs] at h
  | some arr =>
    simp only [hs, Except.ok.injEq, Prod.mk.injEq] at h ⊢
    exact ⟨_, h.1, rfl⟩

/-- Clearing bytes that lie inside the block does not fault. -/
theorem memset_bind {β : Type} (f : Unit → Run β) (blk off size : Nat)
    (h : off + size ≤ TASK_STACK_SIZE) : (memset (some (blk, off)) size >>= f) = f () := by
  unfold memset
  simp only []
  rw [if_pos h]
  rfl

/-- Clearing bytes returns only when they lie inside the block. -/
theorem memset_ok_inv {blk off size : Nat} {u : Unit}
    (h : memset (some (blk, off)) size = .ok u) : off + size ≤ TASK_STACK_SIZE := by
  unfold memset at h
  simp only [] at h
  by_contra hn
  rw [if_neg hn] at h
  cases h

/-- Clearing bytes past the end of the block is a fault. -/
theorem memset_past_end (blk off size : Nat) (h : ¬ off + size ≤ TASK_STACK_SIZE) :
    memset (some (blk, off)) size = .error .badAccess := by
  unfold memset
  simp only []
  rw [if_neg h]

/-- With a scratch block and a reservation at the current level, `ctxAllocate`
does nothing. -/
theorem ctxAllocate_noop (b : Nat) {s : Sched} {c : TaskRef} {t : Task} {l : Nat} {blk : Nat}
    {p : Nat × Nat} (hc : s.s_curContext = some c) (ht : s.task? c = some t)
    (hl : t.context.level = (l : Int)) (hlt : l < 16)
    (hm : t.context.stackMem = some blk) (hp : t.context.stackPtr.get l = some p) :
    ctxAllocate b s = .ok s := by
  unfold ctxAllocate
  by_cases hb : b = 0
  · rw [if_pos hb]
  · rw [if_neg hb, ctx_eq hc ht, ok_bind]
    simp only [hm, Option.isNone_some, Bool.false_eq_true, if_false, ok_bind]
    rw [ctx_eq hc ht, ok_bind]
    simp only [hl]
    rw [LevelArray.read_eq _ l hlt, ok_bind, hp]
    simp

theorem read_ok_inv {α : Type} [Inhabited α] {xs : LevelArray α} {i : Int} {v : α}
    (h : xs.read i = .ok v) : ∃ l : Nat, i = (l : Int) ∧ l < 16 ∧ xs.get l = v := by
  unfold LevelArray.read at h
  split at h
  · rename_i hr
    cases h
    exact ⟨i.toNat, by omega, by omega, rfl⟩
  · cases h

/-- A second `ctxAllocate` after one that made or found a reservation leaves the
state as it is. -/
theorem ctxAllocate_twice (a b : Nat) {s s1 : Sched} (ha : 0 < a)
    (h : ctxAllocate a s = .ok s1) : ctxAllocate b s1 = .ok s1 := by
  unfold ctxAllocate at h
  rw [if_neg (by omega)] at h
  obtain ⟨ctx, hctx, h1⟩ := bind_ok h; clear h
  obtain ⟨c, t, hc, ht, hctxeq⟩ := ctx_ok_inv hctx
  subst hctxeq
  obtain ⟨sA, hsA, h2⟩ := bind_ok h1; clear h1
  obtain ⟨ctx1, hctx1, h3⟩ := bind_ok h2; clear h2
  obtain ⟨p, hp, h4⟩ := bind_ok h3; clear h3
  obtain ⟨c1, t1, hc1, ht1, hctx1eq⟩ := ctx_ok_inv hctx1
  subst hctx1eq
  obtain ⟨l, hl, hlt, hget⟩ := read_ok_inv hp
  cases hpn : p with
  | none =>
    rw [hpn] at h4 hget
    simp only [Option.isNone_none, if_true] at h4
    cases hm : t1.context.stackMem with
    | none => rw [hm] at h4; cases h4
    | some blk =>
      rw [hm] at h4
      simp only [] at h4
      obtain ⟨_, _, h5⟩ := bind_ok h4; clear h4
      obtain ⟨_, _, h6⟩ := bind_ok h5; clear h5
      rw [hc1, storeCtx_eq _ ht1] at h6
      cases h6
      have hget2 : (t1.context.stackPtr.set t1.context.level.toNat
          (some (blk, t1.context.stackOffset))).get l = some (blk, t1.context.stackOffset) := by
        rw [hl]
        simp only [Int.toNat_ofNat]
        exact LevelArray.get_set_same _ _ _ hlt
      exact ctxAllocate_noop b (by rw [put_s_curContext]; exact hc1) (task?_put_same _ ht1)
        hl hlt hm hget2
  | some q =>
    rw [hpn] at h4 hget
    simp only [Option.isNone_some, Bool.false_eq_true, if_false] at h4
    cases h4
    cases hm1 : t1.context.stackMem with
    | some blk => exact ctxAllocate_noop b hc1 ht1 hl hlt hm1 hget
    | none =>
      -- the block could not be claimed: the second call repeats the failed claim
      cases hm : t.context.stackMem with
      | some blk0 =>
        rw [hm] at hsA
        simp only [Option.isNone_some, Bool.false_eq_true, if_false] at hsA
        cases hsA
        rw [hc] at hc1
        cases hc1
        rw [ht] at ht1
        cases ht1
        rw [hm] at hm1
        cases hm1
      | none =>
        rw [hm] at hsA
        simp only [Option.isNone_none, if_true] at hsA
        obtain ⟨r, hr, hst⟩ := bind_ok hsA; clear hsA
        obtain ⟨r1, r2⟩ := r
        simp only [] at hst
        have hrc : r2.s_curContext = s.s_curContext := by
          unfold allocBlock at hr
          cases hb : s.s_stackBlocks with
          | none => simp [hb] at hr
          | some arr =>
            simp only [hb, Except.ok.injEq, Prod.mk.injEq] at hr
            rw [← hr.2]
        obtain ⟨x, tx, hx, htx, hsAeq⟩ := store_ok_inv hst
        rw [hrc, hc] at hx
        cases hx
        subst hsAeq
        rw [put_s_curContext, hrc, hc] at hc1
        cases hc1
        rw [task?_put_same _ htx] at ht1
        cases ht1
        have hr1 : r1 = none := hm1
        subst hr1
        have hr2 := allocBlock_none hr
        subst hr2
        by_cases hb0 : b = 0
        · unfold ctxAllocate
          rw [if_pos hb0]
        · obtain ⟨sB, hsB⟩ := allocBlock_congr hr
            (put_s_stackBlocks r2 c
              { tx with context := { tx.context with
                  stackMem := none, stackSize := LevelArray.fill 0, stackOffset := 0 } })
          have hsB2 := allocBlock_none hsB
          subst hsB2
          unfold ctxAllocate
          rw [if_neg hb0, ctx_put_same _ hc htx, ok_bind]
          simp only [Option.isNone_none, if_true]
          rw [hsB, ok_bind]
          simp only [put_s_curContext, hc]
          rw [storeCtx_put_same _ _ htx, ok_bind, ctx_put_same _ hc htx, ok_bind]
          simp only [] at hl hget ⊢
          simp only [hl]
          rw [LevelArray.read_eq _ l hlt, ok_bind, hget]
          simp


theorem u32_small (n m : Nat) (h : n + m < 2 ^ 32) : u32 ((n : Int) + (m : Int)) = n + m := by
  unfold u32
  have h1 : ((n : Int) + (m : Int)) % 2 ^ 32 = (n : Int) + (m : Int) :=
    Int.emod_eq_of_lt (by omega) (by norm_num at h ⊢; omega)
  rw [h1]
  omega

/-- The first reservation at a level when the scratch block is already claimed:
the reservation is made at the old offset, the new offset is checked and the
reserved bytes are cleared. -/
theorem ctxAllocate_reserve (a : Nat) {s : Sched} {c : TaskRef} {t : Task} {l blk : Nat}
    (ha : 0 < a) (hc : s.s_curContext = some c) (ht : s.task? c = some t)
    (hl : t.context.level = (l : Int)) (hlt : l < 16)
    (hm : t.context.stackMem = some blk) (hp : t.context.stackPtr.get l = none) :
    ctxAllocate a s =
      (check (u32 ((t.context.stackOffset : Int) + (a : Int)) < TASK_STACK_SIZE) >>= fun _ =>
        memset (some (blk, t.context.stackOffset)) a >>= fun _ =>
          .ok (s.put c { t with context := { t.context with
            stackPtr := t.context.stackPtr.set l (some (blk, t.context.stackOffset))
            stackSize := t.context.stackSize.set l a
            stackOffset := u32 ((t.context.stackOffset : Int) + (a : Int)) } })) := by
  unfold ctxAllocate
  rw [if_neg (by omega), ctx_eq hc ht, ok_bind]
  simp only [hm, Option.isNone_some, Bool.false_eq_true, if_false, ok_bind]
  rw [ctx_eq hc ht, ok_bind]
  simp only [hl]
  rw [LevelArray.read_eq _ l hlt, ok_bind, hp]
  simp only [Option.isNone_none, if_true, hm]
  by_cases hchk : u32 ((t.context.stackOffset : Int) + (a : Int)) < TASK_STACK_SIZE
  · rw [check_bind _ hchk, check_bind _ hchk]
    by_cases hin : t.context.stackOffset + a ≤ TASK_STACK_SIZE
    · rw [memset_bind _ _ _ _ hin, memset_bind _ _ _ _ hin, hc, storeCtx_eq _ ht]
      simp [hm, hl]
    · rw [memset_past_end _ _ _ hin]
      rfl
  · simp only [check, hchk, if_false]
    rfl

/-- C20: `ctxAllocate` is idempotent within one activation. For every state and
all sizes `a > 0` and `b`, `ctxAllocate(a)` followed by `ctxAllocate(b)` has
exactly the outcome of `ctxAllocate(a)` alone: the second call leaves the state
the first one left. When the current context is at level `l`, has its scratch
block and no reservation at `l`, a first call that returns has set `stackPtr[l]`
to the old offset in the block and `stackSize[l]` to `a`, and has raised
`stackOffset` by `a` (in `u32` arithmetic), and the second call changes none of
them; and when `stackOffset + a` is below `TASK_STACK_SIZE` the first call does
return, with `stackOffset` grown by exactly `a`. -/
theorem ctxAllocate_idempotent (a b : Nat) (s : Sched) (ha : 0 < a) :
    (ctxAllocate a s >>= ctxAllocate b) = ctxAllocate a s ∧
    (∀ s1, ctxAllocate a s = .ok s1 → ctxAllocate b s1 = .ok s1) ∧
    (∀ (c : TaskRef) (t : Task) (l blk : Nat), s.s_curContext = some c → s.task? c = some t →
      t.context.level = (l : Int) → l < TASK_MAX_LEVELS → t.context.stackMem = some blk →
      t.context.stackPtr.get l = none →
      (∀ s1, ctxAllocate a s = .ok s1 →
        ∃ t1, s1.task? c = some t1 ∧
          t1.context.stackOffset = u32 ((t.context.stackOffset : Int) + (a : Int)) ∧
          t1.context.stackPtr.get l = some (blk, t.context.stackOffset) ∧
          t1.context.stackSize.get l = a ∧
          ∀ s2, ctxAllocate b s1 = .ok s2 →
            ∃ t2, s2.task? c = some t2 ∧ t2.context.stackOffset = t1.context.stackOffset ∧
              t2.context.stackPtr.get l = t1.context.stackPtr.get l ∧
              t2.context.stackSize.get l = t1.context.stackSize.get l) ∧
      (t.context.stackOffset + a < TASK_STACK_SIZE →
        ∃ s1 t1, ctxAllocate a s = .ok s1 ∧ ctxAllocate b s1 = .ok s1 ∧
          s1.task? c = some t1 ∧ t1.context.stackOffset = t.context.stackOffset + a)) := by
  refine ⟨?_, fun s1 h => ctxAllocate_twice a b ha h, ?_⟩
  · cases h : ctxAllocate a s with
    | error e => rfl
    | ok s1 =>
      rw [ok_bind]
      exact ctxAllocate_twice a b ha h
  · intro c t l blk hc ht hl hlt hm hp
    have heq := ctxAllocate_reserve a ha hc ht hl hlt hm hp
    refine ⟨?_, ?_⟩
    · intro s1 h
      have h2 := ctxAllocate_twice a b ha h
      rw [heq] at h
      obtain ⟨_, _, h3⟩ := bind_ok h
      obtain ⟨_, _, h4⟩ := bind_ok h3
      cases h4
      refine ⟨_, task?_put_same _ ht, rfl, LevelArray.get_set_same _ _ _ hlt,
        LevelArray.get_set_same _ _ _ hlt, ?_⟩
      intro s2 hs2
      rw [h2] at hs2
      cases hs2
      exact ⟨_, task?_put_same _ ht, rfl, rfl, rfl⟩
    · intro hroom
      have hu : u32 ((t.context.stackOffset : Int) + (a : Int)) = t.context.stackOffset + a :=
        u32_small _ _ (by unfold TASK_STACK_SIZE at hroom; omega)
      have hok : ctxAllocate a s = .ok (s.put c { t with context := { t.context with
          stackPtr := t.context.stackPtr.set l (some (blk, t.context.stackOffset))
          stackSize := t.context.stackSize.set l a
          stackOffset := u32 ((t.context.stackOffset : Int) + (a : Int)) } }) := by
        rw [heq, check_bind _ (by rw [hu]; exact hroom), memset_bind _ _ _ _ (by omega)]
      exact ⟨_, _, hok, ctxAllocate_twice a b ha hok, task?_put_same _ ht, hu⟩

/-- Witness for C20: the running task of `demoRunning` reserves 100 bytes at
level 0 and then asks for 50 more at the same level; the second call changes
nothing. -/
theorem ctxAllocate_idempotent_witness :
    ctxAllocate 100 demoRunning = .ok demoAllocated ∧
      ctxAllocate 50 demoAllocated = .ok demoAllocated ∧
      (demoAllocated.task? (TaskRef.slot 1)).map
          (fun t => (t.context.stackOffset, t.context.stackPtr.get 0, t.context.stackSize.get 0))
        = some (100, some (0, 0), 100) :=
  ⟨by decide,
    (ctxAllocate_idempotent 100 50 demoRunning (by decide)).2.1 demoAllocated (by decide),
    by decide⟩

/-! ## Scratch release on return -/

theorem u32_sub_small (n m : Nat) (h : m ≤ n) (hlt : n - m < 2 ^ 32) :
    u32 ((n : Int) - (m : Int)) = n - m := by
  unfold u32
  have h1 : ((n : Int) - (m : Int)) % 2 ^ 32 = (n : Int) - (m : Int) :=
    Int.emod_eq_of_lt (by omega) (by norm_num at hlt ⊢; omega)
  rw [h1]
  omega

theorem u32_add_sub (n m : Nat) (h : n < 2 ^ 32) :
    u32 ((u32 ((n : Int) + (m : Int)) : Int) - (m : Int)) = n := by
  unfold u32
  have hpos : (0 : Int) ≤ ((n : Int) + (m : Int)) % 2 ^ 32 := Int.emod_nonneg _ (by norm_num)
  rw [Int.toNat_of_nonneg hpos]
  have h2 : (((n : Int) + (m : Int)) % 2 ^ 32 - (m : Int)) % 2 ^ 32 = (n : Int) := by
    rw [Int.sub_emod, Int.emod_emod_of_dvd _ (dvd_refl _), ← Int.sub_emod]
    have : (n : Int) + (m : Int) - (m : Int) = (n : Int) := by omega
    rw [this]
    exact Int.emod_eq_of_lt (by omega) (by norm_num at h ⊢; omega)
  rw [h2]
  omega

/-- The closed form of `ctxReturn` at a level `l >= 1` that holds a scratch
reservation: the level and call level are unwound, the offset is lowered by the
size of the level (in `u32` arithmetic) and checked, and the pointer and size of
the level are cleared. -/
theorem ctxReturn_release_eq (fuel : Nat) {s : Sched} {c : TaskRef} {t : Task} {l : Nat}
    {p : Nat × Nat} (hc : s.s_curContext = some c) (ht : s.task? c = some t)
    (hl : t.context.level = (l : Int)) (hk : l < 16) (hk1 : 1 ≤ l)
    (hp : t.context.stackPtr.get l = some p) :
    ctxReturn fuel s =
      (check (u32 ((t.context.stackOffset : Int) - (t.context.stackSize.get l : Int))
          < TASK_STACK_SIZE) >>= fun _ =>
        .ok (s.put c { t with context := { t.context with
          level := levelAfterReturn t.context.delayedCall l
          callLevel := callLevelAfterReturn t.context.callLevel
          stackOffset := u32 ((t.context.stackOffset : Int) - (t.context.stackSize.get l : Int))
          stackPtr := t.context.stackPtr.set l none
          stackSize := t.context.stackSize.set l 0 } })) := by
  unfold ctxReturn
  rw [ctxReturn_unwind_eq hc ht hl hk, ok_bind]
  have hcond : ¬ ((l : Int) = 0 ∧ (s.put c { t with context := { t.context with
      level := levelAfterReturn t.context.delayedCall l
      callLevel := callLevelAfterReturn t.context.callLevel } }).s_curTask.isSome = true) := by
    intro hh
    omega
  simp only []
  rw [if_neg hcond]
  unfold ctxReturn.release
  rw [put_s_curContext, hc]
  simp only []
  rw [ctx_put_same _ hc ht, ok_bind]
  simp only []
  rw [LevelArray.read_eq _ l hk, ok_bind, hp]
  simp only [Option.isSome_some, if_true]
  rw [LevelArray.read_eq _ l hk, ok_bind]
  by_cases hchk : u32 ((t.context.stackOffset : Int) - (t.context.stackSize.get l : Int))
      < TASK_STACK_SIZE
  · rw [check_bind _ hchk, check_bind _ hchk, storeCtx_put_same _ _ ht]
    simp
  · simp only [check, hchk, if_false]
    rfl

theorem allocBlock_frame {s s' : Sched} {r : Option Nat} (h : allocBlock s = .ok (r, s')) :
    s'.s_curContext = s.s_curContext ∧ ∀ x, s'.task? x = s.task? x := by
  unfold allocBlock at h
  cases hb : s.s_stackBlocks with
  | none => simp [hb] at h
  | some arr =>
    simp only [hb, Except.ok.injEq, Prod.mk.injEq] at h
    rw [← h.2]
    exact ⟨rfl, fun x => task?_congr rfl rfl x⟩

/-- The first reservation of a context that has not claimed its scratch block:
when `ctxAllocate` returns, the block is claimed, the sizes and the offset were
reset, and the reservation of the level starts at offset 0. -/
theorem ctxAllocate_first_inv (a : Nat) {s s1 : Sched} {c : TaskRef} {t : Task} {l : Nat}
    (ha : 0 < a) (hc : s.s_curContext = some c) (ht : s.task? c = some t)
    (hl : t.context.level = (l : Int)) (hlt : l < 16)
    (hm : t.context.stackMem = none) (hp : t.context.stackPtr.get l = none)
    (h : ctxAllocate a s = .ok s1) :
    ∃ blk, s1.s_curContext = some c ∧
      s1.task? c = some { t with context := { t.context with
        stackMem := some blk
        stackPtr := t.context.stackPtr.set l (some (blk, 0))
        stackSize := (LevelArray.fill 0).set l a
        stackOffset := u32 (((0 : Nat) : Int) + (a : Int)) } } ∧
      u32 (((0 : Nat) : Int) + (a : Int)) < TASK_STACK_SIZE ∧ 0 + a ≤ TASK_STACK_SIZE := by
  unfold ctxAllocate at h
  rw [if_neg (by omega), ctx_eq hc ht, ok_bind] at h
  simp only [hm, Option.isNone_none, if_true] at h
  obtain ⟨sA, hsA, h2⟩ := bind_ok h; clear h
  obtain ⟨r, hr, hst⟩ := bind_ok hsA; clear hsA
  obtain ⟨r1, r2⟩ := r
  simp only [] at hst
  obtain ⟨hrc, hrt⟩ := allocBlock_frame hr
  have htr : r2.task? c = some t := by rw [hrt]; exact ht
  rw [hrc, hc, storeCtx_eq _ htr] at hst
  cases hst
  rw [ctx_put_same _ (by rw [hrc]; exact hc) htr, ok_bind] at h2
  simp only [hl] at h2
  rw [LevelArray.read_eq _ l hlt, ok_bind, hp] at h2
  simp only [Option.isNone_none, if_true] at h2
  cases hr1 : r1 with
  | none => rw [hr1] at h2; cases h2
  | some blk =>
    rw [hr1] at h2
    simp only [] at h2
    obtain ⟨_, hchk, h3⟩ := bind_ok h2; clear h2
    have hlt2 : u32 (((0 : Nat) : Int) + (a : Int)) < TASK_STACK_SIZE := by
      unfold check at hchk
      by_contra hn
      rw [if_neg hn] at hchk
      cases hchk
    obtain ⟨_, hclr, h4⟩ := bind_ok h3; clear h3
    rw [put_s_curContext, hrc, hc, storeCtx_put_same _ _ htr] at h4
    cases h4
    refine ⟨blk, by rw [put_s_curContext, hrc, hc], ?_, hlt2, memset_ok_inv hclr⟩
    rw [task?_put_same _ htr]
    simp [hl]

/-- C21: scratch release on return. Let the current context be at a level `l`
with `1 <= l < TASK_MAX_LEVELS`. (1) If the level holds a reservation
(`stackPtr[l]` non-null), `ctxReturn` is the assertion on the offset lowered by
`stackSize[l]` (in `u32` arithmetic) followed by the state in which the offset is
so lowered and `stackPtr[l]`, `stackSize[l]` are cleared; when the reservation
lies within the offset and the lowered offset is below `TASK_STACK_SIZE`,
`ctxReturn` returns, the new offset plus `stackSize[l]` is the old offset,
`stackPtr[l]` is null and `stackSize[l]` is 0, `stackMem` and the entries of
every other level are unchanged, and the level is one lower, or two lower when
`delayedCall[l-1]` is set. (2) If the level holds no reservation, the offset is
below `TASK_STACK_SIZE` (and is 0 when the block is not claimed yet), then after
any `ctxAllocate(size)` that returns, `ctxReturn` returns with the offset it was
before the `ctxAllocate`. -/
theorem ctxReturn_releases_scratch (fuel : Nat) (s : Sched) (c : TaskRef) (t : Task) (l : Nat)
    (hc : s.s_curContext = some c) (ht : s.task? c = some t)
    (hl : t.context.level = (l : Int)) (hl1 : 1 ≤ l) (hlt : l < TASK_MAX_LEVELS) :
    (∀ p, t.context.stackPtr.get l = some p →
      ctxReturn fuel s =
        (check (u32 ((t.context.stackOffset : Int) - (t.context.stackSize.get l : Int))
            < TASK_STACK_SIZE) >>= fun _ =>
          .ok (s.put c { t with context := { t.context with
            level := levelAfterReturn t.context.delayedCall l
            callLevel := callLevelAfterReturn t.context.callLevel
            stackOffset := u32 ((t.context.stackOffset : Int) - (t.context.stackSize.get l : Int))
            stackPtr := t.context.stackPtr.set l none
            stackSize := t.context.stackSize.set l 0 } })) ∧
      (t.context.stackSize.get l ≤ t.context.stackOffset →
        t.context.stackOffset - t.context.stackSize.get l < TASK_STACK_SIZE →
        ∃ s' t', ctxReturn fuel s = .ok s' ∧ s'.task? c = some t' ∧
          t'.context.stackOffset + t.context.stackSize.get l = t.context.stackOffset ∧
          t'.context.stackPtr.get l = none ∧ t'.context.stackSize.get l = 0 ∧
          t'.context.stackMem = t.context.stackMem ∧
          (∀ j, j ≠ l → t'.context.stackPtr.get j = t.context.stackPtr.get j ∧
            t'.context.stackSize.get j = t.context.stackSize.get j) ∧
          t'.context.level
            = (if t.context.delayedCall.get (l - 1) ≠ 0 then (l : Int) - 2 else (l : Int) - 1))) ∧
    (∀ size s1, t.context.stackPtr.get l = none →
      t.context.stackOffset < TASK_STACK_SIZE →
      (t.context.stackMem = none → t.context.stackOffset = 0) →
      ctxAllocate size s = .ok s1 →
      ∃ s2 t2, ctxReturn fuel s1 = .ok s2 ∧ s2.task? c = some t2 ∧
        t2.context.stackOffset = t.context.stackOffset) := by
  have hk : l < 16 := hlt
  constructor
  · intro p hp
    have heq := ctxReturn_release_eq fuel hc ht hl hk hl1 hp
    refine ⟨heq, ?_⟩
    intro hle hfit
    have hu : u32 ((t.context.stackOffset : Int) - (t.context.stackSize.get l : Int))
        = t.context.stackOffset - t.context.stackSize.get l :=
      u32_sub_small _ _ hle (by unfold TASK_STACK_SIZE at hfit; omega)
    rw [hu] at heq
    rw [check_bind _ hfit] at heq
    refine ⟨_, _, heq, task?_put_same _ ht, ?_, ?_, ?_, rfl, ?_, ?_⟩
    · show t.context.stackOffset - t.context.stackSize.get l + t.context.stackSize.get l = _
      omega
    · exact LevelArray.get_set_same _ _ _ hk
    · exact LevelArray.get_set_same _ _ _ hk
    · intro j hj
      exact ⟨LevelArray.get_set_other _ _ _ _ (fun e => hj e.symm),
        LevelArray.get_set_other _ _ _ _ (fun e => hj e.symm)⟩
    · show levelAfterReturn t.context.delayedCall l = _
      unfold levelAfterReturn
      by_cases hd : t.context.delayedCall.get (l - 1) = 0
      · rw [if_pos (Or.inr hd), if_neg (by simpa using hd)]
      · have hno : ¬ (l = 0 ∨ t.context.delayedCall.get (l - 1) = 0) := by
          intro hh
          rcases hh with h0 | h0
          · omega
          · exact hd h0
        rw [if_neg hno, if_pos hd]
  · intro size s1 hp hoff hzero halloc
    by_cases hs0 : size = 0
    · -- nothing is reserved and nothing is released
      have : s1 = s := by
        unfold ctxAllocate at halloc
        rw [if_pos hs0] at halloc
        cases halloc
        rfl
      subst this
      exact ⟨_, _, ctxReturn_ok_of_no_scratch fuel hc ht hl hk hl1 hp, task?_put_same _ ht, rfl⟩
    · have hpos : 0 < size := Nat.pos_of_ne_zero hs0
      cases hm : t.context.stackMem with
      | some blk =>
        rw [ctxAllocate_reserve size hpos hc ht hl hk hm hp] at halloc
        obtain ⟨_, hchk, h3⟩ := bind_ok halloc; clear halloc
        obtain ⟨_, hclr, h4⟩ := bind_ok h3; clear h3
        cases h4
        have hrec := task?_put_same { t with context := { t.context with
          stackPtr := t.context.stackPtr.set l (some (blk, t.context.stackOffset))
          stackSize := t.context.stackSize.set l size
          stackOffset := u32 ((t.context.stackOffset : Int) + (size : Int)) } } ht
        have hget : (t.context.stackPtr.set l (some (blk, t.context.stackOffset))).get l
            = some (blk, t.context.stackOffset) := LevelArray.get_set_same _ _ _ hk
        have heq := ctxReturn_release_eq fuel
          (by rw [put_s_curContext]; exact hc) hrec hl hk hl1 hget
        simp only [LevelArray.get_set_same _ _ _ hk] at heq
        rw [u32_add_sub _ _ (by unfold TASK_STACK_SIZE at hoff; omega), check_bind _ hoff] at heq
        exact ⟨_, _, heq, task?_put_same _ hrec, rfl⟩
      | none =>
        obtain ⟨blk, hc1, hrec, hchk, _⟩ := ctxAllocate_first_inv size hpos hc ht hl hk hm hp halloc
        have hget : (t.context.stackPtr.set l (some (blk, 0))).get l = some (blk, 0) :=
          LevelArray.get_set_same _ _ _ hk
        have heq := ctxReturn_release_eq fuel hc1 hrec hl hk hl1 hget
        simp only [LevelArray.get_set_same _ _ _ hk] at heq
        rw [u32_add_sub _ _ (by norm_num), check_bind _ (by decide)] at heq
        refine ⟨_, _, heq, task?_put_same _ hrec, ?_⟩
        rw [hzero hm]

/-- C21 at a sample: the callee of `demoNestedAlloc` returns from level 1, which
holds 40 bytes above the 100 bytes of level 0. -/
theorem ctxReturn_releases_scratch_witness :
    demoNestedAlloc.s_curContext = some (TaskRef.slot 1) ∧
      (demoNestedAlloc.taskMem.getD 1 Task.zero).context.level = ((1 : Nat) : Int) ∧
      (demoNestedAlloc.taskMem.getD 1 Task.zero).context.stackPtr.get 1 = some (0, 100) ∧
      ((demoNestedAlloc.taskMem.getD 1 Task.zero).context.stackOffset,
        (demoNestedAlloc.taskMem.getD 1 Task.zero).context.stackSize.get 1) = (140, 40) ∧
      ∃ s' t', ctxReturn 8 demoNestedAlloc = .ok s' ∧ s'.task? (TaskRef.slot 1) = some t' ∧
        t'.context.stackOffset + (demoNestedAlloc.taskMem.getD 1 Task.zero).context.stackSize.get 1
          = (demoNestedAlloc.taskMem.getD 1 Task.zero).context.stackOffset ∧
        t'.context.stackPtr.get 1 = none ∧ t'.context.stackSize.get 1 = 0 ∧
        t'.context.stackMem = (demoNestedAlloc.taskMem.getD 1 Task.zero).context.stackMem ∧
        (∀ j, j ≠ 1 →
          t'.context.stackPtr.get j
              = (demoNestedAlloc.taskMem.getD 1 Task.zero).context.stackPtr.get j ∧
            t'.context.stackSize.get j
              = (demoNestedAlloc.taskMem.getD 1 Task.zero).context.stackSize.get j) ∧
        t'.context.level
          = (if (demoNestedAlloc.taskMem.getD 1 Task.zero).context.delayedCall.get (1 - 1) ≠ 0
              then ((1 : Nat) : Int) - 2 else ((1 : Nat) : Int) - 1) :=
  ⟨by decide, by decide, by decide, by decide,
    ((ctxReturn_releases_scratch 8 demoNestedAlloc (TaskRef.slot 1)
      (demoNestedAlloc.taskMem.getD 1 Task.zero) 1 (by decide) (by decide) (by decide)
      (by decide) (by decide)).1 (0, 100) (by decide)).2 (by decide) (by decide)⟩

/-! ## The wake-up tick of a yield -/

theorem u32_natCast (n m : Nat) : u32 ((n : Int) + (m : Int)) = (n + m) % 2 ^ 32 := by
  unfold u32
  have : ((n : Int) + (m : Int)) % 2 ^ 32 = (((n + m) % 2 ^ 32 : Nat) : Int) := by
    push_cast
    rfl
  rw [this]
  exact Int.toNat_ofNat _

/-- C22 (amended): the wake-up tick of a yield. Let `T` be the current task, with
the current context its own, no `retTask` and a level below `TASK_MAX_LEVELS`, and
let `tick` be the current tick. `itask_yield(d, ip)` is task selection applied to
the state in which `T.nextTick` is `(tick + d) mod 2^32` when `d < TASK_SLEEP` and
`d` otherwise, followed by the assertion that a current task exists. So whenever
it returns: for `d < TASK_SLEEP`, `T.nextTick` is `(tick + d) mod 2^32`, and when
`tick + d < 2^32` it is `tick + d`, so that `T` is not due at any tick `t'` with
`tick <= t' < tick + d` and is due at every tick from `tick + d` on; for
`d = TASK_SLEEP` it is `TASK_SLEEP`. And it returns whenever the selection
returns with a current task. -/
theorem itask_yield_sets_nextTick (fuel d : Nat) (ip : Int) (s : Sched) (T : TaskRef)
    (t : Task) (k : Nat)
    (hcur : s.s_curTask = some T) (hctx : s.s_curContext = some T)
    (ht : s.task? T = some t) (hret : t.retTask = none)
    (hlevel : t.context.level = (k : Int)) (hk : k < TASK_MAX_LEVELS) :
    itask_yield fuel d ip s =
      (selectNextTask fuel
        (s.put T { t with
          context := { t.context with ip := t.context.ip.set k ip, level := (k : Int) - 1 }
          nextTick := if d < TASK_SLEEP then (s.s_curTick + d) % 2 ^ 32 else d })
        >>= fun s3 => check (s3.s_curTask.isSome = true) >>= fun _ => .ok s3) ∧
    (∀ s3, selectNextTask fuel
        (s.put T { t with
          context := { t.context with ip := t.context.ip.set k ip, level := (k : Int) - 1 }
          nextTick := if d < TASK_SLEEP then (s.s_curTick + d) % 2 ^ 32 else d }) = .ok s3 →
      s3.s_curTask.isSome = true → itask_yield fuel d ip s = .ok s3) ∧
    (∀ s', itask_yield fuel d ip s = .ok s' →
      ∃ t1, s'.task? T = some t1 ∧
        (d < TASK_SLEEP → t1.nextTick = (s.s_curTick + d) % 2 ^ 32) ∧
        (d < TASK_SLEEP → s.s_curTick + d < 2 ^ 32 →
          t1.nextTick = s.s_curTick + d ∧
          (∀ t', s.s_curTick ≤ t' → t' < s.s_curTick + d → ¬ t1.nextTick ≤ t') ∧
          (∀ t', s.s_curTick + d ≤ t' → t1.nextTick ≤ t')) ∧
        (d = TASK_SLEEP → t1.nextTick = TASK_SLEEP)) := by
  have heq := itask_yield_no_retTask fuel d ip hcur hctx ht hret hlevel hk
  rw [u32_natCast] at heq
  refine ⟨heq, ?_, ?_⟩
  · intro s3 hsel hsome
    rw [heq, hsel, ok_bind, check_bind _ hsome]
  · intro s' h
    rw [heq] at h
    obtain ⟨s3, hsel, h2⟩ := bind_ok h; clear h
    obtain ⟨_, _, h3⟩ := bind_ok h2; clear h2
    cases h3
    have hrec := (selectNextTask_records hsel).1 T
    rw [task?_put_same _ ht] at hrec
    refine ⟨_, hrec, ?_, ?_, ?_⟩
    · intro hd
      simp only [hd, if_true]
    · intro hd hsmall
      have hv : (if d < TASK_SLEEP then (s.s_curTick + d) % 2 ^ 32 else d) = s.s_curTick + d := by
        rw [if_pos hd]
        exact Nat.mod_eq_of_lt hsmall
      simp only [hv]
      refine ⟨trivial, ?_, ?_⟩
      · intro t' _ h2
        omega
      · intro t' h1
        exact h1
    · intro hd
      have : ¬ d < TASK_SLEEP := by omega
      simp only [this, if_false]
      exact hd

/-- C22 (amended) at a sample: the running task of `demoRunning` yields for 20
ticks at tick 10. -/
theorem itask_yield_sets_nextTick_witness :
    demoRunning.s_curTick = 10 ∧
      (∃ s', itask_yield 8 20 7 demoRunning = .ok s') ∧
      ∀ s', itask_yield 8 20 7 demoRunning = .ok s' →
        ∃ t1, s'.task? (TaskRef.slot 1) = some t1 ∧
          (20 < TASK_SLEEP → t1.nextTick = (demoRunning.s_curTick + 20) % 2 ^ 32) ∧
          (20 < TASK_SLEEP → demoRunning.s_curTick + 20 < 2 ^ 32 →
            t1.nextTick = demoRunning.s_curTick + 20 ∧
            (∀ t', demoRunning.s_curTick ≤ t' → t' < demoRunning.s_curTick + 20 →
              ¬ t1.nextTick ≤ t') ∧
            (∀ t', demoRunning.s_curTick + 20 ≤ t' → t1.nextTick ≤ t')) ∧
          (20 = TASK_SLEEP → t1.nextTick = TASK_SLEEP) :=
  ⟨by decide, ⟨Run.get (itask_yield 8 20 7 demoRunning), by decide⟩,
    (itask_yield_sets_nextTick 8 20 7 demoRunning (TaskRef.slot 1)
      (demoRunning.taskMem.getD 1 Task.zero) 0 (by decide) (by decide) (by decide) (by decide)
      (by decide) (by decide)).2.2⟩

/-- C22 as stated fails when `t + d` passes `2^32`: at tick `2^32 - 10` a yield
for 20 ticks (not the sentinel) sets `nextTick` to 10, not to `t + d`, and the
task is due at once, at the tick of the yield. -/
theorem itask_yield_tick_wrap_counterexample :
    20 < TASK_SLEEP ∧ demoLateTick.s_curTick = 4294967286 ∧
      demoLateTick.s_curTask = some (TaskRef.slot 1) ∧
      (demoLateTick.task? (TaskRef.slot 1)).map (fun t => t.retTask) = some none ∧
      (itask_yield 8 20 7 demoLateTick).map
          (fun s => (s.task? (TaskRef.slot 1)).map
            (fun t => (t.nextTick, decide (t.nextTick ≤ demoLateTick.s_curTick))))
        = .ok (some (10, true)) ∧
      (10 : Nat) ≠ 4294967286 + 20 := by
  decide

/-! ## Synchronous hand-off -/

theorem put_control (s : Sched) (r : TaskRef) (t : Task) (id : Int) (a b : TaskPtr) :
    ({ s with s_currentId := id, s_curTask := a, s_curContext := b } : Sched).put r t
      = { s.put r t with s_currentId := id, s_curTask := a, s_curContext := b } := by
  cases r <;> rfl

theorem task?_control (s : Sched) (id : Int) (a b : TaskPtr) (r : TaskRef) :
    ({ s with s_currentId := id, s_curTask := a, s_curContext := b } : Sched).task? r
      = s.task? r := task?_congr rfl rfl r

theorem LevelArray.set_set {α : Type} (xs : LevelArray α) (i : Nat) (a b : α) :
    (xs.set i a).set i b = xs.set i b := by
  cases xs with
  | mk cells h => simp [LevelArray.set, List.set_set]

/-- The closed form of `itask_run` on a task `T` with record `t` whose
`callstack[0]` is the function `n`: the function is invoked in the state
`itask_run.entry`, and afterwards the level of `T` is set back to what it was
before the call if it differs. -/
theorem itask_run_eq (prog : Prog) (id : Int) {s : Sched} {T : TaskRef} {t : Task} {n : Nat}
    (ht : s.task? T = some t) (hf : t.context.callstack.get 0 = some n) :
    itask_run prog (some T) id s =
      (prog n id (itask_run.entry s T t id) >>= fun s4 =>
        s4.load (some T) >>= fun t4 =>
          if t.context.level ≠ t4.context.level then
            s4.storeCtx (some T) (fun x => { x with level := t.context.level })
          else .ok s4) := by
  have h1 : (s.put T { t with retTask := s.s_curTask }).task? T
      = some { t with retTask := s.s_curTask } := task?_put_same _ ht
  have h2 : ({ s.put T { t with retTask := s.s_curTask } with
      s_currentId := id, s_curTask := some T, s_curContext := some T } : Sched).task? T
      = some { t with retTask := s.s_curTask } := by
    rw [task?_control]; exact h1
  unfold itask_run
  rw [store_eq _ ht, ok_bind]
  simp only []
  rw [ctx_eq rfl h2, ok_bind, storeCtx_eq _ h2, ok_bind, put_control, put_put]
  have h3 : ({ s.put T { t with
        retTask := s.s_curTask
        context := { t.context with level := -1, ip := t.context.ip.set 0 0 } } with
      s_currentId := id, s_curTask := some T, s_curContext := some T } : Sched).task? T
      = some { t with
        retTask := s.s_curTask
        context := { t.context with level := -1, ip := t.context.ip.set 0 0 } } := by
    rw [task?_control]; exact task?_put_same _ ht
  rw [ctx_eq rfl h3, ok_bind]
  have hread : t.context.callstack.read (max 0 (-1 : Int)) = .ok (some n) := by
    have : max (0 : Int) (-1) = ((0 : Nat) : Int) := by decide
    rw [this, LevelArray.read_eq _ 0 (by decide), hf]
  simp only []
  rw [hread, ok_bind, check_bind _ (show (some n : TaskFunc).isSome = true from rfl)]
  rfl

/-- The closed form of `itask_yield` for a current task `T` that has a `retTask`:
`ip` is saved at the level, the level is lowered, `retTask` is cleared and the
task it designated becomes the current task, with its context the current
context. Task selection does not take place and `nextTick` is not written. -/
theorem itask_yield_retTask (fuel delay : Nat) (ip : Int) {s : Sched} {T r : TaskRef} {t : Task}
    {k : Nat} (hcur : s.s_curTask = some T) (hctx : s.s_curContext = some T)
    (ht : s.task? T = some t) (hret : t.retTask = some r)
    (hlevel : t.context.level = (k : Int)) (hk : k < 16) :
    itask_yield fuel delay ip s =
      .ok { s.put T { t with
          retTask := none
          context := { t.context with ip := t.context.ip.set k ip, level := (k : Int) - 1 } } with
        s_currentId := 0, s_curTask := some r, s_curContext := some r } := by
  have hrange : (0 : Int) ≤ (k : Int) ∧ (k : Int) < 16 := ⟨by omega, by omega⟩
  unfold itask_yield
  rw [ctx_eq hctx ht, ok_bind, check_bind _ (by rw [hlevel]; exact hrange), hctx,
    storeCtx_eq _ ht, ok_bind]
  simp only [put_s_curTask, hcur, load_put_same _ ht, ok_bind, hret, store_put_same _ _ ht,
    hlevel, Int.toNat_ofNat]

/-- C23: synchronous hand-off. Let `X` be the current task and `T` a task whose
`callstack[0]` is the function `n`. Then `itask_run(T, id)` invokes `n` with `id`
in the state in which `T.retTask = X`, `T` is the current task with its context
the current context, `T`'s level is -1 and its `ip[0]` is 0. If `n` does
`ctxBegin` and then `itask_yield(delay, ip)`, the yield takes the `retTask`
branch (no task selection), and `itask_run` returns: `X` is the current task with
its context the current context, `T.retTask` is null, `T.nextTick` and `T`'s level
are what they were before the call; of `T`'s record only `retTask` and `ip[0]`
(the token of the yield) differ. -/
theorem itask_run_hand_off (prog : Prog) (fuel delay n : Nat) (id ip : Int) (s : Sched)
    (X T : TaskRef) (t : Task)
    (hcur : s.s_curTask = some X) (ht : s.task? T = some t)
    (hf : t.context.callstack.get 0 = some n)
    (hprog : ∀ i x, prog n i x = ctxBegin x >>= itask_yield fuel delay ip) :
    itask_run prog (some T) id s =
      (callFunc prog (t.context.callstack.get 0) id (itask_run.entry s T t id) >>= fun s4 =>
        s4.load (some T) >>= fun t4 =>
          if t.context.level ≠ t4.context.level then
            s4.storeCtx (some T) (fun x => { x with level := t.context.level })
          else .ok s4) ∧
    (itask_run.entry s T t id).s_curTask = some T ∧
    (itask_run.entry s T t id).s_curContext = some T ∧
    (itask_run.entry s T t id).s_currentId = id ∧
    (∃ t0, (itask_run.entry s T t id).task? T = some t0 ∧ t0.retTask = some X ∧
      t0.context.level = -1 ∧ t0.context.ip.get 0 = 0) ∧
    (∃ s4 t4, (ctxBegin (itask_run.entry s T t id) >>= itask_yield fuel delay ip) = .ok s4 ∧
      s4.s_curTask = some X ∧ s4.s_curContext = some X ∧ s4.task? T = some t4 ∧
      t4.retTask = none ∧ t4.nextTick = t.nextTick) ∧
    ∃ s', itask_run prog (some T) id s = .ok s' ∧
      s'.s_curTask = some X ∧ s'.s_curContext = some X ∧
      s'.task? T = some { t with
        retTask := none, context := { t.context with ip := t.context.ip.set 0 ip } } ∧
      (∀ r, r ≠ T → s'.task? r = s.task? r) ∧
      ∃ t', s'.task? T = some t' ∧ t'.retTask = none ∧ t'.nextTick = t.nextTick ∧
        t'.context.level = t.context.level := by
  have heq := itask_run_eq prog id ht hf
  -- the record of `T` when its function is invoked
  have he : (itask_run.entry s T t id).task? T = some { t with
      retTask := s.s_curTask
      context := { t.context with level := -1, ip := t.context.ip.set 0 0 } } := by
    unfold itask_run.entry
    rw [task?_control]; exact task?_put_same _ ht
  have hec : (itask_run.entry s T t id).s_curContext = some T := rfl
  have hek : (itask_run.entry s T t id).s_curTask = some T := rfl
  -- the callee's `ctxBegin`
  have hb := ctxBegin_eq hec he
  have hb1 : ((itask_run.entry s T t id).put T { t with
      retTask := s.s_curTask
      context := { t.context with level := (-1 : Int) + 1, ip := t.context.ip.set 0 0 } }).task? T
      = some { t with
      retTask := s.s_curTask
      context := { t.context with level := (-1 : Int) + 1, ip := t.context.ip.set 0 0 } } :=
    task?_put_same _ he
  -- the callee's `itask_yield`
  have hy := itask_yield_retTask fuel delay ip (s := (itask_run.entry s T t id).put T { t with
      retTask := s.s_curTask
      context := { t.context with level := (-1 : Int) + 1, ip := t.context.ip.set 0 0 } })
    (T := T) (r := X) (k := 0)
    (by rw [put_s_curTask]; exact hek) (by rw [put_s_curContext]; exact hec) hb1
    (by simp [hcur]) (by simp) (by decide)
  have hcall : (ctxBegin (itask_run.entry s T t id) >>= itask_yield fuel delay ip)
      = .ok { s.put T { t with
          retTask := none
          context := { t.context with level := -1, ip := t.context.ip.set 0 ip } } with
        s_currentId := 0, s_curTask := some X, s_curContext := some X } := by
    rw [hb, ok_bind]
    simp only [] at hy ⊢
    rw [hy, put_put]
    unfold itask_run.entry
    rw [put_control, put_put]
    simp [LevelArray.set_set]
  have hrec4 : ({ s.put T { t with
          retTask := none
          context := { t.context with level := -1, ip := t.context.ip.set 0 ip } } with
        s_currentId := 0, s_curTask := some X, s_curContext := some X } : Sched).task? T
      = some { t with
          retTask := none
          context := { t.context with level := -1, ip := t.context.ip.set 0 ip } } := by
    rw [task?_control]; exact task?_put_same _ ht
  refine ⟨by rw [hf]; exact heq, hek, hec, rfl, ⟨_, he, by rw [hcur], rfl, ?_⟩,
    ⟨_, _, hcall, rfl, rfl, hrec4, rfl, rfl⟩, ?_⟩
  · exact LevelArray.get_set_same _ _ _ (by decide)
  · rw [heq, hprog, hcall, ok_bind, (load_some_iff _ _ _).mpr hrec4, ok_bind]
    by_cases hlv : t.context.level = -1
    · have hcond : ¬ (t.context.level ≠ ({ t with
          retTask := none
          context := { t.context with level := -1, ip := t.context.ip.set 0 ip } } : Task).context.level) := by
        simp [hlv]
      rw [if_neg hcond]
      have hsame : ({ t with
          retTask := none
          context := { t.context with level := -1, ip := t.context.ip.set 0 ip } } : Task)
          = { t with retTask := none, context := { t.context with ip := t.context.ip.set 0 ip } } := by
        rw [← hlv]
      refine ⟨_, rfl, rfl, rfl, by rw [hrec4, hsame], ?_, _, hrec4, rfl, rfl, hlv.symm⟩
      intro r hr
      rw [task?_control]; exact task?_put_other _ hr
    · have hcond : t.context.level ≠ ({ t with
          retTask := none
          context := { t.context with level := -1, ip := t.context.ip.set 0 ip } } : Task).context.level := by
        simpa using hlv
      rw [if_pos hcond, storeCtx_eq _ hrec4, put_control, put_put]
      have hrec5 : ({ s.put T { t with
          retTask := none, context := { t.context with ip := t.context.ip.set 0 ip } } with
          s_currentId := 0, s_curTask := some X, s_curContext := some X } : Sched).task? T
          = some { t with
            retTask := none, context := { t.context with ip := t.context.ip.set 0 ip } } := by
        rw [task?_control]; exact task?_put_same _ ht
      refine ⟨_, rfl, rfl, rfl, hrec5, ?_, _, hrec5, rfl, rfl, rfl⟩
      intro r hr
      rw [task?_control]; exact task?_put_other _ hr

/-- C23 at a sample: the current task of `demoParent` (slot 1) runs the task in
slot 0, whose function enters its level and yields. -/
theorem itask_run_hand_off_witness :
    demoParent.s_curTask = some (TaskRef.slot 1) ∧
      (demoParent.taskMem.getD 0 Task.zero).context.callstack.get 0 = some 1 ∧
      itask_run demoSleepProg (some (TaskRef.slot 0)) 0 demoParent = .ok demoHandOff ∧
      ∃ s', itask_run demoSleepProg (some (TaskRef.slot 0)) 0 demoParent = .ok s' ∧
        s'.s_curTask = some (TaskRef.slot 1) ∧ s'.s_curContext = some (TaskRef.slot 1) ∧
        s'.task? (TaskRef.slot 0) = some { demoParent.taskMem.getD 0 Task.zero with
          retTask := none
          context := { (demoParent.taskMem.getD 0 Task.zero).context with
            ip := (demoParent.taskMem.getD 0 Task.zero).context.ip.set 0 7 } } ∧
        (∀ r, r ≠ TaskRef.slot 0 → s'.task? r = demoParent.task? r) ∧
        ∃ t', s'.task? (TaskRef.slot 0) = some t' ∧ t'.retTask = none ∧
          t'.nextTick = (demoParent.taskMem.getD 0 Task.zero).nextTick ∧
          t'.context.level = (demoParent.taskMem.getD 0 Task.zero).context.level :=
  ⟨by decide, by decide, by decide,
    (itask_run_hand_off demoSleepProg 8 TASK_SLEEP 1 0 7 demoParent (TaskRef.slot 1)
      (TaskRef.slot 0) (demoParent.taskMem.getD 0 Task.zero) (by decide) (by decide) (by decide)
      (fun _ _ => rfl)).2.2.2.2.2.2⟩

/-! ## `task_freeAll` -/

/-- C24 fails on the code in its last part. `demoHalted` is a registry of two
tasks after one frame, halted at the frame-break task in slot 1, which is
remembered in `s_resumeTask`. `task_freeAll` returns with count 0, no current
task and no current context, and no slot is in use any more; but the root
sentinel's `nextMain` and `s_resumeTask` still designate the freed slot 1. When
the registry is used again (`task_setDefaults`, then `pushTask`), the new task
(slot 0) inherits the stale link: the main chain runs from the root to slot 0
and on to the freed slot 1, and does not come back to the root. -/
theorem task_freeAll_keeps_stale_references :
    (demoHalted.s_taskCount, isLive demoHalted (TaskRef.slot 0),
        isLive demoHalted (TaskRef.slot 1), demoHalted.s_resumeTask)
      = (2, true, true, some (TaskRef.slot 1)) ∧
    task_freeAll demoHalted = .ok demoCleared ∧
    (task_getCount demoCleared, demoCleared.s_curTask, demoCleared.s_curContext)
      = (0, none, none) ∧
    (isLive demoCleared (TaskRef.slot 0), isLive demoCleared (TaskRef.slot 1)) = (false, false) ∧
    (demoCleared.s_rootTask.nextMain, demoCleared.s_resumeTask)
      = (some (TaskRef.slot 1), some (TaskRef.slot 1)) ∧
    (pushTask (some 2) true none (task_setDefaults demoCleared)).map
        (fun r => (r.1, r.2.s_taskCount, mainChain r.2 4 TaskRef.root,
          isLive r.2 (TaskRef.slot 1), r.2.s_resumeTask))
      = .ok (TaskRef.slot 0, 1,
          [TaskRef.slot 0, TaskRef.slot 1, TaskRef.slot 0, TaskRef.slot 1],
          false, some (TaskRef.slot 1)) := by
  decide

/-! ## The level bound -/

/-- What a `ctxAllocate` of a non-zero size that returns has done: the level is
a valid index; when the level held a reservation the offset is the base offset
(0 when the block was only now claimed); otherwise the reserved bytes lie
inside the block and the offset is the base offset plus the size. -/
theorem ctxAllocate_ok_inv (a : Nat) {s s1 : Sched} {c : TaskRef} {t : Task} (ha : a ≠ 0)
    (hc : s.s_curContext = some c) (ht : s.task? c = some t)
    (h : ctxAllocate a s = .ok s1) :
    ∃ (l : Nat) (t1 : Task), t.context.level = (l : Int) ∧ l < 16 ∧ s1.task? c = some t1 ∧
      ((t.context.stackPtr.get l).isSome = true →
        t1.context.stackOffset
          = (if t.context.stackMem.isNone then 0 else t.context.stackOffset)) ∧
      (t.context.stackPtr.get l = none →
        (if t.context.stackMem.isNone then 0 else t.context.stackOffset) + a
          ≤ TASK_STACK_SIZE ∧
        u32 (((if t.context.stackMem.isNone then 0 else t.context.stackOffset : Nat) : Int)
          + (a : Int)) < TASK_STACK_SIZE ∧
        t1.context.stackOffset
          = (if t.context.stackMem.isNone then 0 else t.context.stackOffset) + a ∧
        t1.context.stackSize.get l = a) := by
  unfold ctxAllocate at h
  rw [if_neg ha, ctx_eq hc ht, ok_bind] at h
  obtain ⟨sA, hsA, h2⟩ := bind_ok h; clear h
  have hA : ∃ tA, sA.s_curContext = some c ∧ sA.task? c = some tA ∧
      tA.context.level = t.context.level ∧ tA.context.stackPtr = t.context.stackPtr ∧
      tA.context.stackOffset
        = (if t.context.stackMem.isNone then 0 else t.context.stackOffset) := by
    cases hm : t.context.stackMem with
    | some blk =>
      rw [hm] at hsA
      simp only [Option.isNone_some, Bool.false_eq_true, if_false] at hsA
      cases hsA
      exact ⟨t, hc, ht, rfl, rfl, by simp⟩
    | none =>
      rw [hm] at hsA
      simp only [Option.isNone_none, if_true] at hsA
      obtain ⟨r, hr, hst⟩ := bind_ok hsA; clear hsA
      obtain ⟨r1, r2⟩ := r
      simp only [] at hst
      obtain ⟨hrc, hrt⟩ := allocBlock_frame hr
      have htr : r2.task? c = some t := by rw [hrt]; exact ht
      rw [hrc, hc, storeCtx_eq _ htr] at hst
      cases hst
      exact ⟨_, by rw [put_s_curContext, hrc, hc], task?_put_same _ htr, rfl, rfl, by simp⟩
  obtain ⟨tA, hcA, htA, hlA, hpA, hoA⟩ := hA
  rw [ctx_eq hcA htA, ok_bind] at h2
  obtain ⟨p, hp, h4⟩ := bind_ok h2; clear h2
  obtain ⟨l, hl, hlt, hget⟩ := read_ok_inv hp
  cases hpn : p with
  | none =>
    rw [hpn] at h4 hget
    simp only [Option.isNone_none, if_true] at h4
    cases hmA : tA.context.stackMem with
    | none => rw [hmA] at h4; cases h4
    | some blk =>
      rw [hmA] at h4
      simp only [] at h4
      obtain ⟨_, hchk, h5⟩ := bind_ok h4; clear h4
      obtain ⟨_, hclr, h6⟩ := bind_ok h5; clear h5
      have hin := memset_ok_inv hclr
      have hlt2 : u32 ((tA.context.stackOffset : Int) + (a : Int)) < TASK_STACK_SIZE := by
        unfold check at hchk
        by_contra hn
        rw [if_neg hn] at hchk
        cases hchk
      rw [hcA, storeCtx_eq _ htA] at h6
      cases h6
      refine ⟨l, _, by rw [← hlA]; exact hl, hlt, task?_put_same _ htA, ?_, ?_⟩
      · intro hsome
        rw [← hpA, hget] at hsome
        cases hsome
      · intro _
        refine ⟨by rw [← hoA]; exact hin, by rw [← hoA]; exact hlt2, ?_, ?_⟩
        · show u32 ((tA.context.stackOffset : Int) + (a : Int)) = _
          rw [u32_small _ _ (by unfold TASK_STACK_SIZE at hin; omega), hoA]
        · show (tA.context.stackSize.set tA.context.level.toNat a).get l = a
          rw [hl]
          simp only [Int.toNat_ofNat]
          exact LevelArray.get_set_same _ _ _ hlt
  | some q =>
    rw [hpn] at h4 hget
    simp only [Option.isNone_some, Bool.false_eq_true, if_false] at h4
    cases h4
    refine ⟨l, tA, by rw [← hlA]; exact hl, hlt, htA, fun _ => hoA, ?_⟩
    intro hnone
    rw [← hpA, hget] at hnone
    cases hnone

/-- C26: scratch capacity. Let the current context have
`stackOffset <= TASK_STACK_SIZE`, and offset 0 while its block is not claimed (a
new task's context is all zero, and the offset is written only by `ctxAllocate`
once the block is claimed and by the release in `ctxReturn`). (1) Whenever
`ctxAllocate(size)` returns, the new offset is the old offset plus the size
reserved, as a sum of natural numbers without wrap-around: the size reserved is
`size`, or 0 when `size` is 0 or the level already holds a reservation; the new
offset does not exceed `TASK_STACK_SIZE`, and after a reservation
`stackSize[level]` is `size` and the offset is below `TASK_STACK_SIZE`. (2) A
reserving request that would bring the offset above `TASK_STACK_SIZE` does not
return: it ends in a fault. (3) With the block claimed and the level a valid
index without reservation, a request with `stackOffset + size >= TASK_STACK_SIZE`
fails the assertion on the new offset, or, when the `u32` sum wraps below
`TASK_STACK_SIZE`, passes the assertion and faults in the `memset`, which runs
past the end of the block; it fails the assertion whenever the sum does not
wrap; and a request with `stackOffset + size < TASK_STACK_SIZE` returns. -/
theorem ctxAllocate_within_capacity (size : Nat) (s : Sched) (c : TaskRef) (t : Task)
    (hc : s.s_curContext = some c) (ht : s.task? c = some t)
    (hoff : t.context.stackOffset ≤ TASK_STACK_SIZE)
    (hfresh : t.context.stackMem = none → t.context.stackOffset = 0) :
    (∀ s', ctxAllocate size s = .ok s' →
      ∃ t', s'.task? c = some t' ∧
        t'.context.stackOffset = t.context.stackOffset +
          (if size = 0 ∨ (t.context.stackPtr.get t.context.level.toNat).isSome = true
            then 0 else size) ∧
        t'.context.stackOffset ≤ TASK_STACK_SIZE ∧
        (size ≠ 0 → t.context.stackPtr.get t.context.level.toNat = none →
          t'.context.stackSize.get t.context.level.toNat = size ∧
          t'.context.stackOffset < TASK_STACK_SIZE)) ∧
    (size ≠ 0 → t.context.stackPtr.get t.context.level.toNat = none →
      TASK_STACK_SIZE < t.context.stackOffset + size →
      ∃ e, ctxAllocate size s = .error e) ∧
    (∀ (l blk : Nat), t.context.level = (l : Int) → l < TASK_MAX_LEVELS →
      t.context.stackMem = some blk → t.context.stackPtr.get l = none → size ≠ 0 →
      (TASK_STACK_SIZE ≤ t.context.stackOffset + size →
        ctxAllocate size s = .error
          (if u32 ((t.context.stackOffset : Int) + (size : Int)) < TASK_STACK_SIZE
            then Fault.badAccess else Fault.assertFailed) ∧
        (t.context.stackOffset + size < 2 ^ 32 →
          ctxAllocate size s = .error Fault.assertFailed)) ∧
      (t.context.stackOffset + size < TASK_STACK_SIZE →
        ∃ s', ctxAllocate size s = .ok s')) := by
  have hbase : (if t.context.stackMem.isNone then 0 else t.context.stackOffset)
      = t.context.stackOffset := by
    cases hm : t.context.stackMem with
    | none => simp [hfresh hm]
    | some blk => simp
  refine ⟨?_, ?_, ?_⟩
  · intro s' h
    by_cases hs0 : size = 0
    · unfold ctxAllocate at h
      rw [if_pos hs0] at h
      cases h
      exact ⟨t, ht, by simp [hs0], hoff, fun hne => absurd hs0 hne⟩
    · obtain ⟨l, t1, hl, hlt, ht1, hsome, hnone⟩ := ctxAllocate_ok_inv size hs0 hc ht h
      have hlv : t.context.level.toNat = l := by rw [hl]; simp
      rw [hlv]
      cases hp : t.context.stackPtr.get l with
      | some q =>
        have h1 := hsome (by rw [hp]; rfl)
        rw [hbase] at h1
        refine ⟨t1, ht1, by simp [h1], by rw [h1]; exact hoff, fun _ hn => by cases hn⟩
      | none =>
        obtain ⟨h1, h2, h3, h4⟩ := hnone hp
        rw [hbase] at h1 h2 h3
        refine ⟨t1, ht1, by simp [hs0, h3], by rw [h3]; exact h1, fun _ _ => ⟨h4, ?_⟩⟩
        rw [h3]
        have hu := u32_small t.context.stackOffset size (by unfold TASK_STACK_SIZE at h1; omega)
        rw [hu] at h2
        exact h2
  · intro hs0 hp hover
    cases hres : ctxAllocate size s with
    | error e => exact ⟨e, rfl⟩
    | ok s' =>
      exfalso
      obtain ⟨l, t1, hl, hlt, ht1, _, hnone⟩ := ctxAllocate_ok_inv size hs0 hc ht hres
      have hlv : t.context.level.toNat = l := by rw [hl]; simp
      rw [hlv] at hp
      obtain ⟨h1, _⟩ := hnone hp
      rw [hbase] at h1
      omega
  · intro l blk hl hlt hm hp hs0
    have heq := ctxAllocate_reserve size (Nat.pos_of_ne_zero hs0) hc ht hl hlt hm hp
    refine ⟨?_, ?_⟩
    · intro hover
      have hfault : ctxAllocate size s = .error
          (if u32 ((t.context.stackOffset : Int) + (size : Int)) < TASK_STACK_SIZE
            then Fault.badAccess else Fault.assertFailed) := by
        by_cases hchk : u32 ((t.context.stackOffset : Int) + (size : Int)) < TASK_STACK_SIZE
        · rw [heq, check_bind _ hchk, if_pos hchk]
          have hin : ¬ t.context.stackOffset + size ≤ TASK_STACK_SIZE := by
            intro hle
            have hu := u32_small t.context.stackOffset size
              (by unfold TASK_STACK_SIZE at hle; omega)
            rw [hu] at hchk
            omega
          rw [memset_past_end _ _ _ hin]
          rfl
        · rw [heq, if_neg hchk]
          simp only [check, hchk, if_false]
          rfl
      refine ⟨hfault, ?_⟩
      intro hnowrap
      rw [hfault, u32_small _ _ hnowrap, if_neg (by omega)]
    · intro hroom
      have hu := u32_small t.context.stackOffset size (by unfold TASK_STACK_SIZE at hroom; omega)
      rw [heq, check_bind _ (by rw [hu]; exact hroom), memset_bind _ _ _ _ (by omega)]
      exact ⟨_, rfl⟩

/-- Witness for C26: in `demoNested` the context is at level 1, without
reservation there, with its block claimed and `stackOffset = 100`. A request of
40 bytes returns with offset 140; a request of `65436 = TASK_STACK_SIZE - 100`
bytes fails the assertion; and for a request of `4294967246 = 2^32 - 50` bytes
the wrapped sum 50 passes the assertion and the `memset` faults. -/
theorem ctxAllocate_within_capacity_witness :
    ctxAllocate 40 demoNested = .ok demoNestedAlloc ∧
      (∃ t', demoNestedAlloc.task? (TaskRef.slot 1) = some t' ∧
        t'.context.stackOffset = 100 + 40 ∧ t'.context.stackOffset ≤ TASK_STACK_SIZE) ∧
      ctxAllocate 65436 demoNested = .error Fault.assertFailed ∧
      ctxAllocate 4294967246 demoNested = .error Fault.badAccess :=
  ⟨by decide,
    match (ctxAllocate_within_capacity 40 demoNested (TaskRef.slot 1)
      (demoNested.taskMem.getD 1 Task.zero) (by decide) (by decide) (by decide)
      (by decide)).1 demoNestedAlloc (by decide) with
    | ⟨t', h1, h2, h3, _⟩ => ⟨t', h1, h2, h3⟩,
    (((ctxAllocate_within_capacity 65436 demoNested (TaskRef.slot 1)
      (demoNested.taskMem.getD 1 Task.zero) (by decide) (by decide) (by decide)
      (by decide)).2.2 1 0 (by decide) (by decide) (by decide) (by decide) (by decide)).1
      (by decide)).2 (by decide),
    by decide⟩

/-! ## The current context -/

/-- Every call made by a frame of `task_run` is made with the called task current
and its context the current context. -/
theorem task_run_log_context {prog : Prog} {fuel : Nat} {s s' : Sched} {log : List Dispatch}
    (h : task_run prog fuel s = .ok (s', log)) :
    ∀ d ∈ log, d.before.s_curTask = some d.task ∧ d.before.s_curContext = some d.task := by
  unfold task_run at h
  split at h
  · simp only [Except.ok.injEq, Prod.mk.injEq] at h
    obtain ⟨_, e⟩ := h
    subst e
    intro d hd
    cases hd
  · split at h
    · cases h
    · intro d hd
      rcases task_run_loop_log _ _ _ _ _ h d hd with h1 | h1
      · cases h1
      · obtain ⟨_, _, _, h2, h3⟩ := h1
        exact ⟨h2, h3⟩

/-- C27 (amended): the current context is brought in line with the current task
when a task function is invoked, not by task selection. Let `T` be the current
task with the current context its own, at a level below `TASK_MAX_LEVELS`.
(1) Whenever `selectNextTask` returns, `s_curContext` is what it was (it still
designates the context of `T`) whatever task was selected; the same holds for
`itask_yield` when `T` has no `retTask`, for `task_free` of the current task, and
for a pass of the frame loop of `task_run` that calls no function. (2) When `T`
has a `retTask`, `itask_yield` returns with that task current and its context
the current context. (3) `itask_run(U, id)` invokes the function of `U` with `U`
current and its context the current context. (4) Every call made by a frame of
`task_run` is made with the called task current and its context the current
context. -/
theorem current_context_follows_dispatch (prog : Prog) (fuel delay : Nat) (id ip : Int)
    (s : Sched) (T : TaskRef) (t : Task) (k : Nat)
    (hcur : s.s_curTask = some T) (hctx : s.s_curContext = some T)
    (ht : s.task? T = some t) (hlevel : t.context.level = (k : Int)) (hk : k < TASK_MAX_LEVELS) :
    (∀ s', selectNextTask fuel s = .ok s' → s'.s_curContext = some T) ∧
    (t.retTask = none → ∀ s', itask_yield fuel delay ip s = .ok s' → s'.s_curContext = some T) ∧
    (∀ s', task_free fuel (some T) s = .ok s' → s'.s_curContext = some T) ∧
    (∀ (x x' : Sched) (cur : TaskRef) (stop : Bool),
      task_run.body prog fuel cur x = .ok (x', none, stop) → x'.s_curContext = x.s_curContext) ∧
    (∀ r, t.retTask = some r →
      ∃ s', itask_yield fuel delay ip s = .ok s' ∧
        s'.s_curTask = some r ∧ s'.s_curContext = some r) ∧
    (∀ (U : TaskRef) (u : Task) (n : Nat), s.task? U = some u →
      u.context.callstack.get 0 = some n →
      itask_run prog (some U) id s =
        (prog n id (itask_run.entry s U u id) >>= fun s4 =>
          s4.load (some U) >>= fun t4 =>
            if u.context.level ≠ t4.context.level then
              s4.storeCtx (some U) (fun x => { x with level := u.context.level })
            else .ok s4) ∧
      (itask_run.entry s U u id).s_curTask = some U ∧
      (itask_run.entry s U u id).s_curContext = some U) ∧
    (∀ (x x' : Sched) (log : List Dispatch), task_run prog fuel x = .ok (x', log) →
      ∀ d ∈ log, d.before.s_curTask = some d.task ∧ d.before.s_curContext = some d.task) := by
  have hk16 : k < 16 := hk
  refine ⟨?_, ?_, ?_, ?_, ?_, ?_, ?_⟩
  · intro s' h
    rw [(selectNextTask_records h).2.2.1, hctx]
  · intro hret s' h
    rw [itask_yield_no_retTask fuel delay ip hcur hctx ht hret hlevel hk16] at h
    obtain ⟨s3, hsel, h2⟩ := bind_ok h; clear h
    obtain ⟨_, _, h3⟩ := bind_ok h2; clear h2
    cases h3
    rw [(selectNextTask_records hsel).2.2.1, put_s_curContext, hctx]
  · intro s' h
    have := (task_free_effect (fun _ => ()) (fun _ _ _ _ _ => rfl) h).2.2.2.1
    rw [this, hctx]
  · intro x x' cur stop h
    obtain ⟨tx, _, _, _, hnone⟩ := task_run_body_inv h
    obtain ⟨_, hfb, hnfb⟩ := hnone rfl
    cases hb : tx.framebreak with
    | true => rw [hfb hb]
    | false => exact (selectNextTask_records (hnfb hb)).2.2.1
  · intro r hret
    exact ⟨_, itask_yield_retTask fuel delay ip hcur hctx ht hret hlevel hk16, rfl, rfl⟩
  · intro U u n hu hf
    exact ⟨itask_run_eq prog id hu hf, rfl, rfl⟩
  · intro x x' log h
    exact task_run_log_context h

/-- C27 (amended) at a sample: the running task of `demoRunning` yields; it has no
`retTask`. -/
theorem current_context_follows_dispatch_witness :
    demoRunning.s_curTask = some (TaskRef.slot 1) ∧
      demoRunning.s_curContext = some (TaskRef.slot 1) ∧
      itask_yield 8 1 7 demoRunning = .ok demoYielded ∧
      ∀ s', itask_yield 8 1 7 demoRunning = .ok s' → s'.s_curContext = some (TaskRef.slot 1) :=
  ⟨by decide, by decide, by decide,
    (current_context_follows_dispatch demoProg 8 1 0 7 demoRunning (TaskRef.slot 1)
      (demoRunning.taskMem.getD 1 Task.zero) 0 (by decide) (by decide) (by decide) (by decide)
      (by decide)).2.1 (by decide)⟩

/-- C27 as stated fails after `itask_yield`: the running task of `demoRunning`
(slot 1) yields, task selection makes the task in slot 0 current, and the
current context is still the one of slot 1. The same holds after
`selectNextTask` alone and after `task_free` of the current task. -/
theorem current_context_counterexample :
    (demoRunning.s_curTask, demoRunning.s_curContext)
        = (some (TaskRef.slot 1), some (TaskRef.slot 1)) ∧
      (itask_yield 8 1 7 demoRunning).map (fun s => (s.s_curTask, s.s_curContext))
        = .ok (some (TaskRef.slot 0), some (TaskRef.slot 1)) ∧
      (selectNextTask 8 demoRunning).map (fun s => (s.s_curTask, s.s_curContext))
        = .ok (some (TaskRef.slot 0), some (TaskRef.slot 1)) ∧
      (task_free 8 (some (TaskRef.slot 1)) demoRunning).map
          (fun s => (s.s_curTask, s.s_curContext))
        = .ok (some (TaskRef.slot 0), some (TaskRef.slot 1)) ∧
      some (TaskRef.slot 1) ≠ some (TaskRef.slot 0) := by
  decide

/-! ## Hierarchies built from the root: paths and walk turns -/

theorem isLive_root_of_nofree {s : Sched} {arr : ChunkedArray TaskRef}
    (harr : s.s_tasks = some arr) (hfree : arr.freeSlots = []) :
    isLive s TaskRef.root = true := by
  simp [isLive, harr, hfree]

theorem isLive_slot_of_nofree {s : Sched} {arr : ChunkedArray TaskRef}
    (harr : s.s_tasks = some arr) (hfree : arr.freeSlots = []) (i : Nat) :
    isLive s (TaskRef.slot i) = decide (i < arr.elemCount) := by
  simp [isLive, harr, hfree]

theorem arenaOK_of_nofree {s : Sched} {arr : ChunkedArray TaskRef}
    (harr : s.s_tasks = some arr) (hfree : arr.freeSlots = []) : arenaOK s = true := by
  simp [arenaOK, harr, hfree]

theorem prevSecPath_trans {s : Sched} : ∀ (a b : Nat) (x y z : TaskRef),
    prevSecPath s a x y → prevSecPath s b y z → prevSecPath s (a + b) x z := by
  intro a
  induction a with
  | zero =>
    intro b x y z h1 h2
    have : x = y := h1
    subst this
    simpa using h2
  | succ n ih =>
    intro b x y z h1 h2
    obtain ⟨t, c, ht, hc, hp⟩ := h1
    have : n + 1 + b = (n + b) + 1 := by omega
    rw [this]
    exact ⟨t, c, ht, hc, ih b c y z hp h2⟩

theorem prevSecPath_snoc {s : Sched} : ∀ (a : Nat) (x y : TaskRef),
    prevSecPath s (a + 1) x y →
    ∃ z t, prevSecPath s a x z ∧ s.task? z = some t ∧ t.prevSec = some y := by
  intro a
  induction a with
  | zero =>
    intro x y h
    obtain ⟨t, c, ht, hc, hp⟩ := h
    have : c = y := hp
    subst this
    exact ⟨x, t, rfl, ht, hc⟩
  | succ n ih =>
    intro x y h
    obtain ⟨t, c, ht, hc, hp⟩ := h
    obtain ⟨z, tz, hz1, hz2, hz3⟩ := ih c y hp
    exact ⟨z, tz, ⟨t, c, ht, hc, hz1⟩, hz2, hz3⟩

/-- The descent from a task to a childless task is unique, with its length. -/
theorem prevSecPath_leaf_unique {s : Sched} : ∀ (a b : Nat) (x y y' : TaskRef),
    prevSecPath s a x y → isLeaf s y → prevSecPath s b x y' → isLeaf s y' → a = b ∧ y = y' := by
  intro a
  induction a with
  | zero =>
    intro b x y y' h1 hl1 h2 hl2
    have : x = y := h1
    subst this
    cases b with
    | zero => exact ⟨rfl, h2⟩
    | succ m =>
      obtain ⟨t, c, ht, hc, _⟩ := h2
      obtain ⟨t', ht', hn⟩ := hl1
      rw [ht] at ht'
      cases ht'
      rw [hc] at hn
      cases hn
  | succ n ih =>
    intro b x y y' h1 hl1 h2 hl2
    obtain ⟨t, c, ht, hc, hp⟩ := h1
    cases b with
    | zero =>
      have : x = y' := h2
      subst this
      obtain ⟨t', ht', hn⟩ := hl2
      rw [ht] at ht'
      cases ht'
      rw [hc] at hn
      cases hn
    | succ m =>
      obtain ⟨t', c', ht', hc', hp'⟩ := h2
      rw [ht] at ht'
      cases ht'
      rw [hc] at hc'
      cases hc'
      obtain ⟨e1, e2⟩ := ih m c y y' hp hl1 hp' hl2
      exact ⟨by omega, e2⟩

/-- A path through `prevSec` is carried over to a state in which the tasks of a
set closed under `prevSec` have kept their `prevSec`. -/
theorem prevSecPath_frame {s s' : Sched} (Q : TaskRef → Prop)
    (hkeep : ∀ r t, Q r → s.task? r = some t →
      ∃ t', s'.task? r = some t' ∧ t'.prevSec = t.prevSec)
    (hclosed : ∀ r t c, Q r → s.task? r = some t → t.prevSec = some c → Q c) :
    ∀ (k : Nat) (x y : TaskRef), Q x → prevSecPath s k x y → prevSecPath s' k x y ∧ Q y := by
  intro k
  induction k with
  | zero =>
    intro x y hx h
    have : x = y := h
    subst this
    exact ⟨rfl, hx⟩
  | succ n ih =>
    intro x y hx h
    obtain ⟨t, c, ht, hc, hp⟩ := h
    obtain ⟨t', ht', hps⟩ := hkeep x t hx ht
    obtain ⟨h1, h2⟩ := ih c y (hclosed x t c hx ht hc) hp
    exact ⟨⟨t', c, ht', by rw [hps]; exact hc, h1⟩, h2⟩

/-- The inner loop of `selectNextTask` computes the descent: with a budget above
its length it returns the childless task, with a smaller one it runs out. -/
theorem descend_of_path {s : Sched} : ∀ (k : Nat) (x y : TaskRef),
    prevSecPath s k x y → isLeaf s y →
    ∀ fuel, selectNextTask.descend s fuel x
      = if k < fuel then .ok y else .error .outOfFuel := by
  intro k
  induction k with
  | zero =>
    intro x y h hl fuel
    have : x = y := h
    subst this
    obtain ⟨t, ht, hn⟩ := hl
    cases fuel with
    | zero => rfl
    | succ f =>
      unfold selectNextTask.descend
      rw [(load_some_iff _ _ _).2 ht]
      simp [hn]
  | succ n ih =>
    intro x y h hl fuel
    obtain ⟨t, c, ht, hc, hp⟩ := h
    cases fuel with
    | zero => rfl
    | succ f =>
      unfold selectNextTask.descend
      rw [(load_some_iff _ _ _).2 ht]
      simp only [hc]
      rw [ih c y hp hl f]
      by_cases hlt : n < f
      · rw [if_pos hlt, if_pos (by omega)]
      · rw [if_neg hlt, if_neg (by omega)]

/-- One turn of the walk, as the loop of `selectNextTask` performs it: there is a
budget from which on the loop, at `x`, examines the candidate `y`, returns it if
it passes the acceptance test and goes on from it otherwise; below that budget
it runs out. -/
theorem walk_turn {s : Sched} {x y : TaskRef} {ty : Task} (h : WalkStep s x y)
    (hty : s.task? y = some ty) :
    ∃ k0, ∀ fuel passed,
      selectNextTask.walk s (fuel + 1) (some x) passed
        = if k0 ≤ fuel then
            (if accepts s ty then .ok ⟨some y, passed⟩
              else selectNextTask.walk s fuel (some y) (passed ++ [y]))
          else .error .outOfFuel := by
  obtain ⟨t, ht, hstep⟩ := h
  rcases hstep with ⟨n, k, hn, hp, hl⟩ | ⟨hn, hs⟩
  · refine ⟨k, ?_⟩
    intro fuel passed
    conv_lhs => unfold selectNextTask.walk
    rw [(load_some_iff _ _ _).2 ht]
    simp only [hn]
    rw [descend_of_path k n y hp hl (fuel + 1)]
    by_cases hk : k ≤ fuel
    · rw [if_pos (by omega), if_pos hk]
      simp only []
      rw [(load_some_iff _ _ _).2 hty]
    · rw [if_neg (by omega), if_neg hk]
  · refine ⟨0, ?_⟩
    intro fuel passed
    conv_lhs => unfold selectNextTask.walk
    rw [(load_some_iff _ _ _).2 ht]
    simp only [hn, hs]
    rw [(load_some_iff _ _ _).2 hty, if_pos (Nat.zero_le _)]

/-- When the turns of the walk lead from `x` to a task that passes the
acceptance test, the loop of `selectNextTask` started at `x` returns, from some
budget on, with a task that passes the test. `Q` is a set of tasks closed under
the turns of the walk, all backed by memory. -/
theorem walk_reaches_accepted {s : Sched} (Q : TaskRef → Prop)
    (hQ : ∀ x y, Q x → WalkStep s x y → Q y ∧ ∃ ty, s.task? y = some ty)
    {x a : TaskRef} {ta : Task} (h : Relation.TransGen (WalkStep s) x a) (hx : Q x)
    (hta : s.task? a = some ta) (hacc : accepts s ta = true) :
    ∃ r tr fuel0, Q r ∧ s.task? r = some tr ∧ accepts s tr = true ∧
      ∀ fuel, fuel0 ≤ fuel → ∀ passed, ∃ passed',
        selectNextTask.walk s fuel (some x) passed = .ok ⟨some r, passed'⟩ := by
  revert hx
  induction h using Relation.TransGen.head_induction_on with
  | base hstep =>
    intro hx
    obtain ⟨k0, hk0⟩ := walk_turn hstep hta
    refine ⟨a, ta, k0 + 1, (hQ _ _ hx hstep).1, hta, hacc, ?_⟩
    intro fuel hf passed
    obtain ⟨f, rfl⟩ : ∃ f, fuel = f + 1 := ⟨fuel - 1, by omega⟩
    rw [hk0 f passed, if_pos (by omega), if_pos hacc]
    exact ⟨passed, rfl⟩
  | ih hstep hrest ih =>
    intro hx
    rename_i x y
    obtain ⟨hy, ty, hty⟩ := hQ x y hx hstep
    obtain ⟨k0, hk0⟩ := walk_turn hstep hty
    by_cases hya : accepts s ty = true
    · refine ⟨y, ty, k0 + 1, hy, hty, hya, ?_⟩
      intro fuel hf passed
      obtain ⟨f, rfl⟩ : ∃ f, fuel = f + 1 := ⟨fuel - 1, by omega⟩
      rw [hk0 f passed, if_pos (by omega), if_pos hya]
      exact ⟨passed, rfl⟩
    · obtain ⟨r, tr, f0, hrQ, hr, hracc, hwalk⟩ := ih hy
      refine ⟨r, tr, max k0 f0 + 1, hrQ, hr, hracc, ?_⟩
      intro fuel hf passed
      obtain ⟨f, rfl⟩ : ∃ f, fuel = f + 1 := ⟨fuel - 1, by omega⟩
      rw [hk0 f passed, if_pos (by omega), if_neg hya]
      exact hwalk f (by omega) _

/-- In a set of tasks closed under the turns of the walk, in which every task has
a turn, the loop of `selectNextTask` never leaves by `break`: when it returns it
has selected a task of the set. -/
theorem walk_never_breaks {s : Sched} (Q : TaskRef → Prop)
    (hstep : ∀ x, Q x → ∃ y ty, WalkStep s x y ∧ Q y ∧ s.task? y = some ty) :
    ∀ (fuel : Nat) (x : TaskRef) (passed : List TaskRef) (w : Walk), Q x →
      selectNextTask.walk s fuel (some x) passed = .ok w → ∃ r, w.selected = some r ∧ Q r := by
  intro fuel
  induction fuel with
  | zero => intro x passed w _ h; cases h
  | succ f ih =>
    intro x passed w hx h
    obtain ⟨y, ty, hs, hy, hty⟩ := hstep x hx
    obtain ⟨k0, hk0⟩ := walk_turn hs hty
    rw [hk0 f passed] at h
    by_cases hk : k0 ≤ f
    · rw [if_pos hk] at h
      by_cases hacc : accepts s ty = true
      · rw [if_pos hacc] at h
        cases h
        exact ⟨y, rfl, hy⟩
      · rw [if_neg hacc] at h
        exact ih y _ w hy h
    · rw [if_neg hk] at h
      cases h

/-- When every task of a set closed under the turns of the walk fails the
acceptance test, the loop of `selectNextTask` started in the set never returns:
it uses up every budget. -/
theorem walk_never_returns {s : Sched} (Q : TaskRef → Prop)
    (hstep : ∀ x, Q x → ∃ y ty, WalkStep s x y ∧ Q y ∧ s.task? y = some ty ∧ accepts s ty = false) :
    ∀ (fuel : Nat) (x : TaskRef) (passed : List TaskRef), Q x →
      selectNextTask.walk s fuel (some x) passed = .error .outOfFuel := by
  intro fuel
  induction fuel with
  | zero => intro x passed _; rfl
  | succ f ih =>
    intro x passed hx
    obtain ⟨y, ty, hs, hy, hty, hacc⟩ := hstep x hx
    obtain ⟨k0, hk0⟩ := walk_turn hs hty
    rw [hk0 f passed]
    by_cases hk : k0 ≤ f
    · rw [if_pos hk, if_neg (by rw [hacc]; exact Bool.false_ne_true)]
      exact ih y _ hy
    · rw [if_neg hk]

/-- A turn of the walk from a task in use leads to a task in use. -/
theorem WalkStep_live {s : Sched} (hH : Hier s) {x y : TaskRef} (hx : isLive s x = true)
    (h : WalkStep s x y) : isLive s y = true := by
  obtain ⟨t, ht, hstep⟩ := h
  obtain ⟨t0, ht0, l1, _, l3⟩ := hH.links x hx
  rw [ht] at ht0
  cases ht0
  rcases hstep with ⟨n, k, hn, hp, _⟩ | ⟨_, hs⟩
  · have hkeep : ∀ r t, isLive s r = true → s.task? r = some t →
        ∃ t', s.task? r = some t' ∧ t'.prevSec = t.prevSec := fun r t _ hr => ⟨t, hr, rfl⟩
    have hclosed : ∀ r t c, isLive s r = true → s.task? r = some t → t.prevSec = some c →
        isLive s c = true := by
      intro r t c hr hrt hc
      obtain ⟨t1, ht1, _, l2, _⟩ := hH.links r hr
      rw [hrt] at ht1
      cases ht1
      exact l2 c hc
    exact (prevSecPath_frame (fun r => isLive s r = true) hkeep hclosed k n y (l1 n hn) hp).2
  · exact l3 y hs

/-- A turn of the walk is carried over to a state in which the tasks in use have
kept their walk links. -/
theorem WalkStep_frame {s s' : Sched} (hH : Hier s)
    (hkeep : ∀ r t, isLive s r = true → s.task? r = some t →
      ∃ t', s'.task? r = some t' ∧ t'.prevSec = t.prevSec)
    {x y : TaskRef} {t t' : Task} (hx : isLive s x = true) (ht : s.task? x = some t)
    (ht' : s'.task? x = some t') (hm : t'.nextMain = t.nextMain) (hs : t'.nextSec = t.nextSec)
    (h : WalkStep s x y) : WalkStep s' x y := by
  obtain ⟨t0, ht0, hstep⟩ := h
  rw [ht] at ht0
  cases ht0
  obtain ⟨_, ht1, l1, _, _⟩ := hH.links x hx
  rw [ht] at ht1
  cases ht1
  refine ⟨t', ht', ?_⟩
  rcases hstep with ⟨n, k, hn, hp, hl⟩ | ⟨hn, hsec⟩
  · left
    have hclosed : ∀ r t c, isLive s r = true → s.task? r = some t → t.prevSec = some c →
        isLive s c = true := by
      intro r t c hr hrt hc
      obtain ⟨t1, ht1, _, l2, _⟩ := hH.links r hr
      rw [hrt] at ht1
      cases ht1
      exact l2 c hc
    obtain ⟨hp', hy⟩ := prevSecPath_frame (fun r => isLive s r = true) hkeep hclosed k n y
      (l1 n hn) hp
    obtain ⟨ty, hty, hleaf⟩ := hl
    obtain ⟨ty', hty', hps⟩ := hkeep y ty hy hty
    exact ⟨n, k, by rw [hm]; exact hn, hp', ty', hty', by rw [hps]; exact hleaf⟩
  · right
    exact ⟨by rw [hm]; exact hn, by rw [hs]; exact hsec⟩

/-- Strong connection under the turns of the walk is kept when a new task `N` is
spliced into the walk: every old turn is kept or is replaced by a turn to `N`
followed by a turn from `N`. -/
theorem conn_insert {s s' : Sched} {N : TaskRef} (L : TaskRef → Prop)
    (hconn : ∀ a b, L a → L b → Relation.TransGen (WalkStep s) a b)
    (hclosed : ∀ x y, L x → WalkStep s x y → L y)
    (htr : ∀ x y, L x → WalkStep s x y →
      WalkStep s' x y ∨ (WalkStep s' x N ∧ WalkStep s' N y))
    (hN : ∃ y1, L y1 ∧ WalkStep s' N y1) (hx0 : ∃ x0, L x0 ∧ WalkStep s' x0 N) :
    ∀ a b, (a = N ∨ L a) → (b = N ∨ L b) → Relation.TransGen (WalkStep s') a b := by
  have hold : ∀ a b, L a → Relation.TransGen (WalkStep s) a b →
      Relation.TransGen (WalkStep s') a b := by
    intro a b ha h
    induction h using Relation.TransGen.head_induction_on with
    | base hstep =>
      rcases htr _ _ ha hstep with h1 | ⟨h1, h2⟩
      · exact Relation.TransGen.single h1
      · exact Relation.TransGen.head h1 (Relation.TransGen.single h2)
    | ih hstep _ ih =>
      have hnext := hclosed _ _ ha hstep
      rcases htr _ _ ha hstep with h1 | ⟨h1, h2⟩
      · exact Relation.TransGen.head h1 (ih hnext)
      · exact Relation.TransGen.head h1 (Relation.TransGen.head h2 (ih hnext))
  obtain ⟨y1, hy1, hNy⟩ := hN
  obtain ⟨x0, hx0L, hxN⟩ := hx0
  have hfromN : ∀ b, L b → Relation.TransGen (WalkStep s') N b := fun b hb =>
    Relation.TransGen.head hNy (hold y1 b hy1 (hconn y1 b hy1 hb))
  have htoN : ∀ a, L a → Relation.TransGen (WalkStep s') a N := fun a ha =>
    Relation.TransGen.tail (hold a x0 ha (hconn a x0 ha hx0L)) hxN
  intro a b ha hb
  rcases ha with rfl | ha
  · rcases hb with rfl | hb
    · exact Relation.TransGen.trans (hfromN x0 hx0L) (Relation.TransGen.single hxN)
    · exact hfromN b hb
  · rcases hb with rfl | hb
    · exact htoN a ha
    · exact hold a b ha (hconn a b ha hb)

theorem isLive_congr {s s' : Sched} (h : s'.s_tasks = s.s_tasks) (r : TaskRef) :
    isLive s' r = isLive s r := by
  unfold isLive
  rw [h]

/-- The shape of the hierarchy depends only on the arena, the cursor, the
current task's being in use and the walk links of the records. -/
theorem Hier_congr {s s' : Sched} (hH : Hier s) (htasks : s'.s_tasks = s.s_tasks)
    (hiter : s'.s_taskIter = s.s_taskIter)
    (hcur : ∃ r, s'.s_curTask = some r ∧ isLive s r = true)
    (hfw : ∀ r t, s.task? r = some t → ∃ t', s'.task? r = some t' ∧
      t'.nextMain = t.nextMain ∧ t'.prevSec = t.prevSec ∧ t'.nextSec = t.nextSec) :
    Hier s' := by
  have hl : ∀ r, isLive s' r = isLive s r := isLive_congr htasks
  have hkeep : ∀ r t, isLive s r = true → s.task? r = some t →
      ∃ t', s'.task? r = some t' ∧ t'.prevSec = t.prevSec := by
    intro r t _ ht
    obtain ⟨t', h1, _, h2, _⟩ := hfw r t ht
    exact ⟨t', h1, h2⟩
  -- a record of the new state, of a task in use, comes from one of the old state
  have hbw : ∀ r t', isLive s r = true → s'.task? r = some t' →
      ∃ t, s.task? r = some t ∧ t'.nextMain = t.nextMain ∧ t'.prevSec = t.prevSec ∧
        t'.nextSec = t.nextSec := by
    intro r t' hr ht'
    obtain ⟨t, ht, _⟩ := hH.links r hr
    obtain ⟨t'', h1, h2⟩ := hfw r t ht
    rw [ht'] at h1
    cases h1
    exact ⟨t, ht, h2⟩
  have hstep : ∀ x y, isLive s x = true → WalkStep s x y → WalkStep s' x y := by
    intro x y hx h
    obtain ⟨t, ht, _⟩ := hH.links x hx
    obtain ⟨t', ht', h1, _, h3⟩ := hfw x t ht
    exact WalkStep_frame hH hkeep hx ht ht' h1 h3 h
  have hreach : ∀ a b, isLive s a = true → Relation.TransGen (WalkStep s) a b →
      Relation.TransGen (WalkStep s') a b := by
    intro a b ha h
    induction h using Relation.TransGen.head_induction_on with
    | base h1 => exact Relation.TransGen.single (hstep _ _ ha h1)
    | ih h1 _ ih =>
      exact Relation.TransGen.head (hstep _ _ ha h1) (ih (WalkStep_live hH ha h1))
  obtain ⟨arr, harr, hfree⟩ := hH.nofree
  refine
    { nofree := ⟨arr, by rw [htasks]; exact harr, hfree⟩
      iter := by rw [hiter]; exact hH.iter
      cur := ?_
      rootMain := ?_
      links := ?_
      descent := ?_
      parent := ?_
      head := ?_
      newest := ?_
      conn := ?_ }
  · obtain ⟨r, h1, h2⟩ := hcur
    exact ⟨r, h1, by rw [hl]; exact h2⟩
  · obtain ⟨t', h1, h2, _⟩ := hfw TaskRef.root s.s_rootTask rfl
    have : s'.s_rootTask = t' := by
      have h3 : s'.task? TaskRef.root = some s'.s_rootTask := rfl
      rw [h3] at h1
      exact Option.some.inj h1
    rw [this, h2]
    exact hH.rootMain
  · intro r hr
    rw [hl] at hr
    obtain ⟨t, ht, l1, l2, l3⟩ := hH.links r hr
    obtain ⟨t', ht', h1, h2, h3⟩ := hfw r t ht
    refine ⟨t', ht', ?_, ?_, ?_⟩
    · intro x hx; rw [hl]; exact l1 x (by rw [← h1]; exact hx)
    · intro x hx; rw [hl]; exact l2 x (by rw [← h2]; exact hx)
    · intro x hx; rw [hl]; exact l3 x (by rw [← h3]; exact hx)
  · intro r hr
    rw [hl] at hr
    obtain ⟨k, y, hp, ty, hty, hleaf⟩ := hH.descent r hr
    have hclosed : ∀ r t c, isLive s r = true → s.task? r = some t → t.prevSec = some c →
        isLive s c = true := by
      intro r t c hr hrt hc
      obtain ⟨t1, ht1, _, l2, _⟩ := hH.links r hr
      rw [hrt] at ht1
      cases ht1
      exact l2 c hc
    obtain ⟨hp', hy⟩ := prevSecPath_frame (fun r => isLive s r = true) hkeep hclosed k r y hr hp
    obtain ⟨ty', hty', hps⟩ := hkeep y ty hy hty
    exact ⟨k, y, hp', ty', hty', by rw [hps]; exact hleaf⟩
  · intro x t' p hx ht' hsec
    rw [hl] at hx
    obtain ⟨t, ht, _, _, h3⟩ := hbw x t' hx ht'
    obtain ⟨tp, htp, hps⟩ := hH.parent x t p hx ht (by rw [← h3]; exact hsec)
    obtain ⟨tp', htp', _, h2, _⟩ := hfw p tp htp
    exact ⟨tp', htp', by rw [h2]; exact hps⟩
  · intro a b ta' tb' z ha hb hta' htb' h1 h2
    rw [hl] at ha hb
    obtain ⟨ta, hta, _, e1, _⟩ := hbw a ta' ha hta'
    obtain ⟨tb, htb, _, e2, _⟩ := hbw b tb' hb htb'
    exact hH.head a b ta tb z ha hb hta htb (by rw [← e1]; exact h1) (by rw [← e2]; exact h2)
  · intro a x ta' tx' z ha hx hta' htx' h1
    rw [hl] at ha hx
    obtain ⟨ta, hta, _, e1, _⟩ := hbw a ta' ha hta'
    obtain ⟨tx, htx, e2, _, _⟩ := hbw x tx' hx htx'
    rw [e2]
    exact hH.newest a x ta tx z ha hx hta htx (by rw [← e1]; exact h1)
  · intro a b ha hb
    rw [hl] at ha hb
    exact hreach a b ha (hH.conn a b ha hb)

/-- The fresh registry has the shape of a hierarchy: the root alone, its own
successor in the main chain. -/
theorem Hier_fresh (tick limit : Nat) : Hier (createRootTask (Sched.init tick limit)) := by
  have hlive : ∀ r, isLive (createRootTask (Sched.init tick limit)) r = true →
      r = TaskRef.root := by
    intro r hr
    cases r with
    | root => rfl
    | slot i => simp [isLive, createRootTask, createChunkedArray] at hr
  have hrec : (createRootTask (Sched.init tick limit)).task? TaskRef.root
      = some { Task.zero with
        prevMain := some TaskRef.root, nextMain := some TaskRef.root, nextTick := TASK_SLEEP } := rfl
  have hleaf : isLeaf (createRootTask (Sched.init tick limit)) TaskRef.root := ⟨_, hrec, rfl⟩
  have hstep : WalkStep (createRootTask (Sched.init tick limit)) TaskRef.root TaskRef.root :=
    ⟨_, hrec, Or.inl ⟨TaskRef.root, 0, rfl, rfl, hleaf⟩⟩
  refine
    { nofree := ⟨_, rfl, rfl⟩
      iter := rfl
      cur := ⟨TaskRef.root, rfl, rfl⟩
      rootMain := rfl
      links := ?_
      descent := ?_
      parent := ?_
      head := ?_
      newest := ?_
      conn := ?_ }
  · intro r hr
    rw [hlive r hr]
    refine ⟨_, hrec, ?_, ?_, ?_⟩
    · intro x hx
      simp only [Option.some.injEq] at hx
      rw [← hx]; rfl
    · intro x hx; cases hx
    · intro x hx; cases hx
  · intro r hr
    rw [hlive r hr]
    exact ⟨0, TaskRef.root, rfl, hleaf⟩
  · intro x t p hx ht hsec
    rw [hlive x hx, hrec] at ht
    cases ht
    cases hsec
  · intro a b ta tb z ha hb _ _ _ _
    rw [hlive a ha, hlive b hb]
  · intro a x ta tx z ha hx hta _ h1
    rw [hlive a ha, hrec] at hta
    cases hta
    cases h1
  · intro a b ha hb
    rw [hlive a ha, hlive b hb]
    exact Relation.TransGen.single hstep

theorem withRegistry_of_some {s : Sched} {arr : ChunkedArray TaskRef} (h : s.s_tasks = some arr) :
    withRegistry s = s := by
  unfold withRegistry
  rw [h]
  rfl

theorem Hier_closed {s : Sched} (hH : Hier s) :
    ∀ r t c, isLive s r = true → s.task? r = some t → t.prevSec = some c →
      isLive s c = true := by
  intro r t c hr hrt hc
  obtain ⟨t1, ht1, _, l2, _⟩ := hH.links r hr
  rw [hrt] at ht1
  cases ht1
  exact l2 c hc

/-- `pushTask` keeps the shape of the hierarchy: the new task is spliced into the
walk right after the root. -/
theorem Hier_push {s s' : Sched} {func : TaskFunc} {fb : Bool} {lrf : TaskFunc} {N : TaskRef}
    (hH : Hier s) (h : pushTask func fb lrf s = .ok (N, s')) : Hier s' := by
  obtain ⟨arr, harr, hfree⟩ := hH.nofree
  have hw := withRegistry_of_some harr
  have hrootlive := isLive_root_of_nofree harr hfree
  have harena : arenaOK (withRegistry s) = true := by
    rw [hw]; exact arenaOK_of_nofree harr hfree
  have hiter : (withRegistry s).s_taskIter = some TaskRef.root := by rw [hw]; exact hH.iter
  have hlive0 : isLive (withRegistry s) TaskRef.root = true := by rw [hw]; exact hrootlive
  have hIt : (withRegistry s).task? TaskRef.root = some s.s_rootTask := by rw [hw]; rfl
  obtain ⟨e1, e2, e3, e4, e5, _, _, e8, e9, e10⟩ := pushTask_effect harena hiter hlive0 hIt h
  rw [hw] at e3 e5 e10
  obtain ⟨a1, a2, _⟩ := pushTask_arena (by rw [hw]; exact harr) hfree h
  have hNnot : isLive s N = false := by
    rw [a1, isLive_slot_of_nofree harr hfree]
    simp
  have hlive' : ∀ r, isLive s' r = true → r = N ∨ isLive s r = true := by
    intro r hr
    cases r with
    | root => exact Or.inr hrootlive
    | slot i =>
      rw [isLive_slot_of_nofree a2 hfree] at hr
      simp only [decide_eq_true_eq] at hr
      by_cases hi : i = arr.elemCount
      · left; rw [a1, hi]
      · right
        rw [isLive_slot_of_nofree harr hfree]
        simp only [decide_eq_true_eq]
        omega
  have hneN : ∀ r, isLive s r = true → r ≠ N := fun r hr => (e3 r hr).2
  -- the records of the old tasks
  have hkeepL : ∀ r t, isLive s r = true → s.task? r = some t →
      ∃ t', s'.task? r = some t' ∧ t'.prevSec = t.prevSec ∧ t'.nextSec = t.nextSec ∧
        (r ≠ TaskRef.root → t'.nextMain = t.nextMain) := by
    intro r t hr ht
    by_cases hroot : r = TaskRef.root
    · subst hroot
      have : t = s.s_rootTask := by
        have h0 : s.task? TaskRef.root = some s.s_rootTask := rfl
        rw [h0] at ht
        exact (Option.some.inj ht).symm
      subst this
      exact ⟨_, e8, rfl, rfl, fun hn => absurd rfl hn⟩
    · exact ⟨t, e10 r t (hneN r hr) hroot ht, rfl, rfl, fun _ => rfl⟩
  have hkeep : ∀ r t, isLive s r = true → s.task? r = some t →
      ∃ t', s'.task? r = some t' ∧ t'.prevSec = t.prevSec := by
    intro r t hr ht
    obtain ⟨t', h1, h2, _⟩ := hkeepL r t hr ht
    exact ⟨t', h1, h2⟩
  have hbw : ∀ r t', isLive s r = true → s'.task? r = some t' →
      ∃ t, s.task? r = some t ∧ t'.prevSec = t.prevSec ∧ t'.nextSec = t.nextSec ∧
        (r ≠ TaskRef.root → t'.nextMain = t.nextMain) := by
    intro r t' hr ht'
    obtain ⟨t, ht, _⟩ := hH.links r hr
    obtain ⟨t'', h1, h2⟩ := hkeepL r t hr ht
    rw [ht'] at h1
    cases h1
    exact ⟨t, ht, h2⟩
  obtain ⟨t0, hNrec⟩ := e9
  have hNleaf : isLeaf s' N := ⟨_, hNrec, rfl⟩
  have hclosed := Hier_closed hH
  obtain ⟨m, hm⟩ : ∃ m, s.s_rootTask.nextMain = some m := by
    have := hH.rootMain
    cases hx : s.s_rootTask.nextMain with
    | none => rw [hx] at this; cases this
    | some m => exact ⟨m, rfl⟩
  obtain ⟨_, hroot0, lr1, _, _⟩ := hH.links TaskRef.root hrootlive
  have hmlive : isLive s m = true := by
    have h0 : s.task? TaskRef.root = some s.s_rootTask := rfl
    rw [h0] at hroot0
    cases hroot0
    exact lr1 m hm
  -- the turn of the walk at the root is now the turn at the new task
  have hrootN : ∀ y, WalkStep s TaskRef.root y → WalkStep s' N y := by
    intro y hstep
    obtain ⟨t, ht, hs⟩ := hstep
    have h0 : s.task? TaskRef.root = some s.s_rootTask := rfl
    rw [h0] at ht
    cases ht
    rcases hs with ⟨n, k, hn, hp, ty, hty, hleaf⟩ | ⟨hn, _⟩
    · rw [hm] at hn
      cases hn
      obtain ⟨hp', hy⟩ := prevSecPath_frame (fun r => isLive s r = true) hkeep hclosed k m y
        hmlive hp
      obtain ⟨ty', hty', hps⟩ := hkeep y ty hy hty
      exact ⟨_, hNrec, Or.inl ⟨m, k, hm, hp', ty', hty', by rw [hps]; exact hleaf⟩⟩
    · rw [hm] at hn
      cases hn
  have hrootTurn : WalkStep s' TaskRef.root N :=
    ⟨_, e8, Or.inl ⟨N, 0, rfl, rfl, hNleaf⟩⟩
  -- the turns of the walk at the old tasks
  have htr : ∀ x y, isLive s x = true → WalkStep s x y →
      WalkStep s' x y ∨ (WalkStep s' x N ∧ WalkStep s' N y) := by
    intro x y hx hstep
    by_cases hroot : x = TaskRef.root
    · subst hroot
      exact Or.inr ⟨hrootTurn, hrootN y hstep⟩
    · left
      obtain ⟨t, ht, _⟩ := hH.links x hx
      obtain ⟨t', ht', _, h3, h1⟩ := hkeepL x t hx ht
      exact WalkStep_frame hH hkeep hx ht ht' (h1 hroot) h3 hstep
  have hNstep : ∃ y1, isLive s y1 = true ∧ WalkStep s' N y1 := by
    rcases Relation.TransGen.head'_iff.mp (hH.conn TaskRef.root TaskRef.root hrootlive hrootlive)
      with ⟨y, hy, _⟩
    exact ⟨y, WalkStep_live hH hrootlive hy, hrootN y hy⟩
  have htoN : ∃ x0, isLive s x0 = true ∧ WalkStep s' x0 N := ⟨TaskRef.root, hrootlive, hrootTurn⟩
  have hstepLive : ∀ x y, isLive s x = true → WalkStep s x y → isLive s y = true :=
    fun x y hx hs => WalkStep_live hH hx hs
  have hconn' := conn_insert (fun r => isLive s r = true) hH.conn hstepLive htr hNstep htoN
  refine
    { nofree := ⟨_, a2, hfree⟩
      iter := e4
      cur := ?_
      rootMain := ?_
      links := ?_
      descent := ?_
      parent := ?_
      head := ?_
      newest := ?_
      conn := ?_ }
  · obtain ⟨r, h1, h2⟩ := hH.cur
    exact ⟨r, by rw [e5]; exact h1, (e3 r h2).1⟩
  · have h3 : s'.task? TaskRef.root = some s'.s_rootTask := rfl
    rw [h3] at e8
    rw [Option.some.inj e8]
    rfl
  · intro r hr
    rcases hlive' r hr with rfl | hold
    · refine ⟨_, hNrec, ?_, ?_, ?_⟩
      · intro x hx
        have hx' : s.s_rootTask.nextMain = some x := hx
        rw [hm] at hx'
        cases hx'
        exact (e3 m hmlive).1
      · intro x hx; cases hx
      · intro x hx; cases hx
    · obtain ⟨t, ht, l1, l2, l3⟩ := hH.links r hold
      obtain ⟨t', ht', h2, h3, h1⟩ := hkeepL r t hold ht
      refine ⟨t', ht', ?_, ?_, ?_⟩
      · intro x hx
        by_cases hroot : r = TaskRef.root
        · subst hroot
          rw [e8] at ht'
          cases ht'
          simp only [Option.some.injEq] at hx
          rw [← hx]; exact e2
        · exact (e3 x (l1 x (by rw [← h1 hroot]; exact hx))).1
      · intro x hx; exact (e3 x (l2 x (by rw [← h2]; exact hx))).1
      · intro x hx; exact (e3 x (l3 x (by rw [← h3]; exact hx))).1
  · intro r hr
    rcases hlive' r hr with rfl | hold
    · exact ⟨0, _, rfl, hNleaf⟩
    · obtain ⟨k, y, hp, ty, hty, hleaf⟩ := hH.descent r hold
      obtain ⟨hp', hy⟩ := prevSecPath_frame (fun r => isLive s r = true) hkeep hclosed k r y
        hold hp
      obtain ⟨ty', hty', hps⟩ := hkeep y ty hy hty
      exact ⟨k, y, hp', ty', hty', by rw [hps]; exact hleaf⟩
  · intro x t' p hx ht' hsec
    rcases hlive' x hx with rfl | hold
    · rw [hNrec] at ht'
      cases ht'
      cases hsec
    · obtain ⟨t, ht, _, h3, _⟩ := hbw x t' hold ht'
      obtain ⟨_, _, _, _, l3⟩ := hH.links x hold
      obtain ⟨tp, htp, hps⟩ := hH.parent x t p hold ht (by rw [← h3]; exact hsec)
      have hp : isLive s p = true := by
        obtain ⟨t1, ht1, _, _, l3⟩ := hH.links x hold
        rw [ht] at ht1
        cases ht1
        exact l3 p (by rw [← h3]; exact hsec)
      obtain ⟨tp', htp', h2⟩ := hkeep p tp hp htp
      exact ⟨tp', htp', by rw [h2]; exact hps⟩
  · intro a b ta' tb' z ha hb hta' htb' h1 h2
    rcases hlive' a ha with rfl | holda
    · rw [hNrec] at hta'
      cases hta'
      cases h1
    · rcases hlive' b hb with rfl | holdb
      · rw [hNrec] at htb'
        cases htb'
        cases h2
      · obtain ⟨ta, hta, e1, _⟩ := hbw a ta' holda hta'
        obtain ⟨tb, htb, e2, _⟩ := hbw b tb' holdb htb'
        exact hH.head a b ta tb z holda holdb hta htb (by rw [← e1]; exact h1)
          (by rw [← e2]; exact h2)
  · intro a x ta' tx' z ha hx hta' htx' h1
    rcases hlive' a ha with rfl | holda
    · rw [hNrec] at hta'
      cases hta'
      cases h1
    · obtain ⟨ta, hta, e1, _⟩ := hbw a ta' holda hta'
      have hz : ta.prevSec = some z := by rw [← e1]; exact h1
      have hzlive : isLive s z = true := hclosed a ta z holda hta hz
      rcases hlive' x hx with rfl | holdx
      · rw [hNrec] at htx'
        cases htx'
        intro hc
        have hc' : s.s_rootTask.nextMain = some z := hc
        exact hH.newest a TaskRef.root ta s.s_rootTask z holda hrootlive hta rfl hz hc'
      · by_cases hroot : x = TaskRef.root
        · subst hroot
          rw [e8] at htx'
          cases htx'
          intro hc
          simp only [Option.some.injEq] at hc
          rw [← hc, hNnot] at hzlive
          cases hzlive
        · obtain ⟨tx, htx, _, _, e3'⟩ := hbw x tx' holdx htx'
          rw [e3' hroot]
          exact hH.newest a x ta tx z holda holdx hta htx hz
  · intro a b ha hb
    exact hconn' a b ((hlive' a ha).imp id id) ((hlive' b hb).imp id id)

/-- The slot `createTask` hands out when no slot was given back, and the arena
and cursor it leaves. -/
theorem createTask_arena {func lrf : TaskFunc} {s s' : Sched} {new : TaskRef}
    {arr : ChunkedArray TaskRef} (harr : s.s_tasks = some arr) (hfree : arr.freeSlots = [])
    (h : createTask func lrf s = .ok (new, s')) :
    new = TaskRef.slot arr.elemCount ∧
    s'.s_tasks = some { arr with elemCount := arr.elemCount + 1 } ∧
    s'.s_taskIter = s.s_taskIter := by
  have hsome : s.s_tasks.isSome = true := by rw [harr]; rfl
  unfold createTask at h
  simp only [hsome, if_true] at h
  split at h
  · cases h
  · cases h
  · rename_i newTask s1 ha
    split at h
    · cases h
    · rename_i s2 hfill
      simp only [Except.ok.injEq, Prod.mk.injEq] at h
      obtain ⟨h1, h2⟩ := h
      subst h1 h2
      unfold createTask.fill at hfill
      obtain ⟨_, _, k1⟩ := bind_ok hfill; clear hfill
      obtain ⟨s3, hs3, k2⟩ := bind_ok k1; clear k1
      obtain ⟨cur3, _, k3⟩ := bind_ok k2; clear k2
      obtain ⟨s4, hs4, k4⟩ := bind_ok k3; clear k3
      obtain ⟨s5, hs5, hs6⟩ := bind_ok k4; clear k4
      have g4 : s4.s_tasks = s3.s_tasks ∧ s4.s_taskIter = s3.s_taskIter := by
        cases hc : cur3.prevSec with
        | none =>
          rw [hc] at hs4
          cases hs4
          exact ⟨rfl, rfl⟩
        | some c =>
          rw [hc] at hs4
          exact ⟨(store_globals hs4).1, (store_globals hs4).2.2.2.1⟩
      have e : s2.s_tasks = s1.s_tasks := by
        rw [(store_globals hs6).1, (store_globals hs5).1, g4.1, (store_globals hs3).1]
      have e2 : s2.s_taskIter = s.s_taskIter := by
        rw [(store_globals hs6).2.2.2.1, (store_globals hs5).2.2.2.1, g4.2,
          (store_globals hs3).2.2.2.1]
        exact (allocTask_globals ha).1
      unfold allocTask at ha
      simp only [harr, Except.ok.injEq, Prod.mk.injEq] at ha
      obtain ⟨hc, hs1⟩ := ha
      subst hs1
      by_cases hcap : arr.elemCount < arr.capacity
      · simp only [allocFromChunkedArray, hfree, hcap, if_true, Option.some.injEq] at hc
        refine ⟨hc.symm, ?_, e2⟩
        rw [e]
        simp [allocFromChunkedArray, hfree, hcap]
      · simp [allocFromChunkedArray, hfree, hcap] at hc

/-- Two descents that end at the same task: one starts on the other. -/
theorem prevSecPath_compare {s : Sched} (hH : Hier s) :
    ∀ (a k : Nat) (n p y : TaskRef), isLive s n = true → isLive s p = true →
      prevSecPath s a n y → prevSecPath s k p y →
      (∃ d, prevSecPath s d n p) ∨ (∃ d, prevSecPath s (d + 1) p n) := by
  have hkeep : ∀ r t, isLive s r = true → s.task? r = some t →
      ∃ t', s.task? r = some t' ∧ t'.prevSec = t.prevSec := fun r t _ hr => ⟨t, hr, rfl⟩
  have hclosed := Hier_closed hH
  intro a
  induction a with
  | zero =>
    intro k n p y _ _ h1 h2
    have : n = y := h1
    subst this
    cases k with
    | zero =>
      have : p = n := h2
      subst this
      exact Or.inl ⟨0, rfl⟩
    | succ k' => exact Or.inr ⟨k', h2⟩
  | succ a' ih =>
    intro k n p y hn hp h1 h2
    cases k with
    | zero =>
      have : p = y := h2
      subst this
      exact Or.inl ⟨a' + 1, h1⟩
    | succ k' =>
      obtain ⟨z, tz, hz1, hz2, hz3⟩ := prevSecPath_snoc a' n y h1
      obtain ⟨w, tw, hw1, hw2, hw3⟩ := prevSecPath_snoc k' p y h2
      have hzl := (prevSecPath_frame (fun r => isLive s r = true) hkeep hclosed a' n z hn hz1).2
      have hwl := (prevSecPath_frame (fun r => isLive s r = true) hkeep hclosed k' p w hp hw1).2
      have hzw := hH.head z w tz tw y hzl hwl hz2 hw2 hz3 hw3
      subst hzw
      exact ih k' n p z hn hp hz1 hw1

theorem reflTransGen_live {s : Sched} (hH : Hier s) {a b : TaskRef}
    (h : Relation.ReflTransGen (WalkStep s) a b) (ha : isLive s a = true) :
    isLive s b = true := by
  induction h with
  | refl => exact ha
  | tail _ hstep ih => exact WalkStep_live hH ih hstep

/-- `createTask` keeps the shape of the hierarchy: the new task is spliced into
the walk right before the first task of the walk below its parent. -/
theorem Hier_create {s s' : Sched} {func lrf : TaskFunc} {N : TaskRef}
    (hH : Hier s) (h : createTask func lrf s = .ok (N, s')) : Hier s' := by
  obtain ⟨arr, harr, hfree⟩ := hH.nofree
  have hrootlive := isLive_root_of_nofree harr hfree
  obtain ⟨P, hcur, hPlive⟩ := hH.cur
  obtain ⟨tP, hP, lP1, lP2, lP3⟩ := hH.links P hPlive
  obtain ⟨_, b2, b3, b4, _, b6, b7, b8⟩ :=
    createTask_chain (arenaOK_of_nofree harr hfree) hcur hP hPlive h
  obtain ⟨a1, a2, a3⟩ := createTask_arena harr hfree h
  have hNnot : isLive s N = false := by
    rw [a1, isLive_slot_of_nofree harr hfree]
    simp
  have hlive' : ∀ r, isLive s' r = true → r = N ∨ isLive s r = true := by
    intro r hr
    cases r with
    | root => exact Or.inr hrootlive
    | slot i =>
      rw [isLive_slot_of_nofree a2 hfree] at hr
      simp only [decide_eq_true_eq] at hr
      by_cases hi : i = arr.elemCount
      · left; rw [a1, hi]
      · right
        rw [isLive_slot_of_nofree harr hfree]
        simp only [decide_eq_true_eq]
        omega
  have hneN : ∀ r, isLive s r = true → r ≠ N := fun r hr => (b3 r hr).2
  obtain ⟨tN, hNrec, hNm, hNs, hNp, _⟩ := b6
  obtain ⟨tP', hPrec, hPp, hPv⟩ := b7
  have hNleaf : isLeaf s' N := ⟨tN, hNrec, hNp⟩
  -- the records of the old tasks
  have hkeepL : ∀ r t, isLive s r = true → s.task? r = some t →
      ∃ t', s'.task? r = some t' ∧ t'.nextMain = t.nextMain ∧ t'.nextSec = t.nextSec ∧
        (r ≠ P → t'.prevSec = t.prevSec) := by
    intro r t hr ht
    obtain ⟨t', h1, h2, h3⟩ := b8 r t (hneN r hr) ht
    exact ⟨t', h1, congrArg Prod.fst h2, congrArg (fun p => p.2.1) h2, h3⟩
  have hbw : ∀ r t', isLive s r = true → s'.task? r = some t' →
      ∃ t, s.task? r = some t ∧ t'.nextMain = t.nextMain ∧ t'.nextSec = t.nextSec ∧
        (r ≠ P → t'.prevSec = t.prevSec) := by
    intro r t' hr ht'
    obtain ⟨t, ht, _⟩ := hH.links r hr
    obtain ⟨t'', h1, h2⟩ := hkeepL r t hr ht
    rw [ht'] at h1
    cases h1
    exact ⟨t, ht, h2⟩
  have hclosed := Hier_closed hH
  have hkeep0 : ∀ r t, isLive s r = true → s.task? r = some t →
      ∃ t', s.task? r = some t' ∧ t'.prevSec = t.prevSec := fun r t _ hr => ⟨t, hr, rfl⟩
  have hpathlive : ∀ k x y, isLive s x = true → prevSecPath s k x y → isLive s y = true :=
    fun k x y hx hp =>
      (prevSecPath_frame (fun r => isLive s r = true) hkeep0 hclosed k x y hx hp).2
  -- a descent to the parent now goes on to the new task
  have hL1 : ∀ i x, isLive s x = true → prevSecPath s i x P → ∃ i', prevSecPath s' i' x N := by
    intro i
    induction i with
    | zero =>
      intro x _ hp
      have : x = P := hp
      subst this
      exact ⟨1, tP', N, hPrec, hPp, rfl⟩
    | succ i ih =>
      intro x hx hp
      by_cases hxP : x = P
      · subst hxP
        exact ⟨1, tP', N, hPrec, hPp, rfl⟩
      · obtain ⟨t, c, ht, hc, hrest⟩ := hp
        obtain ⟨t', ht', _, _, hps⟩ := hkeepL x t hx ht
        obtain ⟨i', hi'⟩ := ih c (hclosed x t c hx ht hc) hrest
        exact ⟨i' + 1, t', c, ht', by rw [hps hxP]; exact hc, hi'⟩
  -- a descent to a childless task is kept, or passes the parent and now ends at the new task
  have hL2 : ∀ k x y, isLive s x = true → prevSecPath s k x y → isLeaf s y →
      (prevSecPath s' k x y ∧ isLeaf s' y) ∨
      (∃ i j, i + j = k ∧ prevSecPath s j P y ∧ ∃ i', prevSecPath s' i' x N) := by
    intro k
    induction k with
    | zero =>
      intro x y hx hp hl
      have : x = y := hp
      subst this
      by_cases hxP : x = P
      · subst hxP
        exact Or.inr ⟨0, 0, rfl, rfl, 1, tP', N, hPrec, hPp, rfl⟩
      · left
        obtain ⟨t, ht, hn⟩ := hl
        obtain ⟨t', ht', _, _, hps⟩ := hkeepL x t hx ht
        exact ⟨rfl, t', ht', by rw [hps hxP]; exact hn⟩
    | succ k ih =>
      intro x y hx hp hl
      by_cases hxP : x = P
      · subst hxP
        exact Or.inr ⟨0, k + 1, by omega, hp, 1, tP', N, hPrec, hPp, rfl⟩
      · obtain ⟨t, c, ht, hc, hrest⟩ := hp
        obtain ⟨t', ht', _, _, hps⟩ := hkeepL x t hx ht
        rcases ih c y (hclosed x t c hx ht hc) hrest hl with ⟨h1, h2⟩ | ⟨i, j, hij, hPj, i', hi'⟩
        · exact Or.inl ⟨⟨t', c, ht', by rw [hps hxP]; exact hc, h1⟩, h2⟩
        · exact Or.inr ⟨i + 1, j, by omega, hPj, i' + 1, t', c, ht',
            by rw [hps hxP]; exact hc, hi'⟩
  -- the turn of the walk at the new task
  have hL3 : ∀ j y, prevSecPath s j P y → isLeaf s y → WalkStep s' N y := by
    intro j y hp hl
    cases j with
    | zero =>
      have : P = y := hp
      subst this
      obtain ⟨t, ht, hn⟩ := hl
      rw [hP] at ht
      cases ht
      exact ⟨tN, hNrec, Or.inr ⟨by rw [hNm]; exact hn, hNs⟩⟩
    | succ j =>
      obtain ⟨t, c, ht, hc, hrest⟩ := hp
      rw [hP] at ht
      cases ht
      have hcl : isLive s c = true := lP2 c hc
      rcases hL2 j c y hcl hrest hl with ⟨h1, h2⟩ | ⟨i2, j2, hij, hPj, _⟩
      · exact ⟨tN, hNrec, Or.inl ⟨c, j, by rw [hNm]; exact hc, h1, h2⟩⟩
      · have hfull : prevSecPath s (j + 1) P y := ⟨tP, c, hP, hc, hrest⟩
        have := (prevSecPath_leaf_unique (j + 1) j2 P y y hfull hl hPj hl).1
        omega
  -- the turns of the walk at the old tasks
  have htr : ∀ x y, isLive s x = true → WalkStep s x y →
      WalkStep s' x y ∨ (WalkStep s' x N ∧ WalkStep s' N y) := by
    intro x y hx hstep
    obtain ⟨t, ht, hs⟩ := hstep
    obtain ⟨_, ht0, l1, _, _⟩ := hH.links x hx
    rw [ht] at ht0
    cases ht0
    obtain ⟨t', ht', hm, hsec, _⟩ := hkeepL x t hx ht
    rcases hs with ⟨n, k, hn, hp, hl⟩ | ⟨hn, hs2⟩
    · rcases hL2 k n y (l1 n hn) hp hl with ⟨h1, h2⟩ | ⟨i, j, _, hPj, i', hi'⟩
      · exact Or.inl ⟨t', ht', Or.inl ⟨n, k, by rw [hm]; exact hn, h1, h2⟩⟩
      · exact Or.inr ⟨⟨t', ht', Or.inl ⟨n, i', by rw [hm]; exact hn, hi', hNleaf⟩⟩,
          hL3 j y hPj hl⟩
    · exact Or.inl ⟨t', ht', Or.inr ⟨by rw [hm]; exact hn, by rw [hsec]; exact hs2⟩⟩
  obtain ⟨kP, y0, hPy0, hy0leaf⟩ := hH.descent P hPlive
  have hy0live : isLive s y0 = true := hpathlive kP P y0 hPlive hPy0
  have hNstep : ∃ y1, isLive s y1 = true ∧ WalkStep s' N y1 :=
    ⟨y0, hy0live, hL3 kP y0 hPy0 hy0leaf⟩
  have htoN : ∃ x0, isLive s x0 = true ∧ WalkStep s' x0 N := by
    obtain ⟨x, hPx, hxy0⟩ := Relation.TransGen.tail'_iff.mp (hH.conn P y0 hPlive hy0live)
    have hxlive := reflTransGen_live hH hPx hPlive
    refine ⟨x, hxlive, ?_⟩
    obtain ⟨t, ht, hs⟩ := hxy0
    obtain ⟨_, ht0, l1, _, _⟩ := hH.links x hxlive
    rw [ht] at ht0
    cases ht0
    obtain ⟨t', ht', hm, _, _⟩ := hkeepL x t hxlive ht
    rcases hs with ⟨n, a, hn, hp, _⟩ | ⟨_, hs2⟩
    · rcases prevSecPath_compare hH a kP n P y0 (l1 n hn) hPlive hp hPy0 with ⟨d, hd⟩ | ⟨d, hd⟩
      · obtain ⟨i', hi'⟩ := hL1 d n (l1 n hn) hd
        exact ⟨t', ht', Or.inl ⟨n, i', by rw [hm]; exact hn, hi', hNleaf⟩⟩
      · obtain ⟨z, tz, hz1, hz2, hz3⟩ := prevSecPath_snoc d P n hd
        have hzl := hpathlive d P z hPlive hz1
        exact absurd hn (hH.newest z x tz t n hzl hxlive hz2 ht hz3)
    · obtain ⟨tp, htp, hps⟩ := hH.parent x t y0 hxlive ht hs2
      obtain ⟨ty, hty, hnone⟩ := hy0leaf
      rw [htp] at hty
      cases hty
      rw [hnone] at hps
      cases hps
  have hstepLive : ∀ x y, isLive s x = true → WalkStep s x y → isLive s y = true :=
    fun x y hx hs => WalkStep_live hH hx hs
  have hconn' := conn_insert (fun r => isLive s r = true) hH.conn hstepLive htr hNstep htoN
  have hPN : P ≠ N := hneN P hPlive
  refine
    { nofree := ⟨_, a2, hfree⟩
      iter := by rw [a3]; exact hH.iter
      cur := ⟨P, b4, (b3 P hPlive).1⟩
      rootMain := ?_
      links := ?_
      descent := ?_
      parent := ?_
      head := ?_
      newest := ?_
      conn := ?_ }
  · obtain ⟨t', h1, h2, _⟩ := hkeepL TaskRef.root s.s_rootTask hrootlive rfl
    have h3 : s'.task? TaskRef.root = some s'.s_rootTask := rfl
    rw [h3] at h1
    rw [Option.some.inj h1, h2]
    exact hH.rootMain
  · intro r hr
    rcases hlive' r hr with rfl | hold
    · refine ⟨tN, hNrec, ?_, ?_, ?_⟩
      · intro x hx
        rw [hNm] at hx
        exact (b3 x (lP2 x hx)).1
      · intro x hx
        rw [hNp] at hx
        cases hx
      · intro x hx
        rw [hNs] at hx
        cases hx
        exact (b3 P hPlive).1
    · obtain ⟨t, ht, l1, l2, l3⟩ := hH.links r hold
      obtain ⟨t', ht', h1, h3, h2⟩ := hkeepL r t hold ht
      refine ⟨t', ht', ?_, ?_, ?_⟩
      · intro x hx; exact (b3 x (l1 x (by rw [← h1]; exact hx))).1
      · intro x hx
        by_cases hrP : r = P
        · subst hrP
          rw [hPrec] at ht'
          cases ht'
          rw [hPp] at hx
          cases hx
          exact b2
        · exact (b3 x (l2 x (by rw [← h2 hrP]; exact hx))).1
      · intro x hx; exact (b3 x (l3 x (by rw [← h3]; exact hx))).1
  · intro r hr
    rcases hlive' r hr with rfl | hold
    · exact ⟨0, _, rfl, hNleaf⟩
    · obtain ⟨k, y, hp, hl⟩ := hH.descent r hold
      rcases hL2 k r y hold hp hl with ⟨h1, h2⟩ | ⟨_, _, _, _, i', hi'⟩
      · exact ⟨k, y, h1, h2⟩
      · exact ⟨i', N, hi', hNleaf⟩
  · intro x t' p hx ht' hsec
    rcases hlive' x hx with rfl | hold
    · rw [hNrec] at ht'
      cases ht'
      rw [hNs] at hsec
      cases hsec
      exact ⟨tP', hPrec, by rw [hPp]; rfl⟩
    · obtain ⟨t, ht, _, h3, _⟩ := hbw x t' hold ht'
      have hsec0 : t.nextSec = some p := by rw [← h3]; exact hsec
      obtain ⟨tp, htp, hps⟩ := hH.parent x t p hold ht hsec0
      have hpl : isLive s p = true := by
        obtain ⟨t1, ht1, _, _, l3⟩ := hH.links x hold
        rw [ht] at ht1
        cases ht1
        exact l3 p hsec0
      by_cases hpP : p = P
      · subst hpP
        exact ⟨tP', hPrec, by rw [hPp]; rfl⟩
      · obtain ⟨tp', htp', _, _, h2⟩ := hkeepL p tp hpl htp
        exact ⟨tp', htp', by rw [h2 hpP]; exact hps⟩
  · intro a b ta' tb' z ha hb hta' htb' h1 h2
    -- `prevSec` of a record of the new state that is not the parent's is an old link
    have hold2 : ∀ r t', isLive s' r = true → s'.task? r = some t' → t'.prevSec = some z →
        r ≠ P → isLive s r = true ∧ ∃ t, s.task? r = some t ∧ t.prevSec = some z := by
      intro r t' hr ht' hz hrP
      rcases hlive' r hr with rfl | hold
      · rw [hNrec] at ht'
        cases ht'
        rw [hNp] at hz
        cases hz
      · obtain ⟨t, ht, _, _, e⟩ := hbw r t' hold ht'
        exact ⟨hold, t, ht, by rw [← e hrP]; exact hz⟩
    by_cases haP : a = P
    · by_cases hbP : b = P
      · rw [haP, hbP]
      · subst haP
        rw [hPrec] at hta'
        cases hta'
        rw [hPp] at h1
        cases h1
        obtain ⟨hbl, tb, htb, hz⟩ := hold2 b tb' hb htb' h2 hbP
        have := hclosed b tb _ hbl htb hz
        rw [hNnot] at this
        cases this
    · by_cases hbP : b = P
      · subst hbP
        rw [hPrec] at htb'
        cases htb'
        rw [hPp] at h2
        cases h2
        obtain ⟨hal, ta, hta, hz⟩ := hold2 a ta' ha hta' h1 haP
        have := hclosed a ta _ hal hta hz
        rw [hNnot] at this
        cases this
      · obtain ⟨hal, ta, hta, hz1⟩ := hold2 a ta' ha hta' h1 haP
        obtain ⟨hbl, tb, htb, hz2⟩ := hold2 b tb' hb htb' h2 hbP
        exact hH.head a b ta tb z hal hbl hta htb hz1 hz2
  · intro a x ta' tx' z ha hx hta' htx' h1 hc
    -- `nextMain` of a record of the new state designates an old task
    have hzold : isLive s z = true := by
      rcases hlive' x hx with rfl | holdx
      · rw [hNrec] at htx'
        cases htx'
        rw [hNm] at hc
        exact lP2 z hc
      · obtain ⟨tx, htx, e, _⟩ := hbw x tx' holdx htx'
        obtain ⟨t1, ht1, l1, _, _⟩ := hH.links x holdx
        rw [htx] at ht1
        cases ht1
        exact l1 z (by rw [← e]; exact hc)
    rcases hlive' a ha with rfl | holda
    · rw [hNrec] at hta'
      cases hta'
      rw [hNp] at h1
      cases h1
    · by_cases haP : a = P
      · subst haP
        rw [hPrec] at hta'
        cases hta'
        rw [hPp] at h1
        cases h1
        rw [hNnot] at hzold
        cases hzold
      · obtain ⟨ta, hta, _, _, e⟩ := hbw a ta' holda hta'
        have hz : ta.prevSec = some z := by rw [← e haP]; exact h1
        rcases hlive' x hx with rfl | holdx
        · rw [hNrec] at htx'
          cases htx'
          rw [hNm] at hc
          exact haP (hH.head a P ta tP z holda hPlive hta hP hz hc)
        · obtain ⟨tx, htx, e2, _⟩ := hbw x tx' holdx htx'
          exact hH.newest a x ta tx z holda holdx hta htx hz (by rw [← e2]; exact hc)
  · intro a b ha hb
    exact hconn' a b ((hlive' a ha).imp id id) ((hlive' b hb).imp id id)

/-- Every hierarchy built from the root has the shape `Hier`. -/
theorem Built_hier {s : Sched} (hb : Built s) : Hier s := by
  induction hb with
  | fresh tick limit => exact Hier_fresh tick limit
  | push _ h ih => exact Hier_push ih h
  | create _ h ih => exact Hier_create ih h
  | current _ hr ih =>
    exact Hier_congr ih rfl rfl ⟨_, rfl, hr⟩ (fun r t ht => ⟨t, by rw [task?_congr rfl rfl]; exact ht, rfl, rfl, rfl⟩)
  | clock tick _ ih =>
    exact Hier_congr ih rfl rfl ih.cur (fun r t ht => ⟨t, by rw [task?_congr rfl rfl]; exact ht, rfl, rfl, rfl⟩)
  | control id ctx resume _ ih =>
    exact Hier_congr ih rfl rfl ih.cur (fun r t ht => ⟨t, by rw [task?_congr rfl rfl]; exact ht, rfl, rfl, rfl⟩)
  | @write s0 s1 r0 f _ hf h ih =>
    obtain ⟨g1, _, _, g4, g5, _⟩ := store_globals h
    refine Hier_congr ih g1 g4 (by rw [g5]; exact ih.cur) ?_
    intro r t ht
    have := store_task? h r
    by_cases hr : some r0 = some r
    · rw [if_pos hr, ht] at this
      exact ⟨f t, this, (hf t).2.1, (hf t).2.2.1, (hf t).2.2.2⟩
    · rw [if_neg hr, ht] at this
      exact ⟨t, this, rfl, rfl, rfl⟩

/-- In a hierarchy built from the root every task in use has a turn of the walk,
which leads to a task in use. -/
theorem Hier_turn {s : Sched} (hH : Hier s) (x : TaskRef) (hx : isLive s x = true) :
    ∃ y ty, WalkStep s x y ∧ isLive s y = true ∧ s.task? y = some ty := by
  rcases Relation.TransGen.head'_iff.mp (hH.conn x x hx hx) with ⟨y, hy, _⟩
  have hyl := WalkStep_live hH hx hy
  obtain ⟨ty, hty, _⟩ := hH.links y hyl
  exact ⟨y, ty, hy, hyl, hty⟩

/-- C28 (amended): when `selectNextTask` returns. Let `s` be a hierarchy built
from the root by `createTask` and `pushTask`, at any tick and with any task in
use as current task. (1) The walk never exhausts the hierarchy: whenever
`selectNextTask` returns, it has made current a task in use that is due or is a
frame-break task. (2) If some task in use is due or is a frame-break task,
`selectNextTask` terminates: from some budget on it returns, with such a task as
current task. (3) If no task in use is due and none is a frame-break task,
`selectNextTask` does not return: it uses up every budget. -/
theorem selectNextTask_returns_iff_accepted (s : Sched) (hb : Built s) :
    (∀ fuel s', selectNextTask fuel s = .ok s' →
      ∃ r t, isLive s r = true ∧ s.task? r = some t ∧
        (t.nextTick ≤ s.s_curTick ∨ t.framebreak = true) ∧
        s' = { s with s_currentId := 0, s_curTask := some r }) ∧
    ((∃ r t, isLive s r = true ∧ s.task? r = some t ∧
        (t.nextTick ≤ s.s_curTick ∨ t.framebreak = true)) →
      ∃ r t fuel0, isLive s r = true ∧ s.task? r = some t ∧
        (t.nextTick ≤ s.s_curTick ∨ t.framebreak = true) ∧
        ∀ fuel, fuel0 ≤ fuel →
          selectNextTask fuel s = .ok { s with s_currentId := 0, s_curTask := some r }) ∧
    ((∀ r t, isLive s r = true → s.task? r = some t →
        ¬ t.nextTick ≤ s.s_curTick ∧ t.framebreak = false) →
      ∀ fuel, selectNextTask fuel s = .error .outOfFuel) := by
  have hH := Built_hier hb
  obtain ⟨c, hcur, hclive⟩ := hH.cur
  have hturn := Hier_turn hH
  refine ⟨?_, ?_, ?_⟩
  · intro fuel s' h
    unfold selectNextTask at h
    rw [hcur] at h
    cases hw : selectNextTask.walk s fuel (some c) [] with
    | error e => rw [hw] at h; cases h
    | ok w =>
      rw [hw] at h
      simp only [] at h
      obtain ⟨r, hsel, hrl⟩ := walk_never_breaks (fun r => isLive s r = true) hturn fuel c [] w
        hclive hw
      obtain ⟨t, ht, hacc⟩ := (walk_spec s fuel (some c) [] w hw).1 r hsel
      rw [hsel] at h
      simp only [Except.ok.injEq] at h
      exact ⟨r, t, hrl, ht, (accepts_true_iff s t).1 hacc, h.symm⟩
  · intro hex
    obtain ⟨a, ta, hal, hta, hacc⟩ := hex
    have hQ : ∀ x y, isLive s x = true → WalkStep s x y →
        isLive s y = true ∧ ∃ ty, s.task? y = some ty := by
      intro x y hx hs
      have hyl := WalkStep_live hH hx hs
      obtain ⟨ty, hty, _⟩ := hH.links y hyl
      exact ⟨hyl, ty, hty⟩
    obtain ⟨r, tr, fuel0, hrl, hr, hracc, hwalk⟩ :=
      walk_reaches_accepted (fun r => isLive s r = true) hQ (hH.conn c a hclive hal) hclive hta
        ((accepts_true_iff s ta).2 hacc)
    refine ⟨r, tr, fuel0, hrl, hr, (accepts_true_iff s tr).1 hracc, ?_⟩
    intro fuel hf
    obtain ⟨passed', hw⟩ := hwalk fuel hf []
    unfold selectNextTask
    rw [hcur, hw]
  · intro hnone fuel
    have hstep : ∀ x, isLive s x = true →
        ∃ y ty, WalkStep s x y ∧ isLive s y = true ∧ s.task? y = some ty ∧
          accepts s ty = false := by
      intro x hx
      obtain ⟨y, ty, h1, h2, h3⟩ := hturn x hx
      exact ⟨y, ty, h1, h2, h3, (accepts_false_iff s ty).2 (hnone y ty h2 h3)⟩
    unfold selectNextTask
    rw [hcur, walk_never_returns (fun r => isLive s r = true) hstep fuel c [] hclive]

/-- C28 (amended) at a sample: `demoPush2` is built from the root by two pushes,
and the task in slot 1 was put to sleep; the task in slot 0 is due. -/
theorem selectNextTask_returns_iff_accepted_witness :
    (∃ r t, isLive demoPush2 r = true ∧ demoPush2.task? r = some t ∧
        (t.nextTick ≤ demoPush2.s_curTick ∨ t.framebreak = true)) ∧
      ∃ r t fuel0, isLive demoPush2 r = true ∧ demoPush2.task? r = some t ∧
        (t.nextTick ≤ demoPush2.s_curTick ∨ t.framebreak = true) ∧
        ∀ fuel, fuel0 ≤ fuel →
          selectNextTask fuel demoPush2
            = .ok { demoPush2 with s_currentId := 0, s_curTask := some r } :=
  have hex : ∃ r t, isLive demoPush2 r = true ∧ demoPush2.task? r = some t ∧
      (t.nextTick ≤ demoPush2.s_curTick ∨ t.framebreak = true) :=
    ⟨TaskRef.slot 0, demoPush2.taskMem.getD 0 Task.zero, by decide, by decide, Or.inl (by decide)⟩
  have h1 : pushTask (some 1) false none (createRootTask (Sched.init 10 64))
      = .ok (TaskRef.slot 0, demoSolo) := by decide
  have h2 : pushTask (some 2) false none demoSolo
      = .ok (TaskRef.slot 1, Run.state (pushTask (some 2) false none demoSolo)) := by decide
  have h3 : (Run.state (pushTask (some 2) false none demoSolo)).store (some (TaskRef.slot 1))
      (fun t => { t with nextTick := 50 }) = .ok demoPush2 := by decide
  ⟨hex, (selectNextTask_returns_iff_accepted demoPush2
    (Built.write (fun t => { t with nextTick := 50 })
      (Built.push (Built.push (Built.fresh 10 64) h1) h2)
      (fun _ => ⟨rfl, rfl, rfl, rfl⟩) h3)).2.1 hex⟩

/-- C28 as stated fails: in `demoIdle`, built by one `pushTask`, the task (slot 0)
sleeps until tick 50, the tick is 10 and neither it nor the root sentinel is due
or a frame-break task. The walk goes from the root to slot 0 and from slot 0, by
`nextMain`, back to the root, and so on: `selectNextTask` uses up every budget
and never returns. -/
theorem selectNextTask_spins_counterexample :
    (demoIdle.s_curTask, demoIdle.s_curTick, isLive demoIdle (TaskRef.slot 0))
        = (some TaskRef.root, 10, true) ∧
      (demoIdle.task? TaskRef.root).map (fun t => (t.nextMain, t.prevSec, t.nextTick, t.framebreak))
        = some (some (TaskRef.slot 0), none, TASK_SLEEP, false) ∧
      (demoIdle.task? (TaskRef.slot 0)).map
          (fun t => (t.nextMain, t.prevSec, t.nextTick, t.framebreak))
        = some (some TaskRef.root, none, 50, false) ∧
      (selectNextTask 1000 demoIdle = .error .outOfFuel) ∧
      ∀ fuel, selectNextTask fuel demoIdle = .error .outOfFuel := by
  have hroot : demoIdle.task? TaskRef.root = some demoIdle.s_rootTask := rfl
  have hslot : demoIdle.task? (TaskRef.slot 0) = some (demoIdle.taskMem.getD 0 Task.zero) := by
    decide
  have h1 : WalkStep demoIdle TaskRef.root (TaskRef.slot 0) :=
    ⟨_, hroot, Or.inl ⟨TaskRef.slot 0, 0, by decide, rfl, _, hslot, by decide⟩⟩
  have h2 : WalkStep demoIdle (TaskRef.slot 0) TaskRef.root :=
    ⟨_, hslot, Or.inl ⟨TaskRef.root, 0, by decide, rfl, _, hroot, by decide⟩⟩
  have hstep : ∀ x, (x = TaskRef.root ∨ x = TaskRef.slot 0) →
      ∃ y ty, WalkStep demoIdle x y ∧ (y = TaskRef.root ∨ y = TaskRef.slot 0) ∧
        demoIdle.task? y = some ty ∧ accepts demoIdle ty = false := by
    intro x hx
    rcases hx with rfl | rfl
    · exact ⟨_, _, h1, Or.inr rfl, hslot, by decide⟩
    · exact ⟨_, _, h2, Or.inl rfl, hroot, by decide⟩
  have hall : ∀ fuel, selectNextTask fuel demoIdle = .error .outOfFuel := by
    intro fuel
    unfold selectNextTask
    have hcur : demoIdle.s_curTask = some TaskRef.root := by decide
    rw [hcur, walk_never_returns (fun x => x = TaskRef.root ∨ x = TaskRef.slot 0) hstep fuel
      TaskRef.root [] (Or.inl rfl)]
  exact ⟨by decide, by decide, by decide, hall 1000, hall⟩

/-! ## Reachability after `task_free` -/

theorem walkClosed_mem {s : Sched} {R : List TaskRef} (h : walkClosed s R = true) {r : TaskRef}
    (hr : r ∈ R) :
    ∃ t, s.task? r = some t ∧ (∀ x, t.nextMain = some x → x ∈ R) ∧
      (∀ x, t.prevSec = some x → x ∈ R) ∧ (∀ x, t.nextSec = some x → x ∈ R) := by
  unfold walkClosed at h
  rw [List.all_eq_true] at h
  have h1 := h r hr
  rw [Bool.and_eq_true] at h1
  obtain ⟨hb, hl⟩ := h1
  cases ht : s.task? r with
  | none => rw [ht] at hb; cases hb
  | some t =>
    unfold walkLinks at hl
    rw [ht] at hl
    simp only [List.all_eq_true, List.mem_append, Option.mem_toList, Option.mem_def,
      decide_eq_true_eq] at hl
    exact ⟨t, rfl, fun x hx => hl x (Or.inl (Or.inl hx)), fun x hx => hl x (Or.inl (Or.inr hx)),
      fun x hx => hl x (Or.inr hx)⟩

/-- The inner loop of the walk stays within a closed set. -/
theorem descend_in_closed {s : Sched} {R : List TaskRef} (h : walkClosed s R = true) :
    ∀ (fuel : Nat) (r c : TaskRef), r ∈ R → selectNextTask.descend s fuel r = .ok c → c ∈ R := by
  intro fuel
  induction fuel with
  | zero => intro r c _ hd; simp [selectNextTask.descend] at hd
  | succ n ih =>
    intro r c hr hd
    obtain ⟨t, ht, _, hp, _⟩ := walkClosed_mem h hr
    unfold selectNextTask.descend at hd
    rw [(load_some_iff _ _ _).2 ht] at hd
    simp only [] at hd
    cases hps : t.prevSec with
    | none =>
      rw [hps] at hd
      simp only [Except.ok.injEq] at hd
      rw [← hd]; exact hr
    | some x =>
      rw [hps] at hd
      exact ih x c (hp x hps) hd

/-- The walk of `selectNextTask`, started inside a set closed under the walk
links, selects no task outside the set. -/
theorem walk_in_closed {s : Sched} {R : List TaskRef} (h : walkClosed s R = true) :
    ∀ (fuel : Nat) (r : TaskRef) (passed : List TaskRef) (w : Walk), r ∈ R →
      selectNextTask.walk s fuel (some r) passed = .ok w → ∀ x, w.selected = some x → x ∈ R := by
  intro fuel
  induction fuel with
  | zero => intro r passed w _ hw; simp [selectNextTask.walk] at hw
  | succ n ih =>
    intro r passed w hr hw x hx
    obtain ⟨t, ht, hm, _, hs⟩ := walkClosed_mem h hr
    unfold selectNextTask.walk at hw
    rw [(load_some_iff _ _ _).2 ht] at hw
    simp only [] at hw
    cases hnm : t.nextMain with
    | some m =>
      rw [hnm] at hw
      simp only [] at hw
      cases hd : selectNextTask.descend s (n + 1) m with
      | error e => rw [hd] at hw; cases hw
      | ok c =>
        rw [hd] at hw
        simp only [] at hw
        have hc := descend_in_closed h _ _ _ (hm m hnm) hd
        cases hl : s.load (some c) with
        | error e => rw [hl] at hw; cases hw
        | ok cand =>
          rw [hl] at hw
          simp only [] at hw
          by_cases ha : accepts s cand = true
          · rw [if_pos ha] at hw
            cases hw
            cases hx
            exact hc
          · rw [if_neg ha] at hw
            exact ih c _ w hc hw x hx
    | none =>
      rw [hnm] at hw
      simp only [] at hw
      cases hns : t.nextSec with
      | none =>
        rw [hns] at hw
        cases hw
        cases hx
      | some m =>
        rw [hns] at hw
        simp only [] at hw
        cases hl : s.load (some m) with
        | error e => rw [hl] at hw; cases hw
        | ok cand =>
          rw [hl] at hw
          simp only [] at hw
          by_cases ha : accepts s cand = true
          · rw [if_pos ha] at hw
            cases hw
            simp only [Option.some.injEq] at hx
            rw [← hx]
            exact hs m hns
          · rw [if_neg ha] at hw
            exact ih m _ w (hs m hns) hw x hx

theorem walkClosed_tick (s : Sched) (R : List TaskRef) (tick : Nat) :
    walkClosed { s with s_curTick := tick } R = walkClosed s R := rfl

/-- C29 fails on the code (the newest child is freed while an older sibling is
live). In `demoFamily` the task in slot 1 has the children slot 3 (newest) and
slot 2; all are in use and the walk from the root selects, in order, slot 3,
slot 2, slot 1 and slot 0. After `task_free` of slot 3 the task in slot 2 is
still in use, but `prevSec` of its parent is null (the patch loop copied the
freed task's own `prevSec`), the tasks root, slot 1 and slot 0 are closed under
the links the walk follows, and so at no tick and with no budget does the walk
from the root select slot 2: the walk selects slot 1 and slot 0 in turn. -/
theorem task_free_orphans_older_sibling :
    (isLive demoFamily (TaskRef.slot 2), isLive demoFamily (TaskRef.slot 3)) = (true, true) ∧
    (selectionOrder 8 4 { demoFamily with s_curTask := some TaskRef.root }).map (fun r => r.1)
      = .ok [some (TaskRef.slot 3), some (TaskRef.slot 2), some (TaskRef.slot 1),
          some (TaskRef.slot 0)] ∧
    task_free 8 (some (TaskRef.slot 3)) demoFamily = .ok demoOrphaned ∧
    (isLive demoOrphaned (TaskRef.slot 2), isLive demoOrphaned (TaskRef.slot 3)) = (true, false) ∧
    (demoOrphaned.task? (TaskRef.slot 1)).map (fun t => (t.prevSec, t.nextMain))
      = some (none, some (TaskRef.slot 0)) ∧
    walkClosed demoOrphaned [TaskRef.root, TaskRef.slot 1, TaskRef.slot 0] = true ∧
    (selectionOrder 8 4 { demoOrphaned with s_curTask := some TaskRef.root }).map (fun r => r.1)
      = .ok [some (TaskRef.slot 1), some (TaskRef.slot 0), some (TaskRef.slot 1),
          some (TaskRef.slot 0)] ∧
    (∀ (tick fuel : Nat) (w : Walk),
      selectNextTask.walk { demoOrphaned with s_curTick := tick } fuel (some TaskRef.root) []
        = .ok w → w.selected ≠ some (TaskRef.slot 2)) := by
  refine ⟨by decide, by decide, by decide, by decide, by decide, by decide, by decide, ?_⟩
  intro tick fuel w hw hsel
  have hcl : walkClosed { demoOrphaned with s_curTick := tick }
      [TaskRef.root, TaskRef.slot 1, TaskRef.slot 0] = true := by
    rw [walkClosed_tick]; decide
  have := walk_in_closed hcl fuel TaskRef.root [] w (by decide) hw _ hsel
  revert this
  decide

/-! ## Entry of a called function -/

/-- C30: a freshly called function starts at its top. Let the current context be
at level `L` with `0 <= L <= TASK_MAX_LEVELS - 2`, whatever its `ip[L+1]` holds.
Then `ctxCall(func, id, ip)` invokes `func` in the state in which the context has
`ip` in `ip[L]`, `func` in `callstack[L+1]` and 0 in `ip[L+1]`, the level still
being `L` (what follows the invocation is the delayed-return detection); and in
that state the callee's `ctxBegin` returns with level `L + 1`, after which
`ctxGetIP()` returns 0. -/
theorem ctxCall_callee_starts_at_top (prog : Prog) (func : TaskFunc) (id ip : Int) (s : Sched)
    (c : TaskRef) (t : Task) (L : Nat)
    (hc : s.s_curContext = some c) (ht : s.task? c = some t)
    (hl : t.context.level = (L : Int)) (hL : L + 2 ≤ TASK_MAX_LEVELS) :
    ctxCall prog func id ip s =
      (callFunc prog func id (s.put c (callEntryRecord func ip t L)) >>= fun s4 =>
        s4.load (some c) >>= fun after =>
          if startCallLevel t L ≠ after.context.callLevel then
            s4.storeCtx (some c) (fun x => { x with delayedCall := x.delayedCall.set L 1 })
              >>= fun s5 => .ok (true, s5)
          else .ok (false, s4)) ∧
    (s.put c (callEntryRecord func ip t L)).s_curContext = some c ∧
    (s.put c (callEntryRecord func ip t L)).task? c = some (callEntryRecord func ip t L) ∧
    (callEntryRecord func ip t L).context.level = (L : Int) ∧
    (callEntryRecord func ip t L).context.ip.get L = ip ∧
    (callEntryRecord func ip t L).context.callstack.get (L + 1) = func ∧
    (callEntryRecord func ip t L).context.ip.get (L + 1) = 0 ∧
    ∃ s1 t1, ctxBegin (s.put c (callEntryRecord func ip t L)) = .ok s1 ∧
      s1.s_curContext = some c ∧ s1.task? c = some t1 ∧
      t1.context.level = (L : Int) + 1 ∧ ctxGetIP s1 = .ok 0 := by
  have hL16 : L + 1 < 16 := by unfold TASK_MAX_LEVELS at hL; omega
  have hLlt : L < 16 := by omega
  have hne : L + 1 ≠ L := by omega
  refine ⟨ctxCall_eq prog func id ip hc ht hl hL16, ?_, task?_put_same _ ht, ?_, ?_, ?_, ?_, ?_⟩
  · rw [put_s_curContext, hc]
  · simp [callEntryRecord, hl]
  · simp only [callEntryRecord]
    rw [LevelArray.get_set_other _ _ _ _ hne, LevelArray.get_set_same _ _ _ hLlt]
  · simp only [callEntryRecord]
    exact LevelArray.get_set_same _ _ _ hL16
  · simp only [callEntryRecord]
    exact LevelArray.get_set_same _ _ _ hL16
  · have hb := ctxBegin_put (callEntryRecord func ip t L) hc ht
    have hrec : (s.put c { callEntryRecord func ip t L with
        context := { (callEntryRecord func ip t L).context with
          level := (callEntryRecord func ip t L).context.level + 1 } }).task? c
        = some { callEntryRecord func ip t L with
        context := { (callEntryRecord func ip t L).context with
          level := (callEntryRecord func ip t L).context.level + 1 } } := task?_put_same _ ht
    have hcc : (s.put c { callEntryRecord func ip t L with
        context := { (callEntryRecord func ip t L).context with
          level := (callEntryRecord func ip t L).context.level + 1 } }).s_curContext = some c := by
      rw [put_s_curContext, hc]
    refine ⟨_, _, hb, hcc, hrec, ?_, ?_⟩
    · simp [callEntryRecord, hl]
    · unfold ctxGetIP
      rw [ctx_eq hcc hrec, ok_bind]
      have hlv : (callEntryRecord func ip t L).context.level + 1 = ((L + 1 : Nat) : Int) := by
        simp [callEntryRecord, hl]
      simp only [hlv]
      rw [check_bind _ (by omega)]
      simp only [Int.toNat_ofNat, callEntryRecord]
      rw [LevelArray.get_set_same _ _ _ hL16]

/-- C30 at a sample: the running task of `demoRunning` (level 0) calls function 2
with resumption token 5. -/
theorem ctxCall_callee_starts_at_top_witness :
    demoRunning.s_curContext = some (TaskRef.slot 1) ∧
      ∃ s1 t1, ctxBegin (demoRunning.put (TaskRef.slot 1)
          (callEntryRecord (some 2) 5 (demoRunning.taskMem.getD 1 Task.zero) 0)) = .ok s1 ∧
        s1.s_curContext = some (TaskRef.slot 1) ∧ s1.task? (TaskRef.slot 1) = some t1 ∧
        t1.context.level = ((0 : Nat) : Int) + 1 ∧ ctxGetIP s1 = .ok 0 :=
  ⟨by decide,
    (ctxCall_callee_starts_at_top demoProg (some 2) 0 5 demoRunning (TaskRef.slot 1)
      (demoRunning.taskMem.getD 1 Task.zero) 0 (by decide) (by decide) (by decide)
      (by decide)).2.2.2.2.2.2.2⟩

end TFE_Jedi
